import Mathlib

/-!
Matrix storage of `cf3::lss` (`matrix.hpp`)

A shallow embedding of the matrix storage layer: the coordinate entry set of
`sparse_matrix` (a `std::set` ordered by `sort_by_row_t` or `sort_by_column_t`),
its compression to the three arrays `ia`/`ja`/`a` and back, the symmetry
augmentation run after reading a file, and the two dense layouts
`dense_matrix_v` (flat) and `dense_matrix_vv` (nested).

Conventions of the embedding.
* `size_t` values are `Nat`, `int` values are `Int`; conversions between the two
  are written out (`Int.ofNat`, `Int.toNat`).  Sizes are not reduced modulo the
  word size: a vector whose length does not fit a word cannot be allocated.
* A `std::set< coord_t<T>, SORT >` is the list of its elements in iteration
  order; `set_insert` is `std::set::insert` and reports, like the `.second` of
  the C++ result, whether the element was added.
* A `std::vector` is a `List`.  Reading or writing outside a vector is undefined
  in C++: the vector operations return an `Option`, `none` standing for such an
  access.  A member function that can throw returns an `outcome`, which keeps
  the state the object is left in by a `throw`.
* The storage type `T` is a parameter.  `T()` is `0`, `static_cast<T>` from
  `double` is a parameter `conv` (the identity when `T` is `double`).
-/

namespace lss

/-! ## `index.hpp` (not among the sources) -/

/-- Modelled from the spec: the header `index.hpp` declaring `idx_t` is missing.
An extent or coordinate is a pair of sizes `(i, j)` (spec, data model:
"Extent - (rows: size, cols: size)", "Coordinate - (row, col)"). -/
structure idx_t where
  i : Nat
  j : Nat
deriving DecidableEq, Repr

/-- Modelled from the spec: `idx_t::is_valid_size` of the missing `index.hpp`;
"valid iff both dimensions are strictly positive". -/
def idx_t.is_valid_size (s : idx_t) : Bool :=
  decide (0 < s.i) && decide (0 < s.j)

/-- Modelled from the spec: `idx_t::clear` of the missing `index.hpp`;
"clear (reset to zero extent)". -/
def idx_t.clear (_s : idx_t) : idx_t := ⟨0, 0⟩

/-! ## Outcomes -/

/-- Element `k` of a vector indexed by an `int`, as in `_ja[k]`; `none` when `k`
is outside the vector. -/
def vec_at {α : Type} (xs : List α) (k : Int) : Option α :=
  if k < 0 then none else xs[k.toNat]?

/-- Element `k` of a vector indexed by a `size_t`; `none` when `k` is outside the
vector. -/
def vec_get {α : Type} (xs : List α) (k : Nat) : Option α :=
  xs[k]?

/-- The assignment `xs[k] = x`; `none` when `k` is outside the vector. -/
def vec_put {α : Type} (xs : List α) (k : Nat) (x : α) : Option (List α) :=
  if k < xs.length then some (xs.set k x) else none

/-- The nested read `a[p][q]`. -/
def vec2_get {α : Type} (a : List (List α)) (p q : Nat) : Option α := do
  let r ← vec_get a p
  vec_get r q

/-- The nested assignment `a[p][q] = x`. -/
def vec2_put {α : Type} (a : List (List α)) (p q : Nat) (x : α) : Option (List (List α)) := do
  let r ← vec_get a p
  let r1 ← vec_put r q x
  vec_put a p r1

/-- How a call of a member function that can throw ends: it returns and leaves
the object in state `s`; it fails with an exception of message `what` (a
`std::runtime_error`, or the `std::length_error` of `std::vector::reserve`) and
leaves the object in state `s`; or it accesses a vector outside its bounds. -/
inductive outcome (σ : Type) where
  | returns (s : σ)
  | throws (what : String) (s : σ)
  | undefined
deriving DecidableEq, Repr

/-- The outcome of a function body that does not throw. -/
def outcome.of_option {σ : Type} : Option σ → outcome σ
  | some s => .returns s
  | none => .undefined

/-! ## Matrix helper definitions -/

/-- Matrix print level. -/
inductive print_t where
  | print_auto | print_size | print_signs | print_full | print_file
deriving DecidableEq, Repr

/-- Dense matrix orientations. -/
inductive orientation_t where
  | sort_by_column | sort_by_row
deriving DecidableEq, Repr

/-- Sparse/coordinate matrix entry: `std::pair< idx_t, T >`. -/
structure coord_t (T : Type) where
  first : idx_t
  second : T
deriving DecidableEq, Repr

/-! ## `std::set` with a comparator -/

/-- Embedding of `std::set::insert`: the element is placed before the first element it
precedes; when an equivalent element (neither precedes the other) is met the
set is left as it is.  The flag is the `.second` of the C++ result. -/
def set_insert {α : Type} (lt : α → α → Bool) (p : α) : List α → List α × Bool
  | [] => ([p], true)
  | e :: es =>
    if lt p e then (p :: e :: es, true)
    else if lt e p then ((set_insert lt p es).1.cons e, (set_insert lt p es).2)
    else (e :: es, false)

/-- Embedding of `std::set::find(p) != end()`, returning the element found. -/
def set_find {α : Type} (lt : α → α → Bool) (p : α) (es : List α) : Option α :=
  es.find? (fun e => !lt e p && !lt p e)

/-! ## `sort_by_row_t` -/

/-- Embedding of `sort_by_row_t::operator()`. -/
def sort_by_row_t.lt {T : Type} (a b : coord_t T) : Bool :=
  if a.first.i < b.first.i then true
  else if a.first.i > b.first.i then false
  else decide (a.first.j < b.first.j)

/-- The arrays filled by `compress`, with the two counters. -/
structure compressed_t (T : Type) where
  ia : List Int
  ja : List Int
  a : List T
  nnu : Int
  nnz : Int
deriving DecidableEq, Repr

/-- Inner loop of `sort_by_row_t::compress`:
`for (count=0; r==(it->first.i) && it!=_entries.end(); ++it, ++count)`.
The state is the iterator (the entries not yet visited), `_ja`, `_a`, `count`.
At the end of the set the second test of the condition is false, so the loop
stops there whatever the first test reads through the end iterator. -/
def sort_by_row_t.compress_inner {T : Type} (r : Nat) :
    List (coord_t T) → List Int → List T → Nat → List (coord_t T) × List Int × List T × Nat
  | [], ja, a, count => ([], ja, a, count)
  | e :: it, ja, a, count =>
    if r = e.first.i then
      sort_by_row_t.compress_inner r it (ja ++ [Int.ofNat e.first.j]) (a ++ [e.second]) (count + 1)
    else (e :: it, ja, a, count)

/-- Outer loop of `sort_by_row_t::compress`, `for (r = first; r <= last; ++r)`,
with `n` the number of iterations left (`last + 1 - r`). -/
def sort_by_row_t.compress_outer {T : Type} :
    Nat → Nat → List (coord_t T) → List Int → List Int → List T → List Int × List Int × List T
  | 0, _, _, ia, ja, a => (ia, ja, a)
  | n + 1, r, it, ia, ja, a =>
    let s := sort_by_row_t.compress_inner r it ja a 0
    sort_by_row_t.compress_outer n (r + 1) s.1
      (ia ++ [ia.getLastD 0 + Int.ofNat s.2.2.2]) s.2.1 s.2.2.1

/-- Embedding of `sort_by_row_t::compress`.  On an empty set the C++ dereferences
`_entries.begin()`, which is `end()`. -/
def sort_by_row_t.compress {T : Type} (entries : List (coord_t T)) :
    Option (compressed_t T) :=
  match entries, entries.getLast? with
  | e :: _, some l =>
    let s := sort_by_row_t.compress_outer (l.first.i + 1 - e.first.i) e.first.i entries
      [Int.ofNat e.first.i] [] []
    some ⟨s.1, s.2.1, s.2.2, Int.ofNat s.1.length - 1, Int.ofNat entries.length⟩
  | _, _ => none

/-- Inner loop of `sort_by_row_t::uncompress`, `for (k = lo; k < hi; ++k)`
inserting `coord_t(idx_t(row,_ja[k]),_a[k])`; `n` is the number of iterations
left (`hi - k`). -/
def sort_by_row_t.uncompress_inner {T : Type} (ja : List Int) (a : List T) (row : Int) :
    Nat → Int → List (coord_t T) → Option (List (coord_t T))
  | 0, _, es => some es
  | n + 1, k, es => do
    let c ← vec_at ja k
    let v ← vec_at a k
    sort_by_row_t.uncompress_inner ja a row n (k + 1)
      (set_insert sort_by_row_t.lt ⟨⟨row.toNat, c.toNat⟩, v⟩ es).1

/-- Outer loop of `sort_by_row_t::uncompress`, `for (i = 0; i < _ia.size()-1; ++i)`,
with `n` the number of iterations left. -/
def sort_by_row_t.uncompress_outer {T : Type} (ia ja : List Int) (a : List T) (base : Int) :
    Nat → Nat → List (coord_t T) → Option (List (coord_t T))
  | 0, _, es => some es
  | n + 1, i, es => do
    let lo ← vec_get ia i
    let hi ← vec_get ia (i + 1)
    let es1 ← sort_by_row_t.uncompress_inner ja a (Int.ofNat i + base)
      ((hi - base) - (lo - base)).toNat (lo - base) es
    sort_by_row_t.uncompress_outer ia ja a base n (i + 1) es1

/-- Embedding of `sort_by_row_t::uncompress`: the entry set rebuilt from the arrays.  With an
empty `_ia` the C++ reads `_ia.front()` of an empty vector. -/
def sort_by_row_t.uncompress {T : Type} (ia ja : List Int) (a : List T) :
    Option (List (coord_t T)) :=
  match ia with
  | [] => none
  | base :: _ => sort_by_row_t.uncompress_outer ia ja a base (ia.length - 1) 0 []


/-! ## `sort_by_column_t` -/

/-- Embedding of `sort_by_column_t::operator()`. -/
def sort_by_column_t.lt {T : Type} (a b : coord_t T) : Bool :=
  if a.first.j < b.first.j then true
  else if a.first.j > b.first.j then false
  else decide (a.first.i < b.first.i)

/-- Inner loop of `sort_by_column_t::compress`:
`for (count=0; c==(it->first.j) && it!=_entries.end(); ++it, ++count)`. -/
def sort_by_column_t.compress_inner {T : Type} (c : Nat) :
    List (coord_t T) → List Int → List T → Nat → List (coord_t T) × List Int × List T × Nat
  | [], ia, a, count => ([], ia, a, count)
  | e :: it, ia, a, count =>
    if c = e.first.j then
      sort_by_column_t.compress_inner c it (ia ++ [Int.ofNat e.first.i]) (a ++ [e.second])
        (count + 1)
    else (e :: it, ia, a, count)

/-- Outer loop of `sort_by_column_t::compress`, `for (c = first; c <= last; ++c)`,
with `n` the number of iterations left. -/
def sort_by_column_t.compress_outer {T : Type} :
    Nat → Nat → List (coord_t T) → List Int → List Int → List T → List Int × List Int × List T
  | 0, _, _, ia, ja, a => (ia, ja, a)
  | n + 1, c, it, ia, ja, a =>
    let s := sort_by_column_t.compress_inner c it ia a 0
    sort_by_column_t.compress_outer n (c + 1) s.1 s.2.1
      (ja ++ [ja.getLastD 0 + Int.ofNat s.2.2.2]) s.2.2.1

/-- Embedding of `sort_by_column_t::compress`: here `_ja` holds the offsets and `_ia` the row
indices. -/
def sort_by_column_t.compress {T : Type} (entries : List (coord_t T)) :
    Option (compressed_t T) :=
  match entries, entries.getLast? with
  | e :: _, some l =>
    let s := sort_by_column_t.compress_outer (l.first.j + 1 - e.first.j) e.first.j entries
      [] [Int.ofNat e.first.j] []
    some ⟨s.1, s.2.1, s.2.2, Int.ofNat s.2.1.length - 1, Int.ofNat entries.length⟩
  | _, _ => none

/-- Inner loop of `sort_by_column_t::uncompress`, `for (i = lo; i < hi; ++i)`
inserting `coord_t(idx_t(_ia[i]+base,col),_a[i])`. -/
def sort_by_column_t.uncompress_inner {T : Type} (ia : List Int) (a : List T) (base col : Int) :
    Nat → Int → List (coord_t T) → Option (List (coord_t T))
  | 0, _, es => some es
  | n + 1, i, es => do
    let r ← vec_at ia i
    let v ← vec_at a i
    sort_by_column_t.uncompress_inner ia a base col n (i + 1)
      (set_insert sort_by_column_t.lt ⟨⟨(r + base).toNat, col.toNat⟩, v⟩ es).1

/-- Outer loop of `sort_by_column_t::uncompress`,
`for (j = 0; j < _ja.size()-1; ++j)`. -/
def sort_by_column_t.uncompress_outer {T : Type} (ia ja : List Int) (a : List T) (base : Int) :
    Nat → Nat → List (coord_t T) → Option (List (coord_t T))
  | 0, _, es => some es
  | n + 1, j, es => do
    let lo ← vec_get ja j
    let hi ← vec_get ja (j + 1)
    let es1 ← sort_by_column_t.uncompress_inner ia a base (Int.ofNat j + base)
      ((hi - base) - (lo - base)).toNat (lo - base) es
    sort_by_column_t.uncompress_outer ia ja a base n (j + 1) es1

/-- Embedding of `sort_by_column_t::uncompress`. -/
def sort_by_column_t.uncompress {T : Type} (ia ja : List Int) (a : List T) :
    Option (List (coord_t T)) :=
  match ja with
  | [] => none
  | base :: _ => sort_by_column_t.uncompress_outer ia ja a base (ja.length - 1) 0 []

/-! ## `sparse_matrix` -/

/-- The template parameter `SORT` of `sparse_matrix`: the comparator of the entry
set with its static `compress` and `uncompress`. -/
structure SORT (T : Type) where
  lt : coord_t T → coord_t T → Bool
  compress : List (coord_t T) → Option (compressed_t T)
  uncompress : List Int → List Int → List T → Option (List (coord_t T))

/-- The instance `SORT = sort_by_row_t< T, coord_t<T> >` (the default). -/
def sort_by_row_t.SORT (T : Type) : SORT T :=
  ⟨sort_by_row_t.lt, sort_by_row_t.compress, sort_by_row_t.uncompress⟩

/-- The instance `SORT = sort_by_column_t< T, coord_t<T> >`. -/
def sort_by_column_t.SORT (T : Type) : SORT T :=
  ⟨sort_by_column_t.lt, sort_by_column_t.compress, sort_by_column_t.uncompress⟩

/-- The members of `sparse_matrix` (with those of its base `matrix`). -/
structure sparse_matrix (T : Type) where
  m_zero : T
  m_size : idx_t
  m_print : print_t
  entries : List (coord_t T)
  a : List T
  ia : List Int
  ja : List Int
  nnu : Int
  nnz : Int
deriving DecidableEq, Repr

/-- Embedding of `sparse_matrix::is_compressed`. -/
def sparse_matrix.is_compressed {T : Type} (m : sparse_matrix T) : Bool :=
  decide (m.nnu ≠ 0)

/-- Embedding of `sparse_matrix::compress`. -/
def sparse_matrix.compress {T : Type} (S : SORT T) (m : sparse_matrix T) :
    Option (sparse_matrix T) :=
  if !m.is_compressed then do
    let c ← S.compress m.entries
    pure { m with ia := c.ia, ja := c.ja, a := c.a, nnu := c.nnu, nnz := c.nnz, entries := [] }
  else pure m

/-- Embedding of `sparse_matrix::uncompress`. -/
def sparse_matrix.uncompress {T : Type} (S : SORT T) (m : sparse_matrix T) :
    Option (sparse_matrix T) :=
  if m.is_compressed then do
    let es ← S.uncompress m.ia m.ja m.a
    pure { m with entries := es, ia := [], ja := [], a := [], nnu := 0, nnz := 0 }
  else pure m

/-! ### Symmetry augmentation in `sparse_matrix::initialize(const std::string&)` -/

/-- The loop `for (i=0; i<size.i; ++i) entries.insert(coord_t<T>(idx_t(i+BASE,i+BASE),T()))`,
with `n` the number of iterations left. -/
def sparse_matrix.insert_diagonal {T : Type} [Zero T] (lt : coord_t T → coord_t T → Bool)
    (BASE : Nat) : Nat → Nat → List (coord_t T) → List (coord_t T)
  | 0, _, es => es
  | n + 1, i, es =>
    sparse_matrix.insert_diagonal lt BASE n (i + 1)
      (set_insert lt ⟨⟨i + BASE, i + BASE⟩, 0⟩ es).1

/-- One pass of the inner loop
`for (c=entries.rbegin(); !modif && c!=entries.rend(); ++c)`: `cs` is what the
reverse iterator has still to visit; the result is the set and `modif`. -/
def sparse_matrix.mirror_scan {T : Type} [Zero T] (lt : coord_t T → coord_t T → Bool) :
    List (coord_t T) → List (coord_t T) → List (coord_t T) × Bool
  | es, [] => (es, false)
  | es, c :: cs =>
    if (set_insert lt ⟨⟨c.first.j, c.first.i⟩, 0⟩ es).2 then
      ((set_insert lt ⟨⟨c.first.j, c.first.i⟩, 0⟩ es).1, true)
    else sparse_matrix.mirror_scan lt (set_insert lt ⟨⟨c.first.j, c.first.i⟩, 0⟩ es).1 cs

/-- The loop `for (bool modif=true; modif;)`, with a bound on the number of
passes; `none` when the bound is reached before a pass without insertion. -/
def sparse_matrix.mirror_loop {T : Type} [Zero T] (lt : coord_t T → coord_t T → Bool) :
    Nat → List (coord_t T) → Option (List (coord_t T))
  | 0, _ => none
  | fuel + 1, es =>
    if (sparse_matrix.mirror_scan lt es es.reverse).2 then
      sparse_matrix.mirror_loop lt fuel (sparse_matrix.mirror_scan lt es es.reverse).1
    else some (sparse_matrix.mirror_scan lt es es.reverse).1

/-- Number of entries whose mirrored coordinate is not in the set. -/
def sparse_matrix.missing_mirrors {T : Type} (es : List (coord_t T)) : Nat :=
  es.countP (fun c => decide (∀ e ∈ es, e.first ≠ ⟨c.first.j, c.first.i⟩))

/-- The "preserving symmetry" step of `sparse_matrix::initialize(const std::string&)`,
applied to the entries read from the file for a matrix of `rows` rows.  The
pass bound given to `mirror_loop` is one more than the number of missing
mirrors after the diagonal has been inserted. -/
def sparse_matrix.preserve_symmetry {T : Type} [Zero T] (lt : coord_t T → coord_t T → Bool)
    (BASE rows : Nat) (entries : List (coord_t T)) : Option (List (coord_t T)) :=
  sparse_matrix.mirror_loop lt
    (sparse_matrix.missing_mirrors (sparse_matrix.insert_diagonal lt BASE rows 0 entries) + 1)
    (sparse_matrix.insert_diagonal lt BASE rows 0 entries)

/-- What the comparators of the entry set have in common: the order looks at the
coordinate only and is a strict total order on coordinates. -/
structure coord_order {T : Type} (lt : coord_t T → coord_t T → Bool) : Prop where
  key : ∀ a b a1 b1 : coord_t T, a.first = a1.first → b.first = b1.first → lt a b = lt a1 b1
  irrefl : ∀ a : coord_t T, lt a a = false
  trans : ∀ a b c : coord_t T, lt a b = true → lt b c = true → lt a c = true
  total : ∀ a b : coord_t T, lt a b = false → lt b a = false → a.first = b.first

/-- Iteration order of a `std::set`: strictly increasing for the comparator. -/
def set_sorted {α : Type} (lt : α → α → Bool) (es : List α) : Prop :=
  es.Pairwise (fun x y => lt x y = true)

/-! ## Dense storage -/

/-- The counted loop `for (size_t i = start; i < start + n; ++i) body`, threading
the state; it stops at the first failing iteration. -/
def for_loop {σ : Type} (body : Nat → σ → Option σ) :
    Nat → Nat → σ → Option σ
  | 0, _, s => some s
  | n + 1, i, s => do
    let s1 ← body i s
    for_loop body n (i + 1) s1

/-- The members of `dense_matrix_v`: those of its base `matrix` and the flat
vector `a`. -/
structure dense_matrix_v (T : Type) where
  m_zero : T
  m_size : idx_t
  m_print : print_t
  a : List T
deriving DecidableEq, Repr

/-- Embedding of `matrix::size(d)`. -/
def dense_matrix_v.size {T : Type} (m : dense_matrix_v T) (_d : Nat) : Nat :=
  if _d = 0 then m.m_size.i else if _d = 1 then m.m_size.j else 0

/-- Embedding of `dense_matrix_v::clear`. -/
def dense_matrix_v.clear {T : Type} (m : dense_matrix_v T) : dense_matrix_v T :=
  { m with a := [], m_size := m.m_size.clear }

/-- Position in `a` used by `dense_matrix_v::operator()`:
`ORIENT? i*m_size.j+j : j*m_size.i+i`. -/
def dense_matrix_v.index {T : Type} (ORIENT : orientation_t) (m : dense_matrix_v T)
    (i j : Nat) : Nat :=
  match ORIENT with
  | .sort_by_row => i * m.m_size.j + j
  | .sort_by_column => j * m.m_size.i + i

/-- Embedding of `dense_matrix_v::operator()(i,j) const`: the cell read. -/
def dense_matrix_v.operator_get {T : Type} (ORIENT : orientation_t) (m : dense_matrix_v T)
    (i j : Nat) : Option T :=
  vec_get m.a (m.index ORIENT i j)

/-- The assignment `operator()(i,j) = x` through the non-const `operator()`. -/
def dense_matrix_v.operator_set {T : Type} (ORIENT : orientation_t) (m : dense_matrix_v T)
    (i j : Nat) (x : T) : Option (dense_matrix_v T) := do
  let a1 ← vec_put m.a (m.index ORIENT i j) x
  pure { m with a := a1 }

/-- Embedding of `dense_matrix_v::initialize(const size_t&, const size_t&, const double&)`. -/
def dense_matrix_v.initialize_size {double T : Type} (conv : double → T)
    (m : dense_matrix_v T) (i j : Nat) (_value : double) : dense_matrix_v T :=
  if (idx_t.mk i j).is_valid_size then
    let m1 : dense_matrix_v T := { m.clear with m_size := ⟨i, j⟩ }
    if m1.size 0 * m1.size 1 ≠ 0 then
      { m1 with a := List.replicate (m1.size 0 * m1.size 1) (conv _value) }
    else m1
  else m

/-- The loops of `dense_matrix_v::initialize(const std::vector<double>&)` for the
column orientation: `for (i=0, k=0; i<size(0); ++i) for (j=0; j<size(1); ++j, ++k)
operator()(i,j) = v[k]`.  The state is the matrix and `k`. -/
def dense_matrix_v.assign_loops {T : Type} (ORIENT : orientation_t) (v : List T)
    (m : dense_matrix_v T) : Option (dense_matrix_v T × Nat) :=
  for_loop (fun i s =>
    for_loop (fun j s1 => do
      let x ← vec_get v s1.2
      let m1 ← s1.1.operator_set ORIENT i j x
      pure (m1, s1.2 + 1)) (m.size 1) 0 s) (m.size 0) 0 (m, 0)

/-- Embedding of `dense_matrix_v::initialize(const std::vector<double>&)`. -/
def dense_matrix_v.initialize_vector {double T : Type} (conv : double → T)
    (ORIENT : orientation_t) (m : dense_matrix_v T) (_vector : List double) :
    outcome (dense_matrix_v T) :=
  if m.a.length ≠ _vector.length then
    .throws "dense_matrix_v: assignment not consistent with current size." m
  else
    match ORIENT with
    | .sort_by_row => .returns { m with a := _vector.map conv }
    | .sort_by_column =>
      outcome.of_option
        ((dense_matrix_v.assign_loops .sort_by_column (_vector.map conv) m).map (fun s => s.1))

/-- Embedding of `dense_matrix_v::zerorow`. -/
def dense_matrix_v.zerorow {T : Type} [Zero T] (ORIENT : orientation_t) (m : dense_matrix_v T)
    (i : Nat) : outcome (dense_matrix_v T) :=
  if i ≥ m.size 0 then
    .throws "dense_matrix_v: row index outside bounds." m
  else
    match ORIENT with
    | .sort_by_row =>
      outcome.of_option
        ((for_loop (fun t a => vec_put a (i * m.size 1 + t) 0) (m.size 1) 0 m.a).map
          (fun a1 => { m with a := a1 }))
    | .sort_by_column =>
      outcome.of_option
        ((for_loop (fun _j (s : List T × Nat) => do
          let a1 ← vec_put s.1 s.2 0
          pure (a1, s.2 + m.size 0)) (m.size 1) 0 (m.a, i)).map
          (fun s => { m with a := s.1 }))

/-- The members of `dense_matrix_vv`: those of its base `matrix` and the nested
vector `a`. -/
structure dense_matrix_vv (T : Type) where
  m_zero : T
  m_size : idx_t
  m_print : print_t
  a : List (List T)
deriving DecidableEq, Repr

/-- Embedding of `matrix::size(d)`. -/
def dense_matrix_vv.size {T : Type} (m : dense_matrix_vv T) (_d : Nat) : Nat :=
  if _d = 0 then m.m_size.i else if _d = 1 then m.m_size.j else 0

/-- Embedding of `dense_matrix_vv::clear`. -/
def dense_matrix_vv.clear {T : Type} (m : dense_matrix_vv T) : dense_matrix_vv T :=
  { m with a := [], m_size := m.m_size.clear }

/-- Embedding of `dense_matrix_vv::operator()(i,j) const`: `ORIENT? a[i][j] : a[j][i]`. -/
def dense_matrix_vv.operator_get {T : Type} (ORIENT : orientation_t) (m : dense_matrix_vv T)
    (i j : Nat) : Option T :=
  match ORIENT with
  | .sort_by_row => vec2_get m.a i j
  | .sort_by_column => vec2_get m.a j i

/-- The assignment `operator()(i,j) = x` through the non-const `operator()`. -/
def dense_matrix_vv.operator_set {T : Type} (ORIENT : orientation_t) (m : dense_matrix_vv T)
    (i j : Nat) (x : T) : Option (dense_matrix_vv T) :=
  match ORIENT with
  | .sort_by_row => (vec2_put m.a i j x).map (fun a1 => { m with a := a1 })
  | .sort_by_column => (vec2_put m.a j i x).map (fun a1 => { m with a := a1 })

/-- Embedding of `dense_matrix_vv::initialize(const size_t&, const size_t&, const double&)`. -/
def dense_matrix_vv.initialize_size {double T : Type} (conv : double → T)
    (ORIENT : orientation_t) (m : dense_matrix_vv T) (i j : Nat) (_value : double) :
    dense_matrix_vv T :=
  if (idx_t.mk i j).is_valid_size then
    let m1 : dense_matrix_vv T := { m.clear with m_size := ⟨i, j⟩ }
    if m1.size 0 * m1.size 1 ≠ 0 then
      match ORIENT with
      | .sort_by_row =>
        { m1 with a := List.replicate (m1.size 0) (List.replicate (m1.size 1) (conv _value)) }
      | .sort_by_column =>
        { m1 with a := List.replicate (m1.size 1) (List.replicate (m1.size 0) (conv _value)) }
    else m1
  else m

/-- Embedding of `dense_matrix_vv::initialize(const std::vector<double>&)`. -/
def dense_matrix_vv.initialize_vector {double T : Type} (conv : double → T)
    (ORIENT : orientation_t) (m : dense_matrix_vv T) (_vector : List double) :
    outcome (dense_matrix_vv T) :=
  if m.size 0 * m.size 1 ≠ _vector.length then
    .throws "dense_matrix_vv: assignment not consistent with current size." m
  else
    outcome.of_option
      ((for_loop (fun i s =>
        for_loop (fun j (s1 : dense_matrix_vv T × Nat) => do
          let x ← vec_get _vector s1.2
          let m1 ← s1.1.operator_set ORIENT i j (conv x)
          pure (m1, s1.2 + 1)) (m.size 1) 0 s) (m.size 0) 0 (m, 0)).map (fun s => s.1))

/-- The storage invariant of `dense_matrix_v`: the flat vector has one cell for
each coordinate of the extent. -/
def dense_matrix_v.well_formed {T : Type} (m : dense_matrix_v T) : Prop :=
  m.a.length = m.size 0 * m.size 1

/-- A nested vector of `p` vectors of `q` cells each. -/
def vec2_shaped {α : Type} (a : List (List α)) (p q : Nat) : Prop :=
  a.length = p ∧ ∀ r ∈ a, r.length = q

/-- The storage invariant of `dense_matrix_vv`: `size(0)` rows of `size(1)` cells
when row oriented, `size(1)` columns of `size(0)` cells when column oriented. -/
def dense_matrix_vv.well_formed {T : Type} (ORIENT : orientation_t) (m : dense_matrix_vv T) :
    Prop :=
  match ORIENT with
  | .sort_by_row => vec2_shaped m.a (m.size 0) (m.size 1)
  | .sort_by_column => vec2_shaped m.a (m.size 1) (m.size 0)

/-- Embedding of `dense_matrix_vv::zerorow`. -/
def dense_matrix_vv.zerorow {T : Type} [Zero T] (ORIENT : orientation_t)
    (m : dense_matrix_vv T) (i : Nat) : outcome (dense_matrix_vv T) :=
  if i ≥ m.size 0 then
    .throws "dense_matrix_vv: row index outside bounds." m
  else
    match ORIENT with
    | .sort_by_row =>
      outcome.of_option
        ((vec_put m.a i (List.replicate (m.size 1) 0)).map (fun a1 => { m with a := a1 }))
    | .sort_by_column =>
      outcome.of_option
        ((for_loop (fun j (a : List (List T)) => vec2_put a j i 0) (m.size 1) 0 m.a).map
          (fun a1 => { m with a := a1 }))

/-- The entries `es` are those of `S` together with zero-valued entries at
coordinates that `S` does not have and that lie on the diagonal of the first
`rows` rows (shifted by `BASE`) or mirror an entry of `S`. -/
def sparse_matrix.augmented_from {T : Type} [Zero T] (BASE rows : Nat)
    (S es : List (coord_t T)) : Prop :=
  (∀ s ∈ S, s ∈ es) ∧
  ∀ e ∈ es, e ∈ S ∨ (e.second = 0 ∧ (∀ s ∈ S, s.first ≠ e.first) ∧
    ((∃ k, k < rows ∧ e.first = ⟨k + BASE, k + BASE⟩) ∨
      ∃ s ∈ S, e.first = ⟨s.first.j, s.first.i⟩))

/-! ## Example states -/

/-- A flat 2x3 matrix of integers, every cell 9 (the state left by
`initialize(2,3,9)`). -/
def example_dense_v : dense_matrix_v Int :=
  ⟨0, ⟨2, 3⟩, .print_auto, [9, 9, 9, 9, 9, 9]⟩

/-- A nested 2x3 matrix of integers in column orientation, every cell 9 (the
state left by `initialize(2,3,9)`). -/
def example_dense_vv : dense_matrix_vv Int :=
  ⟨0, ⟨2, 3⟩, .print_auto, [[9, 9], [9, 9], [9, 9]]⟩

/-! ## Further helper definitions -/

/-- Conversion of an `int` to a 64-bit `size_t`, as the usual arithmetic
conversions do when a `size_t` is compared with an `int`: a negative value
becomes a very large one. -/
def size_t_of_int (x : Int) : Nat :=
  if x < 0 then (x + 2 ^ 64).toNat else x.toNat

/-- The value `*std::max_element(v.begin(), v.end())`; `none` on an empty vector,
where the C++ reads through the end iterator. -/
def vec_max_element : List Int → Option Int
  | [] => none
  | x :: xs => some (xs.foldl max x)

/-- The enumerator values of `print_t`. -/
def print_t.toNat : print_t → Nat
  | .print_auto => 0
  | .print_size => 1
  | .print_signs => 2
  | .print_full => 3
  | .print_file => 4

/-- Embedding of `std::min(a,b)` on `print_t`: `(b < a) ? b : a`. -/
def print_t.min (a b : print_t) : print_t :=
  if b.toNat < a.toNat then b else a

/-- Embedding of `std::max(a,b)` on `print_t`: `(a < b) ? b : a`. -/
def print_t.max (a b : print_t) : print_t :=
  if a.toNat < b.toNat then b else a

/-- The local `print_level` computed at the start of `matrix::print` from the
members `m_print` and `m_size`. -/
def matrix.print_level (m_print : print_t) (m_size : idx_t) : print_t :=
  if m_print.toNat ≠ 0 then print_t.max .print_auto (print_t.min m_print .print_file)
  else if m_size.i > 100 ∨ m_size.j > 100 then .print_size
  else if m_size.i > 10 ∨ m_size.j > 10 then .print_signs
  else .print_full

/-- The local `print_level` computed at the start of `sparse_matrix::print` from
`print = matrix_base_t::m_print` and `size = matrix_base_t::m_size`. -/
def sparse_matrix.print_level {T : Type} (m : sparse_matrix T) : print_t :=
  if m.m_print.toNat ≠ 0 then print_t.max .print_auto (print_t.min m.m_print .print_file)
  else if m.m_size.i > 100 ∨ m.m_size.j > 100 then .print_size
  else if m.m_size.i > 10 ∨ m.m_size.j > 10 then .print_signs
  else .print_full

/-! ### Cell access of `sparse_matrix` -/

/-- The loop of `sparse_matrix::getindex`,
`for (k = lo; k < hi; ++k) if (ja[k]-BASE==(int) j) return k; return -1;`, with `n`
the number of iterations left. -/
def sparse_matrix.getindex_loop (ja : List Int) (BASE j : Nat) : Nat → Int → Option Int
  | 0, _ => some (-1)
  | n + 1, k => do
    let c ← vec_at ja k
    if c - Int.ofNat BASE = Int.ofNat j then some k
    else sparse_matrix.getindex_loop ja BASE j n (k + 1)

/-- Embedding of `sparse_matrix::getindex`. -/
def sparse_matrix.getindex {T : Type} (BASE : Nat) (m : sparse_matrix T) (i j : Nat) :
    Option Int := do
  let lo ← vec_get m.ia i
  let hi ← vec_get m.ia (i + 1)
  sparse_matrix.getindex_loop m.ja BASE j
    ((hi - Int.ofNat BASE) - (lo - Int.ofNat BASE)).toNat (lo - Int.ofNat BASE)

/-- Embedding of `sparse_matrix::operator()(_i,_j) const`: the value read. -/
def sparse_matrix.operator_get {T : Type} [Zero T] (BASE : Nat) (S : SORT T)
    (m : sparse_matrix T) (_i _j : Nat) : Option T :=
  if m.is_compressed then do
    let i ← m.getindex BASE _i _j
    if i < 0 then some m.m_zero else vec_at m.a i
  else
    match set_find S.lt ⟨⟨_i + BASE, _j + BASE⟩, 0⟩ m.entries with
    | some e => some e.second
    | none => some m.m_zero

/-- What the `T&` returned by the non-const `sparse_matrix::operator()` refers to:
the member `m_zero`, the element `a[k]`, or the `second` of the entry of
`entries` at a coordinate. -/
inductive cell_ref where
  | m_zero
  | a (k : Int)
  | entry (p : idx_t)
deriving DecidableEq, Repr

/-- Embedding of the non-const `sparse_matrix::operator()(_i,_j)`: the state it
leaves and the reference it returns. -/
def sparse_matrix.operator_ref {T : Type} [Zero T] (BASE : Nat) (S : SORT T)
    (m : sparse_matrix T) (_i _j : Nat) : Option (sparse_matrix T × cell_ref) :=
  if m.is_compressed then do
    let i ← m.getindex BASE _i _j
    if i < 0 then some (m, .m_zero) else (vec_at m.a i).map (fun _ => (m, .a i))
  else
    some ({ m with entries := (set_insert S.lt ⟨⟨_i + BASE, _j + BASE⟩, 0⟩ m.entries).1 },
      .entry ⟨_i + BASE, _j + BASE⟩)

/-- Assignment of `v` to the `second` of the entry that `entries.insert(p).first`
points at, the first entry equivalent to `p`. -/
def set_assign {T : Type} (lt : coord_t T → coord_t T → Bool) (p : coord_t T) (v : T) :
    List (coord_t T) → List (coord_t T)
  | [] => []
  | e :: es =>
    if !lt e p && !lt p e then ⟨e.first, v⟩ :: es else e :: set_assign lt p v es

/-- Assignment of `v` through a reference returned by the non-const
`sparse_matrix::operator()`. -/
def sparse_matrix.assign {T : Type} (S : SORT T) (m : sparse_matrix T) (r : cell_ref)
    (v : T) : Option (sparse_matrix T) :=
  match r with
  | .m_zero => some { m with m_zero := v }
  | .a k => if k < 0 then none else (vec_put m.a k.toNat v).map (fun a1 => { m with a := a1 })
  | .entry p => some { m with entries := set_assign S.lt ⟨p, v⟩ v m.entries }

/-- The statement `operator()(_i,_j) = v` on a non-const `sparse_matrix`. -/
def sparse_matrix.operator_set {T : Type} [Zero T] (BASE : Nat) (S : SORT T)
    (m : sparse_matrix T) (_i _j : Nat) (v : T) : Option (sparse_matrix T) := do
  let r ← m.operator_ref BASE S _i _j
  r.1.assign S r.2 v

/-! ### Structural invariants of the compressed form -/

/-- The invariants of the three arrays for a matrix of extent `(rows, cols)`
numbered from `BASE`: `ia` has `rows+1` offsets starting at `BASE` and
non-decreasing, `ja` and `a` have `ia.back()-BASE` elements, and every column
index lies in `[BASE, BASE+cols)`. -/
def compressed_well_formed {T : Type} (BASE rows cols : Nat) (ia ja : List Int)
    (a : List T) : Prop :=
  ia.length = rows + 1 ∧ ia[0]? = some (Int.ofNat BASE) ∧
  (∀ (p q : Nat) (x y : Int), p ≤ q → ia[p]? = some x → ia[q]? = some y → x ≤ y) ∧
  ja.length = a.length ∧
  (∃ last, ia.getLast? = some last ∧ Int.ofNat ja.length = last - Int.ofNat BASE) ∧
  ∀ c ∈ ja, Int.ofNat BASE ≤ c ∧ c < Int.ofNat BASE + Int.ofNat cols

/-- The invariants of the compressed form on the members of a `sparse_matrix`. -/
def sparse_matrix.well_formed {T : Type} (BASE : Nat) (m : sparse_matrix T) : Prop :=
  compressed_well_formed BASE m.m_size.i m.m_size.j m.ia m.ja m.a

/-- The end of `sparse_matrix::initialize(const std::string&)`, after the file has
been read into `entries` and `m_size`: symmetry augmentation, `compress()`, and
the check `size.i!=nnu || size.j<=*std::max_element(ja.begin(),ja.end())-BASE`. -/
def sparse_matrix.initialize_finish {T : Type} [Zero T] (BASE : Nat) (S : SORT T)
    (m : sparse_matrix T) : outcome (sparse_matrix T) :=
  match sparse_matrix.preserve_symmetry S.lt BASE m.m_size.i m.entries with
  | none => .undefined
  | some es =>
    match ({ m with entries := es } : sparse_matrix T).compress S with
    | none => .undefined
    | some m1 =>
      if m1.m_size.i ≠ size_t_of_int m1.nnu then
        .throws "sparse_matrix: after reading file, indexing not correct." m1
      else
        match vec_max_element m1.ja with
        | none => .undefined
        | some mx =>
          if m1.m_size.j ≤ size_t_of_int (mx - Int.ofNat BASE) then
            .throws "sparse_matrix: after reading file, indexing not correct." m1
          else .returns m1

/-- A compressed 3x3 matrix of integers numbered from 0 with `ia = [0,2,3,5]`,
`ja = [0,2,1,0,2]`, `a = [10,20,30,40,50]` and the sentinel `-1`. -/
def example_sparse_compressed : sparse_matrix Int :=
  ⟨-1, ⟨3, 3⟩, .print_auto, [], [10, 20, 30, 40, 50], [0, 2, 3, 5], [0, 2, 1, 0, 2], 3, 5⟩

/-- An uncompressed 2x2 matrix of integers numbered from 0 with the entries
`(0,0,4)` and `(1,1,6)` and the sentinel `-1`. -/
def example_sparse_entries : sparse_matrix Int :=
  ⟨-1, ⟨2, 2⟩, .print_auto, [⟨⟨0, 0⟩, 4⟩, ⟨⟨1, 1⟩, 6⟩], [], [], [], 0, 0⟩
/-- The state of a 2x2 matrix after the file with the single entry `(0,1,5)` has
been read, before the symmetry augmentation. -/
def example_sparse_read : sparse_matrix Int :=
  ⟨0, ⟨2, 2⟩, .print_auto, [⟨⟨0, 1⟩, 5⟩], [], [], [], 0, 0⟩

/-- The state of a 3x2 matrix after the file with the single entry `(0,1,5)` has
been read, before the symmetry augmentation. -/
def example_sparse_read_narrow : sparse_matrix Int :=
  ⟨0, ⟨3, 2⟩, .print_auto, [⟨⟨0, 1⟩, 5⟩], [], [], [], 0, 0⟩

/-! ## `sparse_matrix`: initializers, clearing, `zerorow`, `swap` -/

/-- Embedding of `sparse_matrix::clear`. -/
def sparse_matrix.clear {T : Type} (m : sparse_matrix T) : sparse_matrix T :=
  { m with m_size := m.m_size.clear, entries := [], nnu := 0, nnz := 0, ia := [], ja := [],
           a := [] }

/-- The constructor `sparse_matrix() : matrix_base_t() { clear(); }`.  The base
constructor sets `m_zero` to `quiet_NaN()` (the parameter `nan`) and `m_print`
to `print_auto`; the vectors and the set start empty; `size0`, `nnu0`, `nnz0`
stand for what `m_size`, `nnu`, `nnz` hold before `clear()` assigns them. -/
def sparse_matrix.construct {T : Type} (nan : T) (size0 : idx_t) (nnu0 nnz0 : Int) :
    sparse_matrix T :=
  sparse_matrix.clear ⟨nan, size0, .print_auto, [], [], [], [], nnu0, nnz0⟩

/-- Embedding of `sparse_matrix::operator=(const double&)`:
`a.assign(a.size(),static_cast< const T >(_value))`. -/
def sparse_matrix.operator_assign {double T : Type} (conv : double → T) (m : sparse_matrix T)
    (_value : double) : sparse_matrix T :=
  { m with a := List.replicate m.a.length (conv _value) }

/-- Embedding of `sparse_matrix::initialize(const size_t&, const size_t&, const double&)`.
The comparison `idx_t(i,j)==m_size` of the missing `index.hpp` is the equality
of the two pairs. -/
def sparse_matrix.initialize_size {double T : Type} (conv : double → T) (m : sparse_matrix T)
    (i j : Nat) (_value : double) : outcome (sparse_matrix T) :=
  if (⟨i, j⟩ : idx_t) = m.m_size then .returns (m.operator_assign conv _value)
  else .throws "sparse_matrix: resizing not available." m

/-- Embedding of `sparse_matrix::initialize(const std::vector< double >&)`. -/
def sparse_matrix.initialize_vector {double T : Type} (m : sparse_matrix T)
    (_vector : List double) : outcome (sparse_matrix T) :=
  .throws "sparse_matrix_csr: initialize from vector is not possible." m

/-- The assignments `a[k] = v`, `a[k+1] = v`, ... of `n` consecutive cells
starting at the `int` index `k`: the loop of `std::fill_n(a.begin()+k,n,v)` and of
`for (int i=k; i<k+n; ++i) a[i] = v`. -/
def vec_fill {α : Type} (v : α) : Nat → Int → List α → Option (List α)
  | 0, _, a => some a
  | n + 1, k, a =>
    if k < 0 then none
    else do
      let a1 ← vec_put a k.toNat v
      vec_fill v n (k + 1) a1

/-- Embedding of `sparse_matrix::zerorow`:
`std::fill_n(a.begin()+ia[_i]-BASE,ia[_i+1]-ia[_i],T())`. -/
def sparse_matrix.zerorow {T : Type} [Zero T] (BASE : Nat) (m : sparse_matrix T) (_i : Nat) :
    Option (sparse_matrix T) := do
  let lo ← vec_get m.ia _i
  let hi ← vec_get m.ia (_i + 1)
  let a1 ← vec_fill 0 (hi - lo).toNat (lo - Int.ofNat BASE) m.a
  pure { m with a := a1 }

/-- Embedding of `sparse_matrix::swap`: the result is the pair (this, other)
after the exchange of every member. -/
def sparse_matrix.swap {T : Type} (m _other : sparse_matrix T) :
    sparse_matrix T × sparse_matrix T :=
  (⟨_other.m_zero, _other.m_size, _other.m_print, _other.entries, _other.a, _other.ia,
      _other.ja, _other.nnu, _other.nnz⟩,
   ⟨m.m_zero, m.m_size, m.m_print, m.entries, m.a, m.ia, m.ja, m.nnu, m.nnz⟩)

/-- The states of a `sparse_matrix< T, BASE, SORT >` reached from its constructor
by `clear`, cell reads and writes through `operator()`, `operator=(const double&)`,
`compress` on a non-empty entry set, `uncompress` and `swap` with another such
matrix. -/
inductive sparse_matrix.reachable {double T : Type} [Zero T] (conv : double → T) (BASE : Nat)
    (S : SORT T) : sparse_matrix T → Prop where
  | construct (nan : T) (size0 : idx_t) (nnu0 nnz0 : Int) :
      sparse_matrix.reachable conv BASE S (sparse_matrix.construct nan size0 nnu0 nnz0)
  | clear (m : sparse_matrix T) :
      sparse_matrix.reachable conv BASE S m → sparse_matrix.reachable conv BASE S m.clear
  | read (m : sparse_matrix T) (i j : Nat) (x : T) :
      sparse_matrix.reachable conv BASE S m → m.operator_get BASE S i j = some x →
      sparse_matrix.reachable conv BASE S m
  | write (m m1 : sparse_matrix T) (i j : Nat) (v : T) :
      sparse_matrix.reachable conv BASE S m → m.operator_set BASE S i j v = some m1 →
      sparse_matrix.reachable conv BASE S m1
  | assign (m : sparse_matrix T) (_value : double) :
      sparse_matrix.reachable conv BASE S m →
      sparse_matrix.reachable conv BASE S (m.operator_assign conv _value)
  | compress (m m1 : sparse_matrix T) :
      sparse_matrix.reachable conv BASE S m → m.entries ≠ [] → m.compress S = some m1 →
      sparse_matrix.reachable conv BASE S m1
  | uncompress (m m1 : sparse_matrix T) :
      sparse_matrix.reachable conv BASE S m → m.uncompress S = some m1 →
      sparse_matrix.reachable conv BASE S m1
  | swap_this (m _other : sparse_matrix T) :
      sparse_matrix.reachable conv BASE S m → sparse_matrix.reachable conv BASE S _other →
      sparse_matrix.reachable conv BASE S (m.swap _other).1
  | swap_other (m _other : sparse_matrix T) :
      sparse_matrix.reachable conv BASE S m → sparse_matrix.reachable conv BASE S _other →
      sparse_matrix.reachable conv BASE S (m.swap _other).2

/-! ## `detail::sparse_matrix_csr` -/

/-- Modelled from the spec: `index_compressed_sparse_row_t< BASE >` of the missing
`index.hpp`, the index of `detail::sparse_matrix_csr`; the members used by the
matrix are the two arrays of the compressed form ("offsets", "columns") and the
counters `nnu`, `nnz`. -/
structure index_compressed_sparse_row_t where
  ia : List Int
  ja : List Int
  nnu : Int
  nnz : Int
deriving DecidableEq, Repr

/-- The members of `detail::sparse_matrix_csr` (with those of its base `matrix`). -/
structure detail.sparse_matrix_csr (T : Type) where
  m_zero : T
  m_size : idx_t
  m_print : print_t
  a : List T
  idx : index_compressed_sparse_row_t
deriving DecidableEq, Repr

/-- Embedding of `detail::sparse_matrix_csr::operator=(const double&)`. -/
def detail.sparse_matrix_csr.operator_assign {double T : Type} (conv : double → T)
    (m : detail.sparse_matrix_csr T) (_value : double) : detail.sparse_matrix_csr T :=
  { m with a := List.replicate m.a.length (conv _value) }

/-- Embedding of
`detail::sparse_matrix_csr::initialize(const size_t&, const size_t&, const double&)`. -/
def detail.sparse_matrix_csr.initialize_size {double T : Type} (conv : double → T)
    (m : detail.sparse_matrix_csr T) (i j : Nat) (_value : double) :
    outcome (detail.sparse_matrix_csr T) :=
  if (⟨i, j⟩ : idx_t) = m.m_size then .returns (m.operator_assign conv _value)
  else .throws "sparse_matrix_csr: resizing not available." m

/-- Embedding of `detail::sparse_matrix_csr::initialize(const std::vector< double >&)`. -/
def detail.sparse_matrix_csr.initialize_vector {double T : Type}
    (m : detail.sparse_matrix_csr T) (_vector : List double) :
    outcome (detail.sparse_matrix_csr T) :=
  .throws "sparse_matrix_csr: initialize from vector is not possible." m

/-- Embedding of `detail::sparse_matrix_csr::zerorow`:
`for (int i=idx.ia[_i]-BASE; i<idx.ia[_i+1]-BASE; ++i) a[i] = T()`. -/
def detail.sparse_matrix_csr.zerorow {T : Type} [Zero T] (BASE : Nat)
    (m : detail.sparse_matrix_csr T) (_i : Nat) : Option (detail.sparse_matrix_csr T) := do
  let lo ← vec_get m.idx.ia _i
  let hi ← vec_get m.idx.ia (_i + 1)
  let a1 ← vec_fill 0 ((hi - Int.ofNat BASE) - (lo - Int.ofNat BASE)).toNat
    (lo - Int.ofNat BASE) m.a
  pure { m with a := a1 }

/-- A 3x3 `detail::sparse_matrix_csr` with the arrays of `example_sparse_compressed`. -/
def example_sparse_csr : detail.sparse_matrix_csr Int :=
  ⟨-1, ⟨3, 3⟩, .print_auto, [10, 20, 30, 40, 50], ⟨[0, 2, 3, 5], [0, 2, 1, 0, 2], 3, 5⟩⟩

/-! ## Text files

The readers of `initialize(const std::string&)` see a text file through
`std::getline`, which takes a line, and `operator>>`, which takes the next
whitespace-delimited token.  The decimal encoding of numbers is the business of
the stream library: a token is taken as what the extraction operators make of
it. -/

/-- A whitespace-delimited token of a text file: `as_int` is the value read by
`operator>>` into an `int` and `as_value` the value read into a `T`, `none` when
the extraction fails. -/
structure token (T : Type) where
  as_int : Option Int
  as_value : Option T
deriving DecidableEq, Repr

/-- The value read by `operator>>` into a `size_t`. -/
def token.as_size {T : Type} (t : token T) : Option Nat :=
  t.as_int.bind (fun n => if n < 0 then none else some n.toNat)

/-- Modelled from the spec: the format field of `MatrixMarket::typecode_t` of the
missing `utilities.hpp` ("array form" or "coordinate form"). -/
inductive MatrixMarket.format_t where
  | coordinate | array
deriving DecidableEq, Repr

/-- Modelled from the spec: the field of `MatrixMarket::typecode_t` of the
missing `utilities.hpp` ("real", rejected: "complex", "pattern-only"). -/
inductive MatrixMarket.field_t where
  | real | complex | pattern | integer
deriving DecidableEq, Repr

/-- Modelled from the spec: the symmetry of `MatrixMarket::typecode_t` of the
missing `utilities.hpp` ("general", rejected: "symmetric-storage-only"). -/
inductive MatrixMarket.symmetry_t where
  | general | symmetric | skew_symmetric | hermitian
deriving DecidableEq, Repr

/-- Modelled from the spec: `MatrixMarket::typecode_t` of the missing
`utilities.hpp`, what the banner line says of the matrix. -/
structure MatrixMarket.typecode_t where
  format : MatrixMarket.format_t
  field : MatrixMarket.field_t
  symmetry : MatrixMarket.symmetry_t
deriving DecidableEq, Repr

/-- Modelled from the spec: `typecode_t::is_real`. -/
def MatrixMarket.typecode_t.is_real (t : MatrixMarket.typecode_t) : Bool :=
  decide (t.field = .real)

/-- Modelled from the spec: `typecode_t::is_general`. -/
def MatrixMarket.typecode_t.is_general (t : MatrixMarket.typecode_t) : Bool :=
  decide (t.symmetry = .general)

/-- Modelled from the spec: `typecode_t::is_dense`, the array form. -/
def MatrixMarket.typecode_t.is_dense (t : MatrixMarket.typecode_t) : Bool :=
  decide (t.format = .array)

/-- A line of a text file: the banner `%%MatrixMarket matrix ...` with the type it
states, another line whose first character is `%`, or a line of tokens. -/
inductive line_t (T : Type) where
  | banner (t : MatrixMarket.typecode_t)
  | comment
  | data (toks : List (token T))
deriving DecidableEq, Repr

/-- The test `line.find_first_of("%")==0`. -/
def line_t.is_comment {T : Type} : line_t T → Bool
  | .banner _ => true
  | .comment => true
  | .data _ => false

/-- The tokens of a line for `operator>>`; a line starting with `%` starts with
a token that is not a number. -/
def line_t.toks {T : Type} : line_t T → List (token T)
  | .banner _ => [⟨none, none⟩]
  | .comment => [⟨none, none⟩]
  | .data toks => toks

/-- An input stream restricted to `operator>>`: the tokens still to read and the
fail state (`!f`). -/
structure ifstream (T : Type) where
  toks : List (token T)
  fail : Bool
deriving DecidableEq, Repr

/-- The stream positioned at the start of the lines `ls`. -/
def ifstream.of_lines {T : Type} (ls : List (line_t T)) : ifstream T :=
  ⟨ls.flatMap line_t.toks, false⟩

/-- Embedding of `f >> x`: the value selected from the next token and the stream
left; on a failure the stream keeps its position and is in the fail state. -/
def ifstream.extract {T α : Type} (sel : token T → Option α) (f : ifstream T) :
    Option α × ifstream T :=
  if f.fail then (none, f)
  else
    match f.toks with
    | [] => (none, ⟨[], true⟩)
    | t :: ts =>
      match sel t with
      | some x => (some x, ⟨ts, false⟩)
      | none => (none, ⟨t :: ts, true⟩)

/-- The functions `MatrixMarket::read_banner(f,t)` and
`MatrixMarket::read_size(f,i,j,nz)` of the missing `utilities.hpp`, taken as
parameters.  `read_banner` maps the lines of the file to its return value, the
type it assigns to `t` and the lines it leaves; `read_size` maps the lines and
the values of `i`, `j`, `nz` to its return value, the values it leaves in
`i`, `j`, `nz` and the lines it leaves. -/
structure MatrixMarket.reader (T : Type) where
  read_banner : List (line_t T) → Bool × MatrixMarket.typecode_t × List (line_t T)
  read_size : List (line_t T) → Nat → Nat → Int → Bool × Nat × Nat × Int × List (line_t T)

/-- The extraction `istringstream(line) >> i >> j` into two `size_t`: a failed
extraction leaves its variable and ends the chain. -/
def line_t.extract_sizes {T : Type} (toks : List (token T)) (i j : Nat) : Bool × Nat × Nat :=
  match toks with
  | [] => (false, i, j)
  | t1 :: rest =>
    match t1.as_size with
    | none => (false, i, j)
    | some i1 =>
      match rest with
      | [] => (false, i1, j)
      | t2 :: _ =>
        match t2.as_size with
        | none => (false, i1, j)
        | some j1 => (true, i1, j1)

/-- Modelled from the spec: `MatrixMarket::read_banner` of the missing
`utilities.hpp`: "a banner line identifying format"; the first line has to be
the banner. -/
def MatrixMarket.standard_read_banner {T : Type} :
    List (line_t T) → Bool × MatrixMarket.typecode_t × List (line_t T)
  | .banner t :: ls => (true, t, ls)
  | _ :: ls => (false, ⟨.coordinate, .real, .general⟩, ls)
  | [] => (false, ⟨.coordinate, .real, .general⟩, [])

/-- Modelled from the spec: `MatrixMarket::read_size` of the missing
`utilities.hpp`: "a size line (`rows cols [nnz]`)", "comment lines begin with `%`
and are skipped". -/
def MatrixMarket.standard_read_size {T : Type} :
    List (line_t T) → Nat → Nat → Int → Bool × Nat × Nat × Int × List (line_t T)
  | [], i, j, nz => (false, i, j, nz, [])
  | .data toks :: ls, i, j, nz =>
    let s := line_t.extract_sizes toks i j
    (s.1, s.2.1, s.2.2, ((toks.drop 2).head?.bind token.as_int).getD nz, ls)
  | _ :: ls, i, j, nz => MatrixMarket.standard_read_size ls i j nz

/-- Modelled from the spec: the two helpers of the missing `utilities.hpp` as the
spec describes the MatrixMarket header. -/
def MatrixMarket.standard (T : Type) : MatrixMarket.reader T :=
  ⟨MatrixMarket.standard_read_banner, MatrixMarket.standard_read_size⟩

/-- Embedding of `std::string::find_last_of(c)`: the last position of `c`, `none` for
`npos`. -/
def string_find_last_of (c : Char) : List Char → Option Nat
  | [] => none
  | x :: xs =>
    match string_find_last_of c xs with
    | some p => some (p + 1)
    | none => if x = c then some 0 else none

/-- The test `hasdot && _fname.substr(_fname.find_last_of("."))==ext` of
`initialize(const std::string&)`, with
`hasdot(string("."+_fname).find_last_of("."))`, a position converted to `bool`. -/
def file_extension_is (_fname ext : List Char) : Bool :=
  (match string_find_last_of '.' ('.' :: _fname) with
    | some p => decide (p ≠ 0)
    | none => true) &&
  (match string_find_last_of '.' _fname with
    | some p => decide (_fname.drop p = ext)
    | none => false)

/-- The output of `operator<<` for a value of the storage type and for a
`size_t`, as the token written. -/
structure ostream_format (T : Type) where
  value : T → token T
  size : Nat → token T

/-- The text written for a number is read back as that number. -/
def ostream_format.exact {T : Type} (fmt : ostream_format T) : Prop :=
  (∀ v : T, (fmt.value v).as_value = some v) ∧ (∀ n : Nat, (fmt.size n).as_int = some (n : Int))

/-- The format of the integer storage type used in the examples. -/
def example_format : ostream_format Int :=
  ⟨fun v => ⟨some v, some v⟩, fun n => ⟨some (n : Int), some (n : Int)⟩⟩

/-! ## `initialize(const std::string&)` of the dense layouts

`dense_matrix_v::initialize(const std::string&)` and
`dense_matrix_vv::initialize(const std::string&)` are the same text up to the
class name in the messages and the shape of `a.assign(...)`; they are embedded
once, over what they use of the layout. -/

/-- What `initialize(const std::string&)` uses of a dense layout: `clear()`, the
member `m_size`, the statement `a.assign(...)` that allocates zero cells for the
current `m_size`, and the cell access `operator()`. -/
structure dense_layout (σ T : Type) where
  clear : σ → σ
  m_size : σ → idx_t
  set_size : σ → idx_t → σ
  assign : σ → σ
  get : σ → Nat → Nat → Option T
  set : σ → Nat → Nat → T → Option σ

/-- The cell access of a layout is sound on the states `ok` of extent
`(rows, cols)`: every cell of the extent can be read, and a write to a cell of
the extent stays in `ok`, is read back, and leaves the other cells of the
extent as they are. -/
structure dense_cells {σ T : Type} (L : dense_layout σ T) (ok : σ → Prop) (rows cols : Nat) :
    Prop where
  get_some : ∀ s i j, ok s → i < rows → j < cols → ∃ x, L.get s i j = some x
  set_spec : ∀ s i j x, ok s → i < rows → j < cols →
    ∃ s1, L.set s i j x = some s1 ∧ ok s1 ∧ L.get s1 i j = some x ∧
      ∀ i1 j1, i1 < rows → j1 < cols → (i1 ≠ i ∨ j1 ≠ j) → L.get s1 i1 j1 = L.get s i1 j1

/-- The flat layout: `a.assign(size.i*size.j,T())`. -/
def dense_matrix_v.layout {T : Type} [Zero T] (ORIENT : orientation_t) :
    dense_layout (dense_matrix_v T) T :=
  ⟨dense_matrix_v.clear, fun m => m.m_size, fun m s => { m with m_size := s },
   fun m => { m with a := List.replicate (m.m_size.i * m.m_size.j) 0 },
   dense_matrix_v.operator_get ORIENT, dense_matrix_v.operator_set ORIENT⟩

/-- The nested layout:
`a.assign(ORIENT? size.i:size.j,vector< T >(ORIENT? size.j:size.i,T()))`. -/
def dense_matrix_vv.layout {T : Type} [Zero T] (ORIENT : orientation_t) :
    dense_layout (dense_matrix_vv T) T :=
  ⟨dense_matrix_vv.clear, fun m => m.m_size, fun m s => { m with m_size := s },
   fun m =>
    match ORIENT with
    | .sort_by_row =>
      { m with a := List.replicate m.m_size.i (List.replicate m.m_size.j 0) }
    | .sort_by_column =>
      { m with a := List.replicate m.m_size.j (List.replicate m.m_size.i 0) },
   dense_matrix_vv.operator_get ORIENT, dense_matrix_vv.operator_set ORIENT⟩

/-- The extraction `istringstream(line) >> ij.i >> ij.j >> v`: a failed extraction
leaves its variable and ends the chain; `v` is `none` while it has not been
assigned. -/
def extract_triple {T : Type} (toks : List (token T)) (i j : Nat) (v : Option T) :
    Nat × Nat × Option T :=
  match toks with
  | [] => (i, j, v)
  | t1 :: rest =>
    match t1.as_size with
    | none => (i, j, v)
    | some i1 =>
      match rest with
      | [] => (i1, j, v)
      | t2 :: rest2 =>
        match t2.as_size with
        | none => (i1, j, v)
        | some j1 =>
          match rest2.head?.bind token.as_value with
          | none => (i1, j1, v)
          | some x => (i1, j1, some x)

/-- The loop `while (getline(f,line))` of the MatrixMarket branch of the dense
layouts, over the lines left in the file.  The state is the matrix, `ij` and
`v`.  In the array form the line is read into the cell `(ij.i-1,ij.j-1)` (left
as it is when the extraction fails) and `ij` advances down the column; in the
coordinate form the line gives `ij` and `v`.  `none`: a cell outside the
storage. -/
def dense_read_mtx_lines {σ T : Type} (get : σ → Nat → Nat → Option T)
    (set : σ → Nat → Nat → T → Option σ) (t : MatrixMarket.typecode_t) (size : idx_t) :
    List (line_t T) → σ × idx_t × Option T → Option (σ × idx_t × Option T)
  | [], s => some s
  | l :: ls, (m, ij, v) =>
    if l.is_comment then dense_read_mtx_lines get set t size ls (m, ij, v)
    else if t.is_dense then do
      let _ ← get m (ij.i - 1) (ij.j - 1)
      let m1 ← match l.toks.head?.bind token.as_value with
        | some x => set m (ij.i - 1) (ij.j - 1) x
        | none => some m
      dense_read_mtx_lines get set t size ls
        (m1, if ij.i + 1 > size.i then ⟨1, ij.j + 1⟩ else ⟨ij.i + 1, ij.j⟩, v)
    else
      let r := extract_triple l.toks ij.i ij.j v
      if r.1 = 0 ∨ r.2.1 = 0 then none
      else do
        let x ← r.2.2
        let m1 ← set m (r.1 - 1) (r.2.1 - 1) x
        dense_read_mtx_lines get set t size ls (m1, ⟨r.1, r.2.1⟩, some x)

/-- The loop `while (!size.is_valid_size()) { if (getline(f,line) &&
line.find_first_of("%")!=0) istringstream(line) >> size.i >> size.j; }` of the CSR
branches.  At the end of the file `getline` fails for ever and the loop does
not end: `none`. -/
def read_csr_size {T : Type} : List (line_t T) → idx_t → Option (idx_t × List (line_t T))
  | [], size => if size.is_valid_size then some (size, []) else none
  | l :: ls, size =>
    if size.is_valid_size then some (size, l :: ls)
    else if l.is_comment then read_csr_size ls size
    else
      read_csr_size ls
        ⟨(line_t.extract_sizes l.toks size.i size.j).2.1,
         (line_t.extract_sizes l.toks size.i size.j).2.2⟩

/-- The loop `for (int i; v.size()<n && f >> i;) v.push_back(i);`, with `n` the
number of elements still to read. -/
def read_ints {T : Type} : Nat → ifstream T → List Int → List Int × ifstream T
  | 0, f, v => (v, f)
  | n + 1, f, v =>
    match f.extract token.as_int with
    | (some i, f1) => read_ints n f1 (v ++ [i])
    | (none, f1) => (v, f1)

/-- Modelled from the spec: the functor `base_conversion_t(diff)` of the missing
`utilities.hpp`, applied to every index by `for_each`; it moves an index from
one numbering base to another by adding `diff`. -/
def base_conversion_t (diff v : Int) : Int := v + diff

/-- The loop `for (int k=ia[i]; k<ia[i+1] && f; ++k) f >> operator()(i,ja[k]);` of
the dense CSR branch, with `n` the number of indices up to `ia[i+1]`.  A failed
extraction leaves the cell as it is.  `none`: an index outside `ja` or a cell
outside the storage. -/
def dense_read_csr_row {σ T : Type} (get : σ → Nat → Nat → Option T)
    (set : σ → Nat → Nat → T → Option σ) (ja : List Int) (i : Nat) :
    Nat → Int → σ × ifstream T → Option (σ × ifstream T)
  | 0, _, s => some s
  | n + 1, k, (m, f) =>
    if f.fail then some (m, f)
    else do
      let c ← vec_at ja k
      if c < 0 then none
      else do
        let _ ← get m i c.toNat
        match f.extract token.as_value with
        | (some x, f1) => do
          let m1 ← set m i c.toNat x
          dense_read_csr_row get set ja i n (k + 1) (m1, f1)
        | (none, f1) => dense_read_csr_row get set ja i n (k + 1) (m, f1)

/-- The CSR branch of the dense layouts: the size loop, the `rows+1` offsets, the
`ia.back()-ia.front()` column indices, the conversion of both to base 0,
`a.assign(...)` and the rows of values.  When `ia.back()-ia.front()` is negative,
`ja.reserve` is given a count above `max_size()` and throws `std::length_error`
(message `vector::reserve` in libstdc++): the extent is the one of the size line,
which the loop wrote through the reference `size`, and `a.assign` has not run.
`undefined`: the size loop does not end, `ia` is empty, or an access leaves a
vector. -/
def dense_read_csr {σ T : Type} (L : dense_layout σ T) (ls : List (line_t T)) (m : σ) :
    outcome σ :=
  match read_csr_size ls (L.m_size m) with
  | none => .undefined
  | some s =>
    let ia := read_ints (s.1.i + 1) (ifstream.of_lines s.2) []
    match ia.1.head?, ia.1.getLast? with
    | some front, some back =>
      if back - front < 0 then .throws "vector::reserve" (L.set_size m s.1)
      else
        let ja := read_ints (back - front).toNat ia.2 []
        let ja1 := ja.1.map (base_conversion_t (-front))
        let ia1 := ia.1.map (base_conversion_t (-front))
        outcome.of_option ((for_loop (fun i t => do
          let lo ← vec_get ia1 i
          let hi ← vec_get ia1 (i + 1)
          dense_read_csr_row L.get L.set ja1 i (hi - lo).toNat lo t) s.1.i 0
          (L.assign (L.set_size m s.1), ja.2)).map (fun r => r.1))
    | _, _ => .undefined

/-- Embedding of `initialize(const std::string&)` of the dense layouts; `name` is
the class name in the messages, `invalid` the extent that `idx_t::invalidate()`
of the missing `index.hpp` assigns, `files` the content of the file at a path
(`none` when it cannot be opened). -/
def dense_initialize_path {σ T : Type} (L : dense_layout σ T) (name : String)
    (MM : MatrixMarket.reader T) (invalid : idx_t)
    (files : List Char → Option (List (line_t T))) (m : σ) (_fname : List Char) :
    outcome σ :=
  match files _fname with
  | none =>
    .throws (name ++ ": cannot read file. sparse_matrix: cannot open file.")
      (L.set_size (L.clear m) invalid)
  | some ls =>
    if file_extension_is _fname ['.', 'm', 't', 'x'] then
      if !(MM.read_banner ls).1 then
        .throws (name ++ ": cannot read file. " ++ name ++
          ": MatrixMarket: invalid header, \x22%%MatrixMarket ...\x22 not found.")
          (L.set_size (L.clear m) invalid)
      else if !(MM.read_size (MM.read_banner ls).2.2 invalid.i invalid.j 0).1 then
        .throws (name ++ ": cannot read file. " ++ name ++
          ": MatrixMarket: invalid matrix/array size.")
          (L.set_size (L.clear m)
            ⟨(MM.read_size (MM.read_banner ls).2.2 invalid.i invalid.j 0).2.1,
             (MM.read_size (MM.read_banner ls).2.2 invalid.i invalid.j 0).2.2.1⟩)
      else if !(MM.read_banner ls).2.1.is_real || !(MM.read_banner ls).2.1.is_general then
        .throws (name ++ ": cannot read file. " ++ name ++
          ": MatrixMarket: only \x22(coordinate|array) real general\x22 supported.")
          (L.set_size (L.clear m)
            ⟨(MM.read_size (MM.read_banner ls).2.2 invalid.i invalid.j 0).2.1,
             (MM.read_size (MM.read_banner ls).2.2 invalid.i invalid.j 0).2.2.1⟩)
      else
        outcome.of_option
          ((dense_read_mtx_lines L.get L.set (MM.read_banner ls).2.1
            ⟨(MM.read_size (MM.read_banner ls).2.2 invalid.i invalid.j 0).2.1,
             (MM.read_size (MM.read_banner ls).2.2 invalid.i invalid.j 0).2.2.1⟩
            (MM.read_size (MM.read_banner ls).2.2 invalid.i invalid.j 0).2.2.2.2
            (L.assign (L.set_size (L.clear m)
              ⟨(MM.read_size (MM.read_banner ls).2.2 invalid.i invalid.j 0).2.1,
               (MM.read_size (MM.read_banner ls).2.2 invalid.i invalid.j 0).2.2.1⟩),
             ⟨1, 1⟩, none)).map (fun r => r.1))
    else if file_extension_is _fname ['.', 'c', 's', 'r'] then
      dense_read_csr L ls (L.set_size (L.clear m) invalid)
    else
      .throws (name ++ ": cannot read file. " ++ name ++ ": file format not detected.")
        (L.set_size (L.clear m) invalid)

/-- Embedding of `dense_matrix_v::initialize(const std::string&)`. -/
def dense_matrix_v.initialize_path {T : Type} [Zero T] (ORIENT : orientation_t)
    (MM : MatrixMarket.reader T) (invalid : idx_t)
    (files : List Char → Option (List (line_t T))) (m : dense_matrix_v T)
    (_fname : List Char) : outcome (dense_matrix_v T) :=
  dense_initialize_path (dense_matrix_v.layout ORIENT) "dense_matrix_v" MM invalid files m _fname

/-- Embedding of `dense_matrix_vv::initialize(const std::string&)`. -/
def dense_matrix_vv.initialize_path {T : Type} [Zero T] (ORIENT : orientation_t)
    (MM : MatrixMarket.reader T) (invalid : idx_t)
    (files : List Char → Option (List (line_t T))) (m : dense_matrix_vv T)
    (_fname : List Char) : outcome (dense_matrix_vv T) :=
  dense_initialize_path (dense_matrix_vv.layout ORIENT) "dense_matrix_vv" MM invalid files m
    _fname

/-- Elements of a list of optional values, when all are present. -/
def option_all {α : Type} : List (Option α) → Option (List α)
  | [] => some []
  | x :: xs => do
    let y ← x
    let ys ← option_all xs
    pure (y :: ys)

/-- The `print_level==print_file` branch of `matrix::print`, used by the dense
layouts: the banner, the line `size(0) size(1)` and
`for (j<size(1)) for (i<size(0)) o << operator()(i,j) << '\n'`. -/
def matrix.print_file {T : Type} (fmt : ostream_format T) (size0 size1 : Nat)
    (get : Nat → Nat → Option T) : Option (List (line_t T)) := do
  let vs ← option_all
    ((List.range size1).flatMap (fun j => (List.range size0).map (fun i => get i j)))
  pure (.banner ⟨.array, .real, .general⟩ :: .data [fmt.size size0, fmt.size size1] ::
    vs.map (fun v => .data [fmt.value v]))

/-- The file form of a flat dense matrix. -/
def dense_matrix_v.print_file {T : Type} (fmt : ostream_format T) (ORIENT : orientation_t)
    (m : dense_matrix_v T) : Option (List (line_t T)) :=
  matrix.print_file fmt (m.size 0) (m.size 1) (m.operator_get ORIENT)

/-- The file form of a nested dense matrix. -/
def dense_matrix_vv.print_file {T : Type} (fmt : ostream_format T) (ORIENT : orientation_t)
    (m : dense_matrix_vv T) : Option (List (line_t T)) :=
  matrix.print_file fmt (m.size 0) (m.size 1) (m.operator_get ORIENT)

/-! ## `sparse_matrix::initialize(const std::string&)` and the file form -/

/-- The extraction `istringstream(line) >> p.first.i >> p.first.j >> p.second`: a
failed extraction leaves its variable and ends the chain. -/
def extract_coord {T : Type} (toks : List (token T)) (p : coord_t T) : coord_t T :=
  match toks with
  | [] => p
  | t1 :: rest =>
    match t1.as_size with
    | none => p
    | some i1 =>
      match rest with
      | [] => ⟨⟨i1, p.first.j⟩, p.second⟩
      | t2 :: rest2 =>
        match t2.as_size with
        | none => ⟨⟨i1, p.first.j⟩, p.second⟩
        | some j1 =>
          match rest2.head?.bind token.as_value with
          | none => ⟨⟨i1, j1⟩, p.second⟩
          | some x => ⟨⟨i1, j1⟩, x⟩

/-- The loop `while (getline(f,line))` of the MatrixMarket branch of
`sparse_matrix::initialize(const std::string&)`.  The state is `p` and the entry
set.  In the array form the line gives `p.second`, `p` is inserted and advances
down the column; in the coordinate form the line gives `p`, both indices are
moved by `BASE-1` and `p` is inserted. -/
def sparse_read_mtx_lines {T : Type} (lt : coord_t T → coord_t T → Bool) (BASE : Nat)
    (t : MatrixMarket.typecode_t) (size : idx_t) :
    List (line_t T) → coord_t T × List (coord_t T) → coord_t T × List (coord_t T)
  | [], s => s
  | l :: ls, (p, es) =>
    if l.is_comment then sparse_read_mtx_lines lt BASE t size ls (p, es)
    else if t.is_dense then
      sparse_read_mtx_lines lt BASE t size ls
        (if size_t_of_int (Int.ofNat (p.first.i + 1) - Int.ofNat BASE) ≥ size.i then
            ⟨⟨BASE, p.first.j + 1⟩, (l.toks.head?.bind token.as_value).getD p.second⟩
          else ⟨⟨p.first.i + 1, p.first.j⟩, (l.toks.head?.bind token.as_value).getD p.second⟩,
         (set_insert lt ⟨p.first, (l.toks.head?.bind token.as_value).getD p.second⟩ es).1)
    else
      sparse_read_mtx_lines lt BASE t size ls
        (⟨⟨size_t_of_int (Int.ofNat (extract_coord l.toks p).first.i + (Int.ofNat BASE - 1)),
            size_t_of_int (Int.ofNat (extract_coord l.toks p).first.j + (Int.ofNat BASE - 1))⟩,
          (extract_coord l.toks p).second⟩,
         (set_insert lt
            ⟨⟨size_t_of_int (Int.ofNat (extract_coord l.toks p).first.i + (Int.ofNat BASE - 1)),
              size_t_of_int
                (Int.ofNat (extract_coord l.toks p).first.j + (Int.ofNat BASE - 1))⟩,
             (extract_coord l.toks p).second⟩ es).1)

/-- The loop `for (int &i=ja[0], j=-1; f>>i && j<i;) ia.push_back(j=i);` of the CSR
branch of `sparse_matrix`: the integers are offsets as long as they increase,
and the first one that does not is left in `ja[0]`.  The result is `ia`,
`ja[0]` and the stream. -/
def sparse_read_csr_offsets {T : Type} :
    List (token T) → Int → List Int → Int → List Int × Int × ifstream T
  | [], _, ia, ja0 => (ia, ja0, ⟨[], true⟩)
  | t :: ts, j, ia, ja0 =>
    match t.as_int with
    | none => (ia, ja0, ⟨t :: ts, true⟩)
    | some i =>
      if j < i then sparse_read_csr_offsets ts i (ia ++ [i]) i else (ia, i, ⟨ts, false⟩)

/-- The loop `for (int j=ia[i]; j<ia[i+1] && f>>p.second; ++j) { p.first.j =
ja[j-BASE]; entries.insert(p); }` for row `i`, with `n` the number of indices up
to `ia[i+1]`.  `none`: an index outside `ja`. -/
def sparse_read_csr_row {T : Type} (lt : coord_t T → coord_t T → Bool) (BASE : Nat)
    (ja : List Int) (i : Nat) :
    Nat → Int → ifstream T × List (coord_t T) → Option (ifstream T × List (coord_t T))
  | 0, _, s => some s
  | n + 1, j, (f, es) =>
    match f.extract token.as_value with
    | (none, f1) => some (f1, es)
    | (some x, f1) => do
      let c ← vec_at ja (j - Int.ofNat BASE)
      sparse_read_csr_row lt BASE ja i n (j + 1)
        (f1, (set_insert lt ⟨⟨i + BASE, size_t_of_int c⟩, x⟩ es).1)

/-- The CSR branch of `sparse_matrix::initialize(const std::string&)`: the size
loop, the offsets, the column indices up to the capacity that
`ja.reserve(ia.back()-ia.front())` gives a vector of one element without spare
storage, the conversion of both arrays to `BASE`, and the rows of values
inserted into the entry set.  The result is the extent and the entries.
`none`: the size loop does not end, `ia` is empty, or an access leaves a vector.
The offsets kept in `ia` increase, so that the count given to `reserve` is never
negative and the test for it is never taken
(`sparse_read_csr_reserve_count`). -/
def sparse_read_csr {T : Type} (lt : coord_t T → coord_t T → Bool) (BASE : Nat)
    (ls : List (line_t T)) (size : idx_t) : Option (idx_t × List (coord_t T)) := do
  let s ← read_csr_size ls size
  let ia := sparse_read_csr_offsets (ifstream.of_lines s.2).toks (-1) [] 0
  let front ← ia.1.head?
  let back ← ia.1.getLast?
  if back - front < 0 then none
  else do
    let ja := read_ints ((back - front).toNat - 1) ia.2.2 [ia.2.1]
    let ja1 := ja.1.map (base_conversion_t (Int.ofNat BASE - front))
    let ia1 := ia.1.map (base_conversion_t (Int.ofNat BASE - front))
    let r ← for_loop (fun i t => do
      let lo ← vec_get ia1 i
      let hi ← vec_get ia1 (i + 1)
      sparse_read_csr_row lt BASE ja1 i (hi - lo).toNat lo t) (ia1.length - 1) 0 (ja.2, [])
    pure (s.1, r.2)

/-- Embedding of `sparse_matrix::initialize(const std::string&)`; `invalid` is the
extent that `idx_t::invalidate()` of the missing `index.hpp` assigns, `files`
the content of the file at a path (`none` when it cannot be opened). -/
def sparse_matrix.initialize_path {T : Type} [Zero T] (BASE : Nat) (S : SORT T)
    (MM : MatrixMarket.reader T) (invalid : idx_t)
    (files : List Char → Option (List (line_t T))) (m : sparse_matrix T)
    (_fname : List Char) : outcome (sparse_matrix T) :=
  match files _fname with
  | none =>
    .throws "sparse_matrix: cannot read file. sparse_matrix: cannot open file."
      { m.clear with m_size := invalid }
  | some ls =>
    if file_extension_is _fname ['.', 'm', 't', 'x'] then
      if !(MM.read_banner ls).1 then
        .throws ("sparse_matrix: cannot read file. sparse_matrix: MatrixMarket invalid " ++
          "header (\x22%%MatrixMarket ...\x22 not found).")
          { m.clear with m_size := invalid }
      else if !(MM.read_size (MM.read_banner ls).2.2 invalid.i invalid.j 0).1 then
        .throws ("sparse_matrix: cannot read file. sparse_matrix: MatrixMarket invalid " ++
          "matrix/array size.")
          { m.clear with
            m_size := ⟨(MM.read_size (MM.read_banner ls).2.2 invalid.i invalid.j 0).2.1,
                       (MM.read_size (MM.read_banner ls).2.2 invalid.i invalid.j 0).2.2.1⟩,
            nnz := (MM.read_size (MM.read_banner ls).2.2 invalid.i invalid.j 0).2.2.2.1 }
      else if !(MM.read_banner ls).2.1.is_real || !(MM.read_banner ls).2.1.is_general then
        .throws ("sparse_matrix: cannot read file. sparse_matrix: MatrixMarket only " ++
          "\x22(coordinate|array) real general\x22 supported.")
          { m.clear with
            m_size := ⟨(MM.read_size (MM.read_banner ls).2.2 invalid.i invalid.j 0).2.1,
                       (MM.read_size (MM.read_banner ls).2.2 invalid.i invalid.j 0).2.2.1⟩,
            nnz := (MM.read_size (MM.read_banner ls).2.2 invalid.i invalid.j 0).2.2.2.1 }
      else
        sparse_matrix.initialize_finish BASE S
          { m.clear with
            m_size := ⟨(MM.read_size (MM.read_banner ls).2.2 invalid.i invalid.j 0).2.1,
                       (MM.read_size (MM.read_banner ls).2.2 invalid.i invalid.j 0).2.2.1⟩,
            nnz := (MM.read_size (MM.read_banner ls).2.2 invalid.i invalid.j 0).2.2.2.1,
            entries := (sparse_read_mtx_lines S.lt BASE (MM.read_banner ls).2.1
              ⟨(MM.read_size (MM.read_banner ls).2.2 invalid.i invalid.j 0).2.1,
               (MM.read_size (MM.read_banner ls).2.2 invalid.i invalid.j 0).2.2.1⟩
              (MM.read_size (MM.read_banner ls).2.2 invalid.i invalid.j 0).2.2.2.2
              (⟨⟨BASE, BASE⟩, 0⟩, [])).2 }
    else if file_extension_is _fname ['.', 'c', 's', 'r'] then
      match sparse_read_csr S.lt BASE ls invalid with
      | none => .undefined
      | some r =>
        sparse_matrix.initialize_finish BASE S
          { m.clear with m_size := r.1, entries := r.2 }
    else
      .throws "sparse_matrix: cannot read file. sparse_matrix: file format not detected."
        { m.clear with m_size := invalid }

/-- The `print_level==print_file` branch of `sparse_matrix::print`: the entries
are those of the set, or those that `SORT::uncompress` rebuilds in a temporary
set when the matrix is compressed; the text is the banner, the line
`size.i size.j entries.size()` and one line
`(first.i-BASE+1) (first.j-BASE+1) second` for each entry. -/
def sparse_matrix.print_file {T : Type} (fmt : ostream_format T) (BASE : Nat) (S : SORT T)
    (m : sparse_matrix T) : Option (List (line_t T)) := do
  let es ← if m.is_compressed then S.uncompress m.ia m.ja m.a else some m.entries
  pure (.banner ⟨.coordinate, .real, .general⟩ ::
    .data [fmt.size m.m_size.i, fmt.size m.m_size.j, fmt.size es.length] ::
    es.map (fun e => .data
      [fmt.size (size_t_of_int (Int.ofNat e.first.i - Int.ofNat BASE + 1)),
       fmt.size (size_t_of_int (Int.ofNat e.first.j - Int.ofNat BASE + 1)),
       fmt.value e.second]))

/-- An integer token of the examples: the text of `n`. -/
def example_token (n : Int) : token Int := ⟨some n, some n⟩

/-- A file system of the examples: every path holds `content`, except the path
`none`, which cannot be opened. -/
def example_files (content : List (line_t Int)) (_fname : List Char) :
    Option (List (line_t Int)) :=
  if _fname = ['n', 'o', 'n', 'e'] then none else some content

/-- A flat 3x3 matrix of integers in row orientation, with the values 1 to 9. -/
def example_dense_3x3 : dense_matrix_v Int :=
  ⟨0, ⟨3, 3⟩, .print_auto, [1, 2, 3, 4, 5, 6, 7, 8, 9]⟩

/-! ## `dense_matrix_v`: construction, assignments, `swap` -/

/-- The implicit constructor of `dense_matrix_v`: the base constructor `matrix()`
sets `m_zero` to `quiet_NaN()` (the parameter `nan`), `m_size` to `idx_t()` (the
parameter `size0`, the default extent of the missing `index.hpp`) and `m_print`
to `print_auto`; the vector starts empty. -/
def dense_matrix_v.construct {T : Type} (nan : T) (size0 : idx_t) : dense_matrix_v T :=
  ⟨nan, size0, .print_auto, []⟩

/-- Embedding of `dense_matrix_v::operator=(const dense_matrix_v&)`. -/
def dense_matrix_v.operator_assign_copy {T : Type} (m _other : dense_matrix_v T) :
    dense_matrix_v T :=
  { m with a := _other.a, m_size := _other.m_size }

/-- Embedding of `dense_matrix_v::operator=(const double&)`:
`return initialize(size(0),size(1),_value)`. -/
def dense_matrix_v.operator_assign {double T : Type} (conv : double → T)
    (m : dense_matrix_v T) (_value : double) : dense_matrix_v T :=
  m.initialize_size conv (m.size 0) (m.size 1) _value

/-- Embedding of `dense_matrix_v::swap`: the result is the pair (this, other)
after the exchange of `a` and of the members of the base. -/
def dense_matrix_v.swap {T : Type} (m _other : dense_matrix_v T) :
    dense_matrix_v T × dense_matrix_v T :=
  (⟨_other.m_zero, _other.m_size, _other.m_print, _other.a⟩,
   ⟨m.m_zero, m.m_size, m.m_print, m.a⟩)

/-! ## Sequences of operations on the dense layouts -/

/-- The operations of a dense layout that a caller applies one after the other:
`initialize(i,j,_value)`, `initialize(_vector)`, the write `operator()(i,j) = x`,
`zerorow(i)` and `clear()`. -/
inductive dense_op (double T : Type) where
  | initialize_size (i j : Nat) (_value : double)
  | initialize_vector (_vector : List double)
  | write (i j : Nat) (x : T)
  | zerorow (i : Nat)
  | clear

/-- One operation on a `dense_matrix_v`. -/
def dense_matrix_v.apply {double T : Type} [Zero T] (conv : double → T)
    (ORIENT : orientation_t) (m : dense_matrix_v T) :
    dense_op double T → outcome (dense_matrix_v T)
  | .initialize_size i j _value => .returns (m.initialize_size conv i j _value)
  | .initialize_vector _vector => dense_matrix_v.initialize_vector conv ORIENT m _vector
  | .write i j x => outcome.of_option (m.operator_set ORIENT i j x)
  | .zerorow i => m.zerorow ORIENT i
  | .clear => .returns m.clear

/-- One operation on a `dense_matrix_vv`. -/
def dense_matrix_vv.apply {double T : Type} [Zero T] (conv : double → T)
    (ORIENT : orientation_t) (m : dense_matrix_vv T) :
    dense_op double T → outcome (dense_matrix_vv T)
  | .initialize_size i j _value => .returns (m.initialize_size conv ORIENT i j _value)
  | .initialize_vector _vector => dense_matrix_vv.initialize_vector conv ORIENT m _vector
  | .write i j x => outcome.of_option (m.operator_set ORIENT i j x)
  | .zerorow i => m.zerorow ORIENT i
  | .clear => .returns m.clear

/-- A sequence of operations on a `dense_matrix_v`, the caller catching each
exception and going on with the state the matrix is left in.  The result is the
final state and, for each operation, whether it threw; `none` when an
operation accesses a vector outside its bounds. -/
def dense_matrix_v.run {double T : Type} [Zero T] (conv : double → T)
    (ORIENT : orientation_t) :
    List (dense_op double T) → dense_matrix_v T → Option (dense_matrix_v T × List Bool)
  | [], m => some (m, [])
  | op :: ops, m =>
    match m.apply conv ORIENT op with
    | .returns m1 =>
      (dense_matrix_v.run conv ORIENT ops m1).map (fun r => (r.1, false :: r.2))
    | .throws _ m1 =>
      (dense_matrix_v.run conv ORIENT ops m1).map (fun r => (r.1, true :: r.2))
    | .undefined => none

/-- A sequence of operations on a `dense_matrix_vv`, as `dense_matrix_v.run`. -/
def dense_matrix_vv.run {double T : Type} [Zero T] (conv : double → T)
    (ORIENT : orientation_t) :
    List (dense_op double T) → dense_matrix_vv T → Option (dense_matrix_vv T × List Bool)
  | [], m => some (m, [])
  | op :: ops, m =>
    match m.apply conv ORIENT op with
    | .returns m1 =>
      (dense_matrix_vv.run conv ORIENT ops m1).map (fun r => (r.1, false :: r.2))
    | .throws _ m1 =>
      (dense_matrix_vv.run conv ORIENT ops m1).map (fun r => (r.1, true :: r.2))
    | .undefined => none

/-- The extent after an operation on a dense matrix of extent `s`:
`initialize(i,j,_value)` sets a valid `(i,j)` and ignores another one, `clear()`
resets the extent, the other operations keep it. -/
def dense_op.next_size {double T : Type} (s : idx_t) : dense_op double T → idx_t
  | .initialize_size i j _ => if (idx_t.mk i j).is_valid_size then ⟨i, j⟩ else s
  | .clear => s.clear
  | _ => s

/-- Every cell write of the sequence addresses a cell of the extent that the
matrix has when the write is applied, `s` being the extent at the start. -/
def dense_ops_in_range {double T : Type} : List (dense_op double T) → idx_t → Prop
  | [], _ => True
  | op :: ops, s =>
    (match op with
     | .write i j _ => i < s.i ∧ j < s.j
     | _ => True) ∧ dense_ops_in_range ops (op.next_size s)

/-- A flat and a nested dense matrix agree: they have the same extent, each has
the storage of that extent, and every cell of the extent reads the same value
in both. -/
def dense_layouts_agree {T : Type} (ORIENT : orientation_t) (mv : dense_matrix_v T)
    (mvv : dense_matrix_vv T) : Prop :=
  mv.m_size = mvv.m_size ∧ mv.well_formed ∧ mvv.well_formed ORIENT ∧
  ∀ i j, i < mv.m_size.i → j < mv.m_size.j →
    ∃ x, mv.operator_get ORIENT i j = some x ∧ mvv.operator_get ORIENT i j = some x

/-! ## `linearsystem` (`linearsystem.hpp`) and `LAPACK` (`LAPACK.hpp`) -/

/-- The pure virtual functions `A___initialize(i,j,_value)`, `A___clear()`,
`A___zerorow(i)` and `A___size(d)` through which `linearsystem` reaches the
matrix of the derived class, as functions on the state `σ` of that matrix. -/
structure linearsystem.A_functions (σ double : Type) where
  A___initialize_size : σ → Nat → Nat → double → outcome σ
  A___clear : σ → outcome σ
  A___zerorow : σ → Nat → outcome σ
  A___size : σ → Nat → Nat

/-- The components of a linear system: the matrix `m_A` of the derived class
and the vectors `m_b`, `m_x` of `linearsystem`
(`vector_t = dense_matrix_v< T, sort_by_column >`). -/
structure linearsystem (σ T : Type) where
  m_A : σ
  m_b : dense_matrix_v T
  m_x : dense_matrix_v T

/-- The overrides of `LAPACK`, whose matrix is `dense_matrix_v< T >` (column
oriented by default): `A___initialize(i,j,_value) { m_A.initialize(i,j,_value); }`,
`A___clear() { m_A.clear(); }`, `A___zerorow(i) { m_A.zerorow(i); }`,
`A___size(d) { return m_A.size(d); }`. -/
def LAPACK.A_functions {double T : Type} [Zero T] (conv : double → T) :
    linearsystem.A_functions (dense_matrix_v T) double :=
  ⟨fun m i j _value => .returns (m.initialize_size conv i j _value),
   fun m => .returns m.clear,
   fun m i => m.zerorow .sort_by_column i,
   fun m d => m.size d⟩

/-- Embedding of `linearsystem::initialize(i,j,k,_value)`:
`A___initialize(i,j,_value); m_b.initialize(i,k,_value); m_x.initialize(j,k,_value);`. -/
def linearsystem.initialize_size {σ double T : Type} (conv : double → T)
    (F : linearsystem.A_functions σ double) (s : linearsystem σ T) (i j k : Nat)
    (_value : double) : outcome (linearsystem σ T) :=
  match F.A___initialize_size s.m_A i j _value with
  | .returns A1 =>
    .returns ⟨A1, s.m_b.initialize_size conv i k _value, s.m_x.initialize_size conv j k _value⟩
  | .throws what A1 => .throws what ⟨A1, s.m_b, s.m_x⟩
  | .undefined => .undefined

/-- Embedding of `linearsystem::zerorow`:
`A___zerorow(i); m_b.zerorow(i); m_x.zerorow(i);`.  An exception leaves the
components in the state they have when it is thrown. -/
def linearsystem.zerorow {σ double T : Type} [Zero T] (F : linearsystem.A_functions σ double)
    (s : linearsystem σ T) (i : Nat) : outcome (linearsystem σ T) :=
  match F.A___zerorow s.m_A i with
  | .returns A1 =>
    match s.m_b.zerorow .sort_by_column i with
    | .returns b1 =>
      match s.m_x.zerorow .sort_by_column i with
      | .returns x1 => .returns ⟨A1, b1, x1⟩
      | .throws what x1 => .throws what ⟨A1, b1, x1⟩
      | .undefined => .undefined
    | .throws what b1 => .throws what ⟨A1, b1, s.m_x⟩
    | .undefined => .undefined
  | .throws what A1 => .throws what ⟨A1, s.m_b, s.m_x⟩
  | .undefined => .undefined

/-- Embedding of `linearsystem::size(d)`:
`d<2 ? A___size(d) : (d==2 ? m_b.size(1) : 0)`. -/
def linearsystem.size {σ double T : Type} (F : linearsystem.A_functions σ double)
    (s : linearsystem σ T) (d : Nat) : Nat :=
  if d < 2 then F.A___size s.m_A d else if d = 2 then s.m_b.size 1 else 0

/-- Embedding of `linearsystem::consistent`: `true`, or the message of the
exception thrown. -/
def linearsystem.consistent (Ai Aj bi bj xi xj : Nat) : Except String Bool :=
  if Ai ≠ bi ∨ Aj ≠ xi ∨ bj ≠ xj then
    .error ("linearsystem: size is not consistent: A(" ++ toString Ai ++ "x" ++ toString Aj ++
      ") x(" ++ toString xi ++ "x" ++ toString xj ++ ") = b(" ++ toString bi ++ "x" ++
      toString bj ++ ").")
  else .ok true

/-- A linear system of `LAPACK` with a 2x1 matrix, a right-hand side of 2 rows
and a solution of 1 row, every cell 9. -/
def example_linearsystem : linearsystem (dense_matrix_v Int) Int :=
  ⟨⟨0, ⟨2, 1⟩, .print_auto, [9, 9]⟩, ⟨0, ⟨2, 1⟩, .print_auto, [9, 9]⟩,
   ⟨0, ⟨1, 1⟩, .print_auto, [9]⟩⟩

/-- An uncompressed 2x2 `sparse_matrix` of integers in column ordering numbered
from 0, with the four entries `(0,0,1)`, `(1,0,4)`, `(0,1,2)`, `(1,1,3)` and the
sentinel `-1`. -/
def example_sparse_column : sparse_matrix Int :=
  ⟨-1, ⟨2, 2⟩, .print_auto, [⟨⟨0, 0⟩, 1⟩, ⟨⟨1, 0⟩, 4⟩, ⟨⟨0, 1⟩, 2⟩, ⟨⟨1, 1⟩, 3⟩], [], [], [],
    0, 0⟩

/-- The loop `for (bool modif=true; modif;)` together with the counter `nmodif`,
incremented once for each pass that inserts a mirrored entry; `fuel` bounds the
number of passes as in `mirror_loop`. -/
def sparse_matrix.mirror_loop_nmodif {T : Type} [Zero T]
    (lt : coord_t T → coord_t T → Bool) :
    Nat → List (coord_t T) → Nat → Option (List (coord_t T) × Nat)
  | 0, _, _ => none
  | fuel + 1, es, nmodif =>
    if (sparse_matrix.mirror_scan lt es es.reverse).2 then
      sparse_matrix.mirror_loop_nmodif lt fuel (sparse_matrix.mirror_scan lt es es.reverse).1
        (nmodif + 1)
    else some ((sparse_matrix.mirror_scan lt es es.reverse).1, nmodif)

/-! ## Theorems -/

theorem set_insert_append {α : Type} (lt : α → α → Bool) (p : α) (es : List α)
    (h : ∀ e ∈ es, lt e p = true ∧ lt p e = false) :
    set_insert lt p es = (es ++ [p], true) := by
  induction es with
  | nil => rfl
  | cons e es ih =>
    have he := h e (List.mem_cons_self _ _)
    have ih1 := ih (fun x hx => h x (List.mem_cons_of_mem _ hx))
    simp [set_insert, he.1, he.2, ih1]

theorem sort_by_row_t.lt_asymm {T : Type} (a b : coord_t T)
    (h : sort_by_row_t.lt a b = true) : sort_by_row_t.lt b a = false := by
  unfold sort_by_row_t.lt at h ⊢
  split_ifs at h ⊢ <;> simp_all
  all_goals omega

theorem sort_by_row_t.lt_row_le {T : Type} (a b : coord_t T)
    (h : sort_by_row_t.lt a b = true) : a.first.i ≤ b.first.i := by
  unfold sort_by_row_t.lt at h
  split_ifs at h
  all_goals simp_all
  all_goals omega

theorem sort_by_row_t.compress_inner_eq {T : Type} (r : Nat) (it : List (coord_t T))
    (ja : List Int) (a : List T) (count : Nat) :
    sort_by_row_t.compress_inner r it ja a count =
      (it.dropWhile (fun e => decide (r = e.first.i)),
       ja ++ (it.takeWhile (fun e => decide (r = e.first.i))).map (fun e => Int.ofNat e.first.j),
       a ++ (it.takeWhile (fun e => decide (r = e.first.i))).map (fun e => e.second),
       count + (it.takeWhile (fun e => decide (r = e.first.i))).length) := by
  induction it generalizing ja a count with
  | nil => simp [sort_by_row_t.compress_inner]
  | cons e it ih =>
    by_cases h : r = e.first.i
    · subst h
      simp [sort_by_row_t.compress_inner, ih, List.takeWhile_cons, List.dropWhile_cons]
      omega
    · simp [sort_by_row_t.compress_inner, h, List.takeWhile_cons, List.dropWhile_cons]

theorem sort_by_row_t.compress_outer_extends {T : Type} (n r : Nat) (it : List (coord_t T))
    (ia ja : List Int) (a : List T) :
    ∃ x y z, sort_by_row_t.compress_outer n r it ia ja a = (ia ++ x, ja ++ y, a ++ z) := by
  induction n generalizing r it ia ja a with
  | zero => exact ⟨[], [], [], by simp [sort_by_row_t.compress_outer]⟩
  | succ n ih =>
    simp only [sort_by_row_t.compress_outer, sort_by_row_t.compress_inner_eq]
    obtain ⟨x, y, z, h⟩ := ih (r + 1) (it.dropWhile (fun e => decide (r = e.first.i)))
      (ia ++ [ia.getLastD 0 + Int.ofNat (0 + (it.takeWhile (fun e => decide (r = e.first.i))).length)])
      (ja ++ (it.takeWhile (fun e => decide (r = e.first.i))).map (fun e => Int.ofNat e.first.j))
      (a ++ (it.takeWhile (fun e => decide (r = e.first.i))).map (fun e => e.second))
    rw [h]
    simp only [List.append_assoc]
    exact ⟨_, _, _, rfl⟩

theorem vec_at_append_ofNat {α : Type} (xs ys : List α) (y : α) :
    vec_at (xs ++ y :: ys) (Int.ofNat xs.length) = some y := by
  have h : (xs ++ y :: ys)[xs.length]? = some y := by
    induction xs <;> simp_all
  have h0 : ¬ (Int.ofNat xs.length < 0) := by simp
  have h1 : (Int.ofNat xs.length).toNat = xs.length := rfl
  simp only [vec_at, h0, if_false, h1, h]

theorem vec_get_append {α : Type} (xs ys : List α) (y : α) :
    vec_get (xs ++ y :: ys) xs.length = some y := by
  have h : (xs ++ y :: ys)[xs.length]? = some y := by
    induction xs <;> simp_all
  simp only [vec_get, h]

/-- The inner loop of `uncompress`, run over a block `B` of entries of one row that
is stored at position `jaP.length` of the arrays, appends `B` to the set. -/
theorem sort_by_row_t.uncompress_inner_block {T : Type} (B : List (coord_t T)) :
    ∀ (es : List (coord_t T)) (jaP Y : List Int) (aP Z : List T) (row : Int),
      jaP.length = aP.length →
      (es ++ B).Pairwise (fun x y => sort_by_row_t.lt x y = true) →
      (∀ e ∈ B, e.first.i = row.toNat) →
      sort_by_row_t.uncompress_inner (jaP ++ B.map (fun e => Int.ofNat e.first.j) ++ Y)
        (aP ++ B.map (fun e => e.second) ++ Z) row B.length (Int.ofNat jaP.length) es
        = some (es ++ B) := by
  induction B with
  | nil => intro es jaP Y aP Z row _ _ _; simp [sort_by_row_t.uncompress_inner]
  | cons b B ih =>
    intro es jaP Y aP Z row hlen hsorted hrow
    have hb := hrow b (List.mem_cons_self _ _)
    have h1 : vec_at (jaP ++ List.map (fun e => Int.ofNat e.first.j) (b :: B) ++ Y)
        (Int.ofNat jaP.length) = some (Int.ofNat b.first.j) := by
      simpa using vec_at_append_ofNat jaP (List.map (fun e => Int.ofNat e.first.j) B ++ Y)
        (Int.ofNat b.first.j)
    have h2 : vec_at (aP ++ List.map (fun e => e.second) (b :: B) ++ Z)
        (Int.ofNat jaP.length) = some b.second := by
      rw [hlen]
      simpa using vec_at_append_ofNat aP (List.map (fun e => e.second) B ++ Z) b.second
    have hbeq : (⟨⟨row.toNat, (Int.ofNat b.first.j).toNat⟩, b.second⟩ : coord_t T) = b := by
      cases b with
      | mk f s => cases f with
        | mk bi bj => simp at hb; simp [hb]
    have hbeq1 : (⟨⟨row.toNat, b.first.j⟩, b.second⟩ : coord_t T) = b := by
      simpa using hbeq
    have hins : set_insert sort_by_row_t.lt b es = (es ++ [b], true) := by
      apply set_insert_append
      intro e he
      have hlt : sort_by_row_t.lt e b = true :=
        (List.pairwise_append.mp hsorted).2.2 e he b (List.mem_cons_self _ _)
      exact ⟨hlt, sort_by_row_t.lt_asymm _ _ hlt⟩
    have hnext := ih (es ++ [b]) (jaP ++ [Int.ofNat b.first.j]) Y (aP ++ [b.second]) Z row
      (by simp [hlen]) (by simpa using hsorted)
      (fun e he => hrow e (List.mem_cons_of_mem _ he))
    simp only [List.length_cons, sort_by_row_t.uncompress_inner, h1, h2, hbeq, hins]
    have hk : Int.ofNat jaP.length + 1 = Int.ofNat (jaP ++ [Int.ofNat b.first.j]).length := by
      simp
    simp only [bind, Option.bind, hk]
    simpa [hbeq1, hins] using hnext

theorem sort_by_row_t.dropWhile_rows {T : Type} (r : Nat) (it : List (coord_t T))
    (hsorted : set_sorted sort_by_row_t.lt it)
    (hge : ∀ e ∈ it, r ≤ e.first.i) :
    ∀ e ∈ it.dropWhile (fun e => decide (r = e.first.i)), r + 1 ≤ e.first.i := by
  induction it with
  | nil => simp
  | cons e it ih =>
    have htail := ih (List.Pairwise.of_cons hsorted)
      (fun x hx => hge x (List.mem_cons_of_mem _ hx))
    by_cases h : r = e.first.i
    · simpa [List.dropWhile_cons, h] using htail
    · have he := hge e (List.mem_cons_self _ _)
      intro x hx
      simp only [List.dropWhile_cons, h, decide_False] at hx
      rcases List.mem_cons.mp hx with hxe | hxt
      · subst hxe; omega
      · have := sort_by_row_t.lt_row_le _ _ ((List.pairwise_cons.mp hsorted).1 x hxt)
        omega

theorem sort_by_row_t.takeWhile_rows {T : Type} (r : Nat) (it : List (coord_t T)) :
    ∀ e ∈ it.takeWhile (fun e => decide (r = e.first.i)), e.first.i = r := by
  intro e he
  have := List.mem_takeWhile_imp he
  simpa [eq_comm] using this

/-- Loop invariant linking the outer loops of `compress` and `uncompress`: when
`compress` is resumed at row `r` with the entries `it` left and `uncompress` is
run from bucket `i` on the arrays that `compress` ends with, the set `es`
rebuilt so far grows to `es ++ it`. -/
theorem sort_by_row_t.uncompress_outer_compress_outer {T : Type} (n : Nat) :
    ∀ (r : Nat) (it : List (coord_t T)) (ia ja : List Int) (a : List T)
      (es : List (coord_t T)) (i : Nat) (base : Int) (iaP : List Int),
      (es ++ it).Pairwise (fun x y => sort_by_row_t.lt x y = true) →
      (∀ e ∈ it, r ≤ e.first.i ∧ e.first.i < r + n) →
      ia = iaP ++ [base + Int.ofNat ja.length] → iaP.length = i →
      ja.length = a.length → Int.ofNat r = Int.ofNat i + base →
      sort_by_row_t.uncompress_outer (sort_by_row_t.compress_outer n r it ia ja a).1
        (sort_by_row_t.compress_outer n r it ia ja a).2.1
        (sort_by_row_t.compress_outer n r it ia ja a).2.2 base n i es = some (es ++ it) := by
  induction n with
  | zero =>
    intro r it ia ja a es i base iaP _ hrange _ _ _ _
    have : it = [] := by
      cases it with
      | nil => rfl
      | cons e it => have := hrange e (List.mem_cons_self _ _); omega
    simp [this, sort_by_row_t.uncompress_outer]
  | succ n ih =>
    intro r it ia ja a es i base iaP hsorted hrange hia hi hlen hr
    have hsplit : it.takeWhile (fun e => decide (r = e.first.i)) ++
        it.dropWhile (fun e => decide (r = e.first.i)) = it := List.takeWhile_append_dropWhile _ _
    generalize hB : it.takeWhile (fun e => decide (r = e.first.i)) = B at hsplit
    generalize hD : it.dropWhile (fun e => decide (r = e.first.i)) = D at hsplit
    have hBrow : ∀ e ∈ B, e.first.i = r := by
      rw [← hB]; exact sort_by_row_t.takeWhile_rows r it
    have hitsorted : it.Pairwise (fun x y => sort_by_row_t.lt x y = true) :=
      (List.pairwise_append.mp hsorted).2.1
    have hDrow : ∀ e ∈ D, r + 1 ≤ e.first.i := by
      rw [← hD]
      exact sort_by_row_t.dropWhile_rows r it hitsorted (fun e he => (hrange e he).1)
    have hback : ia.getLastD 0 = base + Int.ofNat ja.length := by
      rw [hia]; simp [List.getLastD_eq_getLast?]
    simp only [sort_by_row_t.compress_outer, sort_by_row_t.compress_inner_eq, hB, hD, hback,
      Nat.zero_add]
    obtain ⟨x, y, z, hext⟩ := sort_by_row_t.compress_outer_extends n (r + 1) D
      (ia ++ [base + Int.ofNat ja.length + Int.ofNat B.length])
      (ja ++ B.map (fun e => Int.ofNat e.first.j)) (a ++ B.map (fun e => e.second))
    have hrec := ih (r + 1) D (ia ++ [base + Int.ofNat ja.length + Int.ofNat B.length])
      (ja ++ B.map (fun e => Int.ofNat e.first.j)) (a ++ B.map (fun e => e.second))
      (es ++ B) (i + 1) base ia
      (by rw [List.append_assoc, hsplit]; exact hsorted)
      (fun e he => by
        have h1 := hDrow e he
        have h2 := (hrange e (by rw [← hsplit]; exact List.mem_append_right _ he)).2
        omega)
      (by simp [Int.add_assoc])
      (by rw [hia]; simp [hi])
      (by simp [hlen])
      (by simp only [Int.ofNat_eq_coe] at hr ⊢; push_cast; omega)
    rw [hext] at hrec ⊢
    simp only at hrec ⊢
    have hlo : vec_get (ia ++ [base + Int.ofNat ja.length + Int.ofNat B.length] ++ x) i
        = some (base + Int.ofNat ja.length) := by
      rw [hia, ← hi]
      simpa using vec_get_append iaP
        ([base + Int.ofNat ja.length + Int.ofNat B.length] ++ x) (base + Int.ofNat ja.length)
    have hhi : vec_get (ia ++ [base + Int.ofNat ja.length + Int.ofNat B.length] ++ x) (i + 1)
        = some (base + Int.ofNat ja.length + Int.ofNat B.length) := by
      have hl : ia.length = i + 1 := by rw [hia]; simp [hi]
      rw [← hl]
      simpa using vec_get_append ia x (base + Int.ofNat ja.length + Int.ofNat B.length)
    have hstart : base + Int.ofNat ja.length - base = Int.ofNat ja.length := by ring
    have hcount : (base + Int.ofNat ja.length + Int.ofNat B.length - base
        - Int.ofNat ja.length).toNat = B.length := by
      have : base + Int.ofNat ja.length + Int.ofNat B.length - base
        - Int.ofNat ja.length = Int.ofNat B.length := by ring
      rw [this]; rfl
    have hblock := sort_by_row_t.uncompress_inner_block B es ja y a z (Int.ofNat i + base) hlen
      (by
        have := hsorted
        rw [← hsplit, ← List.append_assoc] at this
        exact (List.pairwise_append.mp this).1)
      (fun e he => by
        rw [hBrow e he, ← hr]; rfl)
    simp only [sort_by_row_t.uncompress_outer, hlo, hhi, hstart, hcount, bind, Option.bind,
      hblock]
    rw [← hsplit, ← List.append_assoc]
    exact hrec

theorem sort_by_row_t.compress_outer_length {T : Type} (n r : Nat) (it : List (coord_t T))
    (ia ja : List Int) (a : List T) :
    (sort_by_row_t.compress_outer n r it ia ja a).1.length = ia.length + n := by
  induction n generalizing r it ia ja a with
  | zero => simp [sort_by_row_t.compress_outer]
  | succ n ih =>
    simp only [sort_by_row_t.compress_outer, ih, List.length_append, List.length_singleton]
    omega

theorem sort_by_row_t.rows_between {T : Type} (e l : coord_t T) (es : List (coord_t T))
    (hsorted : set_sorted sort_by_row_t.lt (e :: es)) (hl : (e :: es).getLast? = some l) :
    ∀ x ∈ e :: es, e.first.i ≤ x.first.i ∧ x.first.i ≤ l.first.i := by
  intro x hx
  constructor
  · rcases List.mem_cons.mp hx with h | h
    · rw [h]
    · exact sort_by_row_t.lt_row_le _ _ ((List.pairwise_cons.mp hsorted).1 x h)
  · obtain ⟨ys, hys⟩ := List.getLast?_eq_some_iff.mp hl
    rw [hys] at hx hsorted
    rcases List.mem_append.mp hx with h | h
    · exact sort_by_row_t.lt_row_le _ _
        ((List.pairwise_append.mp hsorted).2.2 x h l (List.mem_singleton_self _))
    · rw [List.mem_singleton.mp h]

/-- C1 (round trip, row-major comparator): for every non-empty entry set `S`
ordered by `sort_by_row_t` (so with unique coordinates), `compress` succeeds and
`uncompress` applied to the arrays it produced rebuilds exactly `S`, coordinates
and values, whatever the smallest row index of `S` is; and the same holds through
`sparse_matrix::compress` followed by `sparse_matrix::uncompress`. -/
theorem sort_by_row_t.uncompress_compress {T : Type} (S : List (coord_t T))
    (hsorted : set_sorted sort_by_row_t.lt S) (hne : S ≠ []) :
    (∃ c, sort_by_row_t.compress S = some c ∧
      sort_by_row_t.uncompress c.ia c.ja c.a = some S) ∧
    (∀ m : sparse_matrix T, m.entries = S → m.is_compressed = false →
      ∃ m1 m2, m.compress (sort_by_row_t.SORT T) = some m1 ∧ m1.is_compressed = true ∧
        m1.entries = [] ∧ m1.uncompress (sort_by_row_t.SORT T) = some m2 ∧
        m2.entries = S ∧ m2.is_compressed = false) := by
  cases S with
  | nil => exact absurd rfl hne
  | cons e es =>
    obtain ⟨l, hl⟩ : ∃ l, (e :: es).getLast? = some l :=
      ⟨(e :: es).getLast (by simp), List.getLast?_eq_getLast _ _⟩
    have hrows := sort_by_row_t.rows_between e l es hsorted hl
    have hn : l.first.i + 1 - e.first.i = (l.first.i - e.first.i) + 1 := by
      have := (hrows e (List.mem_cons_self _ _)).2
      omega
    have hcomp : sort_by_row_t.compress (e :: es) = some
        ⟨(sort_by_row_t.compress_outer (l.first.i + 1 - e.first.i) e.first.i (e :: es)
            [Int.ofNat e.first.i] [] []).1,
         (sort_by_row_t.compress_outer (l.first.i + 1 - e.first.i) e.first.i (e :: es)
            [Int.ofNat e.first.i] [] []).2.1,
         (sort_by_row_t.compress_outer (l.first.i + 1 - e.first.i) e.first.i (e :: es)
            [Int.ofNat e.first.i] [] []).2.2,
         Int.ofNat (sort_by_row_t.compress_outer (l.first.i + 1 - e.first.i) e.first.i (e :: es)
            [Int.ofNat e.first.i] [] []).1.length - 1,
         Int.ofNat (e :: es).length⟩ := by
      simp only [sort_by_row_t.compress, hl]
    have hinv := sort_by_row_t.uncompress_outer_compress_outer (l.first.i + 1 - e.first.i)
      e.first.i (e :: es) [Int.ofNat e.first.i] [] [] [] 0 (Int.ofNat e.first.i) []
      hsorted
      (fun x hx => by have := hrows x hx; omega)
      (by simp) rfl rfl (by simp)
    have hlen := sort_by_row_t.compress_outer_length (l.first.i + 1 - e.first.i) e.first.i
      (e :: es) [Int.ofNat e.first.i] [] ([] : List T)
    obtain ⟨x, y, z, hext⟩ := sort_by_row_t.compress_outer_extends (l.first.i + 1 - e.first.i)
      e.first.i (e :: es) [Int.ofNat e.first.i] [] ([] : List T)
    have hunc : sort_by_row_t.uncompress
        (sort_by_row_t.compress_outer (l.first.i + 1 - e.first.i) e.first.i (e :: es)
            [Int.ofNat e.first.i] [] []).1
        (sort_by_row_t.compress_outer (l.first.i + 1 - e.first.i) e.first.i (e :: es)
            [Int.ofNat e.first.i] [] []).2.1
        (sort_by_row_t.compress_outer (l.first.i + 1 - e.first.i) e.first.i (e :: es)
            [Int.ofNat e.first.i] [] []).2.2 = some (e :: es) := by
      have hinv1 := hinv
      rw [hext] at hlen
      rw [hext] at hinv1 ⊢
      simp only [List.singleton_append, List.length_cons, List.length_nil] at hlen
      simp only [List.singleton_append, sort_by_row_t.uncompress, List.length_cons,
        Nat.add_sub_cancel]
      have hx : x.length = l.first.i + 1 - e.first.i := by omega
      rw [hx]
      simpa using hinv1
    refine ⟨⟨_, hcomp, hunc⟩, ?_⟩
    intro m hm hnc
    generalize hC : sort_by_row_t.compress_outer (l.first.i + 1 - e.first.i) e.first.i
        (e :: es) [Int.ofNat e.first.i] [] [] = C at hcomp hunc hlen
    have hnnu : Int.ofNat C.1.length - 1 ≠ 0 := by
      rw [hlen]
      simp only [Int.ofNat_eq_coe, List.length_singleton]
      push_cast
      omega
    refine ⟨⟨m.m_zero, m.m_size, m.m_print, [], C.2.2, C.1, C.2.1, Int.ofNat C.1.length - 1,
              Int.ofNat (e :: es).length⟩,
            ⟨m.m_zero, m.m_size, m.m_print, e :: es, [], [], [], 0, 0⟩,
            ?_, ?_, rfl, ?_, rfl, ?_⟩
    · simp only [sparse_matrix.compress, hnc, sort_by_row_t.SORT, hm, hcomp]
      rfl
    · simp only [sparse_matrix.is_compressed]
      exact decide_eq_true hnnu
    · have hd : decide (Int.ofNat C.1.length - 1 ≠ 0) = true := decide_eq_true hnnu
      simp only [sparse_matrix.uncompress, sparse_matrix.is_compressed, hd,
        sort_by_row_t.SORT, hunc, if_true]
      rfl
    · simp [sparse_matrix.is_compressed]

/-! ### The ordered set -/

theorem set_insert_false {α : Type} (lt : α → α → Bool) (p : α) (es : List α)
    (h : (set_insert lt p es).2 = false) : (set_insert lt p es).1 = es := by
  induction es with
  | nil => simp [set_insert] at h
  | cons e es ih =>
    by_cases h1 : lt p e = true
    · simp [set_insert, h1] at h
    · by_cases h2 : lt e p = true
      · simp only [set_insert, h1, h2, if_true, if_false] at h ⊢
        simp [ih h]
      · simp [set_insert, h1, h2]

theorem set_insert_false_equiv {α : Type} (lt : α → α → Bool) (p : α) (es : List α)
    (h : (set_insert lt p es).2 = false) : ∃ e ∈ es, lt e p = false ∧ lt p e = false := by
  induction es with
  | nil => simp [set_insert] at h
  | cons e es ih =>
    by_cases h1 : lt p e = true
    · simp [set_insert, h1] at h
    · by_cases h2 : lt e p = true
      · simp only [set_insert, h1, h2, if_true, if_false] at h
        obtain ⟨x, hx, hx1⟩ := ih h
        exact ⟨x, List.mem_cons_of_mem _ hx, hx1⟩
      · exact ⟨e, List.mem_cons_self _ _, by simpa using h2, by simpa using h1⟩

theorem set_insert_perm {α : Type} (lt : α → α → Bool) (p : α) (es : List α)
    (h : (set_insert lt p es).2 = true) : List.Perm (set_insert lt p es).1 (p :: es) := by
  induction es with
  | nil => simp [set_insert]
  | cons e es ih =>
    by_cases h1 : lt p e = true
    · simp [set_insert, h1]
    · by_cases h2 : lt e p = true
      · simp only [set_insert, h1, h2, if_true, if_false] at h ⊢
        exact ((ih h).cons e).trans (List.Perm.swap p e es)
      · simp [set_insert, h1, h2] at h

theorem set_insert_mem {α : Type} (lt : α → α → Bool) (p : α) (es : List α) (x : α) :
    x ∈ (set_insert lt p es).1 ↔ x ∈ es ∨ ((set_insert lt p es).2 = true ∧ x = p) := by
  cases h : (set_insert lt p es).2 with
  | false => rw [set_insert_false lt p es h]; simp
  | true =>
    rw [(set_insert_perm lt p es h).mem_iff]
    simp only [List.mem_cons, true_and]
    tauto

theorem set_insert_subset {α : Type} (lt : α → α → Bool) (p : α) (es : List α) (x : α)
    (h : x ∈ es) : x ∈ (set_insert lt p es).1 :=
  (set_insert_mem lt p es x).mpr (Or.inl h)

theorem set_insert_sorted {α : Type} (lt : α → α → Bool)
    (htrans : ∀ a b c : α, lt a b = true → lt b c = true → lt a c = true)
    (p : α) (es : List α) (h : set_sorted lt es) : set_sorted lt (set_insert lt p es).1 := by
  induction es with
  | nil => simp [set_insert, set_sorted]
  | cons e es ih =>
    have hcons := List.pairwise_cons.mp h
    by_cases h1 : lt p e = true
    · simp only [set_insert, h1, if_true]
      refine List.pairwise_cons.mpr ⟨?_, h⟩
      intro x hx
      rcases List.mem_cons.mp hx with hxe | hxt
      · rw [hxe]; exact h1
      · exact htrans _ _ _ h1 (hcons.1 x hxt)
    · by_cases h2 : lt e p = true
      · simp only [set_insert, h1, h2, if_true, if_false]
        refine List.pairwise_cons.mpr ⟨?_, ih hcons.2⟩
        intro x hx
        rcases (set_insert_mem lt p es x).mp hx with hxt | ⟨_, hxp⟩
        · exact hcons.1 x hxt
        · rw [hxp]; exact h2
      · simpa [set_insert, h1, h2] using h

theorem coord_order.ne_of_lt {T : Type} {lt : coord_t T → coord_t T → Bool}
    (hlt : coord_order lt) (a b : coord_t T) (h : lt a b = true) : a.first ≠ b.first := by
  intro hab
  have := hlt.key a b b b hab rfl
  rw [hlt.irrefl b] at this
  rw [this] at h
  exact Bool.noConfusion h

theorem set_insert_true_fresh {T : Type} {lt : coord_t T → coord_t T → Bool}
    (hlt : coord_order lt) (p : coord_t T) (es : List (coord_t T)) (hs : set_sorted lt es)
    (h : (set_insert lt p es).2 = true) : ∀ e ∈ es, e.first ≠ p.first := by
  induction es with
  | nil => simp
  | cons e es ih =>
    have hcons := List.pairwise_cons.mp hs
    by_cases h1 : lt p e = true
    · intro x hx
      rcases List.mem_cons.mp hx with hxe | hxt
      · rw [hxe]; exact (hlt.ne_of_lt p e h1).symm
      · exact (hlt.ne_of_lt p x (hlt.trans _ _ _ h1 (hcons.1 x hxt))).symm
    · by_cases h2 : lt e p = true
      · simp only [set_insert, h1, h2, if_true, if_false] at h
        intro x hx
        rcases List.mem_cons.mp hx with hxe | hxt
        · rw [hxe]; exact hlt.ne_of_lt e p h2
        · exact ih hcons.2 h x hxt
      · simp [set_insert, h1, h2] at h

theorem sort_by_row_t.coord_order_row (T : Type) :
    coord_order (sort_by_row_t.lt : coord_t T → coord_t T → Bool) where
  key := by
    intro a b a1 b1 ha hb
    simp only [sort_by_row_t.lt, ha, hb]
  irrefl := by
    intro a
    simp [sort_by_row_t.lt]
  trans := by
    intro a b c hab hbc
    unfold sort_by_row_t.lt at hab hbc ⊢
    split_ifs at hab hbc ⊢ <;> simp_all
    all_goals omega
  total := by
    intro a b hab hba
    unfold sort_by_row_t.lt at hab hba
    have h1 : a.first.i = b.first.i ∧ a.first.j = b.first.j := by
      split_ifs at hab hba
      all_goals simp_all
      all_goals omega
    cases a with
    | mk fa sa => cases b with
      | mk fb sb => cases fa; cases fb; simp_all

theorem sort_by_column_t.coord_order_column (T : Type) :
    coord_order (sort_by_column_t.lt : coord_t T → coord_t T → Bool) where
  key := by
    intro a b a1 b1 ha hb
    simp only [sort_by_column_t.lt, ha, hb]
  irrefl := by
    intro a
    simp [sort_by_column_t.lt]
  trans := by
    intro a b c hab hbc
    unfold sort_by_column_t.lt at hab hbc ⊢
    split_ifs at hab hbc ⊢ <;> simp_all
    all_goals omega
  total := by
    intro a b hab hba
    unfold sort_by_column_t.lt at hab hba
    have h1 : a.first.i = b.first.i ∧ a.first.j = b.first.j := by
      split_ifs at hab hba
      all_goals simp_all
      all_goals omega
    cases a with
    | mk fa sa => cases b with
      | mk fb sb => cases fa; cases fb; simp_all

/-! ### Symmetry augmentation -/

theorem sparse_matrix.mirror_scan_true {T : Type} [Zero T] (lt : coord_t T → coord_t T → Bool)
    (cs es : List (coord_t T)) (h : (sparse_matrix.mirror_scan lt es cs).2 = true) :
    ∃ c ∈ cs, (set_insert lt ⟨⟨c.first.j, c.first.i⟩, 0⟩ es).2 = true ∧
      (sparse_matrix.mirror_scan lt es cs).1 = (set_insert lt ⟨⟨c.first.j, c.first.i⟩, 0⟩ es).1 := by
  induction cs with
  | nil => simp [sparse_matrix.mirror_scan] at h
  | cons c cs ih =>
    cases hc : (set_insert lt ⟨⟨c.first.j, c.first.i⟩, 0⟩ es).2 with
    | true =>
      exact ⟨c, List.mem_cons_self _ _, hc, by simp [sparse_matrix.mirror_scan, hc]⟩
    | false =>
      have hes := set_insert_false lt _ es hc
      simp only [sparse_matrix.mirror_scan, hc, hes] at h ⊢
      obtain ⟨x, hx, hx1⟩ := ih h
      exact ⟨x, List.mem_cons_of_mem _ hx, by simpa using hx1⟩

theorem sparse_matrix.mirror_scan_false {T : Type} [Zero T] (lt : coord_t T → coord_t T → Bool)
    (cs es : List (coord_t T)) (h : (sparse_matrix.mirror_scan lt es cs).2 = false) :
    (sparse_matrix.mirror_scan lt es cs).1 = es ∧
      ∀ c ∈ cs, (set_insert lt ⟨⟨c.first.j, c.first.i⟩, 0⟩ es).2 = false := by
  induction cs with
  | nil => simp [sparse_matrix.mirror_scan]
  | cons c cs ih =>
    cases hc : (set_insert lt ⟨⟨c.first.j, c.first.i⟩, 0⟩ es).2 with
    | true => simp [sparse_matrix.mirror_scan, hc] at h
    | false =>
      have hes := set_insert_false lt _ es hc
      simp only [sparse_matrix.mirror_scan, hc, hes] at h ⊢
      obtain ⟨h1, h2⟩ := ih h
      refine ⟨by simpa using h1, ?_⟩
      intro x hx
      rcases List.mem_cons.mp hx with hxc | hxt
      · rw [hxc]; exact hc
      · exact h2 x hxt

theorem countP_lt_of_imp {α : Type} (q1 q2 : α → Bool) (l : List α)
    (himp : ∀ x ∈ l, q1 x = true → q2 x = true)
    (hex : ∃ x ∈ l, q2 x = true ∧ q1 x = false) : l.countP q1 < l.countP q2 := by
  induction l with
  | nil => simp at hex
  | cons a l ih =>
    obtain ⟨x, hx, hx2, hx1⟩ := hex
    have hle : l.countP q1 ≤ l.countP q2 :=
      List.countP_mono_left (fun y hy => himp y (List.mem_cons_of_mem _ hy))
    rcases List.mem_cons.mp hx with hxa | hxl
    · subst hxa
      simp only [List.countP_cons, hx1, hx2]
      simp only [Bool.false_eq_true, if_false, if_true]
      omega
    · have hlt := ih (fun y hy => himp y (List.mem_cons_of_mem _ hy)) ⟨x, hxl, hx2, hx1⟩
      have ha := himp a (List.mem_cons_self _ _)
      simp only [List.countP_cons]
      cases hq1 : q1 a with
      | true =>
        rw [ha hq1]
        simp only [if_true]
        omega
      | false =>
        cases hq2 : q2 a with
        | true => simp only [Bool.false_eq_true, if_false, if_true]; omega
        | false => simp only [Bool.false_eq_true, if_false]; omega

/-- A pass that inserts the mirror of an entry leaves one missing mirror less at
least. -/
theorem sparse_matrix.missing_mirrors_insert {T : Type} [Zero T]
    {lt : coord_t T → coord_t T → Bool} (hlt : coord_order lt) (es : List (coord_t T))
    (hs : set_sorted lt es) (c : coord_t T) (hc : c ∈ es)
    (h : (set_insert lt ⟨⟨c.first.j, c.first.i⟩, 0⟩ es).2 = true) :
    sparse_matrix.missing_mirrors (set_insert lt ⟨⟨c.first.j, c.first.i⟩, 0⟩ es).1
      < sparse_matrix.missing_mirrors es := by
  have hfresh := set_insert_true_fresh hlt _ es hs h
  have hperm := set_insert_perm lt _ es h
  generalize hes1 : (set_insert lt ⟨⟨c.first.j, c.first.i⟩, 0⟩ es).1 = es1 at hperm
  have hmem : ∀ x, x ∈ es1 ↔ x = (⟨⟨c.first.j, c.first.i⟩, 0⟩ : coord_t T) ∨ x ∈ es := by
    intro x; rw [hperm.mem_iff]; simp
  unfold sparse_matrix.missing_mirrors
  rw [hperm.countP_eq]
  have hp : decide (∀ e ∈ es1, e.first ≠
      ⟨(⟨⟨c.first.j, c.first.i⟩, 0⟩ : coord_t T).first.j,
       (⟨⟨c.first.j, c.first.i⟩, 0⟩ : coord_t T).first.i⟩) = false := by
    simp only [decide_eq_false_iff_not, not_forall]
    exact ⟨c, (hmem c).mpr (Or.inr hc), by simp⟩
  rw [List.countP_cons, hp]
  simp only [Bool.false_eq_true, if_false, Nat.add_zero]
  apply countP_lt_of_imp
  · intro x _ hx
    simp only [decide_eq_true_eq] at hx ⊢
    intro e he
    exact hx e ((hmem e).mpr (Or.inr he))
  · refine ⟨c, hc, ?_, ?_⟩
    · simp only [decide_eq_true_eq]
      intro e he
      exact hfresh e he
    · simp only [decide_eq_false_iff_not, not_forall]
      exact ⟨⟨⟨c.first.j, c.first.i⟩, 0⟩, (hmem _).mpr (Or.inl rfl), by simp⟩

/-- The fixed-point loop ends within the pass bound and keeps every property `P`
of the set that inserting the mirror of an entry keeps; when it ends no mirror
can be inserted any more. -/
theorem sparse_matrix.mirror_loop_spec {T : Type} [Zero T]
    {lt : coord_t T → coord_t T → Bool} (hlt : coord_order lt)
    (P : List (coord_t T) → Prop)
    (hstep : ∀ (es : List (coord_t T)) (c : coord_t T), P es → set_sorted lt es → c ∈ es →
      (set_insert lt ⟨⟨c.first.j, c.first.i⟩, 0⟩ es).2 = true →
      P (set_insert lt ⟨⟨c.first.j, c.first.i⟩, 0⟩ es).1) :
    ∀ (fuel : Nat) (es : List (coord_t T)), set_sorted lt es → P es →
      sparse_matrix.missing_mirrors es < fuel →
      ∃ R, sparse_matrix.mirror_loop lt fuel es = some R ∧ P R ∧ set_sorted lt R ∧
        ∀ c ∈ R, (set_insert lt ⟨⟨c.first.j, c.first.i⟩, 0⟩ R).2 = false := by
  intro fuel
  induction fuel with
  | zero => intro es _ _ h; omega
  | succ fuel ih =>
    intro es hs hP hfuel
    cases hscan : (sparse_matrix.mirror_scan lt es es.reverse).2 with
    | true =>
      obtain ⟨c, hc, hins, heq⟩ := sparse_matrix.mirror_scan_true lt es.reverse es hscan
      have hc1 : c ∈ es := List.mem_reverse.mp hc
      have hdec := sparse_matrix.missing_mirrors_insert hlt es hs c hc1 hins
      obtain ⟨R, hR⟩ := ih (set_insert lt ⟨⟨c.first.j, c.first.i⟩, 0⟩ es).1
        (set_insert_sorted lt hlt.trans _ es hs) (hstep es c hP hs hc1 hins) (by omega)
      refine ⟨R, ?_, hR.2⟩
      simp only [sparse_matrix.mirror_loop, hscan, if_true, heq]
      exact hR.1
    | false =>
      obtain ⟨heq, hall⟩ := sparse_matrix.mirror_scan_false lt es.reverse es hscan
      refine ⟨es, ?_, hP, hs, fun c hc => hall c (List.mem_reverse.mpr hc)⟩
      simp only [sparse_matrix.mirror_loop, hscan, heq]
      simp

theorem sparse_matrix.insert_diagonal_sorted {T : Type} [Zero T]
    {lt : coord_t T → coord_t T → Bool} (hlt : coord_order lt) (BASE : Nat) :
    ∀ (n i : Nat) (es : List (coord_t T)), set_sorted lt es →
      set_sorted lt (sparse_matrix.insert_diagonal lt BASE n i es) := by
  intro n
  induction n with
  | zero => intro i es h; exact h
  | succ n ih =>
    intro i es h
    exact ih (i + 1) _ (set_insert_sorted lt hlt.trans _ es h)

theorem sparse_matrix.insert_diagonal_subset {T : Type} [Zero T]
    (lt : coord_t T → coord_t T → Bool) (BASE : Nat) :
    ∀ (n i : Nat) (es : List (coord_t T)) (x : coord_t T), x ∈ es →
      x ∈ sparse_matrix.insert_diagonal lt BASE n i es := by
  intro n
  induction n with
  | zero => intro i es x h; exact h
  | succ n ih =>
    intro i es x h
    exact ih (i + 1) _ x (set_insert_subset lt _ es x h)

/-- After `set_insert` the set has an entry at the coordinate of the element. -/
theorem set_insert_has_coord {T : Type} {lt : coord_t T → coord_t T → Bool}
    (hlt : coord_order lt) (p : coord_t T) (es : List (coord_t T)) :
    ∃ e ∈ (set_insert lt p es).1, e.first = p.first := by
  cases h : (set_insert lt p es).2 with
  | true => exact ⟨p, (set_insert_mem lt p es p).mpr (Or.inr ⟨h, rfl⟩), rfl⟩
  | false =>
    obtain ⟨e, he, h1, h2⟩ := set_insert_false_equiv lt p es h
    exact ⟨e, set_insert_subset lt p es e he, hlt.total e p h1 h2⟩

theorem sparse_matrix.insert_diagonal_diag {T : Type} [Zero T]
    {lt : coord_t T → coord_t T → Bool} (hlt : coord_order lt) (BASE : Nat) :
    ∀ (n i : Nat) (es : List (coord_t T)) (k : Nat), i ≤ k → k < i + n →
      ∃ e ∈ sparse_matrix.insert_diagonal lt BASE n i es, e.first = ⟨k + BASE, k + BASE⟩ := by
  intro n
  induction n with
  | zero => intro i es k h1 h2; omega
  | succ n ih =>
    intro i es k h1 h2
    by_cases hk : k = i
    · obtain ⟨e, he, hfirst⟩ := set_insert_has_coord hlt
        (⟨⟨i + BASE, i + BASE⟩, 0⟩ : coord_t T) es
      exact ⟨e, sparse_matrix.insert_diagonal_subset lt BASE n (i + 1) _ e he, by
        rw [hk]; exact hfirst⟩
    · exact ih (i + 1) _ k (by omega) (by omega)

theorem sparse_matrix.augmented_from_insert {T : Type} [Zero T]
    {lt : coord_t T → coord_t T → Bool} (hlt : coord_order lt) (BASE rows : Nat)
    (S es : List (coord_t T)) (p : coord_t T) (hQ : sparse_matrix.augmented_from BASE rows S es)
    (hs : set_sorted lt es) (hzero : p.second = 0)
    (hp : (set_insert lt p es).2 = true → ((∃ k, k < rows ∧ p.first = ⟨k + BASE, k + BASE⟩) ∨
      ∃ s ∈ S, p.first = ⟨s.first.j, s.first.i⟩)) :
    sparse_matrix.augmented_from BASE rows S (set_insert lt p es).1 := by
  refine ⟨fun s hsS => set_insert_subset lt p es s (hQ.1 s hsS), ?_⟩
  intro e he
  rcases (set_insert_mem lt p es e).mp he with hold | ⟨hflag, hep⟩
  · exact hQ.2 e hold
  · right
    rw [hep]
    have hfresh := set_insert_true_fresh hlt p es hs hflag
    exact ⟨hzero, fun s hsS => hfresh s (hQ.1 s hsS), hp hflag⟩

theorem sparse_matrix.augmented_from_insert_diagonal {T : Type} [Zero T]
    {lt : coord_t T → coord_t T → Bool} (hlt : coord_order lt) (BASE rows : Nat)
    (S : List (coord_t T)) :
    ∀ (n i : Nat) (es : List (coord_t T)), i + n ≤ rows → set_sorted lt es →
      sparse_matrix.augmented_from BASE rows S es →
      sparse_matrix.augmented_from BASE rows S (sparse_matrix.insert_diagonal lt BASE n i es) := by
  intro n
  induction n with
  | zero => intro i es _ _ h; exact h
  | succ n ih =>
    intro i es hle hs hQ
    exact ih (i + 1) _ (by omega) (set_insert_sorted lt hlt.trans _ es hs)
      (sparse_matrix.augmented_from_insert hlt BASE rows S es _ hQ hs rfl
        (fun _ => Or.inl ⟨i, by omega, rfl⟩))

theorem sparse_matrix.augmented_from_mirror {T : Type} [Zero T]
    {lt : coord_t T → coord_t T → Bool} (hlt : coord_order lt) (BASE rows : Nat)
    (S es : List (coord_t T)) (c : coord_t T) (hQ : sparse_matrix.augmented_from BASE rows S es)
    (hs : set_sorted lt es) (hc : c ∈ es)
    (hflag : (set_insert lt ⟨⟨c.first.j, c.first.i⟩, 0⟩ es).2 = true) :
    sparse_matrix.augmented_from BASE rows S (set_insert lt ⟨⟨c.first.j, c.first.i⟩, 0⟩ es).1 := by
  apply sparse_matrix.augmented_from_insert hlt BASE rows S es _ hQ hs rfl
  intro _
  have hfresh := set_insert_true_fresh hlt _ es hs hflag
  rcases hQ.2 c hc with hcS | ⟨_, _, hdiag | hmir⟩
  · exact Or.inr ⟨c, hcS, rfl⟩
  · obtain ⟨k, _, hk⟩ := hdiag
    exact absurd (by rw [hk]) (hfresh c hc)
  · obtain ⟨s, hsS, hsc⟩ := hmir
    exact absurd (by rw [hsc]) (hfresh s (hQ.1 s hsS))

/-- C3 (symmetry augmentation): for every entry set `S` read from a file (ordered
by the comparator of the matrix, row- or column-major) over a matrix of `rows`
rows, the augmentation step ends and leaves a set that has the diagonal
coordinate `(i+BASE, i+BASE)` for every `i < rows` and has `(j,i)` whenever it
has `(i,j)`. -/
theorem sparse_matrix.preserve_symmetry_symmetric {T : Type} [Zero T]
    {lt : coord_t T → coord_t T → Bool} (hlt : coord_order lt) (BASE rows : Nat)
    (S : List (coord_t T)) (hS : set_sorted lt S) :
    ∃ R, sparse_matrix.preserve_symmetry lt BASE rows S = some R ∧
      (∀ i, i < rows → ∃ e ∈ R, e.first = ⟨i + BASE, i + BASE⟩) ∧
      (∀ e ∈ R, ∃ m ∈ R, m.first = ⟨e.first.j, e.first.i⟩) := by
  obtain ⟨R, hR, hdiag, _, hfix⟩ := sparse_matrix.mirror_loop_spec hlt
    (fun es => ∀ i, i < rows → ∃ e ∈ es, e.first = ⟨i + BASE, i + BASE⟩)
    (fun es c hP _ _ _ i hi => by
      obtain ⟨e, he, hfirst⟩ := hP i hi
      exact ⟨e, set_insert_subset lt _ es e he, hfirst⟩)
    (sparse_matrix.missing_mirrors (sparse_matrix.insert_diagonal lt BASE rows 0 S) + 1)
    (sparse_matrix.insert_diagonal lt BASE rows 0 S)
    (sparse_matrix.insert_diagonal_sorted hlt BASE rows 0 S hS)
    (fun i hi => sparse_matrix.insert_diagonal_diag hlt BASE rows 0 S i (Nat.zero_le _)
      (by omega))
    (Nat.lt_succ_self _)
  refine ⟨R, hR, hdiag, ?_⟩
  intro e he
  obtain ⟨m, hm, h1, h2⟩ := set_insert_false_equiv lt _ R (hfix e he)
  exact ⟨m, hm, hlt.total m _ h1 h2⟩

/-- C4 (what the augmentation adds): for an entry set `S` over a matrix of `rows`
rows the augmentation returns a set `R`, with unique coordinates, that keeps
every entry of `S` with its value, whose other entries all have value zero and
sit at coordinates absent from `S` that are on the diagonal of rows
`0..rows-1` (shifted by `BASE`) or mirror an entry of `S`, and that covers all of
the diagonal and all mirrors of `S`. -/
theorem sparse_matrix.preserve_symmetry_exact {T : Type} [Zero T]
    {lt : coord_t T → coord_t T → Bool} (hlt : coord_order lt) (BASE rows : Nat)
    (S : List (coord_t T)) (hS : set_sorted lt S) :
    ∃ R, sparse_matrix.preserve_symmetry lt BASE rows S = some R ∧ set_sorted lt R ∧
      (∀ s ∈ S, s ∈ R) ∧
      (∀ e ∈ R, e ∈ S ∨ (e.second = 0 ∧ (∀ s ∈ S, s.first ≠ e.first) ∧
        ((∃ k, k < rows ∧ e.first = ⟨k + BASE, k + BASE⟩) ∨
          ∃ s ∈ S, e.first = ⟨s.first.j, s.first.i⟩))) ∧
      (∀ k, k < rows → ∃ e ∈ R, e.first = ⟨k + BASE, k + BASE⟩) ∧
      (∀ s ∈ S, ∃ e ∈ R, e.first = ⟨s.first.j, s.first.i⟩) := by
  have hs0 := sparse_matrix.insert_diagonal_sorted hlt BASE rows 0 S hS
  obtain ⟨R, hR, ⟨hQ, hdiag⟩, hsorted, hfix⟩ := sparse_matrix.mirror_loop_spec hlt
    (fun es => sparse_matrix.augmented_from BASE rows S es ∧
      ∀ i, i < rows → ∃ e ∈ es, e.first = ⟨i + BASE, i + BASE⟩)
    (fun es c hP hs hc hflag =>
      ⟨sparse_matrix.augmented_from_mirror hlt BASE rows S es c hP.1 hs hc hflag,
       fun i hi => by
        obtain ⟨e, he, hfirst⟩ := hP.2 i hi
        exact ⟨e, set_insert_subset lt _ es e he, hfirst⟩⟩)
    (sparse_matrix.missing_mirrors (sparse_matrix.insert_diagonal lt BASE rows 0 S) + 1)
    (sparse_matrix.insert_diagonal lt BASE rows 0 S) hs0
    ⟨sparse_matrix.augmented_from_insert_diagonal hlt BASE rows S rows 0 S (by omega) hS
        ⟨fun s hs => hs, fun e he => Or.inl he⟩,
     fun i hi => sparse_matrix.insert_diagonal_diag hlt BASE rows 0 S i (Nat.zero_le _)
      (by omega)⟩
    (Nat.lt_succ_self _)
  refine ⟨R, hR, hsorted, hQ.1, hQ.2, hdiag, ?_⟩
  intro s hsS
  obtain ⟨m, hm, h1, h2⟩ := set_insert_false_equiv lt _ R (hfix s (hQ.1 s hsS))
  exact ⟨m, hm, hlt.total m _ h1 h2⟩

/-- Witness of C1: the three entries `(2,3,5)`, `(2,7,6)`, `(4,1,7)`, whose smallest
row is 2 and whose row 3 is empty. -/
theorem sort_by_row_t.uncompress_compress_witness :
    set_sorted sort_by_row_t.lt
      ([⟨⟨2, 3⟩, 5⟩, ⟨⟨2, 7⟩, 6⟩, ⟨⟨4, 1⟩, 7⟩] : List (coord_t Int)) ∧
    ([⟨⟨2, 3⟩, 5⟩, ⟨⟨2, 7⟩, 6⟩, ⟨⟨4, 1⟩, 7⟩] : List (coord_t Int)) ≠ [] ∧
    ((∃ c, sort_by_row_t.compress
        ([⟨⟨2, 3⟩, 5⟩, ⟨⟨2, 7⟩, 6⟩, ⟨⟨4, 1⟩, 7⟩] : List (coord_t Int)) = some c ∧
      sort_by_row_t.uncompress c.ia c.ja c.a
        = some ([⟨⟨2, 3⟩, 5⟩, ⟨⟨2, 7⟩, 6⟩, ⟨⟨4, 1⟩, 7⟩] : List (coord_t Int))) ∧
    (∀ m : sparse_matrix Int,
      m.entries = ([⟨⟨2, 3⟩, 5⟩, ⟨⟨2, 7⟩, 6⟩, ⟨⟨4, 1⟩, 7⟩] : List (coord_t Int)) →
      m.is_compressed = false →
      ∃ m1 m2, m.compress (sort_by_row_t.SORT Int) = some m1 ∧ m1.is_compressed = true ∧
        m1.entries = [] ∧ m1.uncompress (sort_by_row_t.SORT Int) = some m2 ∧
        m2.entries = ([⟨⟨2, 3⟩, 5⟩, ⟨⟨2, 7⟩, 6⟩, ⟨⟨4, 1⟩, 7⟩] : List (coord_t Int)) ∧
        m2.is_compressed = false)) :=
  ⟨by unfold set_sorted; decide, by simp,
   sort_by_row_t.uncompress_compress _ (by unfold set_sorted; decide) (by simp)⟩

/-- C2 (round trip, column-major comparator) at the entry set `{(1,1,5)}`, a
1x1 matrix numbered from 1: `compress` gives `_ja = [1,2]`, `_ia = [1]`,
`_a = [5]`, and `uncompress` of these arrays gives the entry `(2,1,5)`, its row
shifted by the smallest column index; the set is not rebuilt. -/
theorem sort_by_column_t.uncompress_compress_shifts_rows :
    sort_by_column_t.compress ([⟨⟨1, 1⟩, 5⟩] : List (coord_t Int))
      = some ⟨[1], [1, 2], [5], 1, 1⟩ ∧
    sort_by_column_t.uncompress [1] [1, 2] ([5] : List Int)
      = some [⟨⟨2, 1⟩, 5⟩] ∧
    sort_by_column_t.uncompress [1] [1, 2] ([5] : List Int)
      ≠ some [⟨⟨1, 1⟩, 5⟩] := by
  have h : sort_by_column_t.uncompress [1] [1, 2] ([5] : List Int)
      = some [⟨⟨2, 1⟩, 5⟩] := rfl
  refine ⟨rfl, h, ?_⟩
  rw [h]
  intro hne
  injection hne with hne
  revert hne
  decide

/-- Witness of C3: the entry `(0,1,5)` of a 2x2 matrix, row-major, `BASE = 0`. -/
theorem sparse_matrix.preserve_symmetry_symmetric_witness :
    coord_order (sort_by_row_t.lt : coord_t Int → coord_t Int → Bool) ∧
    set_sorted sort_by_row_t.lt ([⟨⟨0, 1⟩, 5⟩] : List (coord_t Int)) ∧
    ∃ R, sparse_matrix.preserve_symmetry sort_by_row_t.lt 0 2
        ([⟨⟨0, 1⟩, 5⟩] : List (coord_t Int)) = some R ∧
      (∀ i, i < 2 → ∃ e ∈ R, e.first = ⟨i + 0, i + 0⟩) ∧
      (∀ e ∈ R, ∃ m ∈ R, m.first = ⟨e.first.j, e.first.i⟩) :=
  ⟨sort_by_row_t.coord_order_row Int, by unfold set_sorted; decide,
   sparse_matrix.preserve_symmetry_symmetric (sort_by_row_t.coord_order_row Int) 0 2 _
    (by unfold set_sorted; decide)⟩

/-- Witness of C4: `{(0,1,5)}` over a 2x2 matrix becomes the four entries
`(0,0,0)`, `(0,1,5)`, `(1,0,0)`, `(1,1,0)`. -/
theorem sparse_matrix.preserve_symmetry_exact_witness :
    coord_order (sort_by_row_t.lt : coord_t Int → coord_t Int → Bool) ∧
    set_sorted sort_by_row_t.lt ([⟨⟨0, 1⟩, 5⟩] : List (coord_t Int)) ∧
    sparse_matrix.preserve_symmetry sort_by_row_t.lt 0 2 ([⟨⟨0, 1⟩, 5⟩] : List (coord_t Int))
      = some [⟨⟨0, 0⟩, 0⟩, ⟨⟨0, 1⟩, 5⟩, ⟨⟨1, 0⟩, 0⟩, ⟨⟨1, 1⟩, 0⟩] ∧
    ∃ R, sparse_matrix.preserve_symmetry sort_by_row_t.lt 0 2
        ([⟨⟨0, 1⟩, 5⟩] : List (coord_t Int)) = some R ∧ set_sorted sort_by_row_t.lt R ∧
      (∀ s ∈ ([⟨⟨0, 1⟩, 5⟩] : List (coord_t Int)), s ∈ R) ∧
      (∀ e ∈ R, e ∈ ([⟨⟨0, 1⟩, 5⟩] : List (coord_t Int)) ∨ (e.second = 0 ∧
        (∀ s ∈ ([⟨⟨0, 1⟩, 5⟩] : List (coord_t Int)), s.first ≠ e.first) ∧
        ((∃ k, k < 2 ∧ e.first = ⟨k + 0, k + 0⟩) ∨
          ∃ s ∈ ([⟨⟨0, 1⟩, 5⟩] : List (coord_t Int)), e.first = ⟨s.first.j, s.first.i⟩))) ∧
      (∀ k, k < 2 → ∃ e ∈ R, e.first = ⟨k + 0, k + 0⟩) ∧
      (∀ s ∈ ([⟨⟨0, 1⟩, 5⟩] : List (coord_t Int)), ∃ e ∈ R,
        e.first = ⟨s.first.j, s.first.i⟩) :=
  ⟨sort_by_row_t.coord_order_row Int, by unfold set_sorted; decide, by decide,
   sparse_matrix.preserve_symmetry_exact (sort_by_row_t.coord_order_row Int) 0 2 _
    (by unfold set_sorted; decide)⟩

/-! ### Dense storage -/

theorem for_loop_spec {σ : Type} (Inv : Nat → σ → Prop) (body : Nat → σ → Option σ) :
    ∀ (n start : Nat) (s : σ), Inv start s →
      (∀ i t, start ≤ i → i < start + n → Inv i t → ∃ t1, body i t = some t1 ∧ Inv (i + 1) t1) →
      ∃ s1, for_loop body n start s = some s1 ∧ Inv (start + n) s1 := by
  intro n
  induction n with
  | zero => intro start s h _; exact ⟨s, rfl, h⟩
  | succ n ih =>
    intro start s h hstep
    obtain ⟨t1, hb, hinv⟩ := hstep start s (Nat.le_refl _) (by omega) h
    obtain ⟨s1, hs1, hfin⟩ := ih (start + 1) t1 hinv
      (fun i t h1 h2 h3 => hstep i t (by omega) (by omega) h3)
    have he : start + 1 + n = start + (n + 1) := by omega
    refine ⟨s1, ?_, he ▸ hfin⟩
    simp only [for_loop, hb, Option.bind_eq_bind, Option.some_bind]
    exact hs1

theorem index_lt_mul (i j m n : Nat) (hi : i < m) (hj : j < n) : i * n + j < m * n := by
  calc i * n + j < i * n + n := by omega
    _ = (i + 1) * n := by ring
    _ ≤ m * n := Nat.mul_le_mul_right n hi

/-- C5 (flat values, row-major): for a row-major `dense_matrix_v` whose flat vector
has `rows*cols` cells and every `v` of length `rows*cols`, `initialize(v)` returns,
keeps the extent, and afterwards the read at `(i,j)` is `v[i*cols+j]` (converted
to the storage type; unconverted when the storage type is `double`) for every
`i < rows`, `j < cols`. -/
theorem dense_matrix_v.initialize_vector_row_major {double T : Type} (conv : double → T)
    (m : dense_matrix_v T) (v : List double) (hm : m.well_formed)
    (hv : v.length = m.size 0 * m.size 1) :
    ∃ m1, dense_matrix_v.initialize_vector conv .sort_by_row m v = .returns m1 ∧
      m1.m_size = m.m_size ∧
      ∀ i j, i < m.size 0 → j < m.size 1 →
        ∃ x, v[i * m.size 1 + j]? = some x ∧
          m1.operator_get .sort_by_row i j = some (conv x) := by
  have hlen : ¬ (m.a.length ≠ v.length) := by
    unfold dense_matrix_v.well_formed at hm
    omega
  refine ⟨{ m with a := v.map conv }, ?_, rfl, ?_⟩
  · simp only [dense_matrix_v.initialize_vector, hlen, if_false]
  · intro i j hi hj
    have hlt := index_lt_mul i j _ _ hi hj
    have hk : i * m.size 1 + j < v.length := by omega
    refine ⟨v[i * m.size 1 + j], List.getElem?_eq_getElem hk, ?_⟩
    have hsz : m.size 1 = m.m_size.j := rfl
    simp only [dense_matrix_v.operator_get, dense_matrix_v.index, vec_get, ← hsz,
      List.getElem?_map, List.getElem?_eq_getElem hk, Option.map_some']

theorem vec_put_some {α : Type} (xs : List α) (k : Nat) (x : α) (h : k < xs.length) :
    vec_put xs k x = some (xs.set k x) := by
  simp only [vec_put, h, if_true]

theorem vec2_get_some {α : Type} (a : List (List α)) (P Q p q : Nat) (hs : vec2_shaped a P Q)
    (hp : p < P) (hq : q < Q) : ∃ x, vec2_get a p q = some x := by
  have hpa : p < a.length := by rw [hs.1]; exact hp
  have hr : a[p].length = Q := hs.2 _ (List.getElem_mem _)
  have hqa : q < a[p].length := by rw [hr]; exact hq
  exact ⟨a[p][q], by
    simp only [vec2_get, vec_get, List.getElem?_eq_getElem hpa, Option.bind_eq_bind,
      Option.some_bind, List.getElem?_eq_getElem hqa]⟩

theorem vec2_put_spec {α : Type} (a : List (List α)) (P Q p q : Nat) (x : α)
    (hs : vec2_shaped a P Q) (hp : p < P) (hq : q < Q) :
    ∃ a1, vec2_put a p q x = some a1 ∧ vec2_shaped a1 P Q ∧ vec2_get a1 p q = some x ∧
      ∀ p1 q1, (p1 ≠ p ∨ q1 ≠ q) → vec2_get a1 p1 q1 = vec2_get a p1 q1 := by
  have hpa : p < a.length := by rw [hs.1]; exact hp
  have hr : a[p].length = Q := hs.2 _ (List.getElem_mem _)
  have hqa : q < a[p].length := by rw [hr]; exact hq
  refine ⟨a.set p (a[p].set q x), ?_, ?_, ?_, ?_⟩
  · simp only [vec2_put, vec_get, List.getElem?_eq_getElem hpa, Option.bind_eq_bind,
      Option.some_bind, vec_put_some _ _ _ hqa, vec_put_some _ _ _ hpa]
  · refine ⟨by rw [List.length_set]; exact hs.1, ?_⟩
    intro r hr1
    rcases List.mem_or_eq_of_mem_set hr1 with h | h
    · exact hs.2 r h
    · rw [h, List.length_set]; exact hr
  · simp only [vec2_get, vec_get, List.getElem?_set_self hpa, Option.bind_eq_bind,
      Option.some_bind, List.getElem?_set_self hqa]
  · intro p1 q1 hne
    by_cases hp1 : p1 = p
    · subst hp1
      have hq1 : q ≠ q1 := by
        rcases hne with h | h
        · exact absurd rfl h
        · exact fun h1 => h h1.symm
      simp only [vec2_get, vec_get, List.getElem?_set_self hpa, Option.bind_eq_bind,
        Option.some_bind, List.getElem?_set_ne hq1, List.getElem?_eq_getElem hpa]
    · have hp2 : p ≠ p1 := fun h => hp1 h.symm
      simp only [vec2_get, vec_get, List.getElem?_set_ne hp2]

theorem index_inj (i j i1 j1 M : Nat) (hi : i < M) (hi1 : i1 < M)
    (h : j * M + i = j1 * M + i1) : i = i1 ∧ j = j1 := by
  have hM : 0 < M := by omega
  have h1 : (j * M + i) % M = i := by
    rw [Nat.add_comm, Nat.add_mul_mod_self_right]; exact Nat.mod_eq_of_lt hi
  have h2 : (j1 * M + i1) % M = i1 := by
    rw [Nat.add_comm, Nat.add_mul_mod_self_right]; exact Nat.mod_eq_of_lt hi1
  have h3 : (j * M + i) / M = j := by
    rw [Nat.add_comm, Nat.add_mul_div_right _ _ hM, Nat.div_eq_of_lt hi]; omega
  have h4 : (j1 * M + i1) / M = j1 := by
    rw [Nat.add_comm, Nat.add_mul_div_right _ _ hM, Nat.div_eq_of_lt hi1]; omega
  rw [h] at h1 h3
  exact ⟨by omega, by omega⟩

/-- The double loop of `dense_matrix_v::initialize(const std::vector<double>&)` in
column orientation: it ends without leaving the vectors and puts `w[i*cols+j]`
in the cell of `(i,j)`. -/
theorem dense_matrix_v.assign_loops_column {T : Type} (w : List T) (m : dense_matrix_v T)
    (hm : m.well_formed) (hw : w.length = m.size 0 * m.size 1) :
    ∃ s, dense_matrix_v.assign_loops .sort_by_column w m = some s ∧
      s.1.m_size = m.m_size ∧ s.1.m_zero = m.m_zero ∧ s.1.m_print = m.m_print ∧
      s.1.a.length = m.a.length ∧
      ∀ i j, i < m.size 0 → j < m.size 1 →
        s.1.a[j * m.size 0 + i]? = w[i * m.size 1 + j]? := by
  unfold dense_matrix_v.well_formed at hm
  have h0 : m.size 0 = m.m_size.i := rfl
  have h1 : m.size 1 = m.m_size.j := rfl
  generalize hM : m.size 0 = M at *
  generalize hN : m.size 1 = N at *
  -- the invariant before the iteration `(i,j)`
  let J : Nat → Nat → dense_matrix_v T × Nat → Prop := fun i j s =>
    s.2 = i * N + j ∧ s.1.m_size = m.m_size ∧ s.1.m_zero = m.m_zero ∧
      s.1.m_print = m.m_print ∧ s.1.a.length = M * N ∧
      ∀ i1 j1, i1 < M → j1 < N → (i1 < i ∨ (i1 = i ∧ j1 < j)) →
        s.1.a[j1 * M + i1]? = w[i1 * N + j1]?
  have hinner : ∀ i, i < M → ∀ s, J i 0 s →
      ∃ s1, for_loop (fun j (s1 : dense_matrix_v T × Nat) => do
          let x ← vec_get w s1.2
          let m1 ← s1.1.operator_set .sort_by_column i j x
          pure (m1, s1.2 + 1)) N 0 s = some s1 ∧ J (i + 1) 0 s1 := by
    intro i hi s hs
    obtain ⟨s1, hs1, hJ⟩ := for_loop_spec (fun j s => J i j s)
      (fun j (s1 : dense_matrix_v T × Nat) => do
          let x ← vec_get w s1.2
          let m1 ← s1.1.operator_set .sort_by_column i j x
          pure (m1, s1.2 + 1)) N 0 s hs (by
      intro j t _ hj ht
      obtain ⟨hk, hsz, hz, hp, hlen, hcells⟩ := ht
      have hjN : j < N := by omega
      have hkw : t.2 < w.length := by
        rw [hk, hw]; exact index_lt_mul i j M N hi hjN
      have hidx : j * t.1.m_size.i + i < t.1.a.length := by
        rw [hsz, ← h0, hlen, Nat.mul_comm M N]; exact index_lt_mul j i N M hjN hi
      refine ⟨(⟨t.1.m_zero, t.1.m_size, t.1.m_print,
          t.1.a.set (j * t.1.m_size.i + i) w[t.2]⟩, t.2 + 1), ?_, ?_⟩
      · simp only [vec_get, List.getElem?_eq_getElem hkw, Option.bind_eq_bind,
          Option.some_bind, dense_matrix_v.operator_set, dense_matrix_v.index,
          vec_put_some _ _ _ hidx]
        rfl
      · refine ⟨by simp only [hk]; omega, hsz, hz, hp, by
          simp only [List.length_set]; exact hlen, ?_⟩
        intro i1 j1 hi1 hj1 hlex
        simp only [hsz, ← h0]
        by_cases hsame : i1 = i ∧ j1 = j
        · obtain ⟨hi2, hj2⟩ := hsame
          subst hi2; subst hj2
          have hidx1 : j1 * M + i1 < t.1.a.length := by
            rw [hlen, Nat.mul_comm M N]; exact index_lt_mul j1 i1 N M hj1 hi1
          rw [List.getElem?_set_self hidx1, ← hk, List.getElem?_eq_getElem hkw]
        · have hne : j * M + i ≠ j1 * M + i1 := by
            intro heq
            have := index_inj i j i1 j1 M hi hi1 heq
            exact hsame ⟨this.1.symm, this.2.symm⟩
          rw [List.getElem?_set_ne hne]
          apply hcells i1 j1 hi1 hj1
          rcases hlex with h | ⟨h2, h3⟩
          · exact Or.inl h
          · refine Or.inr ⟨h2, ?_⟩
            by_contra hcon
            exact hsame ⟨h2, by omega⟩)
    refine ⟨s1, hs1, ?_⟩
    obtain ⟨hk, hsz, hz, hp, hlen, hcells⟩ := hJ
    refine ⟨by simp only [hk]; ring, hsz, hz, hp, hlen, ?_⟩
    intro i1 j1 hi1 hj1 hlex
    apply hcells i1 j1 hi1 hj1
    rcases hlex with h | ⟨_, h3⟩
    · by_cases h2 : i1 = i
      · exact Or.inr ⟨h2, by omega⟩
      · exact Or.inl (by omega)
    · omega
  obtain ⟨s, hs, hJ⟩ := for_loop_spec (fun i s => J i 0 s) _ M 0 (m, 0)
    ⟨by simp, rfl, rfl, rfl, hm, by intro i1 j1 _ _ h; omega⟩
    (fun i t _ hi ht => hinner i (by omega) t ht)
  refine ⟨s, ?_, hJ.2.1, hJ.2.2.1, hJ.2.2.2.1, by rw [hJ.2.2.2.2.1, hm], ?_⟩
  · simp only [dense_matrix_v.assign_loops, hM, hN]
    exact hs
  · intro i j hi hj
    exact hJ.2.2.2.2.2 i j hi hj (Or.inl (by omega))

/-- An in-range cell assignment of `dense_matrix_vv`: it stays inside the vectors,
keeps the extent and the shape, is read back, and leaves the other cells. -/
theorem dense_matrix_vv.operator_set_spec {T : Type} (ORIENT : orientation_t)
    (m : dense_matrix_vv T) (i j : Nat) (x : T) (hm : m.well_formed ORIENT)
    (hi : i < m.size 0) (hj : j < m.size 1) :
    ∃ m1, m.operator_set ORIENT i j x = some m1 ∧ m1.m_size = m.m_size ∧
      m1.m_zero = m.m_zero ∧ m1.m_print = m.m_print ∧ m1.well_formed ORIENT ∧
      m1.operator_get ORIENT i j = some x ∧
      ∀ i1 j1, (i1 ≠ i ∨ j1 ≠ j) → m1.operator_get ORIENT i1 j1 = m.operator_get ORIENT i1 j1 := by
  cases ORIENT with
  | sort_by_row =>
    obtain ⟨a1, ha1, hshape, hget, hother⟩ :=
      vec2_put_spec m.a (m.size 0) (m.size 1) i j x hm hi hj
    refine ⟨{ m with a := a1 }, ?_, rfl, rfl, rfl, hshape, hget, ?_⟩
    · simp only [dense_matrix_vv.operator_set, ha1, Option.map_some']
    · intro i1 j1 hne
      exact hother i1 j1 hne
  | sort_by_column =>
    obtain ⟨a1, ha1, hshape, hget, hother⟩ :=
      vec2_put_spec m.a (m.size 1) (m.size 0) j i x hm hj hi
    refine ⟨{ m with a := a1 }, ?_, rfl, rfl, rfl, hshape, hget, ?_⟩
    · simp only [dense_matrix_vv.operator_set, ha1, Option.map_some']
    · intro i1 j1 hne
      exact hother j1 i1 (by tauto)

/-- Behaviour of `dense_matrix_vv::initialize(const std::vector<double>&)` on a well-formed
matrix and a vector of `rows*cols` values, in either orientation: it returns,
keeps extent and shape and puts `v[i*cols+j]` in the cell of `(i,j)`. -/
theorem dense_matrix_vv.initialize_vector_spec_nested {double T : Type} (conv : double → T)
    (ORIENT : orientation_t) (m : dense_matrix_vv T) (v : List double)
    (hm : m.well_formed ORIENT) (hv : v.length = m.size 0 * m.size 1) :
    ∃ m1, dense_matrix_vv.initialize_vector conv ORIENT m v = .returns m1 ∧
      m1.m_size = m.m_size ∧ m1.m_zero = m.m_zero ∧ m1.m_print = m.m_print ∧
      m1.well_formed ORIENT ∧
      ∀ i j, i < m.size 0 → j < m.size 1 →
        m1.operator_get ORIENT i j = (v[i * m.size 1 + j]?).map conv := by
  let J : Nat → Nat → dense_matrix_vv T × Nat → Prop := fun i j s =>
    s.2 = i * m.size 1 + j ∧ s.1.m_size = m.m_size ∧ s.1.m_zero = m.m_zero ∧
      s.1.m_print = m.m_print ∧ s.1.well_formed ORIENT ∧
      ∀ i1 j1, i1 < m.size 0 → j1 < m.size 1 → (i1 < i ∨ (i1 = i ∧ j1 < j)) →
        s.1.operator_get ORIENT i1 j1 = (v[i1 * m.size 1 + j1]?).map conv
  have hinner : ∀ i, i < m.size 0 → ∀ s, J i 0 s →
      ∃ s1, for_loop (fun j (s1 : dense_matrix_vv T × Nat) => do
          let x ← vec_get v s1.2
          let m1 ← s1.1.operator_set ORIENT i j (conv x)
          pure (m1, s1.2 + 1)) (m.size 1) 0 s = some s1 ∧ J (i + 1) 0 s1 := by
    intro i hi s hs
    obtain ⟨s1, hs1, hJ⟩ := for_loop_spec (fun j s => J i j s)
      (fun j (s1 : dense_matrix_vv T × Nat) => do
          let x ← vec_get v s1.2
          let m1 ← s1.1.operator_set ORIENT i j (conv x)
          pure (m1, s1.2 + 1)) (m.size 1) 0 s hs (by
      intro j t _ hj ht
      obtain ⟨hk, hsz, hz, hp, hwf, hcells⟩ := ht
      have hjN : j < m.size 1 := by omega
      have hkv : t.2 < v.length := by
        rw [hk, hv]; exact index_lt_mul i j _ _ hi hjN
      have hs0 : t.1.size 0 = m.size 0 := by
        simp only [dense_matrix_vv.size, hsz]
      have hs1 : t.1.size 1 = m.size 1 := by
        simp only [dense_matrix_vv.size, hsz]
      obtain ⟨m1, hset, hsz1, hz1, hp1, hwf1, hget1, hother1⟩ :=
        dense_matrix_vv.operator_set_spec ORIENT t.1 i j (conv v[t.2]) hwf
          (by rw [hs0]; exact hi) (by rw [hs1]; exact hjN)
      refine ⟨(m1, t.2 + 1), ?_, ?_⟩
      · simp only [vec_get, List.getElem?_eq_getElem hkv, Option.bind_eq_bind,
          Option.some_bind, hset]
        rfl
      · refine ⟨by simp only [hk]; omega, hsz1.trans hsz, hz1.trans hz, hp1.trans hp, hwf1, ?_⟩
        intro i1 j1 hi1 hj1 hlex
        by_cases hsame : i1 = i ∧ j1 = j
        · obtain ⟨hi2, hj2⟩ := hsame
          subst hi2; subst hj2
          rw [hget1, ← hk, List.getElem?_eq_getElem hkv, Option.map_some']
        · rw [hother1 i1 j1 (by tauto)]
          apply hcells i1 j1 hi1 hj1
          rcases hlex with h | ⟨h2, h3⟩
          · exact Or.inl h
          · refine Or.inr ⟨h2, ?_⟩
            by_contra hcon
            exact hsame ⟨h2, by omega⟩)
    refine ⟨s1, hs1, ?_⟩
    obtain ⟨hk, hsz, hz, hp, hwf, hcells⟩ := hJ
    refine ⟨by simp only [hk]; ring, hsz, hz, hp, hwf, ?_⟩
    intro i1 j1 hi1 hj1 hlex
    apply hcells i1 j1 hi1 hj1
    rcases hlex with h | ⟨_, h3⟩
    · by_cases h2 : i1 = i
      · exact Or.inr ⟨h2, by omega⟩
      · exact Or.inl (by omega)
    · omega
  obtain ⟨s, hs, hJ⟩ := for_loop_spec (fun i s => J i 0 s)
    (fun i s => for_loop (fun j (s1 : dense_matrix_vv T × Nat) => do
          let x ← vec_get v s1.2
          let m1 ← s1.1.operator_set ORIENT i j (conv x)
          pure (m1, s1.2 + 1)) (m.size 1) 0 s) (m.size 0) 0 (m, 0)
    ⟨by simp, rfl, rfl, rfl, hm, by intro i1 j1 _ _ h; omega⟩
    (fun i t _ hi ht => hinner i (by omega) t ht)
  have hlen : ¬ (m.size 0 * m.size 1 ≠ v.length) := by omega
  refine ⟨s.1, ?_, hJ.2.1, hJ.2.2.1, hJ.2.2.2.1, hJ.2.2.2.2.1, ?_⟩
  · simp only [dense_matrix_vv.initialize_vector, hlen, if_false, hs, Option.map_some',
      outcome.of_option]
  · intro i j hi hj
    exact hJ.2.2.2.2.2 i j hi hj (Or.inl (by omega))

/-- Behaviour of `dense_matrix_v::initialize(const std::vector<double>&)` on a well-formed
matrix and a vector of `rows*cols` values, in either orientation: it returns,
keeps the extent and puts `v[i*cols+j]` in the cell of `(i,j)`. -/
theorem dense_matrix_v.initialize_vector_spec_flat {double T : Type} (conv : double → T)
    (ORIENT : orientation_t) (m : dense_matrix_v T) (v : List double)
    (hm : m.well_formed) (hv : v.length = m.size 0 * m.size 1) :
    ∃ m1, dense_matrix_v.initialize_vector conv ORIENT m v = .returns m1 ∧
      m1.m_size = m.m_size ∧ m1.m_zero = m.m_zero ∧ m1.m_print = m.m_print ∧
      m1.well_formed ∧
      ∀ i j, i < m.size 0 → j < m.size 1 →
        m1.operator_get ORIENT i j = (v[i * m.size 1 + j]?).map conv := by
  have hlen : ¬ (m.a.length ≠ v.length) := by
    unfold dense_matrix_v.well_formed at hm
    omega
  have h0 : m.size 0 = m.m_size.i := rfl
  have h1 : m.size 1 = m.m_size.j := rfl
  cases ORIENT with
  | sort_by_row =>
    refine ⟨{ m with a := v.map conv }, ?_, rfl, rfl, rfl, ?_, ?_⟩
    · simp only [dense_matrix_v.initialize_vector, hlen, if_false]
    · simp only [dense_matrix_v.well_formed, List.length_map, hv]
      rfl
    · intro i j _ _
      simp only [dense_matrix_v.operator_get, dense_matrix_v.index, vec_get, ← h1,
        List.getElem?_map]
  | sort_by_column =>
    obtain ⟨s, hs, hsz, hz, hp, hl, hcells⟩ :=
      dense_matrix_v.assign_loops_column (v.map conv) m hm (by simpa using hv)
    refine ⟨s.1, ?_, hsz, hz, hp, ?_, ?_⟩
    · simp only [dense_matrix_v.initialize_vector, hlen, if_false, hs, Option.map_some',
        outcome.of_option]
    · simp only [dense_matrix_v.well_formed, dense_matrix_v.size, hsz, hl]
      exact hm
    · intro i j hi hj
      simp only [dense_matrix_v.operator_get, dense_matrix_v.index, vec_get, hsz, ← h0,
        hcells i j hi hj, List.getElem?_map]

/-- C6 as stated fails: a column-major 2x2 `dense_matrix_v` (obtained by
`initialize(2,2,0)`) initialized from `v = [1,2,3,4]` reads `2 = v[0*2+1]` at
`(0,1)`, not `v[1*2+0] = 3`. -/
theorem dense_matrix_v.initialize_vector_column_major_counterexample :
    ∃ m1, dense_matrix_v.initialize_vector (fun x : Int => x) .sort_by_column
        ( dense_matrix_v.initialize_size (fun x : Int => x) ⟨0, ⟨0, 0⟩, .print_auto, []⟩ 2 2 0)
        [1, 2, 3, 4] = .returns m1 ∧
      m1.operator_get .sort_by_column 0 1 = some 2 ∧
      ([1, 2, 3, 4] : List Int)[1 * 2 + 0]? = some 3 ∧
      m1.operator_get .sort_by_column 0 1 ≠ ([1, 2, 3, 4] : List Int)[1 * 2 + 0]? :=
  ⟨⟨0, ⟨2, 2⟩, .print_auto, [1, 3, 2, 4]⟩, rfl, rfl, rfl, by decide⟩

/-- C6 amended (flat values, column-major): for a well-formed column-major dense
matrix of extent `(rows, cols)`, in the flat layout `mv` and in the nested layout
`mvv`, and every `v` of length `rows*cols`, `initialize(v)` returns, keeps the
extent, and afterwards the read at `(i,j)` is `v[i*cols+j]` for every `i < rows`,
`j < cols`: the values are taken in row-major order, as in the row-major
orientation. -/
theorem dense_initialize_vector_column_major {double T : Type} (conv : double → T)
    (mv : dense_matrix_v T) (v : List double) (hmv : mv.well_formed)
    (hv : v.length = mv.size 0 * mv.size 1)
    (mvv : dense_matrix_vv T) (w : List double) (hmvv : mvv.well_formed .sort_by_column)
    (hw : w.length = mvv.size 0 * mvv.size 1) :
    (∃ m1, dense_matrix_v.initialize_vector conv .sort_by_column mv v = .returns m1 ∧
      m1.m_size = mv.m_size ∧
      ∀ i j, i < mv.size 0 → j < mv.size 1 →
        ∃ x, v[i * mv.size 1 + j]? = some x ∧
          m1.operator_get .sort_by_column i j = some (conv x)) ∧
    (∃ m1, dense_matrix_vv.initialize_vector conv .sort_by_column mvv w = .returns m1 ∧
      m1.m_size = mvv.m_size ∧
      ∀ i j, i < mvv.size 0 → j < mvv.size 1 →
        ∃ x, w[i * mvv.size 1 + j]? = some x ∧
          m1.operator_get .sort_by_column i j = some (conv x)) := by
  obtain ⟨m1, h1, hsz1, _, _, _, hc1⟩ :=
    dense_matrix_v.initialize_vector_spec_flat conv .sort_by_column mv v hmv hv
  obtain ⟨m2, h2, hsz2, _, _, _, hc2⟩ :=
    dense_matrix_vv.initialize_vector_spec_nested conv .sort_by_column mvv w hmvv hw
  refine ⟨⟨m1, h1, hsz1, ?_⟩, ⟨m2, h2, hsz2, ?_⟩⟩
  · intro i j hi hj
    have hk : i * mv.size 1 + j < v.length := by rw [hv]; exact index_lt_mul i j _ _ hi hj
    exact ⟨v[i * mv.size 1 + j], List.getElem?_eq_getElem hk, by
      rw [hc1 i j hi hj, List.getElem?_eq_getElem hk, Option.map_some']⟩
  · intro i j hi hj
    have hk : i * mvv.size 1 + j < w.length := by rw [hw]; exact index_lt_mul i j _ _ hi hj
    exact ⟨w[i * mvv.size 1 + j], List.getElem?_eq_getElem hk, by
      rw [hc2 i j hi hj, List.getElem?_eq_getElem hk, Option.map_some']⟩

/-- C7 (size check of `initialize(flatValues)`): on a well-formed dense matrix, in
either layout and orientation, `initialize(v)` throws exactly when the length of
`v` differs from `rows*cols`, and returns otherwise; when it throws the matrix is
left as it was (extent and cells). -/
theorem dense_initialize_vector_throws_iff {double T : Type} (conv : double → T)
    (ORIENT : orientation_t) (mv : dense_matrix_v T) (mvv : dense_matrix_vv T)
    (hmv : mv.well_formed) (hmvv : mvv.well_formed ORIENT) (v : List double) :
    ((v.length ≠ mv.size 0 * mv.size 1 →
        dense_matrix_v.initialize_vector conv ORIENT mv v =
          .throws "dense_matrix_v: assignment not consistent with current size." mv) ∧
      (v.length = mv.size 0 * mv.size 1 →
        ∃ m1, dense_matrix_v.initialize_vector conv ORIENT mv v = .returns m1) ∧
      ((∃ what s, dense_matrix_v.initialize_vector conv ORIENT mv v = .throws what s) ↔
        v.length ≠ mv.size 0 * mv.size 1)) ∧
    ((v.length ≠ mvv.size 0 * mvv.size 1 →
        dense_matrix_vv.initialize_vector conv ORIENT mvv v =
          .throws "dense_matrix_vv: assignment not consistent with current size." mvv) ∧
      (v.length = mvv.size 0 * mvv.size 1 →
        ∃ m1, dense_matrix_vv.initialize_vector conv ORIENT mvv v = .returns m1) ∧
      ((∃ what s, dense_matrix_vv.initialize_vector conv ORIENT mvv v = .throws what s) ↔
        v.length ≠ mvv.size 0 * mvv.size 1)) := by
  have hv1 : v.length ≠ mv.size 0 * mv.size 1 →
      dense_matrix_v.initialize_vector conv ORIENT mv v =
        .throws "dense_matrix_v: assignment not consistent with current size." mv := by
    intro hne
    have hlen1 : mv.a.length ≠ v.length := by
      unfold dense_matrix_v.well_formed at hmv
      omega
    unfold dense_matrix_v.initialize_vector
    rw [if_pos hlen1]
  have hv2 : v.length = mv.size 0 * mv.size 1 →
      ∃ m1, dense_matrix_v.initialize_vector conv ORIENT mv v = .returns m1 := by
    intro heq
    obtain ⟨m1, h1, _⟩ := dense_matrix_v.initialize_vector_spec_flat conv ORIENT mv v hmv heq
    exact ⟨m1, h1⟩
  have hw1 : v.length ≠ mvv.size 0 * mvv.size 1 →
      dense_matrix_vv.initialize_vector conv ORIENT mvv v =
        .throws "dense_matrix_vv: assignment not consistent with current size." mvv := by
    intro hne
    have hlen1 : mvv.size 0 * mvv.size 1 ≠ v.length := fun h => hne h.symm
    unfold dense_matrix_vv.initialize_vector
    rw [if_pos hlen1]
  have hw2 : v.length = mvv.size 0 * mvv.size 1 →
      ∃ m1, dense_matrix_vv.initialize_vector conv ORIENT mvv v = .returns m1 := by
    intro heq
    obtain ⟨m1, h1, _⟩ := dense_matrix_vv.initialize_vector_spec_nested conv ORIENT mvv v hmvv heq
    exact ⟨m1, h1⟩
  refine ⟨⟨hv1, hv2, ?_⟩, ⟨hw1, hw2, ?_⟩⟩
  · constructor
    · rintro ⟨what, s, hthrow⟩ heq
      obtain ⟨m1, h1⟩ := hv2 heq
      rw [h1] at hthrow
      exact outcome.noConfusion hthrow
    · intro hne
      exact ⟨_, _, hv1 hne⟩
  · constructor
    · rintro ⟨what, s, hthrow⟩ heq
      obtain ⟨m1, h1⟩ := hw2 heq
      rw [h1] at hthrow
      exact outcome.noConfusion hthrow
    · intro hne
      exact ⟨_, _, hw1 hne⟩

theorem vec2_get_replicate {α : Type} (p q P Q : Nat) (x : α) (hp : p < P) (hq : q < Q) :
    vec2_get (List.replicate P (List.replicate Q x)) p q = some x := by
  simp only [vec2_get, vec_get, List.getElem?_replicate_of_lt hp, Option.bind_eq_bind,
    Option.some_bind, List.getElem?_replicate_of_lt hq]

/-- C8 (size and fill): for `rows > 0`, `cols > 0` and every fill value,
`initialize(rows, cols, fill)` on any prior state of a dense matrix, flat or
nested, in either orientation, leaves the extent `(rows, cols)`, a backing
storage of exactly `rows*cols` cells, and the fill value (converted to the
storage type) at every `(i,j)` with `i < rows`, `j < cols`. -/
theorem dense_initialize_size_fills {double T : Type} (conv : double → T)
    (rows cols : Nat) (hr : 0 < rows) (hc : 0 < cols) (fill : double)
    (ORIENT : orientation_t) (mv : dense_matrix_v T) (mvv : dense_matrix_vv T) :
    ((mv.initialize_size conv rows cols fill).m_size = ⟨rows, cols⟩ ∧
      (mv.initialize_size conv rows cols fill).a.length = rows * cols ∧
      ∀ i j, i < rows → j < cols →
        (mv.initialize_size conv rows cols fill).operator_get ORIENT i j = some (conv fill)) ∧
    ((mvv.initialize_size conv ORIENT rows cols fill).m_size = ⟨rows, cols⟩ ∧
      ((mvv.initialize_size conv ORIENT rows cols fill).a.map List.length).sum = rows * cols ∧
      (mvv.initialize_size conv ORIENT rows cols fill).well_formed ORIENT ∧
      ∀ i j, i < rows → j < cols →
        (mvv.initialize_size conv ORIENT rows cols fill).operator_get ORIENT i j
          = some (conv fill)) := by
  have hvalid : (idx_t.mk rows cols).is_valid_size = true := by
    simp [idx_t.is_valid_size, hr, hc]
  have hprod : rows * cols ≠ 0 := Nat.mul_ne_zero (by omega) (by omega)
  have hv : mv.initialize_size conv rows cols fill =
      ⟨mv.m_zero, ⟨rows, cols⟩, mv.m_print, List.replicate (rows * cols) (conv fill)⟩ := by
    simp only [dense_matrix_v.initialize_size, hvalid, if_true, dense_matrix_v.size,
      dense_matrix_v.clear]
    simp [hprod]
  constructor
  · rw [hv]
    refine ⟨rfl, by simp, ?_⟩
    intro i j hi hj
    cases ORIENT with
    | sort_by_row =>
      simp only [dense_matrix_v.operator_get, dense_matrix_v.index, vec_get]
      exact List.getElem?_replicate_of_lt (index_lt_mul i j rows cols hi hj)
    | sort_by_column =>
      simp only [dense_matrix_v.operator_get, dense_matrix_v.index, vec_get]
      exact List.getElem?_replicate_of_lt (by
        rw [Nat.mul_comm rows cols]; exact index_lt_mul j i cols rows hj hi)
  · cases ORIENT with
    | sort_by_row =>
      have hvv : mvv.initialize_size conv .sort_by_row rows cols fill =
          ⟨mvv.m_zero, ⟨rows, cols⟩, mvv.m_print,
            List.replicate rows (List.replicate cols (conv fill))⟩ := by
        simp only [dense_matrix_vv.initialize_size, hvalid, if_true, dense_matrix_vv.size,
          dense_matrix_vv.clear]
        simp [hprod]
      rw [hvv]
      refine ⟨rfl, by simp [List.sum_replicate], ?_, ?_⟩
      · refine ⟨by simp [dense_matrix_vv.size], ?_⟩
        intro r hrmem
        rw [(List.mem_replicate.mp hrmem).2]
        simp [dense_matrix_vv.size]
      · intro i j hi hj
        exact vec2_get_replicate i j rows cols (conv fill) hi hj
    | sort_by_column =>
      have hvv : mvv.initialize_size conv .sort_by_column rows cols fill =
          ⟨mvv.m_zero, ⟨rows, cols⟩, mvv.m_print,
            List.replicate cols (List.replicate rows (conv fill))⟩ := by
        simp only [dense_matrix_vv.initialize_size, hvalid, if_true, dense_matrix_vv.size,
          dense_matrix_vv.clear]
        simp [hprod]
      rw [hvv]
      refine ⟨rfl, by simp [List.sum_replicate, Nat.mul_comm], ?_, ?_⟩
      · refine ⟨by simp [dense_matrix_vv.size], ?_⟩
        intro r hrmem
        rw [(List.mem_replicate.mp hrmem).2]
        simp [dense_matrix_vv.size]
      · intro i j hi hj
        exact vec2_get_replicate j i cols rows (conv fill) hj hi

/-- C9 (invalid size is ignored): when `rows = 0` or `cols = 0`,
`initialize(rows, cols, fill)` leaves a dense matrix, flat or nested, in either
orientation and whatever its state, exactly as it was (the function has no
`throw`); in particular `initialize(0,5,fill)` on storage that is still empty,
with the extent `e0` it was created with, leaves it empty with that extent. -/
theorem dense_initialize_size_invalid {double T : Type} (conv : double → T)
    (rows cols : Nat) (h : rows = 0 ∨ cols = 0) (fill : double)
    (ORIENT : orientation_t) (mv : dense_matrix_v T) (mvv : dense_matrix_vv T) :
    mv.initialize_size conv rows cols fill = mv ∧
    mvv.initialize_size conv ORIENT rows cols fill = mvv ∧
    (∀ (z : T) (e0 : idx_t),
      dense_matrix_v.initialize_size conv ⟨z, e0, .print_auto, []⟩ 0 5 fill
        = ⟨z, e0, .print_auto, []⟩ ∧
      dense_matrix_vv.initialize_size conv ORIENT ⟨z, e0, .print_auto, []⟩ 0 5 fill
        = ⟨z, e0, .print_auto, []⟩) := by
  have hvalid : (idx_t.mk rows cols).is_valid_size = false := by
    rcases h with h | h <;> simp [idx_t.is_valid_size, h]
  refine ⟨?_, ?_, ?_⟩
  · simp [dense_matrix_v.initialize_size, hvalid]
  · simp [dense_matrix_vv.initialize_size, hvalid]
  · intro z e0
    exact ⟨rfl, rfl⟩

/-- The `std::fill_n` of `dense_matrix_v::zerorow` in row orientation. -/
theorem dense_matrix_v.zerorow_fill_row {T : Type} [Zero T] (a : List T) (M N r : Nat)
    (ha : a.length = M * N) (hr : r < M) :
    ∃ a1, for_loop (fun t (b : List T) => vec_put b (r * N + t) 0) N 0 a = some a1 ∧
      a1.length = a.length ∧ (∀ t, t < N → a1[r * N + t]? = some 0) ∧
      ∀ p, (∀ t, t < N → p ≠ r * N + t) → a1[p]? = a[p]? := by
  obtain ⟨a1, h1, hlen, hz, hframe⟩ := for_loop_spec
    (fun t (b : List T) => b.length = a.length ∧ (∀ t1, t1 < t → b[r * N + t1]? = some 0) ∧
      ∀ p, (∀ t1, t1 < N → p ≠ r * N + t1) → b[p]? = a[p]?)
    (fun t (b : List T) => vec_put b (r * N + t) 0) N 0 a
    ⟨rfl, by intro t1 h; omega, fun _ _ => rfl⟩
    (by
      intro t b _ ht hb
      obtain ⟨hlen, hz, hframe⟩ := hb
      have htN : t < N := by omega
      have hidx : r * N + t < b.length := by
        rw [hlen, ha]; exact index_lt_mul r t M N hr htN
      refine ⟨b.set (r * N + t) 0, vec_put_some _ _ _ hidx, by
        rw [List.length_set]; exact hlen, ?_, ?_⟩
      · intro t1 ht1
        by_cases h : t1 = t
        · rw [h, List.getElem?_set_self hidx]
        · rw [List.getElem?_set_ne (by omega)]
          exact hz t1 (by omega)
      · intro p hp
        rw [List.getElem?_set_ne (fun h => hp t htN h.symm)]
        exact hframe p hp)
  exact ⟨a1, h1, hlen, fun t ht => hz t (by omega), hframe⟩

/-- The strided loop of `dense_matrix_v::zerorow` in column orientation. -/
theorem dense_matrix_v.zerorow_stride_column {T : Type} [Zero T] (a : List T) (M N r : Nat)
    (ha : a.length = M * N) (hr : r < M) :
    ∃ s, for_loop (fun _j (s : List T × Nat) => do
        let a1 ← vec_put s.1 s.2 0
        pure (a1, s.2 + M)) N 0 (a, r) = some s ∧
      s.1.length = a.length ∧ (∀ t, t < N → s.1[t * M + r]? = some 0) ∧
      ∀ p, (∀ t, t < N → p ≠ t * M + r) → s.1[p]? = a[p]? := by
  obtain ⟨s, h1, _, hlen, hz, hframe⟩ := for_loop_spec
    (fun t (s : List T × Nat) => s.2 = t * M + r ∧ s.1.length = a.length ∧
      (∀ t1, t1 < t → s.1[t1 * M + r]? = some 0) ∧
      ∀ p, (∀ t1, t1 < N → p ≠ t1 * M + r) → s.1[p]? = a[p]?)
    (fun _j (s : List T × Nat) => do
        let a1 ← vec_put s.1 s.2 0
        pure (a1, s.2 + M)) N 0 (a, r)
    ⟨by simp, rfl, by intro t1 h; omega, fun _ _ => rfl⟩
    (by
      intro t s _ ht hs
      obtain ⟨hk, hlen, hz, hframe⟩ := hs
      have htN : t < N := by omega
      have hidx : t * M + r < s.1.length := by
        rw [hlen, ha, Nat.mul_comm M N]; exact index_lt_mul t r N M htN hr
      refine ⟨((s.1.set (t * M + r) 0), s.2 + M), ?_, ?_, by
        simp only [List.length_set]; exact hlen, ?_, ?_⟩
      · simp only [hk, vec_put_some _ _ _ hidx, Option.bind_eq_bind, Option.some_bind]
        rfl
      · simp only [hk]; ring
      · intro t1 ht1
        by_cases h : t1 = t
        · rw [h]; exact List.getElem?_set_self hidx
        · have hne : t * M + r ≠ t1 * M + r := by
            intro heq
            have := index_inj r t r t1 M hr hr heq
            omega
          simp only [List.getElem?_set_ne hne]
          exact hz t1 (by omega)
      · intro p hp
        simp only [List.getElem?_set_ne (fun h => hp t htN h.symm)]
        exact hframe p hp)
  exact ⟨s, h1, hlen, fun t ht => hz t (by omega), hframe⟩

/-- The loop of `dense_matrix_vv::zerorow` in column orientation. -/
theorem dense_matrix_vv.zerorow_loop_column {T : Type} [Zero T] (a : List (List T))
    (M N r : Nat) (ha : vec2_shaped a N M) (hr : r < M) :
    ∃ a1, for_loop (fun j (b : List (List T)) => vec2_put b j r 0) N 0 a = some a1 ∧
      vec2_shaped a1 N M ∧ (∀ t, t < N → vec2_get a1 t r = some 0) ∧
      ∀ p q, q ≠ r → vec2_get a1 p q = vec2_get a p q := by
  obtain ⟨a1, h1, hshape, hz, hframe⟩ := for_loop_spec
    (fun t (b : List (List T)) => vec2_shaped b N M ∧
      (∀ t1, t1 < t → vec2_get b t1 r = some 0) ∧
      ∀ p q, q ≠ r → vec2_get b p q = vec2_get a p q)
    (fun j (b : List (List T)) => vec2_put b j r 0) N 0 a
    ⟨ha, by intro t1 h; omega, fun _ _ _ => rfl⟩
    (by
      intro t b _ ht hb
      obtain ⟨hshape, hz, hframe⟩ := hb
      obtain ⟨b1, hput, hshape1, hget, hother⟩ :=
        vec2_put_spec b N M t r 0 hshape (by omega) hr
      refine ⟨b1, hput, hshape1, ?_, ?_⟩
      · intro t1 ht1
        by_cases h : t1 = t
        · rw [h]; exact hget
        · rw [hother t1 r (Or.inl h)]
          exact hz t1 (by omega)
      · intro p q hq
        rw [hother p q (Or.inr hq)]
        exact hframe p q hq)
  exact ⟨a1, h1, hshape, fun t ht => hz t (by omega), hframe⟩

/-- Behaviour of `dense_matrix_v::zerorow(r)` for `r < rows` on a well-formed matrix. -/
theorem dense_matrix_v.zerorow_returns_flat {T : Type} [Zero T] (ORIENT : orientation_t)
    (m : dense_matrix_v T) (hm : m.well_formed) (r : Nat) (hr : r < m.size 0) :
    ∃ m1, m.zerorow ORIENT r = .returns m1 ∧ m1.m_size = m.m_size ∧
      m1.m_zero = m.m_zero ∧ m1.m_print = m.m_print ∧ m1.well_formed ∧
      (∀ j, j < m.size 1 → m1.operator_get ORIENT r j = some 0) ∧
      ∀ i j, i < m.size 0 → j < m.size 1 → i ≠ r →
        m1.operator_get ORIENT i j = m.operator_get ORIENT i j := by
  have hnot : ¬ (r ≥ m.size 0) := by omega
  have h0 : m.size 0 = m.m_size.i := rfl
  have h1 : m.size 1 = m.m_size.j := rfl
  unfold dense_matrix_v.well_formed at hm
  cases ORIENT with
  | sort_by_row =>
    obtain ⟨a1, hloop, hlen, hz, hframe⟩ :=
      dense_matrix_v.zerorow_fill_row m.a (m.size 0) (m.size 1) r hm hr
    refine ⟨{ m with a := a1 }, ?_, rfl, rfl, rfl, ?_, ?_, ?_⟩
    · simp only [dense_matrix_v.zerorow, hnot, if_false, hloop, Option.map_some',
        outcome.of_option]
    · simp only [dense_matrix_v.well_formed, dense_matrix_v.size, hlen]
      exact hm
    · intro j hj
      simp only [dense_matrix_v.operator_get, dense_matrix_v.index, vec_get, ← h1]
      exact hz j hj
    · intro i j hi hj hne
      simp only [dense_matrix_v.operator_get, dense_matrix_v.index, vec_get, ← h1]
      apply hframe
      intro t ht heq
      have := index_inj j i t r (m.size 1) hj ht heq
      exact hne this.2
  | sort_by_column =>
    obtain ⟨s, hloop, hlen, hz, hframe⟩ :=
      dense_matrix_v.zerorow_stride_column m.a (m.size 0) (m.size 1) r hm hr
    refine ⟨{ m with a := s.1 }, ?_, rfl, rfl, rfl, ?_, ?_, ?_⟩
    · simp only [dense_matrix_v.zerorow, hnot, if_false, hloop, Option.map_some',
        outcome.of_option]
    · simp only [dense_matrix_v.well_formed, dense_matrix_v.size, hlen]
      exact hm
    · intro j hj
      simp only [dense_matrix_v.operator_get, dense_matrix_v.index, vec_get, ← h0]
      exact hz j hj
    · intro i j hi hj hne
      simp only [dense_matrix_v.operator_get, dense_matrix_v.index, vec_get, ← h0]
      apply hframe
      intro t ht heq
      have := index_inj i j r t (m.size 0) hi hr heq
      exact hne this.1

/-- Behaviour of `dense_matrix_vv::zerorow(r)` for `r < rows` on a well-formed matrix. -/
theorem dense_matrix_vv.zerorow_returns_nested {T : Type} [Zero T] (ORIENT : orientation_t)
    (m : dense_matrix_vv T) (hm : m.well_formed ORIENT) (r : Nat) (hr : r < m.size 0) :
    ∃ m1, m.zerorow ORIENT r = .returns m1 ∧ m1.m_size = m.m_size ∧
      m1.m_zero = m.m_zero ∧ m1.m_print = m.m_print ∧ m1.well_formed ORIENT ∧
      (∀ j, j < m.size 1 → m1.operator_get ORIENT r j = some 0) ∧
      ∀ i j, i < m.size 0 → j < m.size 1 → i ≠ r →
        m1.operator_get ORIENT i j = m.operator_get ORIENT i j := by
  have hnot : ¬ (r ≥ m.size 0) := by omega
  cases ORIENT with
  | sort_by_row =>
    have hra : r < m.a.length := by rw [hm.1]; exact hr
    refine ⟨{ m with a := m.a.set r (List.replicate (m.size 1) 0) }, ?_, rfl, rfl, rfl,
      ?_, ?_, ?_⟩
    · simp only [dense_matrix_vv.zerorow, hnot, if_false, vec_put_some _ _ _ hra,
        Option.map_some', outcome.of_option]
    · refine ⟨by simp only [List.length_set]; exact hm.1, ?_⟩
      intro x hx
      rcases List.mem_or_eq_of_mem_set hx with h | h
      · exact hm.2 x h
      · rw [h]; simp [dense_matrix_vv.size]
    · intro j hj
      simp only [dense_matrix_vv.operator_get, vec2_get, vec_get, List.getElem?_set_self hra,
        Option.bind_eq_bind, Option.some_bind, List.getElem?_replicate_of_lt hj]
    · intro i j _ _ hne
      have hne1 : r ≠ i := fun h => hne h.symm
      simp only [dense_matrix_vv.operator_get, vec2_get, vec_get, List.getElem?_set_ne hne1]
  | sort_by_column =>
    obtain ⟨a1, hloop, hshape, hz, hframe⟩ :=
      dense_matrix_vv.zerorow_loop_column m.a (m.size 0) (m.size 1) r hm hr
    refine ⟨{ m with a := a1 }, ?_, rfl, rfl, rfl, hshape, ?_, ?_⟩
    · simp only [dense_matrix_vv.zerorow, hnot, if_false, hloop, Option.map_some',
        outcome.of_option]
    · intro j hj
      exact hz j hj
    · intro i j _ _ hne
      exact hframe j i hne

/-- C10 (`zerorow`): on a well-formed dense matrix, flat or nested, in either
orientation, `zerorow(r)` throws exactly when `r >= rows` (leaving the matrix as it
was) and otherwise returns with the extent unchanged, the type's zero at `(r,j)`
for every `j < cols`, and every in-range cell `(i,j)` of another row `i != r`
unchanged. -/
theorem dense_zerorow_spec {T : Type} [Zero T] (ORIENT : orientation_t)
    (mv : dense_matrix_v T) (mvv : dense_matrix_vv T) (hmv : mv.well_formed)
    (hmvv : mvv.well_formed ORIENT) (r : Nat) :
    ((r ≥ mv.size 0 →
        mv.zerorow ORIENT r = .throws "dense_matrix_v: row index outside bounds." mv) ∧
      (r < mv.size 0 → ∃ m1, mv.zerorow ORIENT r = .returns m1 ∧ m1.m_size = mv.m_size ∧
        (∀ j, j < mv.size 1 → m1.operator_get ORIENT r j = some 0) ∧
        ∀ i j, i < mv.size 0 → j < mv.size 1 → i ≠ r →
          m1.operator_get ORIENT i j = mv.operator_get ORIENT i j) ∧
      ((∃ what s, mv.zerorow ORIENT r = .throws what s) ↔ r ≥ mv.size 0)) ∧
    ((r ≥ mvv.size 0 →
        mvv.zerorow ORIENT r = .throws "dense_matrix_vv: row index outside bounds." mvv) ∧
      (r < mvv.size 0 → ∃ m1, mvv.zerorow ORIENT r = .returns m1 ∧ m1.m_size = mvv.m_size ∧
        (∀ j, j < mvv.size 1 → m1.operator_get ORIENT r j = some 0) ∧
        ∀ i j, i < mvv.size 0 → j < mvv.size 1 → i ≠ r →
          m1.operator_get ORIENT i j = mvv.operator_get ORIENT i j) ∧
      ((∃ what s, mvv.zerorow ORIENT r = .throws what s) ↔ r ≥ mvv.size 0)) := by
  have hv1 : r ≥ mv.size 0 →
      mv.zerorow ORIENT r = .throws "dense_matrix_v: row index outside bounds." mv := by
    intro h
    unfold dense_matrix_v.zerorow
    rw [if_pos h]
  have hv2 : r < mv.size 0 → ∃ m1, mv.zerorow ORIENT r = .returns m1 ∧ m1.m_size = mv.m_size ∧
        (∀ j, j < mv.size 1 → m1.operator_get ORIENT r j = some 0) ∧
        ∀ i j, i < mv.size 0 → j < mv.size 1 → i ≠ r →
          m1.operator_get ORIENT i j = mv.operator_get ORIENT i j := by
    intro h
    obtain ⟨m1, h1, h2, _, _, _, h3, h4⟩ := dense_matrix_v.zerorow_returns_flat ORIENT mv hmv r h
    exact ⟨m1, h1, h2, h3, h4⟩
  have hw1 : r ≥ mvv.size 0 →
      mvv.zerorow ORIENT r = .throws "dense_matrix_vv: row index outside bounds." mvv := by
    intro h
    unfold dense_matrix_vv.zerorow
    rw [if_pos h]
  have hw2 : r < mvv.size 0 → ∃ m1, mvv.zerorow ORIENT r = .returns m1 ∧
        m1.m_size = mvv.m_size ∧
        (∀ j, j < mvv.size 1 → m1.operator_get ORIENT r j = some 0) ∧
        ∀ i j, i < mvv.size 0 → j < mvv.size 1 → i ≠ r →
          m1.operator_get ORIENT i j = mvv.operator_get ORIENT i j := by
    intro h
    obtain ⟨m1, h1, h2, _, _, _, h3, h4⟩ := dense_matrix_vv.zerorow_returns_nested ORIENT mvv hmvv r h
    exact ⟨m1, h1, h2, h3, h4⟩
  refine ⟨⟨hv1, hv2, ?_⟩, ⟨hw1, hw2, ?_⟩⟩
  · constructor
    · rintro ⟨what, s, hthrow⟩
      by_contra hlt
      obtain ⟨m1, h1, _⟩ := hv2 (by omega)
      rw [h1] at hthrow
      exact outcome.noConfusion hthrow
    · intro h
      exact ⟨_, _, hv1 h⟩
  · constructor
    · rintro ⟨what, s, hthrow⟩
      by_contra hlt
      obtain ⟨m1, h1, _⟩ := hw2 (by omega)
      rw [h1] at hthrow
      exact outcome.noConfusion hthrow
    · intro h
      exact ⟨_, _, hw1 h⟩

/-! ### Instances on the example states -/

/-- Witness of C5: the flat 2x3 example initialized from `[1,2,3,4,5,6]`. -/
theorem dense_matrix_v.initialize_vector_row_major_witness :
    example_dense_v.well_formed ∧
    ([1, 2, 3, 4, 5, 6] : List Int).length = example_dense_v.size 0 * example_dense_v.size 1 ∧
    ∃ m1, dense_matrix_v.initialize_vector (fun x : Int => x) .sort_by_row example_dense_v
        [1, 2, 3, 4, 5, 6] = .returns m1 ∧
      m1.m_size = example_dense_v.m_size ∧
      ∀ i j, i < example_dense_v.size 0 → j < example_dense_v.size 1 →
        ∃ x, ([1, 2, 3, 4, 5, 6] : List Int)[i * example_dense_v.size 1 + j]? = some x ∧
          m1.operator_get .sort_by_row i j = some ((fun x : Int => x) x) :=
  ⟨by unfold dense_matrix_v.well_formed; decide, by decide,
   dense_matrix_v.initialize_vector_row_major (fun x : Int => x) example_dense_v
    [1, 2, 3, 4, 5, 6] (by unfold dense_matrix_v.well_formed; decide) (by decide)⟩

/-- Witness of C6 amended: both 2x3 examples, column-major, initialized from
`[1,2,3,4,5,6]`. -/
theorem dense_initialize_vector_column_major_witness :
    example_dense_v.well_formed ∧
    ([1, 2, 3, 4, 5, 6] : List Int).length = example_dense_v.size 0 * example_dense_v.size 1 ∧
    example_dense_vv.well_formed .sort_by_column ∧
    ([1, 2, 3, 4, 5, 6] : List Int).length
      = example_dense_vv.size 0 * example_dense_vv.size 1 ∧
    ((∃ m1, dense_matrix_v.initialize_vector (fun x : Int => x) .sort_by_column
        example_dense_v [1, 2, 3, 4, 5, 6] = .returns m1 ∧
      m1.m_size = example_dense_v.m_size ∧
      ∀ i j, i < example_dense_v.size 0 → j < example_dense_v.size 1 →
        ∃ x, ([1, 2, 3, 4, 5, 6] : List Int)[i * example_dense_v.size 1 + j]? = some x ∧
          m1.operator_get .sort_by_column i j = some ((fun x : Int => x) x)) ∧
    (∃ m1, dense_matrix_vv.initialize_vector (fun x : Int => x) .sort_by_column
        example_dense_vv [1, 2, 3, 4, 5, 6] = .returns m1 ∧
      m1.m_size = example_dense_vv.m_size ∧
      ∀ i j, i < example_dense_vv.size 0 → j < example_dense_vv.size 1 →
        ∃ x, ([1, 2, 3, 4, 5, 6] : List Int)[i * example_dense_vv.size 1 + j]? = some x ∧
          m1.operator_get .sort_by_column i j = some ((fun x : Int => x) x))) :=
  ⟨by unfold dense_matrix_v.well_formed; decide, by decide,
   by unfold dense_matrix_vv.well_formed vec2_shaped; decide, by decide,
   dense_initialize_vector_column_major (fun x : Int => x) example_dense_v
    [1, 2, 3, 4, 5, 6] (by unfold dense_matrix_v.well_formed; decide) (by decide)
    example_dense_vv [1, 2, 3, 4, 5, 6]
    (by unfold dense_matrix_vv.well_formed vec2_shaped; decide) (by decide)⟩

/-- Witness of C7: both 2x3 examples, column-major, given the five values
`[1,2,3,4,5]`. -/
theorem dense_initialize_vector_throws_iff_witness :
    example_dense_v.well_formed ∧ example_dense_vv.well_formed .sort_by_column ∧
    ((([1, 2, 3, 4, 5] : List Int).length ≠ example_dense_v.size 0 * example_dense_v.size 1 →
        dense_matrix_v.initialize_vector (fun x : Int => x) .sort_by_column example_dense_v
          [1, 2, 3, 4, 5] =
          .throws "dense_matrix_v: assignment not consistent with current size."
            example_dense_v) ∧
      (([1, 2, 3, 4, 5] : List Int).length = example_dense_v.size 0 * example_dense_v.size 1 →
        ∃ m1, dense_matrix_v.initialize_vector (fun x : Int => x) .sort_by_column
          example_dense_v [1, 2, 3, 4, 5] = .returns m1) ∧
      ((∃ what s, dense_matrix_v.initialize_vector (fun x : Int => x) .sort_by_column
          example_dense_v [1, 2, 3, 4, 5] = .throws what s) ↔
        ([1, 2, 3, 4, 5] : List Int).length
          ≠ example_dense_v.size 0 * example_dense_v.size 1)) ∧
    ((([1, 2, 3, 4, 5] : List Int).length
          ≠ example_dense_vv.size 0 * example_dense_vv.size 1 →
        dense_matrix_vv.initialize_vector (fun x : Int => x) .sort_by_column example_dense_vv
          [1, 2, 3, 4, 5] =
          .throws "dense_matrix_vv: assignment not consistent with current size."
            example_dense_vv) ∧
      (([1, 2, 3, 4, 5] : List Int).length
          = example_dense_vv.size 0 * example_dense_vv.size 1 →
        ∃ m1, dense_matrix_vv.initialize_vector (fun x : Int => x) .sort_by_column
          example_dense_vv [1, 2, 3, 4, 5] = .returns m1) ∧
      ((∃ what s, dense_matrix_vv.initialize_vector (fun x : Int => x) .sort_by_column
          example_dense_vv [1, 2, 3, 4, 5] = .throws what s) ↔
        ([1, 2, 3, 4, 5] : List Int).length
          ≠ example_dense_vv.size 0 * example_dense_vv.size 1)) :=
  ⟨by unfold dense_matrix_v.well_formed; decide,
   by unfold dense_matrix_vv.well_formed vec2_shaped; decide,
   dense_initialize_vector_throws_iff (fun x : Int => x) .sort_by_column example_dense_v
    example_dense_vv (by unfold dense_matrix_v.well_formed; decide)
    (by unfold dense_matrix_vv.well_formed vec2_shaped; decide) [1, 2, 3, 4, 5]⟩

/-- Witness of C8: `initialize(2,3,7)` on the two examples, column-major. -/
theorem dense_initialize_size_fills_witness :
    0 < 2 ∧ 0 < 3 ∧
    (((example_dense_v.initialize_size (fun x : Int => x) 2 3 7).m_size = ⟨2, 3⟩ ∧
      (example_dense_v.initialize_size (fun x : Int => x) 2 3 7).a.length = 2 * 3 ∧
      ∀ i j, i < 2 → j < 3 →
        (example_dense_v.initialize_size (fun x : Int => x) 2 3 7).operator_get
          .sort_by_column i j = some ((fun x : Int => x) 7)) ∧
    ((example_dense_vv.initialize_size (fun x : Int => x) .sort_by_column 2 3 7).m_size
        = ⟨2, 3⟩ ∧
      ((example_dense_vv.initialize_size (fun x : Int => x) .sort_by_column 2 3 7).a.map
        List.length).sum = 2 * 3 ∧
      (example_dense_vv.initialize_size (fun x : Int => x) .sort_by_column 2 3 7).well_formed
        .sort_by_column ∧
      ∀ i j, i < 2 → j < 3 →
        (example_dense_vv.initialize_size (fun x : Int => x) .sort_by_column 2 3 7).operator_get
          .sort_by_column i j = some ((fun x : Int => x) 7))) :=
  ⟨by decide, by decide,
   dense_initialize_size_fills (fun x : Int => x) 2 3 (by decide) (by decide) 7
    .sort_by_column example_dense_v example_dense_vv⟩

/-- Witness of C9: `initialize(0,5,1)` on the two examples, row-major. -/
theorem dense_initialize_size_invalid_witness :
    ((0 : Nat) = 0 ∨ (5 : Nat) = 0) ∧
    (example_dense_v.initialize_size (fun x : Int => x) 0 5 1 = example_dense_v ∧
    example_dense_vv.initialize_size (fun x : Int => x) .sort_by_row 0 5 1 = example_dense_vv ∧
    (∀ (z : Int) (e0 : idx_t),
      dense_matrix_v.initialize_size (fun x : Int => x) ⟨z, e0, .print_auto, []⟩ 0 5 1
        = ⟨z, e0, .print_auto, []⟩ ∧
      dense_matrix_vv.initialize_size (fun x : Int => x) .sort_by_row
        ⟨z, e0, .print_auto, []⟩ 0 5 1 = ⟨z, e0, .print_auto, []⟩)) :=
  ⟨Or.inl rfl,
   dense_initialize_size_invalid (fun x : Int => x) 0 5 (Or.inl rfl) 1 .sort_by_row
    example_dense_v example_dense_vv⟩

/-- Witness of C10: `zerorow(1)` on the two 2x3 examples, column-major. -/
theorem dense_zerorow_spec_witness :
    example_dense_v.well_formed ∧ example_dense_vv.well_formed .sort_by_column ∧
    (((1 ≥ example_dense_v.size 0 →
        example_dense_v.zerorow .sort_by_column 1 =
          .throws "dense_matrix_v: row index outside bounds." example_dense_v) ∧
      (1 < example_dense_v.size 0 → ∃ m1, example_dense_v.zerorow .sort_by_column 1
          = .returns m1 ∧ m1.m_size = example_dense_v.m_size ∧
        (∀ j, j < example_dense_v.size 1 → m1.operator_get .sort_by_column 1 j = some 0) ∧
        ∀ i j, i < example_dense_v.size 0 → j < example_dense_v.size 1 → i ≠ 1 →
          m1.operator_get .sort_by_column i j
            = example_dense_v.operator_get .sort_by_column i j) ∧
      ((∃ what s, example_dense_v.zerorow .sort_by_column 1 = .throws what s) ↔
        1 ≥ example_dense_v.size 0)) ∧
    ((1 ≥ example_dense_vv.size 0 →
        example_dense_vv.zerorow .sort_by_column 1 =
          .throws "dense_matrix_vv: row index outside bounds." example_dense_vv) ∧
      (1 < example_dense_vv.size 0 → ∃ m1, example_dense_vv.zerorow .sort_by_column 1
          = .returns m1 ∧ m1.m_size = example_dense_vv.m_size ∧
        (∀ j, j < example_dense_vv.size 1 → m1.operator_get .sort_by_column 1 j = some 0) ∧
        ∀ i j, i < example_dense_vv.size 0 → j < example_dense_vv.size 1 → i ≠ 1 →
          m1.operator_get .sort_by_column i j
            = example_dense_vv.operator_get .sort_by_column i j) ∧
      ((∃ what s, example_dense_vv.zerorow .sort_by_column 1 = .throws what s) ↔
        1 ≥ example_dense_vv.size 0))) :=
  ⟨by unfold dense_matrix_v.well_formed; decide,
   by unfold dense_matrix_vv.well_formed vec2_shaped; decide,
   dense_zerorow_spec .sort_by_column example_dense_v example_dense_vv
    (by unfold dense_matrix_v.well_formed; decide)
    (by unfold dense_matrix_vv.well_formed vec2_shaped; decide) 1⟩

/-! ### Print level -/

/-- C20 (print level): for every extent `(rows, cols)` the level resolved from
`print_auto` by `matrix::print` is `print_size` when `rows > 100` or `cols > 100`,
otherwise `print_signs` when `rows > 10` or `cols > 10`, otherwise `print_full`; a
level other than `print_auto` is used as given; and `sparse_matrix::print`
resolves every level and extent to the same level as `matrix::print`. -/
theorem print_level_resolution (rows cols : Nat) :
    ((rows > 100 ∨ cols > 100) → matrix.print_level .print_auto ⟨rows, cols⟩ = .print_size) ∧
    (¬ (rows > 100 ∨ cols > 100) → (rows > 10 ∨ cols > 10) →
      matrix.print_level .print_auto ⟨rows, cols⟩ = .print_signs) ∧
    (¬ (rows > 100 ∨ cols > 100) → ¬ (rows > 10 ∨ cols > 10) →
      matrix.print_level .print_auto ⟨rows, cols⟩ = .print_full) ∧
    (∀ p : print_t, p ≠ .print_auto → matrix.print_level p ⟨rows, cols⟩ = p) ∧
    (∀ (T : Type) (m : sparse_matrix T),
      m.print_level = matrix.print_level m.m_print m.m_size) := by
  refine ⟨?_, ?_, ?_, ?_, ?_⟩
  · intro h
    simp only [matrix.print_level, print_t.toNat, ne_eq, not_true_eq_false, if_false, h, if_true]
  · intro h1 h2
    simp only [matrix.print_level, print_t.toNat, ne_eq, not_true_eq_false, if_false, h1, h2,
      if_true]
  · intro h1 h2
    simp only [matrix.print_level, print_t.toNat, ne_eq, not_true_eq_false, if_false, h1, h2]
  · intro p hp
    cases p with
    | print_auto => exact absurd rfl hp
    | print_size => rfl
    | print_signs => rfl
    | print_full => rfl
    | print_file => rfl
  · intro T m
    rfl

/-- Witness of C20: the extents 200x3, 50x3 and 3x3. -/
theorem print_level_resolution_witness :
    ((200 > 100 ∨ 3 > 100) ∧ matrix.print_level .print_auto ⟨200, 3⟩ = .print_size) ∧
    (¬ (50 > 100 ∨ 3 > 100) ∧ (50 > 10 ∨ 3 > 10) ∧
      matrix.print_level .print_auto ⟨50, 3⟩ = .print_signs) ∧
    (¬ (3 > 100 ∨ 3 > 100) ∧ ¬ (3 > 10 ∨ 3 > 10) ∧
      matrix.print_level .print_auto ⟨3, 3⟩ = .print_full) ∧
    (print_t.print_file ≠ .print_auto ∧ matrix.print_level .print_file ⟨200, 3⟩ = .print_file) :=
  ⟨⟨by decide, (print_level_resolution 200 3).1 (by decide)⟩,
   ⟨by decide, by decide, (print_level_resolution 50 3).2.1 (by decide) (by decide)⟩,
   ⟨by decide, by decide, (print_level_resolution 3 3).2.2.1 (by decide) (by decide)⟩,
   ⟨by decide, (print_level_resolution 200 3).2.2.2.1 .print_file (by decide)⟩⟩

/-! ### `zerorow` twice -/

theorem zerorow_fill_row_twice {T : Type} [Zero T] (a : List T) (M N r : Nat)
    (ha : a.length = M * N) (hr : r < M) :
    ∃ a1, for_loop (fun t (b : List T) => vec_put b (r * N + t) 0) N 0 a = some a1 ∧
      a1.length = a.length ∧
      for_loop (fun t (b : List T) => vec_put b (r * N + t) 0) N 0 a1 = some a1 := by
  obtain ⟨a1, h1, hlen1, hz1, _⟩ := dense_matrix_v.zerorow_fill_row a M N r ha hr
  obtain ⟨a2, h2, hlen2, hz2, hframe2⟩ :=
    dense_matrix_v.zerorow_fill_row a1 M N r (hlen1.trans ha) hr
  refine ⟨a1, h1, hlen1, ?_⟩
  rw [h2]
  congr 1
  apply List.ext_getElem?
  intro p
  by_cases h : ∃ t, t < N ∧ p = r * N + t
  · obtain ⟨t, ht, hp⟩ := h
    rw [hp, hz1 t ht, hz2 t ht]
  · exact hframe2 p (fun t ht hp => h ⟨t, ht, hp⟩)

theorem zerorow_stride_column_twice {T : Type} [Zero T] (a : List T) (M N r : Nat)
    (ha : a.length = M * N) (hr : r < M) :
    ∃ s, for_loop (fun _j (s : List T × Nat) => do
        let a1 ← vec_put s.1 s.2 0
        pure (a1, s.2 + M)) N 0 (a, r) = some s ∧
      s.1.length = a.length ∧
      ∃ s2, for_loop (fun _j (s : List T × Nat) => do
        let a1 ← vec_put s.1 s.2 0
        pure (a1, s.2 + M)) N 0 (s.1, r) = some s2 ∧ s2.1 = s.1 := by
  obtain ⟨s, h1, hlen1, hz1, _⟩ := dense_matrix_v.zerorow_stride_column a M N r ha hr
  obtain ⟨s2, h2, hlen2, hz2, hframe2⟩ :=
    dense_matrix_v.zerorow_stride_column s.1 M N r (hlen1.trans ha) hr
  refine ⟨s, h1, hlen1, s2, h2, ?_⟩
  apply List.ext_getElem?
  intro p
  by_cases h : ∃ t, t < N ∧ p = t * M + r
  · obtain ⟨t, ht, hp⟩ := h
    rw [hp, hz1 t ht, hz2 t ht]
  · exact hframe2 p (fun t ht hp => h ⟨t, ht, hp⟩)

theorem vec2_ext {α : Type} (a1 a2 : List (List α)) (P Q : Nat) (h1 : vec2_shaped a1 P Q)
    (h2 : vec2_shaped a2 P Q) (h : ∀ p q, vec2_get a2 p q = vec2_get a1 p q) : a2 = a1 := by
  apply List.ext_getElem (by rw [h1.1, h2.1])
  intro p hp2 hp1
  apply List.ext_getElem?
  intro q
  have := h p q
  simpa only [vec2_get, vec_get, List.getElem?_eq_getElem hp1, List.getElem?_eq_getElem hp2,
    Option.bind_eq_bind, Option.some_bind] using this

theorem zerorow_loop_column_twice {T : Type} [Zero T] (a : List (List T)) (M N r : Nat)
    (ha : vec2_shaped a N M) (hr : r < M) :
    ∃ a1, for_loop (fun j (b : List (List T)) => vec2_put b j r 0) N 0 a = some a1 ∧
      for_loop (fun j (b : List (List T)) => vec2_put b j r 0) N 0 a1 = some a1 := by
  obtain ⟨a1, h1, hs1, hz1, _⟩ := dense_matrix_vv.zerorow_loop_column a M N r ha hr
  obtain ⟨a2, h2, hs2, hz2, hframe2⟩ := dense_matrix_vv.zerorow_loop_column a1 M N r hs1 hr
  refine ⟨a1, h1, ?_⟩
  rw [h2]
  congr 1
  apply vec2_ext a1 a2 N M hs1 hs2
  intro p q
  by_cases hq : q = r
  · subst hq
    by_cases hp : p < N
    · rw [hz1 p hp, hz2 p hp]
    · have hp1 : a1.length ≤ p := by rw [hs1.1]; omega
      have hp2 : a2.length ≤ p := by rw [hs2.1]; omega
      simp only [vec2_get, vec_get, List.getElem?_eq_none hp1, List.getElem?_eq_none hp2]
  · exact hframe2 p q hq

/-- C11 (`zerorow` is idempotent): on a well-formed dense matrix, flat (`mv`) or
nested (`mvv`), in either orientation, and for every `r < rows`, `zerorow(r)`
returns a state `m1`, and `zerorow(r)` called again on `m1` returns `m1` itself:
the same extent and the same cells as after one call. -/
theorem dense_zerorow_idempotent {T : Type} [Zero T] (ORIENT : orientation_t)
    (mv : dense_matrix_v T) (mvv : dense_matrix_vv T) (hmv : mv.well_formed)
    (hmvv : mvv.well_formed ORIENT) (r : Nat) (hrv : r < mv.size 0) (hrvv : r < mvv.size 0) :
    (∃ m1, mv.zerorow ORIENT r = .returns m1 ∧ m1.zerorow ORIENT r = .returns m1) ∧
    (∃ m1, mvv.zerorow ORIENT r = .returns m1 ∧ m1.zerorow ORIENT r = .returns m1) := by
  have hnot : ¬ (r ≥ mv.size 0) := by omega
  have hnotvv : ¬ (r ≥ mvv.size 0) := by omega
  unfold dense_matrix_v.well_formed at hmv
  constructor
  · cases ORIENT with
    | sort_by_row =>
      obtain ⟨a1, h1, _, h2⟩ := zerorow_fill_row_twice mv.a (mv.size 0) (mv.size 1) r hmv hrv
      refine ⟨{ mv with a := a1 }, ?_, ?_⟩
      · simp only [dense_matrix_v.zerorow, hnot, if_false, h1, Option.map_some',
          outcome.of_option]
      · have hs0 : ({ mv with a := a1 } : dense_matrix_v T).size 0 = mv.size 0 := rfl
        have hs1 : ({ mv with a := a1 } : dense_matrix_v T).size 1 = mv.size 1 := rfl
        simp only [dense_matrix_v.zerorow, hs0, hs1, h2, Option.map_some', outcome.of_option]
        rw [if_neg hnot]
    | sort_by_column =>
      obtain ⟨s, h1, _, s2, h2, h3⟩ :=
        zerorow_stride_column_twice mv.a (mv.size 0) (mv.size 1) r hmv hrv
      refine ⟨{ mv with a := s.1 }, ?_, ?_⟩
      · simp only [dense_matrix_v.zerorow, hnot, if_false, h1, Option.map_some',
          outcome.of_option]
      · have hs0 : ({ mv with a := s.1 } : dense_matrix_v T).size 0 = mv.size 0 := rfl
        have hs1 : ({ mv with a := s.1 } : dense_matrix_v T).size 1 = mv.size 1 := rfl
        simp only [dense_matrix_v.zerorow, hs0, hs1, h2, Option.map_some',
          outcome.of_option, h3]
        rw [if_neg hnot]
  · cases ORIENT with
    | sort_by_row =>
      have hra : r < mvv.a.length := by rw [hmvv.1]; exact hrvv
      have hra1 : r < (mvv.a.set r (List.replicate (mvv.size 1) 0)).length := by
        rw [List.length_set]; exact hra
      refine ⟨{ mvv with a := mvv.a.set r (List.replicate (mvv.size 1) 0) }, ?_, ?_⟩
      · simp only [dense_matrix_vv.zerorow, hnotvv, if_false, vec_put_some _ _ _ hra,
          Option.map_some', outcome.of_option]
      · have hs0 : ({ mvv with a := mvv.a.set r (List.replicate (mvv.size 1) 0) } :
            dense_matrix_vv T).size 0 = mvv.size 0 := rfl
        have hs1 : ({ mvv with a := mvv.a.set r (List.replicate (mvv.size 1) 0) } :
            dense_matrix_vv T).size 1 = mvv.size 1 := rfl
        simp only [dense_matrix_vv.zerorow, hs0, hs1, vec_put_some _ _ _ hra1,
          Option.map_some', outcome.of_option, List.set_set]
        rw [if_neg hnotvv]
    | sort_by_column =>
      obtain ⟨a1, h1, h2⟩ :=
        zerorow_loop_column_twice mvv.a (mvv.size 0) (mvv.size 1) r hmvv hrvv
      refine ⟨{ mvv with a := a1 }, ?_, ?_⟩
      · simp only [dense_matrix_vv.zerorow, hnotvv, if_false, h1, Option.map_some',
          outcome.of_option]
      · have hs0 : ({ mvv with a := a1 } : dense_matrix_vv T).size 0 = mvv.size 0 := rfl
        have hs1 : ({ mvv with a := a1 } : dense_matrix_vv T).size 1 = mvv.size 1 := rfl
        simp only [dense_matrix_vv.zerorow, hs0, hs1, h2, Option.map_some', outcome.of_option]
        rw [if_neg hnotvv]

/-- Witness of C11: `zerorow(1)` twice on the two 2x3 examples, column-major. -/
theorem dense_zerorow_idempotent_witness :
    example_dense_v.well_formed ∧ example_dense_vv.well_formed .sort_by_column ∧
    1 < example_dense_v.size 0 ∧ 1 < example_dense_vv.size 0 ∧
    ((∃ m1, example_dense_v.zerorow .sort_by_column 1 = .returns m1 ∧
      m1.zerorow .sort_by_column 1 = .returns m1) ∧
    (∃ m1, example_dense_vv.zerorow .sort_by_column 1 = .returns m1 ∧
      m1.zerorow .sort_by_column 1 = .returns m1)) :=
  ⟨by unfold dense_matrix_v.well_formed; decide,
   by unfold dense_matrix_vv.well_formed vec2_shaped; decide, by decide, by decide,
   dense_zerorow_idempotent .sort_by_column example_dense_v example_dense_vv
    (by unfold dense_matrix_v.well_formed; decide)
    (by unfold dense_matrix_vv.well_formed vec2_shaped; decide) 1 (by decide) (by decide)⟩

/-! ### `compress` and `uncompress` in the target state -/

theorem sort_by_column_t.lt_col_le {T : Type} (a b : coord_t T)
    (h : sort_by_column_t.lt a b = true) : a.first.j ≤ b.first.j := by
  unfold sort_by_column_t.lt at h
  split_ifs at h
  all_goals simp_all
  all_goals omega

theorem sort_by_column_t.compress_outer_length_ja {T : Type} (n c : Nat)
    (it : List (coord_t T)) (ia ja : List Int) (a : List T) :
    (sort_by_column_t.compress_outer n c it ia ja a).2.1.length = ja.length + n := by
  induction n generalizing c it ia ja a with
  | zero => simp [sort_by_column_t.compress_outer]
  | succ n ih =>
    simp only [sort_by_column_t.compress_outer, ih, List.length_append, List.length_singleton]
    omega

theorem sort_by_row_t.compress_nnu_pos_row {T : Type} (S : List (coord_t T))
    (hs : set_sorted sort_by_row_t.lt S) (c : compressed_t T)
    (hc : sort_by_row_t.compress S = some c) : c.nnu ≠ 0 := by
  cases S with
  | nil => simp [sort_by_row_t.compress] at hc
  | cons e es =>
    obtain ⟨l, hl⟩ : ∃ l, (e :: es).getLast? = some l :=
      ⟨(e :: es).getLast (by simp), List.getLast?_eq_getLast _ _⟩
    have hrows := (sort_by_row_t.rows_between e l es hs hl e (List.mem_cons_self _ _)).2
    simp only [sort_by_row_t.compress, hl, Option.some.injEq] at hc
    rw [← hc]
    simp only [sort_by_row_t.compress_outer_length, Int.ofNat_eq_coe, List.length_singleton]
    push_cast
    omega

theorem sort_by_column_t.compress_nnu_pos_column {T : Type} (S : List (coord_t T))
    (hs : set_sorted sort_by_column_t.lt S) (c : compressed_t T)
    (hc : sort_by_column_t.compress S = some c) : c.nnu ≠ 0 := by
  cases S with
  | nil => simp [sort_by_column_t.compress] at hc
  | cons e es =>
    obtain ⟨l, hl⟩ : ∃ l, (e :: es).getLast? = some l :=
      ⟨(e :: es).getLast (by simp), List.getLast?_eq_getLast _ _⟩
    have hcols : e.first.j ≤ l.first.j := by
      obtain ⟨ys, hys⟩ := List.getLast?_eq_some_iff.mp hl
      cases ys with
      | nil =>
        simp only [List.nil_append, List.cons.injEq] at hys
        rw [hys.1]
      | cons y ys =>
        have hmem : l ∈ es := by
          have h1 : es = ys ++ [l] := by
            simp only [List.cons_append, List.cons.injEq] at hys
            exact hys.2
          rw [h1]; simp
        exact sort_by_column_t.lt_col_le _ _ ((List.pairwise_cons.mp hs).1 l hmem)
    simp only [sort_by_column_t.compress, hl, Option.some.injEq] at hc
    rw [← hc]
    simp only [sort_by_column_t.compress_outer_length_ja, Int.ofNat_eq_coe,
      List.length_singleton]
    push_cast
    omega

/-- C16 (no-ops in the target state): `compress()` leaves an already compressed
`sparse_matrix` as it is and `uncompress()` leaves an already uncompressed one as
it is (every member: entry set, `ia`, `ja`, `a`, `nnu`, `nnz`, extent); so
`uncompress(); uncompress()` ends like `uncompress()`, and, for either comparator
and an entry set in its order, `compress(); compress()` ends like `compress()`,
which on a non-empty entry set returns a compressed state. -/
theorem sparse_matrix.compress_uncompress_idempotent {T : Type} (S : SORT T)
    (m : sparse_matrix T) :
    (m.is_compressed = true → m.compress S = some m) ∧
    (m.is_compressed = false → m.uncompress S = some m) ∧
    ((m.uncompress S).bind (fun m1 => m1.uncompress S) = m.uncompress S) ∧
    ((S = sort_by_row_t.SORT T ∨ S = sort_by_column_t.SORT T) → set_sorted S.lt m.entries →
      (m.compress S).bind (fun m1 => m1.compress S) = m.compress S ∧
      (m.entries ≠ [] → ∃ m1, m.compress S = some m1 ∧ m1.is_compressed = true ∧
        m1.compress S = some m1)) := by
  have hc : ∀ m1 : sparse_matrix T, m1.is_compressed = true → m1.compress S = some m1 := by
    intro m1 h
    simp only [sparse_matrix.compress, h, Bool.not_true, Bool.false_eq_true, if_false]
    rfl
  have hu : ∀ m1 : sparse_matrix T, m1.is_compressed = false → m1.uncompress S = some m1 := by
    intro m1 h
    simp only [sparse_matrix.uncompress, h, Bool.false_eq_true, if_false]
    rfl
  refine ⟨hc m, hu m, ?_, ?_⟩
  · cases h : m.is_compressed with
    | false => rw [hu m h, Option.some_bind, hu m h]
    | true =>
      simp only [sparse_matrix.uncompress, h, if_true]
      cases hun : S.uncompress m.ia m.ja m.a with
      | none => rfl
      | some es =>
        simp only [Option.bind_eq_bind, Option.some_bind, pure]
        rfl
  · intro hS hsorted
    have hnnu : ∀ c, S.compress m.entries = some c → c.nnu ≠ 0 := by
      intro c hcomp
      rcases hS with h | h
      · subst h
        exact sort_by_row_t.compress_nnu_pos_row m.entries hsorted c hcomp
      · subst h
        exact sort_by_column_t.compress_nnu_pos_column m.entries hsorted c hcomp
    have hne : ∀ e es, m.entries = e :: es → ∃ c, S.compress m.entries = some c := by
      intro e es hm
      obtain ⟨l, hl⟩ : ∃ l, (e :: es).getLast? = some l :=
        ⟨(e :: es).getLast (by simp), List.getLast?_eq_getLast _ _⟩
      rcases hS with h | h
      · subst h
        simp only [sort_by_row_t.SORT, hm, sort_by_row_t.compress, hl]
        exact ⟨_, rfl⟩
      · subst h
        simp only [sort_by_column_t.SORT, hm, sort_by_column_t.compress, hl]
        exact ⟨_, rfl⟩
    cases h : m.is_compressed with
    | true =>
      refine ⟨by rw [hc m h, Option.some_bind, hc m h], ?_⟩
      intro _
      exact ⟨m, hc m h, h, hc m h⟩
    | false =>
      cases hcomp : S.compress m.entries with
      | none =>
        have hnone : m.compress S = none := by
          simp only [sparse_matrix.compress, h, Bool.not_false, if_true, hcomp]
          rfl
        refine ⟨by rw [hnone]; rfl, ?_⟩
        intro hnonempty
        cases hm : m.entries with
        | nil => exact absurd hm hnonempty
        | cons e es =>
          obtain ⟨c, hc1⟩ := hne e es hm
          rw [hcomp] at hc1
          exact Option.noConfusion hc1
      | some c =>
        have hsome : m.compress S = some
            ⟨m.m_zero, m.m_size, m.m_print, [], c.a, c.ia, c.ja, c.nnu, c.nnz⟩ := by
          simp only [sparse_matrix.compress, h, Bool.not_false, if_true, hcomp]
          rfl
        have hcompressed : (⟨m.m_zero, m.m_size, m.m_print, [], c.a, c.ia, c.ja, c.nnu,
            c.nnz⟩ : sparse_matrix T).is_compressed = true := by
          simp only [sparse_matrix.is_compressed]
          exact decide_eq_true (hnnu c hcomp)
        refine ⟨by rw [hsome, Option.some_bind, hc _ hcompressed], ?_⟩
        intro _
        exact ⟨_, hsome, hcompressed, hc _ hcompressed⟩

/-- Witness of C16: the compressed and the uncompressed example, row-major. -/
theorem sparse_matrix.compress_uncompress_idempotent_witness :
    (example_sparse_compressed.is_compressed = true ∧
      example_sparse_compressed.compress (sort_by_row_t.SORT Int)
        = some example_sparse_compressed) ∧
    (example_sparse_entries.is_compressed = false ∧
      example_sparse_entries.uncompress (sort_by_row_t.SORT Int)
        = some example_sparse_entries) ∧
    ((sort_by_row_t.SORT Int = sort_by_row_t.SORT Int ∨
        sort_by_row_t.SORT Int = sort_by_column_t.SORT Int) ∧
      set_sorted (sort_by_row_t.SORT Int).lt example_sparse_entries.entries ∧
      example_sparse_entries.entries ≠ [] ∧
      ∃ m1, example_sparse_entries.compress (sort_by_row_t.SORT Int) = some m1 ∧
        m1.is_compressed = true ∧ m1.compress (sort_by_row_t.SORT Int) = some m1) :=
  ⟨⟨by decide, (sparse_matrix.compress_uncompress_idempotent (sort_by_row_t.SORT Int)
      example_sparse_compressed).1 (by decide)⟩,
   ⟨by decide, (sparse_matrix.compress_uncompress_idempotent (sort_by_row_t.SORT Int)
      example_sparse_entries).2.1 (by decide)⟩,
   ⟨Or.inl rfl, by unfold set_sorted; decide, by decide,
    ((sparse_matrix.compress_uncompress_idempotent (sort_by_row_t.SORT Int)
      example_sparse_entries).2.2.2 (Or.inl rfl) (by unfold set_sorted; decide)).2
      (by decide)⟩⟩

/-! ### Cell access of `sparse_matrix` -/

theorem sparse_matrix.getindex_loop_found (ja : List Int) (BASE j : Nat) :
    ∀ (n : Nat) (k : Int) (t : Nat), t < n →
      (∀ s : Nat, s < t → ∃ c, vec_at ja (k + (s : Int)) = some c ∧
        c - (BASE : Int) ≠ (j : Int)) →
      (∃ c, vec_at ja (k + (t : Int)) = some c ∧ c - (BASE : Int) = (j : Int)) →
      sparse_matrix.getindex_loop ja BASE j n k = some (k + (t : Int)) := by
  intro n
  induction n with
  | zero => intro k t h; omega
  | succ n ih =>
    intro k t ht hbefore hat
    cases t with
    | zero =>
      obtain ⟨c, hc, hcj⟩ := hat
      have hk : k + ((0 : Nat) : Int) = k := by simp
      rw [hk] at hc ⊢
      simp only [sparse_matrix.getindex_loop, Int.ofNat_eq_coe, hc, Option.bind_eq_bind, Option.some_bind, hcj,
        if_true]
    | succ t =>
      obtain ⟨c, hc, hcj⟩ := hbefore 0 (by omega)
      have hk : k + ((0 : Nat) : Int) = k := by simp
      rw [hk] at hc
      have hstep : ∀ s : Nat, k + 1 + (s : Int) = k + ((s + 1 : Nat) : Int) := by
        intro s; push_cast; ring
      have hrec := ih (k + 1) t (by omega)
        (fun s hs => by rw [hstep]; exact hbefore (s + 1) (by omega))
        (by rw [hstep]; exact hat)
      simp only [sparse_matrix.getindex_loop, Int.ofNat_eq_coe, hc, Option.bind_eq_bind, Option.some_bind, hcj,
        if_false, hrec, hstep]

theorem sparse_matrix.getindex_loop_absent (ja : List Int) (BASE j : Nat) :
    ∀ (n : Nat) (k : Int),
      (∀ s : Nat, s < n → ∃ c, vec_at ja (k + (s : Int)) = some c ∧
        c - (BASE : Int) ≠ (j : Int)) →
      sparse_matrix.getindex_loop ja BASE j n k = some (-1) := by
  intro n
  induction n with
  | zero => intro k _; rfl
  | succ n ih =>
    intro k hall
    obtain ⟨c, hc, hcj⟩ := hall 0 (by omega)
    have hk : k + ((0 : Nat) : Int) = k := by simp
    rw [hk] at hc
    have hstep : ∀ s : Nat, k + 1 + (s : Int) = k + ((s + 1 : Nat) : Int) := by
      intro s; push_cast; ring
    have hrec := ih (k + 1) (fun s hs => by rw [hstep]; exact hall (s + 1) (by omega))
    simp only [sparse_matrix.getindex_loop, Int.ofNat_eq_coe, hc, Option.bind_eq_bind, Option.some_bind, hcj,
      if_false, hrec]

theorem vec_at_some {α : Type} (xs : List α) (k : Int) (h0 : 0 ≤ k)
    (h1 : k < (xs.length : Int)) : ∃ x, vec_at xs k = some x := by
  have hn : ¬ k < 0 := by omega
  have hlt : k.toNat < xs.length := by
    omega
  exact ⟨xs[k.toNat], by simp only [vec_at, hn, if_false, List.getElem?_eq_getElem hlt]⟩

/-- The slice of row `i` of a well-formed compressed form lies inside `ja` and
`a`. -/
theorem compressed_well_formed.slice {T : Type} {BASE rows cols : Nat} {ia ja : List Int}
    {a : List T} (hwf : compressed_well_formed BASE rows cols ia ja a) (i : Nat)
    (hi : i < rows) :
    ∃ lo hi, ia[i]? = some lo ∧ ia[i + 1]? = some hi ∧ (BASE : Int) ≤ lo ∧ lo ≤ hi ∧
      hi - (BASE : Int) ≤ (ja.length : Int) ∧ ja.length = a.length := by
  obtain ⟨hlen, h0, hmono, hja, ⟨last, hlast, hjalen⟩, _⟩ := hwf
  simp only [Int.ofNat_eq_coe] at h0 hjalen
  have hi1 : i < ia.length := by omega
  have hi2 : i + 1 < ia.length := by omega
  have hl : ia[ia.length - 1]? = some last := by
    rw [← List.getLast?_eq_getElem?]; exact hlast
  refine ⟨ia[i], ia[i + 1], List.getElem?_eq_getElem hi1, List.getElem?_eq_getElem hi2,
    hmono 0 i _ _ (Nat.zero_le _) h0 (List.getElem?_eq_getElem hi1),
    hmono i (i + 1) _ _ (Nat.le_succ _) (List.getElem?_eq_getElem hi1)
      (List.getElem?_eq_getElem hi2), ?_, hja⟩
  have := hmono (i + 1) (ia.length - 1) _ _ (by omega) (List.getElem?_eq_getElem hi2) hl
  omega

/-- C12 (read of a compressed matrix): for a compressed `sparse_matrix` whose
arrays satisfy the structural invariants, every row `i < rows` and every `j`
(not required to be below the number of columns; indices are unbounded
integers, so that the conversion `(int) j` of the code is exact), the read at
`(i,j)` returns `a[k]` when `k` lies in the slice
`[ia[i]-BASE, ia[i+1]-BASE)` of row `i`, `ja[k]-BASE = j`, and no earlier index of
the slice has that column (so for any such `k` when the columns of the slice are
distinct); it returns the sentinel `m_zero` when no index of the slice has
column `j`; and it always returns a value, without throwing and without leaving
the arrays. -/
theorem sparse_matrix.operator_get_compressed {T : Type} [Zero T] (BASE : Nat) (S : SORT T)
    (m : sparse_matrix T) (hc : m.is_compressed = true) (hwf : m.well_formed BASE)
    (i j : Nat) (hi : i < m.m_size.i) :
    ∃ lo hi, m.ia[i]? = some lo ∧ m.ia[i + 1]? = some hi ∧
      (∀ k : Int, lo - (BASE : Int) ≤ k → k < hi - (BASE : Int) →
        (∃ c, vec_at m.ja k = some c ∧ c - (BASE : Int) = (j : Int)) →
        (∀ k1 : Int, lo - (BASE : Int) ≤ k1 → k1 < k →
          ∀ c, vec_at m.ja k1 = some c → c - (BASE : Int) ≠ (j : Int)) →
        ∃ x, vec_at m.a k = some x ∧ m.operator_get BASE S i j = some x) ∧
      ((∀ k : Int, lo - (BASE : Int) ≤ k → k < hi - (BASE : Int) →
          ∀ c, vec_at m.ja k = some c → c - (BASE : Int) ≠ (j : Int)) →
        m.operator_get BASE S i j = some m.m_zero) ∧
      ∃ x, m.operator_get BASE S i j = some x := by
  obtain ⟨lo, hi1, hlo, hhi, hbase, hle, hupper, hlen⟩ := hwf.slice i hi
  have hinja : ∀ k : Int, lo - (BASE : Int) ≤ k → k < hi1 - (BASE : Int) →
      ∃ c, vec_at m.ja k = some c :=
    fun k h1 h2 => vec_at_some m.ja k (by omega) (by omega)
  have hina : ∀ k : Int, lo - (BASE : Int) ≤ k → k < hi1 - (BASE : Int) →
      ∃ x, vec_at m.a k = some x :=
    fun k h1 h2 => vec_at_some m.a k (by omega) (by rw [← hlen]; omega)
  have hget : m.getindex BASE i j = sparse_matrix.getindex_loop m.ja BASE j
      ((hi1 - (BASE : Int)) - (lo - (BASE : Int))).toNat (lo - (BASE : Int)) := by
    simp only [sparse_matrix.getindex, vec_get, hlo, hhi, Option.bind_eq_bind,
      Option.some_bind, Int.ofNat_eq_coe]
  have hfound : ∀ k : Int, lo - (BASE : Int) ≤ k → k < hi1 - (BASE : Int) →
      (∃ c, vec_at m.ja k = some c ∧ c - (BASE : Int) = (j : Int)) →
      (∀ k1 : Int, lo - (BASE : Int) ≤ k1 → k1 < k →
        ∀ c, vec_at m.ja k1 = some c → c - (BASE : Int) ≠ (j : Int)) →
      ∃ x, vec_at m.a k = some x ∧ m.operator_get BASE S i j = some x := by
    intro k hk1 hk2 hmatch hfirst
    obtain ⟨x, hx⟩ := hina k hk1 hk2
    have hkt : lo - (BASE : Int) + ((k - (lo - (BASE : Int))).toNat : Int) = k := by
      omega
    have hloop := sparse_matrix.getindex_loop_found m.ja BASE j
      ((hi1 - (BASE : Int)) - (lo - (BASE : Int))).toNat (lo - (BASE : Int))
      (k - (lo - (BASE : Int))).toNat (by omega)
      (fun s hs => by
        obtain ⟨c, hc1⟩ := hinja (lo - (BASE : Int) + (s : Int))
          (by omega) (by omega)
        exact ⟨c, hc1, hfirst _ (by omega)
          (by omega) c hc1⟩)
      (by rw [hkt]; exact hmatch)
    rw [hkt] at hloop
    have hk0 : ¬ k < 0 := by omega
    refine ⟨x, hx, ?_⟩
    simp only [sparse_matrix.operator_get, hc, if_true, hget, hloop, Option.bind_eq_bind,
      Option.some_bind, hk0, if_false, hx]
  have habsent : (∀ k : Int, lo - (BASE : Int) ≤ k → k < hi1 - (BASE : Int) →
        ∀ c, vec_at m.ja k = some c → c - (BASE : Int) ≠ (j : Int)) →
      m.operator_get BASE S i j = some m.m_zero := by
    intro hall
    have hloop := sparse_matrix.getindex_loop_absent m.ja BASE j
      ((hi1 - (BASE : Int)) - (lo - (BASE : Int))).toNat (lo - (BASE : Int))
      (fun s hs => by
        obtain ⟨c, hc1⟩ := hinja (lo - (BASE : Int) + (s : Int))
          (by omega) (by omega)
        exact ⟨c, hc1, hall _ (by omega)
          (by omega) c hc1⟩)
    have hneg : (-1 : Int) < 0 := by decide
    simp only [sparse_matrix.operator_get, hc, if_true, hget, hloop, Option.bind_eq_bind,
      Option.some_bind, hneg]
  refine ⟨lo, hi1, hlo, hhi, hfound, habsent, ?_⟩
  -- a value in every case: either some index of the slice matches, or none does
  by_cases hex : ∃ k : Int, lo - (BASE : Int) ≤ k ∧ k < hi1 - (BASE : Int) ∧
      ∃ c, vec_at m.ja k = some c ∧ c - (BASE : Int) = (j : Int)
  · -- take the least matching offset
    have hexn : ∃ t : Nat, (t : Int) < hi1 - lo ∧
        ∃ c, vec_at m.ja (lo - (BASE : Int) + (t : Int)) = some c ∧
          c - (BASE : Int) = (j : Int) := by
      obtain ⟨k, hk1, hk2, hk3⟩ := hex
      refine ⟨(k - (lo - (BASE : Int))).toNat, by omega, ?_⟩
      have hkt : lo - (BASE : Int) + ((k - (lo - (BASE : Int))).toNat : Int) = k := by
        omega
      rw [hkt]; exact hk3
    classical
    obtain ⟨hmin1, hmin2⟩ := Nat.find_spec hexn
    have hleast := fun s (hs : s < Nat.find hexn) => Nat.find_min hexn hs
    obtain ⟨x, _, hx⟩ := hfound (lo - (BASE : Int) + ((Nat.find hexn : Nat) : Int))
      (by omega) (by omega)
      hmin2
      (fun k1 h1 h2 c hc1 hcj => by
        have hkt : lo - (BASE : Int) + ((k1 - (lo - (BASE : Int))).toNat : Int) = k1 := by
          omega
        apply hleast (k1 - (lo - (BASE : Int))).toNat
          (by omega)
        refine ⟨by omega, c, ?_, hcj⟩
        rw [hkt]; exact hc1)
    exact ⟨x, hx⟩
  · exact ⟨m.m_zero, habsent (fun k h1 h2 c hc1 hcj => hex ⟨k, h1, h2, c, hc1, hcj⟩)⟩

theorem nondecreasing_of_pairwise (ia : List Int) (h : ia.Pairwise (fun x y => x ≤ y)) :
    ∀ (p q : Nat) (x y : Int), p ≤ q → ia[p]? = some x → ia[q]? = some y → x ≤ y := by
  intro p q x y hpq hp hq
  obtain ⟨hp1, hpx⟩ := List.getElem?_eq_some.mp hp
  obtain ⟨hq1, hqy⟩ := List.getElem?_eq_some.mp hq
  rcases Nat.lt_or_eq_of_le hpq with hlt | heq
  · have := List.pairwise_iff_getElem.mp h p q hp1 hq1 hlt
    rw [hpx, hqy] at this
    exact this
  · subst heq
    rw [← hpx, ← hqy]

/-- Witness of C12: `ia = [0,2,3,5]`, `ja = [0,2,1,0,2]`, `a = [10,20,30,40,50]`
with sentinel `-1`: the read at `(0,1)` gives the sentinel and the read at `(0,0)`
gives `a[0]`. -/
theorem sparse_matrix.operator_get_compressed_witness :
    example_sparse_compressed.is_compressed = true ∧
    example_sparse_compressed.well_formed 0 ∧
    0 < example_sparse_compressed.m_size.i ∧
    example_sparse_compressed.operator_get 0 (sort_by_row_t.SORT Int) 0 1
      = some example_sparse_compressed.m_zero ∧
    example_sparse_compressed.operator_get 0 (sort_by_row_t.SORT Int) 0 0
      = example_sparse_compressed.a[0]? ∧
    ∃ lo hi, example_sparse_compressed.ia[0]? = some lo ∧
      example_sparse_compressed.ia[0 + 1]? = some hi ∧
      (∀ k : Int, lo - ((0 : Nat) : Int) ≤ k → k < hi - ((0 : Nat) : Int) →
        (∃ c, vec_at example_sparse_compressed.ja k = some c ∧
          c - ((0 : Nat) : Int) = ((1 : Nat) : Int)) →
        (∀ k1 : Int, lo - ((0 : Nat) : Int) ≤ k1 → k1 < k →
          ∀ c, vec_at example_sparse_compressed.ja k1 = some c →
            c - ((0 : Nat) : Int) ≠ ((1 : Nat) : Int)) →
        ∃ x, vec_at example_sparse_compressed.a k = some x ∧
          example_sparse_compressed.operator_get 0 (sort_by_row_t.SORT Int) 0 1 = some x) ∧
      ((∀ k : Int, lo - ((0 : Nat) : Int) ≤ k → k < hi - ((0 : Nat) : Int) →
          ∀ c, vec_at example_sparse_compressed.ja k = some c →
            c - ((0 : Nat) : Int) ≠ ((1 : Nat) : Int)) →
        example_sparse_compressed.operator_get 0 (sort_by_row_t.SORT Int) 0 1
          = some example_sparse_compressed.m_zero) ∧
      ∃ x, example_sparse_compressed.operator_get 0 (sort_by_row_t.SORT Int) 0 1 = some x :=
  have hwf : example_sparse_compressed.well_formed 0 :=
    ⟨by decide, by decide, nondecreasing_of_pairwise _ (by decide), by decide,
     ⟨5, by decide, by decide⟩, by decide⟩
  ⟨by decide, hwf, by decide, by decide, by decide,
   sparse_matrix.operator_get_compressed 0 (sort_by_row_t.SORT Int) example_sparse_compressed
    (by decide) hwf 0 1 (by decide)⟩

/-- C13 (write to an absent coordinate of a compressed matrix) at
`ia = [0,2,3,5]`, `ja = [0,2,1,0,2]` and the absent coordinate `(0,1)`: the
non-const `operator()` does not throw, it returns a reference to the member
`m_zero`; assigning 7 through it changes the sentinel and nothing else, and the
read of another absent coordinate, `(1,0)`, then gives 7 instead of the former
sentinel `-1`. -/
theorem sparse_matrix.operator_ref_compressed_absent_aliases_sentinel :
    example_sparse_compressed.operator_ref 0 (sort_by_row_t.SORT Int) 0 1
      = some (example_sparse_compressed, cell_ref.m_zero) ∧
    example_sparse_compressed.operator_set 0 (sort_by_row_t.SORT Int) 0 1 7
      = some ⟨7, ⟨3, 3⟩, .print_auto, [], [10, 20, 30, 40, 50], [0, 2, 3, 5], [0, 2, 1, 0, 2],
          3, 5⟩ ∧
    example_sparse_compressed.operator_get 0 (sort_by_row_t.SORT Int) 1 0 = some (-1) ∧
    (example_sparse_compressed.operator_set 0 (sort_by_row_t.SORT Int) 0 1 7).bind
      (fun m1 => m1.operator_get 0 (sort_by_row_t.SORT Int) 1 0) = some 7 := by
  refine ⟨by decide, by decide, by decide, by decide⟩

/-! ### Access to the entry set -/

theorem coord_order.equiv_iff {T : Type} {lt : coord_t T → coord_t T → Bool}
    (hlt : coord_order lt) (e p : coord_t T) :
    (!lt e p && !lt p e) = true ↔ e.first = p.first := by
  constructor
  · intro h
    simp only [Bool.and_eq_true, Bool.not_eq_true'] at h
    exact hlt.total e p h.1 h.2
  · intro h
    have h1 : lt e p = false := by rw [hlt.key e p p p h rfl]; exact hlt.irrefl p
    have h2 : lt p e = false := by rw [hlt.key p e p p rfl h]; exact hlt.irrefl p
    simp [h1, h2]

theorem set_sorted_first_inj {T : Type} {lt : coord_t T → coord_t T → Bool}
    (hlt : coord_order lt) (es : List (coord_t T)) (hs : set_sorted lt es)
    (x y : coord_t T) (hx : x ∈ es) (hy : y ∈ es) (h : x.first = y.first) : x = y := by
  induction es with
  | nil => cases hx
  | cons e es ih =>
    have hcons := List.pairwise_cons.mp hs
    rcases List.mem_cons.mp hx with hxe | hxt
    · rcases List.mem_cons.mp hy with hye | hyt
      · rw [hxe, hye]
      · exact absurd (by rw [← hxe]; exact h) (hlt.ne_of_lt e y (hcons.1 y hyt))
    · rcases List.mem_cons.mp hy with hye | hyt
      · exact absurd (by rw [← hye]; exact h.symm) (hlt.ne_of_lt e x (hcons.1 x hxt))
      · exact ih hcons.2 hxt hyt

theorem set_find_some {T : Type} {lt : coord_t T → coord_t T → Bool}
    (hlt : coord_order lt) (es : List (coord_t T)) (hs : set_sorted lt es)
    (p e : coord_t T) (he : e ∈ es) (h : e.first = p.first) : set_find lt p es = some e := by
  cases hf : set_find lt p es with
  | none =>
    have := List.find?_eq_none.mp hf e he
    exact absurd ((hlt.equiv_iff e p).mpr h) this
  | some x =>
    have hx : x ∈ es := List.mem_of_find?_eq_some (p := fun e => !lt e p && !lt p e) hf
    have hf1 : es.find? (fun e => !lt e p && !lt p e) = some x := hf
    have hpx : (fun e => !lt e p && !lt p e) x = true :=
      @List.find?_some _ (fun e => !lt e p && !lt p e) x es hf1
    have hxp : x.first = p.first := (hlt.equiv_iff x p).mp hpx
    rw [set_sorted_first_inj hlt es hs x e hx he (hxp.trans h.symm)]

theorem set_find_none {T : Type} {lt : coord_t T → coord_t T → Bool}
    (hlt : coord_order lt) (es : List (coord_t T)) (p : coord_t T)
    (h : ∀ e ∈ es, e.first ≠ p.first) : set_find lt p es = none := by
  apply List.find?_eq_none.mpr
  intro e he hequiv
  exact h e he ((hlt.equiv_iff e p).mp hequiv)

theorem set_assign_length {T : Type} (lt : coord_t T → coord_t T → Bool) (p : coord_t T)
    (v : T) (es : List (coord_t T)) : (set_assign lt p v es).length = es.length := by
  induction es with
  | nil => rfl
  | cons e es ih =>
    by_cases h : (!lt e p && !lt p e) = true
    · simp [set_assign, h]
    · simp [set_assign, h, ih]

theorem set_assign_mem {T : Type} {lt : coord_t T → coord_t T → Bool}
    (hlt : coord_order lt) (p : coord_t T) (v : T) (es : List (coord_t T))
    (hs : set_sorted lt es) (x : coord_t T) :
    x ∈ set_assign lt p v es ↔
      (x ∈ es ∧ x.first ≠ p.first) ∨ (x = ⟨p.first, v⟩ ∧ ∃ e ∈ es, e.first = p.first) := by
  induction es with
  | nil => simp [set_assign]
  | cons e es ih =>
    have hcons := List.pairwise_cons.mp hs
    by_cases h : (!lt e p && !lt p e) = true
    · have hep : e.first = p.first := (hlt.equiv_iff e p).mp h
      have hrest : ∀ y ∈ es, y.first ≠ p.first := fun y hy hyp =>
        hlt.ne_of_lt e y (hcons.1 y hy) (hep.trans hyp.symm)
      have hdef : set_assign lt p v (e :: es) = ⟨e.first, v⟩ :: es := by
        simp only [set_assign, h, if_true]
      rw [hdef, List.mem_cons, List.mem_cons]
      constructor
      · intro hx
        rcases hx with hx | hx
        · exact Or.inr ⟨by rw [hx, hep], e, List.mem_cons_self _ _, hep⟩
        · exact Or.inl ⟨Or.inr hx, hrest x hx⟩
      · intro hx
        rcases hx with ⟨hx, hne⟩ | ⟨hx, _⟩
        · rcases hx with hx | hx
          · exact absurd (by rw [hx]; exact hep) hne
          · exact Or.inr hx
        · exact Or.inl (by rw [hx, hep])
    · have hep : e.first ≠ p.first := fun hh => h ((hlt.equiv_iff e p).mpr hh)
      have hdef : set_assign lt p v (e :: es) = e :: set_assign lt p v es := by
        simp [set_assign, h]
      rw [hdef, List.mem_cons, List.mem_cons, ih hcons.2]
      constructor
      · intro hx
        rcases hx with hx | ⟨hx, hne⟩ | ⟨hx, y, hy, hyp⟩
        · exact Or.inl ⟨Or.inl hx, by rw [hx]; exact hep⟩
        · exact Or.inl ⟨Or.inr hx, hne⟩
        · exact Or.inr ⟨hx, y, List.mem_cons_of_mem _ hy, hyp⟩
      · intro hx
        rcases hx with ⟨hx, hne⟩ | ⟨hx, y, hy, hyp⟩
        · rcases hx with hx | hx
          · exact Or.inl hx
          · exact Or.inr (Or.inl ⟨hx, hne⟩)
        · rcases List.mem_cons.mp hy with hy | hy
          · exact absurd (by rw [← hy]; exact hyp) hep
          · exact Or.inr (Or.inr ⟨hx, y, hy, hyp⟩)

theorem set_assign_sorted {T : Type} {lt : coord_t T → coord_t T → Bool}
    (hlt : coord_order lt) (p : coord_t T) (v : T) (es : List (coord_t T))
    (hs : set_sorted lt es) : set_sorted lt (set_assign lt p v es) := by
  induction es with
  | nil => exact hs
  | cons e es ih =>
    have hcons := List.pairwise_cons.mp hs
    by_cases h : (!lt e p && !lt p e) = true
    · simp only [set_assign, h, if_true]
      refine List.pairwise_cons.mpr ⟨?_, hcons.2⟩
      intro y hy
      rw [hlt.key ⟨e.first, v⟩ y e y rfl rfl]
      exact hcons.1 y hy
    · simp only [set_assign, h, if_false]
      refine List.pairwise_cons.mpr ⟨?_, ih hcons.2⟩
      intro y hy
      rcases (set_assign_mem hlt p v es hcons.2 y).mp hy with ⟨hy1, _⟩ | ⟨hy1, z, hz, hzp⟩
      · exact hcons.1 y hy1
      · rw [hlt.key e y e z rfl (by rw [hy1]; exact hzp.symm)]
        exact hcons.1 z hz

/-- C14 (write to an uncompressed matrix): for an uncompressed `sparse_matrix`
whose entry set is in the order of its comparator, every `(i,j)` and every `v`,
the statement `operator()(i,j) = v` ends in a state where the read of `(i,j)`
gives `v`, whether an entry at `(i+BASE, j+BASE)` existed or not; the entries at
the other coordinates are the same as before, the entry count is the same when
the coordinate was present and one more when it was absent, and the other
members are untouched. -/
theorem sparse_matrix.operator_set_uncompressed {T : Type} [Zero T] (BASE : Nat) (S : SORT T)
    (hlt : coord_order S.lt) (m : sparse_matrix T) (hnc : m.is_compressed = false)
    (hs : set_sorted S.lt m.entries) (i j : Nat) (v : T) :
    ∃ m1, m.operator_set BASE S i j v = some m1 ∧
      m1.operator_get BASE S i j = some v ∧
      set_sorted S.lt m1.entries ∧ (⟨⟨i + BASE, j + BASE⟩, v⟩ : coord_t T) ∈ m1.entries ∧
      (∀ e : coord_t T, e.first ≠ ⟨i + BASE, j + BASE⟩ → (e ∈ m1.entries ↔ e ∈ m.entries)) ∧
      ((∃ e ∈ m.entries, e.first = ⟨i + BASE, j + BASE⟩) →
        m1.entries.length = m.entries.length) ∧
      ((∀ e ∈ m.entries, e.first ≠ ⟨i + BASE, j + BASE⟩) →
        m1.entries.length = m.entries.length + 1) ∧
      m1.m_zero = m.m_zero ∧ m1.m_size = m.m_size ∧ m1.m_print = m.m_print ∧
      m1.a = m.a ∧ m1.ia = m.ia ∧ m1.ja = m.ja ∧ m1.nnu = m.nnu ∧ m1.nnz = m.nnz := by
  generalize hp0 : (⟨⟨i + BASE, j + BASE⟩, 0⟩ : coord_t T) = p0
  generalize hpv : (⟨⟨i + BASE, j + BASE⟩, v⟩ : coord_t T) = pv
  have hp0f : p0.first = ⟨i + BASE, j + BASE⟩ := by rw [← hp0]
  have hpvf : pv.first = ⟨i + BASE, j + BASE⟩ := by rw [← hpv]
  have hpveq : (⟨pv.first, v⟩ : coord_t T) = pv := by rw [← hpv]
  have hs1 : set_sorted S.lt (set_insert S.lt p0 m.entries).1 :=
    set_insert_sorted S.lt hlt.trans p0 m.entries hs
  obtain ⟨w, hw, hwf⟩ := set_insert_has_coord hlt p0 m.entries
  have hwpv : w.first = pv.first := by rw [hwf, hp0f, hpvf]
  have hmem := set_assign_mem hlt pv v (set_insert S.lt p0 m.entries).1 hs1
  have hpvmem : pv ∈ set_assign S.lt pv v (set_insert S.lt p0 m.entries).1 :=
    (hmem pv).mpr (Or.inr ⟨hpveq.symm, w, hw, hwpv⟩)
  have hs2 := set_assign_sorted hlt pv v (set_insert S.lt p0 m.entries).1 hs1
  have hnc2 : (⟨m.m_zero, m.m_size, m.m_print,
      set_assign S.lt pv v (set_insert S.lt p0 m.entries).1, m.a, m.ia, m.ja, m.nnu, m.nnz⟩ :
      sparse_matrix T).is_compressed = false := hnc
  refine ⟨⟨m.m_zero, m.m_size, m.m_print,
      set_assign S.lt pv v (set_insert S.lt p0 m.entries).1, m.a, m.ia, m.ja, m.nnu, m.nnz⟩,
    ?_, ?_, hs2, hpvmem, ?_, ?_, ?_, rfl, rfl, rfl, rfl, rfl, rfl, rfl, rfl⟩
  · simp only [sparse_matrix.operator_set, sparse_matrix.operator_ref, hnc, Bool.false_eq_true,
      if_false, Option.bind_eq_bind, Option.some_bind, sparse_matrix.assign, hp0, hpv]
  · have hfind := set_find_some hlt _ hs2 p0 pv hpvmem (by rw [hpvf, hp0f])
    simp only [sparse_matrix.operator_get, hnc2, Bool.false_eq_true, if_false, hp0, hfind]
    rw [← hpv]
  · intro e he
    rw [hmem e]
    constructor
    · rintro (⟨h1, _⟩ | ⟨h1, _⟩)
      · rcases (set_insert_mem S.lt p0 m.entries e).mp h1 with h2 | ⟨_, h2⟩
        · exact h2
        · exact absurd (by rw [h2, hp0f]) he
      · exact absurd (by rw [h1, hpvf]) he
    · intro h1
      exact Or.inl ⟨set_insert_subset S.lt p0 m.entries e h1, by rw [hpvf]; exact he⟩
  · rintro ⟨e, he, hef⟩
    rw [set_assign_length]
    cases hflag : (set_insert S.lt p0 m.entries).2 with
    | false => rw [set_insert_false S.lt p0 m.entries hflag]
    | true =>
      exact absurd (by rw [hef, hp0f]) (set_insert_true_fresh hlt p0 m.entries hs hflag e he)
  · intro hall
    rw [set_assign_length]
    cases hflag : (set_insert S.lt p0 m.entries).2 with
    | false =>
      obtain ⟨e, he, h1, h2⟩ := set_insert_false_equiv S.lt p0 m.entries hflag
      exact absurd ((hlt.total e p0 h1 h2).trans hp0f) (hall e he)
    | true =>
      rw [(set_insert_perm S.lt p0 m.entries hflag).length_eq]
      rfl

/-- Witness of C14: writing 7 at the absent `(0,1)` of the uncompressed 2x2
example. -/
theorem sparse_matrix.operator_set_uncompressed_witness :
    coord_order (sort_by_row_t.SORT Int).lt ∧
    example_sparse_entries.is_compressed = false ∧
    set_sorted (sort_by_row_t.SORT Int).lt example_sparse_entries.entries ∧
    ∃ m1, example_sparse_entries.operator_set 0 (sort_by_row_t.SORT Int) 0 1 7 = some m1 ∧
      m1.operator_get 0 (sort_by_row_t.SORT Int) 0 1 = some 7 ∧
      set_sorted (sort_by_row_t.SORT Int).lt m1.entries ∧
      (⟨⟨0 + 0, 1 + 0⟩, 7⟩ : coord_t Int) ∈ m1.entries ∧
      (∀ e : coord_t Int, e.first ≠ ⟨0 + 0, 1 + 0⟩ →
        (e ∈ m1.entries ↔ e ∈ example_sparse_entries.entries)) ∧
      ((∃ e ∈ example_sparse_entries.entries, e.first = ⟨0 + 0, 1 + 0⟩) →
        m1.entries.length = example_sparse_entries.entries.length) ∧
      ((∀ e ∈ example_sparse_entries.entries, e.first ≠ ⟨0 + 0, 1 + 0⟩) →
        m1.entries.length = example_sparse_entries.entries.length + 1) ∧
      m1.m_zero = example_sparse_entries.m_zero ∧ m1.m_size = example_sparse_entries.m_size ∧
      m1.m_print = example_sparse_entries.m_print ∧
      m1.a = example_sparse_entries.a ∧ m1.ia = example_sparse_entries.ia ∧
      m1.ja = example_sparse_entries.ja ∧ m1.nnu = example_sparse_entries.nnu ∧
      m1.nnz = example_sparse_entries.nnz :=
  ⟨sort_by_row_t.coord_order_row Int, by decide, by unfold set_sorted; decide,
   sparse_matrix.operator_set_uncompressed 0 (sort_by_row_t.SORT Int)
    (sort_by_row_t.coord_order_row Int) example_sparse_entries (by decide)
    (by unfold set_sorted; decide) 0 1 7⟩

/-- C15 (read of an uncompressed matrix): for an uncompressed `sparse_matrix` whose
entry set is in the order of its comparator and every `(i,j)`, the const
`operator()` returns the value of the entry at `(i+BASE, j+BASE)` when there is
one and the sentinel `m_zero` otherwise.  The access is a `const` member that
looks the coordinate up with `entries.find`: it is a function of the state and
produces no new state, so nothing is inserted. -/
theorem sparse_matrix.operator_get_uncompressed {T : Type} [Zero T] (BASE : Nat) (S : SORT T)
    (hlt : coord_order S.lt) (m : sparse_matrix T) (hnc : m.is_compressed = false)
    (hs : set_sorted S.lt m.entries) (i j : Nat) :
    (∀ e ∈ m.entries, e.first = ⟨i + BASE, j + BASE⟩ →
      m.operator_get BASE S i j = some e.second) ∧
    ((∀ e ∈ m.entries, e.first ≠ ⟨i + BASE, j + BASE⟩) →
      m.operator_get BASE S i j = some m.m_zero) := by
  constructor
  · intro e he hef
    have hfind := set_find_some hlt m.entries hs ⟨⟨i + BASE, j + BASE⟩, 0⟩ e he hef
    simp only [sparse_matrix.operator_get, hnc, Bool.false_eq_true, if_false, hfind]
  · intro hall
    have hfind := set_find_none hlt m.entries ⟨⟨i + BASE, j + BASE⟩, 0⟩ hall
    simp only [sparse_matrix.operator_get, hnc, Bool.false_eq_true, if_false, hfind]

/-- Witness of C15: the reads at `(1,1)` (present, value 6) and `(0,1)` (absent) of
the uncompressed 2x2 example. -/
theorem sparse_matrix.operator_get_uncompressed_witness :
    coord_order (sort_by_row_t.SORT Int).lt ∧
    example_sparse_entries.is_compressed = false ∧
    set_sorted (sort_by_row_t.SORT Int).lt example_sparse_entries.entries ∧
    example_sparse_entries.operator_get 0 (sort_by_row_t.SORT Int) 1 1 = some 6 ∧
    example_sparse_entries.operator_get 0 (sort_by_row_t.SORT Int) 0 1
      = some example_sparse_entries.m_zero ∧
    ((∀ e ∈ example_sparse_entries.entries, e.first = ⟨0 + 0, 1 + 0⟩ →
      example_sparse_entries.operator_get 0 (sort_by_row_t.SORT Int) 0 1 = some e.second) ∧
    ((∀ e ∈ example_sparse_entries.entries, e.first ≠ ⟨0 + 0, 1 + 0⟩) →
      example_sparse_entries.operator_get 0 (sort_by_row_t.SORT Int) 0 1
        = some example_sparse_entries.m_zero)) :=
  ⟨sort_by_row_t.coord_order_row Int, by decide, by unfold set_sorted; decide,
   by decide, by decide,
   sparse_matrix.operator_get_uncompressed 0 (sort_by_row_t.SORT Int)
    (sort_by_row_t.coord_order_row Int) example_sparse_entries (by decide)
    (by unfold set_sorted; decide) 0 1⟩

/-! ### The arrays produced by `sort_by_row_t::compress` -/

/-- Closed form of the outer loop of `compress` resumed at row `r` on the entries
`it` of rows `r .. r+n-1`: one offset is appended for each row, the running
count of the entries before the next row, and the columns and values of `it` are
appended in order. -/
theorem sort_by_row_t.compress_outer_closed {T : Type} (n : Nat) :
    ∀ (r : Nat) (it : List (coord_t T)) (ia ja : List Int) (a : List T),
      set_sorted sort_by_row_t.lt it →
      (∀ e ∈ it, r ≤ e.first.i ∧ e.first.i < r + n) →
      sort_by_row_t.compress_outer n r it ia ja a =
        (ia ++ (List.range n).map (fun t => ia.getLastD 0 +
            ((it.countP (fun e => decide (e.first.i < r + t + 1)) : Nat) : Int)),
         ja ++ it.map (fun e => Int.ofNat e.first.j), a ++ it.map (fun e => e.second)) := by
  induction n with
  | zero =>
    intro r it ia ja a _ hrange
    have : it = [] := by
      cases it with
      | nil => rfl
      | cons e it => have := hrange e (List.mem_cons_self _ _); omega
    simp [this, sort_by_row_t.compress_outer]
  | succ n ih =>
    intro r it ia ja a hsorted hrange
    have hsplit : it.takeWhile (fun e => decide (r = e.first.i)) ++
        it.dropWhile (fun e => decide (r = e.first.i)) = it := List.takeWhile_append_dropWhile _ _
    generalize hB : it.takeWhile (fun e => decide (r = e.first.i)) = B at hsplit
    generalize hD : it.dropWhile (fun e => decide (r = e.first.i)) = D at hsplit
    have hBrow : ∀ e ∈ B, e.first.i = r := by
      rw [← hB]; exact sort_by_row_t.takeWhile_rows r it
    have hDrow : ∀ e ∈ D, r + 1 ≤ e.first.i := by
      rw [← hD]
      exact sort_by_row_t.dropWhile_rows r it hsorted (fun e he => (hrange e he).1)
    have hDsorted : set_sorted sort_by_row_t.lt D := by
      have h := hsorted
      rw [← hsplit] at h
      exact (List.pairwise_append.mp h).2.1
    have hrec := ih (r + 1) D (ia ++ [ia.getLastD 0 + Int.ofNat (0 + B.length)])
      (ja ++ B.map (fun e => Int.ofNat e.first.j)) (a ++ B.map (fun e => e.second)) hDsorted
      (fun e he => by
        have h1 := hDrow e he
        have h2 := (hrange e (by rw [← hsplit]; exact List.mem_append_right _ he)).2
        omega)
    simp only [sort_by_row_t.compress_outer, sort_by_row_t.compress_inner_eq, hB, hD, hrec]
    have hcountB : ∀ t : Nat, B.countP (fun e => decide (e.first.i < r + t + 1)) = B.length := by
      intro t
      apply List.countP_eq_length.mpr
      intro e he
      have := hBrow e he
      simp only [decide_eq_true_eq]
      omega
    have hcountD0 : D.countP (fun e => decide (e.first.i < r + 0 + 1)) = 0 := by
      apply List.countP_eq_zero.mpr
      intro e he
      have := hDrow e he
      simp only [decide_eq_true_eq]
      omega
    have hlast : (ia ++ [ia.getLastD 0 + Int.ofNat (0 + B.length)]).getLastD 0
        = ia.getLastD 0 + Int.ofNat (0 + B.length) := by
      simp
    rw [hlast, List.range_succ_eq_map, ← hsplit]
    simp only [List.map_cons, List.map_map, List.map_append, List.append_assoc,
      List.singleton_append, List.countP_append, hcountB, hcountD0, Nat.zero_add,
      Nat.add_zero, Int.ofNat_eq_coe]
    refine Prod.ext ?_ rfl
    simp only
    congr 2
    apply List.map_congr_left
    intro t _
    simp only [Function.comp, Nat.succ_eq_add_one]
    have hr : r + 1 + t + 1 = r + (t + 1) + 1 := by omega
    rw [hr]
    push_cast
    ring

/-- Closed form of `sort_by_row_t::compress` on a non-empty ordered entry set with
first row `f` and last row `l`: `ia` is `f` followed, for each row `r` of
`f .. l`, by `f` plus the number of entries in rows up to `r`; `ja` and `a` are the
columns and the values of the entries in order. -/
theorem sort_by_row_t.compress_closed {T : Type} (e l : coord_t T) (es : List (coord_t T))
    (hs : set_sorted sort_by_row_t.lt (e :: es)) (hl : (e :: es).getLast? = some l) :
    sort_by_row_t.compress (e :: es) = some
      ⟨(e.first.i : Int) :: (List.range (l.first.i + 1 - e.first.i)).map (fun t =>
          (e.first.i : Int) +
            (((e :: es).countP (fun x => decide (x.first.i < e.first.i + t + 1)) : Nat) : Int)),
        (e :: es).map (fun x => Int.ofNat x.first.j), (e :: es).map (fun x => x.second),
        ((l.first.i + 1 - e.first.i : Nat) : Int), Int.ofNat (e :: es).length⟩ := by
  have hrows := sort_by_row_t.rows_between e l es hs hl
  have hclosed := sort_by_row_t.compress_outer_closed (l.first.i + 1 - e.first.i) e.first.i
    (e :: es) [Int.ofNat e.first.i] [] [] hs (fun x hx => by have := hrows x hx; omega)
  simp only [sort_by_row_t.compress, hl, hclosed]
  simp only [List.getLastD_eq_getLast?, List.getLast?_singleton, Option.getD_some,
    List.singleton_append, List.nil_append, List.length_cons, List.length_map,
    List.length_range, Int.ofNat_eq_coe]
  congr 2
  push_cast
  ring

theorem cons_range_map_get {α : Type} (x0 : α) (g : Nat → α) (n i : Nat) (hi : i ≤ n) :
    (x0 :: (List.range n).map g)[i]? = some (if i = 0 then x0 else g (i - 1)) := by
  cases i with
  | zero => simp
  | succ i =>
    have hlt : i < n := by omega
    simp only [List.getElem?_cons_succ, List.getElem?_map, List.getElem?_range hlt,
      Option.map_some', Nat.add_sub_cancel]
    rfl

theorem countP_row_succ {T : Type} (S : List (coord_t T)) (r : Nat) :
    S.countP (fun x => decide (x.first.i < r + 1)) =
      S.countP (fun x => decide (x.first.i < r)) + S.countP (fun x => decide (x.first.i = r)) := by
  induction S with
  | nil => rfl
  | cons e es ih =>
    simp only [List.countP_cons, ih, decide_eq_true_eq]
    split_ifs <;> omega

theorem sort_by_row_t.filter_lt_append {T : Type} (S : List (coord_t T))
    (hs : set_sorted sort_by_row_t.lt S) (r : Nat) :
    S.filter (fun x => decide (x.first.i < r)) ++ S.filter (fun x => !decide (x.first.i < r))
      = S := by
  induction S with
  | nil => rfl
  | cons e es ih =>
    have hcons := List.pairwise_cons.mp hs
    by_cases h1 : e.first.i < r
    · simp only [List.filter_cons, h1, decide_True, if_true, Bool.not_true, Bool.false_eq_true,
        if_false, List.cons_append, ih hcons.2]
    · have hall : ∀ x ∈ es, ¬ x.first.i < r := by
        intro x hx
        have := sort_by_row_t.lt_row_le _ _ (hcons.1 x hx)
        omega
      have hnil : es.filter (fun x => decide (x.first.i < r)) = [] := by
        apply List.filter_eq_nil_iff.mpr
        intro x hx
        simp only [decide_eq_true_eq]
        exact hall x hx
      have hself : es.filter (fun x => !decide (x.first.i < r)) = es := by
        apply List.filter_eq_self.mpr
        intro x hx
        simp only [Bool.not_eq_true', decide_eq_false_iff_not]
        exact hall x hx
      simp only [List.filter_cons, h1, decide_False, Bool.false_eq_true, if_false, Bool.not_false,
        if_true, hnil, hself, List.nil_append]

/-- In an entry set ordered by rows, the entries of row `r` are the block that
follows the entries of the rows before `r`. -/
theorem sort_by_row_t.row_slice {T : Type} (S : List (coord_t T))
    (hs : set_sorted sort_by_row_t.lt S) (r : Nat) :
    (S.drop (S.countP (fun x => decide (x.first.i < r)))).take
        (S.countP (fun x => decide (x.first.i = r)))
      = S.filter (fun x => decide (x.first.i = r)) := by
  have h1 := sort_by_row_t.filter_lt_append S hs r
  have hdrop : S.drop (S.countP (fun x => decide (x.first.i < r)))
      = S.filter (fun x => !decide (x.first.i < r)) := by
    have h := @List.drop_left' _ (S.filter (fun x => decide (x.first.i < r)))
      (S.filter (fun x => !decide (x.first.i < r)))
      (S.countP (fun x => decide (x.first.i < r))) (List.countP_eq_length_filter _ _).symm
    rwa [h1] at h
  have hs2 : set_sorted sort_by_row_t.lt (S.filter (fun x => !decide (x.first.i < r))) :=
    List.Pairwise.sublist (List.filter_sublist _) hs
  have h2 := sort_by_row_t.filter_lt_append _ hs2 (r + 1)
  have hfeq : (S.filter (fun x => !decide (x.first.i < r))).filter
      (fun x => decide (x.first.i < r + 1)) = S.filter (fun x => decide (x.first.i = r)) := by
    rw [List.filter_filter]
    apply List.filter_congr
    intro x _
    by_cases ha : x.first.i < r
    · have hb : ¬ x.first.i = r := by omega
      simp [ha, hb]
    · by_cases hb : x.first.i = r
      · simp [hb]
      · have hc : ¬ x.first.i < r + 1 := by omega
        simp [ha, hb, hc]
  have hcnt : S.countP (fun x => decide (x.first.i = r))
      = (S.filter (fun x => decide (x.first.i = r))).length := List.countP_eq_length_filter _ _
  rw [hdrop, ← h2, hfeq, hcnt]
  exact List.take_left' rfl

theorem sort_by_row_t.row_columns_increasing {T : Type} (S : List (coord_t T))
    (hs : set_sorted sort_by_row_t.lt S) (r : Nat) :
    ((S.filter (fun x => decide (x.first.i = r))).map (fun x => x.first.j)).Pairwise
      (fun c d => c < d) := by
  induction S with
  | nil => simp
  | cons e es ih =>
    have hcons := List.pairwise_cons.mp hs
    by_cases h : e.first.i = r
    · simp only [List.filter_cons, h, decide_True, if_true, List.map_cons]
      refine List.pairwise_cons.mpr ⟨?_, ih hcons.2⟩
      intro c hc
      obtain ⟨x, hx, hxc⟩ := List.mem_map.mp hc
      have hx1 := List.mem_filter.mp hx
      have hrow : x.first.i = r := by simpa using hx1.2
      have hlt := hcons.1 x hx1.1
      unfold sort_by_row_t.lt at hlt
      rw [← hxc]
      have h1 : ¬ e.first.i < x.first.i := by omega
      have h2 : ¬ e.first.i > x.first.i := by omega
      simpa [h1, h2] using hlt
    · simp only [List.filter_cons, h, decide_False, Bool.false_eq_true, if_false]
      exact ih hcons.2

theorem sort_by_row_t.closed_offsets_get {T : Type} (S : List (coord_t T)) (f n i : Nat)
    (hf : ∀ x ∈ S, f ≤ x.first.i) (hi : i ≤ n) :
    ((f : Int) :: (List.range n).map (fun t =>
        (f : Int) + ((S.countP (fun x => decide (x.first.i < f + t + 1)) : Nat) : Int)))[i]?
      = some ((f : Int) + ((S.countP (fun x => decide (x.first.i < f + i)) : Nat) : Int)) := by
  rw [cons_range_map_get _ _ n i hi]
  cases i with
  | zero =>
    have h0 : S.countP (fun x => decide (x.first.i < f + 0)) = 0 := by
      apply List.countP_eq_zero.mpr
      intro x hx
      have := hf x hx
      simp only [decide_eq_true_eq]
      omega
    simp only [Nat.add_zero] at h0
    simp [h0]
  | succ i =>
    simp only [Nat.add_sub_cancel, Nat.succ_ne_zero, if_false, Nat.add_assoc]

theorem sort_by_row_t.countP_lt_mono {T : Type} (S : List (coord_t T)) (p q : Nat)
    (h : p ≤ q) :
    S.countP (fun x => decide (x.first.i < p)) ≤ S.countP (fun x => decide (x.first.i < q)) := by
  apply List.countP_mono_left
  intro x _ hx
  simp only [decide_eq_true_eq] at hx ⊢
  omega

/-- C17: for the row-major comparator and a non-empty ordered entry set `S` whose
first entry is in row `f` and whose last entry is in row `l` (the smallest and the
largest row of `S`), `compress` returns arrays with `ia` of length `l - f + 2`
starting at `f` and non-decreasing; for every row `r` of `f .. l` the difference
`ia[r-f+1] - ia[r-f]` is the number of entries of `S` in row `r`, and the slice of
`ja`, `a` between these two offsets lists the entries of row `r` in order, with
strictly increasing columns; `ja` and `a` have length `|S| = ia[last] - ia[0]`; and
`sparse_matrix::compress` stores these arrays and leaves the entry set empty. -/
theorem sort_by_row_t.compress_offsets {T : Type} (e l : coord_t T) (es : List (coord_t T))
    (hs : set_sorted sort_by_row_t.lt (e :: es)) (hl : (e :: es).getLast? = some l) :
    (∀ z ∈ e :: es, e.first.i ≤ z.first.i ∧ z.first.i ≤ l.first.i) ∧
    ∃ c, sort_by_row_t.compress (e :: es) = some c ∧
      c.ia.length = l.first.i - e.first.i + 2 ∧
      c.ia[0]? = some (e.first.i : Int) ∧
      (∀ (p q : Nat) (x y : Int), p ≤ q → c.ia[p]? = some x → c.ia[q]? = some y → x ≤ y) ∧
      (∀ r, e.first.i ≤ r → r ≤ l.first.i → ∃ x y : Int,
          c.ia[r - e.first.i]? = some x ∧ c.ia[r - e.first.i + 1]? = some y ∧
          y - x = (((e :: es).countP (fun z => decide (z.first.i = r)) : Nat) : Int) ∧
          ((c.ja.zip c.a).drop (x - (e.first.i : Int)).toNat).take (y - x).toNat
            = ((e :: es).filter (fun z => decide (z.first.i = r))).map
                (fun z => ((z.first.j : Int), z.second)) ∧
          (((e :: es).filter (fun z => decide (z.first.i = r))).map
              (fun z => z.first.j)).Pairwise (fun c d => c < d)) ∧
      c.ja.length = (e :: es).length ∧ c.a.length = (e :: es).length ∧
      (∃ xl : Int, c.ia.getLast? = some xl ∧
          ((e :: es).length : Int) = xl - (e.first.i : Int)) ∧
      (∀ m : sparse_matrix T, m.is_compressed = false → m.entries = e :: es →
          ∃ m1, m.compress (sort_by_row_t.SORT T) = some m1 ∧ m1.entries = [] ∧
            m1.ia = c.ia ∧ m1.ja = c.ja ∧ m1.a = c.a ∧ m1.is_compressed = true) := by
  have hrows := sort_by_row_t.rows_between e l es hs hl
  have hfl : e.first.i ≤ l.first.i := (hrows e (List.mem_cons_self _ _)).2
  have hget := fun i hi => sort_by_row_t.closed_offsets_get (e :: es) e.first.i
    (l.first.i + 1 - e.first.i) i (fun x hx => (hrows x hx).1) hi
  refine ⟨hrows, _, sort_by_row_t.compress_closed e l es hs hl, ?_, ?_, ?_, ?_, ?_, ?_, ?_, ?_⟩
  · simp only [List.length_cons, List.length_map, List.length_range]
    omega
  · simp
  · intro p q x y hpq hp hq
    have hqlen : q < (l.first.i + 1 - e.first.i) + 1 := by
      have := (List.getElem?_eq_some_iff.mp hq).1
      simpa [List.length_cons, List.length_map, List.length_range] using this
    have hp1 := hget p (by omega)
    have hq1 := hget q (by omega)
    simp only at hp hq
    rw [hp1] at hp
    rw [hq1] at hq
    have hx := Option.some.inj hp
    have hy := Option.some.inj hq
    have hmono := sort_by_row_t.countP_lt_mono (e :: es) (e.first.i + p) (e.first.i + q)
      (by omega)
    omega
  · intro r hfr hrl
    have hx := hget (r - e.first.i) (by omega)
    have hy := hget (r - e.first.i + 1) (by omega)
    have e1 : e.first.i + (r - e.first.i) = r := by omega
    have e2 : e.first.i + (r - e.first.i + 1) = r + 1 := by omega
    rw [e1] at hx
    rw [e2] at hy
    refine ⟨_, _, hx, hy, ?_, ?_, sort_by_row_t.row_columns_increasing _ hs r⟩
    · rw [countP_row_succ]
      push_cast
      ring
    · have hzip : (List.map (fun x => Int.ofNat x.first.j) (e :: es)).zip
          (List.map (fun x => x.second) (e :: es))
          = (e :: es).map (fun z => ((z.first.j : Int), z.second)) := by
        rw [List.zip_map']
        rfl
      have hd : ((e.first.i : Int) +
          (((e :: es).countP (fun x => decide (x.first.i < r)) : Nat) : Int)
            - (e.first.i : Int)).toNat
          = (e :: es).countP (fun x => decide (x.first.i < r)) := by
        simp
      have ht : ((e.first.i : Int) +
          (((e :: es).countP (fun x => decide (x.first.i < r + 1)) : Nat) : Int)
            - ((e.first.i : Int) +
                (((e :: es).countP (fun x => decide (x.first.i < r)) : Nat) : Int))).toNat
          = (e :: es).countP (fun x => decide (x.first.i = r)) := by
        rw [countP_row_succ]
        push_cast
        have : ∀ a b c : Int, a + (b + c) - (a + b) = c := by intro a b c; ring
        rw [this]
        simp
      simp only
      rw [hzip, hd, ht, ← List.map_drop, ← List.map_take, sort_by_row_t.row_slice _ hs r]
  · simp
  · simp
  · refine ⟨(e.first.i : Int) + (((e :: es).countP (fun x => decide (x.first.i <
        e.first.i + (l.first.i + 1 - e.first.i))) : Nat) : Int), ?_, ?_⟩
    · rw [List.getLast?_eq_getElem?]
      simp only [List.length_cons, List.length_map, List.length_range, Nat.add_sub_cancel]
      exact hget (l.first.i + 1 - e.first.i) (le_refl _)
    · have hall : (e :: es).countP (fun x => decide (x.first.i <
          e.first.i + (l.first.i + 1 - e.first.i))) = (e :: es).length := by
        apply List.countP_eq_length.mpr
        intro x hx
        have := (hrows x hx).2
        simp only [decide_eq_true_eq]
        omega
      rw [hall]
      ring
  · intro m hnc hent
    simp only [sparse_matrix.compress, hnc, Bool.not_false, if_true, sort_by_row_t.SORT, hent,
      sort_by_row_t.compress_closed e l es hs hl]
    refine ⟨_, rfl, rfl, rfl, rfl, rfl, ?_⟩
    simp only [sparse_matrix.is_compressed, decide_eq_true_eq]
    omega

/-- Witness of C17: the entries `(2,3,5)`, `(2,7,6)`, `(4,1,7)`, with first row 2, last
row 4 and no entry in row 3: `ia = [2,4,4,5]`. -/
theorem sort_by_row_t.compress_offsets_witness :
    set_sorted sort_by_row_t.lt
        ([⟨⟨2, 3⟩, 5⟩, ⟨⟨2, 7⟩, 6⟩, ⟨⟨4, 1⟩, 7⟩] : List (coord_t Int)) ∧
      sort_by_row_t.compress ([⟨⟨2, 3⟩, 5⟩, ⟨⟨2, 7⟩, 6⟩, ⟨⟨4, 1⟩, 7⟩] : List (coord_t Int))
        = some ⟨[2, 4, 4, 5], [3, 7, 1], [5, 6, 7], 3, 3⟩ ∧
      ((∀ z ∈ ([⟨⟨2, 3⟩, 5⟩, ⟨⟨2, 7⟩, 6⟩, ⟨⟨4, 1⟩, 7⟩] : List (coord_t Int)),
          2 ≤ z.first.i ∧ z.first.i ≤ 4) ∧
        ∃ c, sort_by_row_t.compress
            ([⟨⟨2, 3⟩, 5⟩, ⟨⟨2, 7⟩, 6⟩, ⟨⟨4, 1⟩, 7⟩] : List (coord_t Int)) = some c ∧
          c.ia.length = 4 - 2 + 2) :=
  ⟨by unfold set_sorted; decide, by decide,
    (sort_by_row_t.compress_offsets ⟨⟨2, 3⟩, 5⟩ ⟨⟨4, 1⟩, 7⟩ [⟨⟨2, 7⟩, 6⟩, ⟨⟨4, 1⟩, 7⟩]
      (by unfold set_sorted; decide) (by decide)).1,
    (sort_by_row_t.compress_offsets ⟨⟨2, 3⟩, 5⟩ ⟨⟨4, 1⟩, 7⟩ [⟨⟨2, 7⟩, 6⟩, ⟨⟨4, 1⟩, 7⟩]
      (by unfold set_sorted; decide) (by decide)).2.imp (fun _ h => ⟨h.1, h.2.1⟩)⟩

/-- C18 (as stated, refuted): the single entry `(1,1,5)` of a 3x3 matrix numbered
from 0.  `compress` gives `ia = [1,2]`: its length is 2, not `rows + 1 = 4`, and
its first element is 1, not `BASE = 0`. -/
theorem sort_by_row_t.compress_single_row_counterexample :
    set_sorted sort_by_row_t.lt ([⟨⟨1, 1⟩, 5⟩] : List (coord_t Int)) ∧
    sort_by_row_t.compress ([⟨⟨1, 1⟩, 5⟩] : List (coord_t Int))
      = some ⟨[1, 2], [1], [5], 1, 1⟩ ∧
    (⟨0, ⟨3, 3⟩, .print_auto, [⟨⟨1, 1⟩, 5⟩], [], [], [], 0, 0⟩ : sparse_matrix Int).compress
        (sort_by_row_t.SORT Int)
      = some ⟨0, ⟨3, 3⟩, .print_auto, [], [5], [1, 2], [1], 1, 1⟩ ∧
    ([1, 2] : List Int).length ≠ 3 + 1 ∧
    ([1, 2] : List Int)[0]? ≠ some (Int.ofNat 0) := by
  refine ⟨?_, ?_, ?_, ?_, ?_⟩
  · unfold set_sorted; decide
  · decide
  · decide
  · decide
  · decide

/-- C18 (amended): for a non-empty row-major entry set whose first entry is in row
`f` and whose last entry is in row `l`, `compress` produces `ia` of length
`l - f + 2` with `ia[0] = f` and `nnu = l - f + 1`; the length is `rows + 1` and the
first offset is `BASE` exactly when `f = BASE` and `l = BASE + rows - 1`. -/
theorem sort_by_row_t.compress_extent {T : Type} (BASE rows : Nat) (e l : coord_t T)
    (es : List (coord_t T)) (hs : set_sorted sort_by_row_t.lt (e :: es))
    (hl : (e :: es).getLast? = some l) :
    ∃ c, sort_by_row_t.compress (e :: es) = some c ∧
      c.ia.length = l.first.i - e.first.i + 2 ∧
      c.ia[0]? = some (e.first.i : Int) ∧
      c.nnu = ((l.first.i - e.first.i + 1 : Nat) : Int) ∧
      ((c.ia.length = rows + 1 ∧ c.ia[0]? = some (BASE : Int)) ↔
        (e.first.i = BASE ∧ l.first.i + 1 = BASE + rows)) := by
  have hrows := sort_by_row_t.rows_between e l es hs hl
  have hfl : e.first.i ≤ l.first.i := (hrows e (List.mem_cons_self _ _)).2
  refine ⟨_, sort_by_row_t.compress_closed e l es hs hl, ?_, ?_, ?_, ?_⟩
  · simp only [List.length_cons, List.length_map, List.length_range]
    omega
  · simp
  · simp only
    congr 1
    omega
  · simp only [List.length_cons, List.length_map, List.length_range, List.getElem?_cons_zero,
      Option.some.injEq, Nat.cast_inj]
    omega

/-- Witness of C18 amended: the entries `(0,1,5)`, `(1,0,0)`, `(2,2,0)` of a 3x3
matrix numbered from 0, whose first row is 0 and last row is 2. -/
theorem sort_by_row_t.compress_extent_witness :
    set_sorted sort_by_row_t.lt
        ([⟨⟨0, 1⟩, 5⟩, ⟨⟨1, 0⟩, 0⟩, ⟨⟨2, 2⟩, 0⟩] : List (coord_t Int)) ∧
      sort_by_row_t.compress ([⟨⟨0, 1⟩, 5⟩, ⟨⟨1, 0⟩, 0⟩, ⟨⟨2, 2⟩, 0⟩] : List (coord_t Int))
        = some ⟨[0, 1, 2, 3], [1, 0, 2], [5, 0, 0], 3, 3⟩ ∧
      ∃ c, sort_by_row_t.compress
          ([⟨⟨0, 1⟩, 5⟩, ⟨⟨1, 0⟩, 0⟩, ⟨⟨2, 2⟩, 0⟩] : List (coord_t Int)) = some c ∧
        c.ia.length = 2 - 0 + 2 ∧ c.ia[0]? = some ((0 : Nat) : Int) ∧
        c.nnu = ((2 - 0 + 1 : Nat) : Int) ∧
        ((c.ia.length = 3 + 1 ∧ c.ia[0]? = some ((0 : Nat) : Int)) ↔ (0 = 0 ∧ 2 + 1 = 0 + 3)) :=
  ⟨by unfold set_sorted; decide, by decide,
    sort_by_row_t.compress_extent 0 3 ⟨⟨0, 1⟩, 5⟩ ⟨⟨2, 2⟩, 0⟩
      [⟨⟨1, 0⟩, 0⟩, ⟨⟨2, 2⟩, 0⟩] (by unfold set_sorted; decide) (by decide)⟩

/-! ### The end of `sparse_matrix::initialize(const std::string&)` -/

/-- The symmetry augmentation ends on every ordered entry set and returns an
ordered set that keeps the entries read, has the whole diagonal and has the
mirror of each of its coordinates. -/
theorem sparse_matrix.preserve_symmetry_closed {T : Type} [Zero T]
    {lt : coord_t T → coord_t T → Bool} (hlt : coord_order lt) (BASE rows : Nat)
    (S : List (coord_t T)) (hS : set_sorted lt S) :
    ∃ R, sparse_matrix.preserve_symmetry lt BASE rows S = some R ∧ set_sorted lt R ∧
      (∀ s ∈ S, s ∈ R) ∧
      (∀ k, k < rows → ∃ e ∈ R, e.first = ⟨k + BASE, k + BASE⟩) ∧
      (∀ e ∈ R, ∃ x ∈ R, x.first = ⟨e.first.j, e.first.i⟩) := by
  obtain ⟨R, hR, ⟨hsub, hdiag⟩, hsorted, hfix⟩ := sparse_matrix.mirror_loop_spec hlt
    (fun es => (∀ s ∈ S, s ∈ es) ∧
      ∀ i, i < rows → ∃ e ∈ es, e.first = ⟨i + BASE, i + BASE⟩)
    (fun es c hP _ _ _ =>
      ⟨fun s hs => set_insert_subset lt _ es s (hP.1 s hs),
       fun i hi => by
        obtain ⟨e, he, hfirst⟩ := hP.2 i hi
        exact ⟨e, set_insert_subset lt _ es e he, hfirst⟩⟩)
    (sparse_matrix.missing_mirrors (sparse_matrix.insert_diagonal lt BASE rows 0 S) + 1)
    (sparse_matrix.insert_diagonal lt BASE rows 0 S)
    (sparse_matrix.insert_diagonal_sorted hlt BASE rows 0 S hS)
    ⟨fun s hs => sparse_matrix.insert_diagonal_subset lt BASE rows 0 S s hs,
     fun i hi => sparse_matrix.insert_diagonal_diag hlt BASE rows 0 S i (Nat.zero_le _)
      (by omega)⟩
    (Nat.lt_succ_self _)
  refine ⟨R, hR, hsorted, hsub, hdiag, ?_⟩
  intro e he
  obtain ⟨x, hx, h1, h2⟩ := set_insert_false_equiv lt _ R (hfix e he)
  exact ⟨x, hx, hlt.total x _ h1 h2⟩

theorem foldl_max_spec (xs : List Int) :
    ∀ x : Int, x ≤ xs.foldl max x ∧ (∀ c ∈ xs, c ≤ xs.foldl max x) ∧
      xs.foldl max x ∈ x :: xs := by
  induction xs with
  | nil => intro x; simp
  | cons y ys ih =>
    intro x
    obtain ⟨h1, h2, h3⟩ := ih (max x y)
    simp only [List.foldl_cons]
    refine ⟨le_trans (le_max_left x y) h1, ?_, ?_⟩
    · intro c hc
      rcases List.mem_cons.mp hc with h | h
      · rw [h]; exact le_trans (le_max_right x y) h1
      · exact h2 c h
    · rcases List.mem_cons.mp h3 with h | h
      · rw [h]
        rcases max_choice x y with hm | hm
        · rw [hm]; exact List.mem_cons_self _ _
        · rw [hm]; exact List.mem_cons_of_mem _ (List.mem_cons_self _ _)
      · exact List.mem_cons_of_mem _ (List.mem_cons_of_mem _ h)

/-- On a non-empty vector `std::max_element` points at an element that no
element exceeds. -/
theorem vec_max_element_spec (l : List Int) (hne : l ≠ []) :
    ∃ mx, vec_max_element l = some mx ∧ mx ∈ l ∧ ∀ c ∈ l, c ≤ mx := by
  cases l with
  | nil => exact absurd rfl hne
  | cons x xs =>
    obtain ⟨h1, h2, h3⟩ := foldl_max_spec xs x
    refine ⟨_, rfl, h3, ?_⟩
    intro c hc
    rcases List.mem_cons.mp hc with h | h
    · rw [h]; exact h1
    · exact h2 c h

theorem size_t_of_int_natCast (n : Nat) : size_t_of_int (n : Int) = n := by
  unfold size_t_of_int
  have h : ¬ ((n : Int) < 0) := by omega
  rw [if_neg h]
  simp

theorem size_t_of_int_nonneg (x : Int) (h : 0 ≤ x) : size_t_of_int x = x.toNat := by
  unfold size_t_of_int
  have h1 : ¬ (x < 0) := by omega
  rw [if_neg h1]

theorem sort_by_row_t.closed_offsets_mono {T : Type} (S : List (coord_t T)) (f n : Nat)
    (hf : ∀ x ∈ S, f ≤ x.first.i) (p q : Nat) (x y : Int) (hpq : p ≤ q)
    (hp : ((f : Int) :: (List.range n).map (fun t =>
        (f : Int) + ((S.countP (fun x => decide (x.first.i < f + t + 1)) : Nat) : Int)))[p]?
      = some x)
    (hq : ((f : Int) :: (List.range n).map (fun t =>
        (f : Int) + ((S.countP (fun x => decide (x.first.i < f + t + 1)) : Nat) : Int)))[q]?
      = some y) : x ≤ y := by
  have hqlen : q < n + 1 := by
    have := (List.getElem?_eq_some_iff.mp hq).1
    simpa [List.length_cons, List.length_map, List.length_range] using this
  rw [sort_by_row_t.closed_offsets_get S f n p hf (by omega)] at hp
  rw [sort_by_row_t.closed_offsets_get S f n q hf (by omega)] at hq
  have hx := Option.some.inj hp
  have hy := Option.some.inj hq
  have hmono := sort_by_row_t.countP_lt_mono S (f + p) (f + q) (by omega)
  omega

theorem sort_by_row_t.closed_offsets_last {T : Type} (S : List (coord_t T)) (f n : Nat)
    (hf : ∀ x ∈ S, f ≤ x.first.i) (hl : ∀ x ∈ S, x.first.i < f + n) :
    ((f : Int) :: (List.range n).map (fun t =>
        (f : Int) + ((S.countP (fun x => decide (x.first.i < f + t + 1)) : Nat) : Int))).getLast?
      = some ((f : Int) + (S.length : Int)) := by
  rw [List.getLast?_eq_getElem?]
  simp only [List.length_cons, List.length_map, List.length_range, Nat.add_sub_cancel]
  rw [sort_by_row_t.closed_offsets_get S f n n hf (le_refl _)]
  have hall : S.countP (fun x => decide (x.first.i < f + n)) = S.length := by
    apply List.countP_eq_length.mpr
    intro x hx
    have := hl x hx
    simp only [decide_eq_true_eq]
    omega
  rw [hall]

/-- The check at the end of `initialize(const std::string&)` against the
invariants of the compressed form: on an ordered entry set that has the diagonal
of the first `rows` rows and the mirror of each of its coordinates, the arrays of
`compress` satisfy the invariants for the extent `(rows, cols)` exactly when
`size.i == nnu` and `size.j > max(ja) - BASE`. -/
theorem sort_by_row_t.compress_checks {T : Type} (BASE rows cols : Nat) (e l : coord_t T)
    (es : List (coord_t T)) (hs : set_sorted sort_by_row_t.lt (e :: es))
    (hl : (e :: es).getLast? = some l)
    (hdiag : ∀ k, k < rows → ∃ x ∈ e :: es, x.first = ⟨k + BASE, k + BASE⟩)
    (hsym : ∀ x ∈ e :: es, ∃ y ∈ e :: es, y.first = ⟨x.first.j, x.first.i⟩) :
    ∃ c mx, sort_by_row_t.compress (e :: es) = some c ∧ vec_max_element c.ja = some mx ∧
      0 < c.nnu ∧
      (compressed_well_formed BASE rows cols c.ia c.ja c.a ↔
        (rows = size_t_of_int c.nnu ∧ ¬ cols ≤ size_t_of_int (mx - Int.ofNat BASE))) := by
  have hrows := sort_by_row_t.rows_between e l es hs hl
  have hfl : e.first.i ≤ l.first.i := (hrows e (List.mem_cons_self _ _)).2
  obtain ⟨mx, hmx, hmxmem, hmxle⟩ := vec_max_element_spec
    ((e :: es).map (fun x => Int.ofNat x.first.j)) (by simp)
  refine ⟨_, mx, sort_by_row_t.compress_closed e l es hs hl, hmx, by simp only; omega, ?_⟩
  obtain ⟨xm, hxm, hxmeq⟩ := List.mem_map.mp hmxmem
  simp only [Int.ofNat_eq_coe] at hxmeq hmxle
  simp only [size_t_of_int_natCast, Int.ofNat_eq_coe]
  constructor
  · rintro ⟨hlen, _, _, _, _, hcols⟩
    have hb := hcols mx hmxmem
    simp only [Int.ofNat_eq_coe] at hb
    simp only [List.length_cons, List.length_map, List.length_range] at hlen
    refine ⟨by omega, ?_⟩
    rw [size_t_of_int_nonneg _ (by omega)]
    omega
  · rintro ⟨hn, hmxlt⟩
    have hrpos : 0 < rows := by omega
    obtain ⟨x0, hx0, hx0eq⟩ := hdiag 0 hrpos
    obtain ⟨x1, hx1, hx1eq⟩ := hdiag (rows - 1) (by omega)
    have h0 := (hrows x0 hx0).1
    have h1 := (hrows x1 hx1).2
    rw [hx0eq] at h0
    rw [hx1eq] at h1
    simp only at h0 h1
    have hfB : e.first.i = BASE := by omega
    have hcolge : ∀ x ∈ e :: es, BASE ≤ x.first.j := by
      intro x hx
      obtain ⟨y, hy, hyeq⟩ := hsym x hx
      have := (hrows y hy).1
      rw [hyeq] at this
      simp only at this
      omega
    have hmxge := hcolge xm hxm
    rw [size_t_of_int_nonneg _ (by omega)] at hmxlt
    refine ⟨?_, ?_, ?_, ?_, ?_, ?_⟩
    · simp only [List.length_cons, List.length_map, List.length_range]
      omega
    · simp only [List.getElem?_cons_zero, hfB, Int.ofNat_eq_coe]
    · intro p q x y hpq hp hq
      exact sort_by_row_t.closed_offsets_mono (e :: es) e.first.i _
        (fun x hx => (hrows x hx).1) p q x y hpq hp hq
    · simp only [List.length_map]
    · refine ⟨_, sort_by_row_t.closed_offsets_last (e :: es) e.first.i _
        (fun x hx => (hrows x hx).1) (fun x hx => by have := (hrows x hx).2; omega), ?_⟩
      simp only [List.length_map, Int.ofNat_eq_coe, hfB]
      ring
    · intro c hc
      obtain ⟨x, hx, hxeq⟩ := List.mem_map.mp hc
      have h2 := hmxle c hc
      have h3 := hcolge x hx
      simp only [Int.ofNat_eq_coe] at hxeq ⊢
      omega

/-- C19: the end of `sparse_matrix::initialize(const std::string&)` with the
row-major comparator, on the entries read from the file.  Whenever it returns,
the stored compressed form satisfies the structural invariants for the extent of
the matrix: `ia` has length `rows + 1`, starts at `BASE` and is non-decreasing,
`ja` and `a` have length `ia[last] - BASE`, and every column index is in
`[BASE, BASE + cols)`.  When the matrix has a row or an entry, the augmented set
is compressed and `initialize` returns exactly when the compressed form
satisfies the invariants; otherwise it throws "sparse_matrix: after reading
file, indexing not correct.". -/
theorem sparse_matrix.initialize_finish_well_formed {T : Type} [Zero T] (BASE : Nat)
    (m : sparse_matrix T) (hs : set_sorted sort_by_row_t.lt m.entries)
    (hnc : m.is_compressed = false) :
    (∀ m1, m.initialize_finish BASE (sort_by_row_t.SORT T) = .returns m1 →
        m1.well_formed BASE ∧ m1.m_size = m.m_size ∧ m1.is_compressed = true ∧
          m1.entries = []) ∧
    ((0 < m.m_size.i ∨ m.entries ≠ []) →
      ∃ R m1,
        sparse_matrix.preserve_symmetry sort_by_row_t.lt BASE m.m_size.i m.entries = some R ∧
        (⟨m.m_zero, m.m_size, m.m_print, R, m.a, m.ia, m.ja, m.nnu, m.nnz⟩ :
            sparse_matrix T).compress (sort_by_row_t.SORT T) = some m1 ∧
        (m1.well_formed BASE →
          m.initialize_finish BASE (sort_by_row_t.SORT T) = .returns m1) ∧
        (¬ m1.well_formed BASE →
          m.initialize_finish BASE (sort_by_row_t.SORT T)
            = .throws "sparse_matrix: after reading file, indexing not correct." m1)) := by
  obtain ⟨R, hR, hRs, hsub, hdiag, hsym⟩ := sparse_matrix.preserve_symmetry_closed
    (sort_by_row_t.coord_order_row T) BASE m.m_size.i m.entries hs
  have hnnu : m.nnu = 0 := by
    simpa [sparse_matrix.is_compressed] using hnc
  cases R with
  | nil =>
    constructor
    · intro m1 h
      simp [sparse_matrix.initialize_finish, sort_by_row_t.SORT, hR, sparse_matrix.compress,
        sparse_matrix.is_compressed, hnnu, sort_by_row_t.compress] at h
    · intro h
      rcases h with h | h
      · obtain ⟨x, hx, _⟩ := hdiag 0 h
        exact absurd hx (List.not_mem_nil _)
      · cases hent : m.entries with
        | nil => exact absurd hent h
        | cons s ss =>
          exact absurd (hsub s (by rw [hent]; exact List.mem_cons_self _ _))
            (List.not_mem_nil _)
  | cons e es =>
    obtain ⟨l, hl⟩ : ∃ l, (e :: es).getLast? = some l :=
      ⟨(e :: es).getLast (by simp), List.getLast?_eq_getLast _ _⟩
    obtain ⟨c, mx, hc, hmx, hpos, hiff⟩ := sort_by_row_t.compress_checks BASE m.m_size.i
      m.m_size.j e l es hRs hl hdiag hsym
    have hfin : m.initialize_finish BASE (sort_by_row_t.SORT T) =
        if m.m_size.i ≠ size_t_of_int c.nnu then
          .throws "sparse_matrix: after reading file, indexing not correct."
            ⟨m.m_zero, m.m_size, m.m_print, [], c.a, c.ia, c.ja, c.nnu, c.nnz⟩
        else if m.m_size.j ≤ size_t_of_int (mx - Int.ofNat BASE) then
          .throws "sparse_matrix: after reading file, indexing not correct."
            ⟨m.m_zero, m.m_size, m.m_print, [], c.a, c.ia, c.ja, c.nnu, c.nnz⟩
        else .returns ⟨m.m_zero, m.m_size, m.m_print, [], c.a, c.ia, c.ja, c.nnu, c.nnz⟩ := by
      simp only [sparse_matrix.initialize_finish, sort_by_row_t.SORT, hR, sparse_matrix.compress,
        sparse_matrix.is_compressed, hnnu, hc, hmx]
      simp [hmx]
    have hcomp : (⟨m.m_zero, m.m_size, m.m_print, e :: es, m.a, m.ia, m.ja, m.nnu, m.nnz⟩ :
        sparse_matrix T).compress (sort_by_row_t.SORT T)
        = some ⟨m.m_zero, m.m_size, m.m_print, [], c.a, c.ia, c.ja, c.nnu, c.nnz⟩ := by
      simp only [sort_by_row_t.SORT, sparse_matrix.compress, sparse_matrix.is_compressed, hnnu,
        hc]
      simp
    have hwf : (⟨m.m_zero, m.m_size, m.m_print, [], c.a, c.ia, c.ja, c.nnu, c.nnz⟩ :
        sparse_matrix T).well_formed BASE ↔
        (m.m_size.i = size_t_of_int c.nnu ∧ ¬ m.m_size.j ≤ size_t_of_int (mx - Int.ofNat BASE)) :=
      hiff
    constructor
    · intro m1 h
      rw [hfin] at h
      by_cases h1 : m.m_size.i ≠ size_t_of_int c.nnu
      · rw [if_pos h1] at h
        exact absurd h (by simp)
      · rw [if_neg h1] at h
        by_cases h2 : m.m_size.j ≤ size_t_of_int (mx - Int.ofNat BASE)
        · rw [if_pos h2] at h
          exact absurd h (by simp)
        · rw [if_neg h2] at h
          have hm1 := outcome.returns.inj h
          rw [← hm1]
          refine ⟨hwf.mpr ⟨not_not.mp h1, h2⟩, rfl, ?_, rfl⟩
          simp only [sparse_matrix.is_compressed, decide_eq_true_eq]
          omega
    · intro _
      refine ⟨e :: es, _, hR, hcomp, ?_, ?_⟩
      · intro h
        obtain ⟨h1, h2⟩ := hwf.mp h
        rw [hfin, if_neg (not_not.mpr h1), if_neg h2]
      · intro h
        rw [hfin]
        by_cases h1 : m.m_size.i ≠ size_t_of_int c.nnu
        · rw [if_pos h1]
        · rw [if_neg h1]
          by_cases h2 : m.m_size.j ≤ size_t_of_int (mx - Int.ofNat BASE)
          · rw [if_pos h2]
          · exact absurd (hwf.mpr ⟨not_not.mp h1, h2⟩) h

/-- Witness of C19: the entry `(0,1,5)` read for a 2x2 matrix, where `initialize`
returns a well-formed compressed form, and for a 3x2 matrix, where the diagonal
entry `(2,2)` is outside the columns and `initialize` throws. -/
theorem sparse_matrix.initialize_finish_well_formed_witness :
    set_sorted sort_by_row_t.lt example_sparse_read.entries ∧
    example_sparse_read.is_compressed = false ∧
    example_sparse_read.initialize_finish 0 (sort_by_row_t.SORT Int)
      = .returns ⟨0, ⟨2, 2⟩, .print_auto, [], [0, 5, 0, 0], [0, 2, 4], [0, 1, 0, 1], 2, 4⟩ ∧
    example_sparse_read_narrow.initialize_finish 0 (sort_by_row_t.SORT Int)
      = .throws "sparse_matrix: after reading file, indexing not correct."
          ⟨0, ⟨3, 2⟩, .print_auto, [], [0, 5, 0, 0, 0], [0, 2, 4, 5], [0, 1, 0, 1, 2], 3, 5⟩ ∧
    ((⟨0, ⟨2, 2⟩, .print_auto, [], [0, 5, 0, 0], [0, 2, 4], [0, 1, 0, 1], 2, 4⟩ :
        sparse_matrix Int).well_formed 0 ∧
      (⟨0, ⟨2, 2⟩, .print_auto, [], [0, 5, 0, 0], [0, 2, 4], [0, 1, 0, 1], 2, 4⟩ :
        sparse_matrix Int).m_size = example_sparse_read.m_size ∧
      (⟨0, ⟨2, 2⟩, .print_auto, [], [0, 5, 0, 0], [0, 2, 4], [0, 1, 0, 1], 2, 4⟩ :
        sparse_matrix Int).is_compressed = true ∧
      (⟨0, ⟨2, 2⟩, .print_auto, [], [0, 5, 0, 0], [0, 2, 4], [0, 1, 0, 1], 2, 4⟩ :
        sparse_matrix Int).entries = []) :=
  ⟨by unfold set_sorted; decide, by decide, by decide, by decide,
    (sparse_matrix.initialize_finish_well_formed 0 example_sparse_read
      (by unfold set_sorted; decide) (by decide)).1 _ (by decide)⟩

/-! ### Initializers of the sparse storage that do not read a file -/

/-- C27 (as stated, refuted): `initialize(3,3,7)` on a compressed 3x3
`sparse_matrix` and on a 3x3 `detail::sparse_matrix_csr`, the extent being the
current one: the call does not throw, it assigns 7 to every stored value. -/
theorem sparse_initialize_size_same_extent_counterexample :
    example_sparse_compressed.initialize_size (fun x : Int => x) 3 3 7
      = .returns ⟨-1, ⟨3, 3⟩, .print_auto, [], [7, 7, 7, 7, 7], [0, 2, 3, 5], [0, 2, 1, 0, 2],
          3, 5⟩ ∧
    example_sparse_csr.initialize_size (fun x : Int => x) 3 3 7
      = .returns ⟨-1, ⟨3, 3⟩, .print_auto, [7, 7, 7, 7, 7],
          ⟨[0, 2, 3, 5], [0, 2, 1, 0, 2], 3, 5⟩⟩ := by
  constructor
  · decide
  · decide

/-- C27 (amended): for `sparse_matrix` (`m`) and `detail::sparse_matrix_csr` (`c`),
`initialize(i,j,value)` throws "resizing not available" and leaves the matrix
as it is for every `(i,j)` other than the current extent; for the current extent
it returns after assigning the converted value to every stored value, the
arrays keeping their length and every other member its value;
`initialize(vector)` throws for every sequence. -/
theorem sparse_initialize_unsupported {double T : Type} (conv : double → T)
    (m : sparse_matrix T) (c : detail.sparse_matrix_csr T) (i j : Nat) (_value : double)
    (_vector : List double) :
    ((⟨i, j⟩ : idx_t) ≠ m.m_size →
      m.initialize_size conv i j _value = .throws "sparse_matrix: resizing not available." m) ∧
    ((⟨i, j⟩ : idx_t) ≠ c.m_size →
      c.initialize_size conv i j _value
        = .throws "sparse_matrix_csr: resizing not available." c) ∧
    ((⟨i, j⟩ : idx_t) = m.m_size →
      m.initialize_size conv i j _value
        = .returns ⟨m.m_zero, m.m_size, m.m_print, m.entries,
            List.replicate m.a.length (conv _value), m.ia, m.ja, m.nnu, m.nnz⟩) ∧
    ((⟨i, j⟩ : idx_t) = c.m_size →
      c.initialize_size conv i j _value
        = .returns ⟨c.m_zero, c.m_size, c.m_print, List.replicate c.a.length (conv _value),
            c.idx⟩) ∧
    m.initialize_vector _vector
      = .throws "sparse_matrix_csr: initialize from vector is not possible." m ∧
    c.initialize_vector _vector
      = .throws "sparse_matrix_csr: initialize from vector is not possible." c := by
  refine ⟨?_, ?_, ?_, ?_, rfl, rfl⟩
  · intro h
    unfold sparse_matrix.initialize_size
    rw [if_neg h]
  · intro h
    unfold detail.sparse_matrix_csr.initialize_size
    rw [if_neg h]
  · intro h
    unfold sparse_matrix.initialize_size
    rw [if_pos h]
    rfl
  · intro h
    unfold detail.sparse_matrix_csr.initialize_size
    rw [if_pos h]
    rfl

/-- Witness of C27 amended: `initialize(2,3,7)` and `initialize(3,3,7)` on the 3x3
examples. -/
theorem sparse_initialize_unsupported_witness :
    ((⟨2, 3⟩ : idx_t) ≠ example_sparse_compressed.m_size ∧
      example_sparse_compressed.initialize_size (fun x : Int => x) 2 3 7
        = .throws "sparse_matrix: resizing not available." example_sparse_compressed) ∧
    ((⟨3, 3⟩ : idx_t) = example_sparse_csr.m_size ∧
      example_sparse_csr.initialize_size (fun x : Int => x) 3 3 7
        = .returns ⟨-1, ⟨3, 3⟩, .print_auto, List.replicate 5 7,
            ⟨[0, 2, 3, 5], [0, 2, 1, 0, 2], 3, 5⟩⟩) :=
  ⟨⟨by decide, (sparse_initialize_unsupported (fun x : Int => x) example_sparse_compressed
      example_sparse_csr 2 3 7 []).1 (by decide)⟩,
   ⟨by decide, (sparse_initialize_unsupported (fun x : Int => x) example_sparse_compressed
      example_sparse_csr 3 3 7 []).2.2.2.1 (by decide)⟩⟩

/-! ### `zerorow` of the compressed storage -/

/-- Filling `n` cells from index `k` inside the vector: the vector keeps its
length, the cells `k .. k+n-1` hold `v` and the others are as before. -/
theorem vec_fill_spec {α : Type} (v : α) (n : Nat) :
    ∀ (k : Nat) (a : List α), k + n ≤ a.length →
      ∃ a1, vec_fill v n (k : Int) a = some a1 ∧ a1.length = a.length ∧
        (∀ t, k ≤ t → t < k + n → a1[t]? = some v) ∧
        (∀ t, (t < k ∨ k + n ≤ t) → a1[t]? = a[t]?) := by
  induction n with
  | zero =>
    intro k a _
    exact ⟨a, rfl, rfl, fun t h1 h2 => by omega, fun _ _ => rfl⟩
  | succ n ih =>
    intro k a h
    have hk : k < a.length := by omega
    obtain ⟨a1, h1, hlen, hin, hout⟩ := ih (k + 1) (a.set k v) (by
      rw [List.length_set]; omega)
    have hneg : ¬ ((k : Int) < 0) := by omega
    refine ⟨a1, ?_, ?_, ?_, ?_⟩
    · simp only [vec_fill, hneg, if_false, Int.toNat_ofNat, vec_put_some a k v hk,
        Option.bind_eq_bind, Option.some_bind]
      exact_mod_cast h1
    · rw [hlen, List.length_set]
    · intro t ht1 ht2
      by_cases htk : t = k
      · rw [hout t (Or.inl (by omega)), htk, List.getElem?_set_self hk]
      · exact hin t (by omega) (by omega)
    · intro t ht
      rw [hout t (by omega), List.getElem?_set_ne (by omega)]

/-- C29 (`zerorow` on the compressed form): for a `sparse_matrix` (`m`) and a
`detail::sparse_matrix_csr` (`c`) whose arrays satisfy the structural invariants
and every `r < rows`, `zerorow(r)` stays inside `a` and returns; afterwards
`a[k]` is zero for every `k` of the slice `[ia[r]-BASE, ia[r+1]-BASE)` of row
`r`, every other `a[k]` is as before, and `ia`, `ja`, the extent and all other
members are unchanged. -/
theorem sparse_zerorow_slice {T : Type} [Zero T] (BASE : Nat) (m : sparse_matrix T)
    (c : detail.sparse_matrix_csr T) (hm : m.well_formed BASE)
    (hc : compressed_well_formed BASE c.m_size.i c.m_size.j c.idx.ia c.idx.ja c.a) (r : Nat)
    (hrm : r < m.m_size.i) (hrc : r < c.m_size.i) :
    (∃ lo hi a1, m.ia[r]? = some lo ∧ m.ia[r + 1]? = some hi ∧
      m.zerorow BASE r = some ⟨m.m_zero, m.m_size, m.m_print, m.entries, a1, m.ia, m.ja,
        m.nnu, m.nnz⟩ ∧ a1.length = m.a.length ∧
      (∀ k : Nat, lo - (BASE : Int) ≤ (k : Int) → (k : Int) < hi - (BASE : Int) →
        a1[k]? = some 0) ∧
      (∀ k : Nat, ((k : Int) < lo - (BASE : Int) ∨ hi - (BASE : Int) ≤ (k : Int)) →
        a1[k]? = m.a[k]?)) ∧
    (∃ lo hi a1, c.idx.ia[r]? = some lo ∧ c.idx.ia[r + 1]? = some hi ∧
      c.zerorow BASE r = some ⟨c.m_zero, c.m_size, c.m_print, a1, c.idx⟩ ∧
      a1.length = c.a.length ∧
      (∀ k : Nat, lo - (BASE : Int) ≤ (k : Int) → (k : Int) < hi - (BASE : Int) →
        a1[k]? = some 0) ∧
      (∀ k : Nat, ((k : Int) < lo - (BASE : Int) ∨ hi - (BASE : Int) ≤ (k : Int)) →
        a1[k]? = c.a[k]?)) := by
  constructor
  · obtain ⟨lo, hi, hlo, hhi, hB, hle, hlen, hja⟩ := compressed_well_formed.slice hm r hrm
    obtain ⟨a1, h1, hl1, hin, hout⟩ := vec_fill_spec (0 : T) (hi - lo).toNat
      (lo - (BASE : Int)).toNat m.a (by
        have : ((m.ja.length : Int)) = (m.a.length : Int) := by exact_mod_cast hja
        omega)
    have hcast : (((lo - (BASE : Int)).toNat : Nat) : Int) = lo - (BASE : Int) := by omega
    rw [hcast] at h1
    refine ⟨lo, hi, a1, hlo, hhi, ?_, hl1, ?_, ?_⟩
    · simp only [sparse_matrix.zerorow, vec_get, hlo, hhi, Int.ofNat_eq_coe, h1,
        Option.bind_eq_bind, Option.some_bind]
      rfl
    · intro k hk1 hk2
      exact hin k (by omega) (by omega)
    · intro k hk
      exact hout k (by omega)
  · obtain ⟨lo, hi, hlo, hhi, hB, hle, hlen, hja⟩ := compressed_well_formed.slice hc r hrc
    obtain ⟨a1, h1, hl1, hin, hout⟩ := vec_fill_spec (0 : T)
      ((hi - (BASE : Int)) - (lo - (BASE : Int))).toNat
      (lo - (BASE : Int)).toNat c.a (by
        have : ((c.idx.ja.length : Int)) = (c.a.length : Int) := by exact_mod_cast hja
        omega)
    have hcast : (((lo - (BASE : Int)).toNat : Nat) : Int) = lo - (BASE : Int) := by omega
    rw [hcast] at h1
    refine ⟨lo, hi, a1, hlo, hhi, ?_, hl1, ?_, ?_⟩
    · simp only [detail.sparse_matrix_csr.zerorow, vec_get, hlo, hhi, Int.ofNat_eq_coe, h1,
        Option.bind_eq_bind, Option.some_bind]
      rfl
    · intro k hk1 hk2
      exact hin k (by omega) (by omega)
    · intro k hk
      exact hout k (by omega)

/-- Witness of C29: `zerorow(1)` on the two 3x3 examples, `ia = [0,2,3,5]`: the slice
of row 1 is the single index 2. -/
theorem sparse_zerorow_slice_witness :
    example_sparse_compressed.well_formed 0 ∧
    compressed_well_formed 0 example_sparse_csr.m_size.i example_sparse_csr.m_size.j
      example_sparse_csr.idx.ia example_sparse_csr.idx.ja example_sparse_csr.a ∧
    1 < example_sparse_compressed.m_size.i ∧ 1 < example_sparse_csr.m_size.i ∧
    example_sparse_compressed.zerorow 0 1
      = some ⟨-1, ⟨3, 3⟩, .print_auto, [], [10, 20, 0, 40, 50], [0, 2, 3, 5], [0, 2, 1, 0, 2],
          3, 5⟩ ∧
    example_sparse_csr.zerorow 0 1
      = some ⟨-1, ⟨3, 3⟩, .print_auto, [10, 20, 0, 40, 50],
          ⟨[0, 2, 3, 5], [0, 2, 1, 0, 2], 3, 5⟩⟩ ∧
    (∃ lo hi a1, example_sparse_compressed.ia[1]? = some lo ∧
      example_sparse_compressed.ia[1 + 1]? = some hi ∧
      example_sparse_compressed.zerorow 0 1
        = some ⟨example_sparse_compressed.m_zero, example_sparse_compressed.m_size,
            example_sparse_compressed.m_print, example_sparse_compressed.entries, a1,
            example_sparse_compressed.ia, example_sparse_compressed.ja,
            example_sparse_compressed.nnu, example_sparse_compressed.nnz⟩ ∧
      a1.length = example_sparse_compressed.a.length) :=
  have hwf : example_sparse_compressed.well_formed 0 :=
    ⟨by decide, by decide, nondecreasing_of_pairwise _ (by decide), by decide,
     ⟨5, by decide, by decide⟩, by decide⟩
  have hwc : compressed_well_formed 0 example_sparse_csr.m_size.i example_sparse_csr.m_size.j
      example_sparse_csr.idx.ia example_sparse_csr.idx.ja example_sparse_csr.a :=
    ⟨by decide, by decide, nondecreasing_of_pairwise _ (by decide), by decide,
     ⟨5, by decide, by decide⟩, by decide⟩
  ⟨hwf, hwc, by decide, by decide, by decide, by decide,
    match (sparse_zerorow_slice 0 example_sparse_compressed example_sparse_csr hwf hwc 1
      (by decide) (by decide)).1 with
    | ⟨lo, hi, a1, h1, h2, h3, h4, _⟩ => ⟨lo, hi, a1, h1, h2, h3, h4⟩⟩

/-! ### The two representations of `sparse_matrix` exclude each other -/

theorem sort_by_row_t.uncompress_inner_sorted_row {T : Type} (ja : List Int) (a : List T)
    (row : Int) :
    ∀ (n : Nat) (k : Int) (es es1 : List (coord_t T)), set_sorted sort_by_row_t.lt es →
      sort_by_row_t.uncompress_inner ja a row n k es = some es1 →
      set_sorted sort_by_row_t.lt es1 := by
  intro n
  induction n with
  | zero =>
    intro k es es1 hs h
    simp only [sort_by_row_t.uncompress_inner, Option.some.injEq] at h
    rw [← h]; exact hs
  | succ n ih =>
    intro k es es1 hs h
    simp only [sort_by_row_t.uncompress_inner, Option.bind_eq_bind] at h
    cases hc : vec_at ja k with
    | none => simp [hc] at h
    | some c =>
      cases hv : vec_at a k with
      | none => simp [hc, hv] at h
      | some v =>
        simp only [hc, hv, Option.some_bind] at h
        exact ih _ _ _ (set_insert_sorted _ (sort_by_row_t.coord_order_row T).trans _ es hs) h

theorem sort_by_row_t.uncompress_outer_sorted_row {T : Type} (ia ja : List Int) (a : List T)
    (base : Int) :
    ∀ (n i : Nat) (es es1 : List (coord_t T)), set_sorted sort_by_row_t.lt es →
      sort_by_row_t.uncompress_outer ia ja a base n i es = some es1 →
      set_sorted sort_by_row_t.lt es1 := by
  intro n
  induction n with
  | zero =>
    intro i es es1 hs h
    simp only [sort_by_row_t.uncompress_outer, Option.some.injEq] at h
    rw [← h]; exact hs
  | succ n ih =>
    intro i es es1 hs h
    simp only [sort_by_row_t.uncompress_outer, Option.bind_eq_bind] at h
    cases hlo : vec_get ia i with
    | none => simp [hlo] at h
    | some lo =>
      cases hhi : vec_get ia (i + 1) with
      | none => simp [hlo, hhi] at h
      | some hi =>
        simp only [hlo, hhi, Option.some_bind] at h
        obtain ⟨es2, hin, h2⟩ := Option.bind_eq_some.mp h
        exact ih _ _ _ (sort_by_row_t.uncompress_inner_sorted_row ja a _ _ _ es es2 hs hin) h2

theorem sort_by_column_t.uncompress_inner_sorted_column {T : Type} (ia : List Int) (a : List T)
    (base col : Int) :
    ∀ (n : Nat) (k : Int) (es es1 : List (coord_t T)), set_sorted sort_by_column_t.lt es →
      sort_by_column_t.uncompress_inner ia a base col n k es = some es1 →
      set_sorted sort_by_column_t.lt es1 := by
  intro n
  induction n with
  | zero =>
    intro k es es1 hs h
    simp only [sort_by_column_t.uncompress_inner, Option.some.injEq] at h
    rw [← h]; exact hs
  | succ n ih =>
    intro k es es1 hs h
    simp only [sort_by_column_t.uncompress_inner, Option.bind_eq_bind] at h
    cases hc : vec_at ia k with
    | none => simp [hc] at h
    | some c =>
      cases hv : vec_at a k with
      | none => simp [hc, hv] at h
      | some v =>
        simp only [hc, hv, Option.some_bind] at h
        exact ih _ _ _
          (set_insert_sorted _ (sort_by_column_t.coord_order_column T).trans _ es hs) h

theorem sort_by_column_t.uncompress_outer_sorted_column {T : Type} (ia ja : List Int)
    (a : List T) (base : Int) :
    ∀ (n j : Nat) (es es1 : List (coord_t T)), set_sorted sort_by_column_t.lt es →
      sort_by_column_t.uncompress_outer ia ja a base n j es = some es1 →
      set_sorted sort_by_column_t.lt es1 := by
  intro n
  induction n with
  | zero =>
    intro j es es1 hs h
    simp only [sort_by_column_t.uncompress_outer, Option.some.injEq] at h
    rw [← h]; exact hs
  | succ n ih =>
    intro j es es1 hs h
    simp only [sort_by_column_t.uncompress_outer, Option.bind_eq_bind] at h
    cases hlo : vec_get ja j with
    | none => simp [hlo] at h
    | some lo =>
      cases hhi : vec_get ja (j + 1) with
      | none => simp [hlo, hhi] at h
      | some hi =>
        simp only [hlo, hhi, Option.some_bind] at h
        obtain ⟨es2, hin, h2⟩ := Option.bind_eq_some.mp h
        exact ih _ _ _
          (sort_by_column_t.uncompress_inner_sorted_column ia a _ _ _ _ es es2 hs hin) h2

/-- The entry set rebuilt by `SORT::uncompress` is in the order of the comparator,
for both comparators. -/
theorem SORT.uncompress_sorted {T : Type} (S : SORT T)
    (hS : S = sort_by_row_t.SORT T ∨ S = sort_by_column_t.SORT T) (ia ja : List Int)
    (a : List T) (es : List (coord_t T)) (h : S.uncompress ia ja a = some es) :
    set_sorted S.lt es := by
  rcases hS with hS | hS
  · subst hS
    simp only [sort_by_row_t.SORT, sort_by_row_t.uncompress] at h ⊢
    cases ia with
    | nil => simp at h
    | cons base rest =>
      exact sort_by_row_t.uncompress_outer_sorted_row _ ja a base _ 0 [] es
        List.Pairwise.nil h
  · subst hS
    simp only [sort_by_column_t.SORT, sort_by_column_t.uncompress] at h ⊢
    cases ja with
    | nil => simp at h
    | cons base rest =>
      exact sort_by_column_t.uncompress_outer_sorted_column ia _ a base _ 0 [] es
        List.Pairwise.nil h

/-- The comparators of both `SORT` instances are strict total orders on
coordinates. -/
theorem SORT.coord_order_of {T : Type} (S : SORT T)
    (hS : S = sort_by_row_t.SORT T ∨ S = sort_by_column_t.SORT T) : coord_order S.lt := by
  rcases hS with hS | hS
  · subst hS; exact sort_by_row_t.coord_order_row T
  · subst hS; exact sort_by_column_t.coord_order_column T

/-- On an ordered non-empty entry set `SORT::compress` sets `nnu` to a non-zero
count, for both comparators. -/
theorem SORT.compress_nnu_ne_zero {T : Type} (S : SORT T)
    (hS : S = sort_by_row_t.SORT T ∨ S = sort_by_column_t.SORT T) (es : List (coord_t T))
    (hs : set_sorted S.lt es) (c : compressed_t T) (hc : S.compress es = some c) :
    c.nnu ≠ 0 := by
  rcases hS with hS | hS
  · subst hS; exact sort_by_row_t.compress_nnu_pos_row es hs c hc
  · subst hS; exact sort_by_column_t.compress_nnu_pos_column es hs c hc

/-- The invariant kept by the member functions of `sparse_matrix`: the entry set is
in the order of the comparator, a compressed matrix has no entries, and an
uncompressed one has empty arrays and zero counters. -/
theorem sparse_matrix.reachable_invariant {double T : Type} [Zero T] (conv : double → T)
    (BASE : Nat) (S : SORT T) (hS : S = sort_by_row_t.SORT T ∨ S = sort_by_column_t.SORT T)
    (m : sparse_matrix T) (h : sparse_matrix.reachable conv BASE S m) :
    set_sorted S.lt m.entries ∧ (m.nnu ≠ 0 → m.entries = []) ∧
      (m.nnu = 0 → m.ia = [] ∧ m.ja = [] ∧ m.a = [] ∧ m.nnz = 0) := by
  have hlt := SORT.coord_order_of S hS
  induction h with
  | construct nan size0 nnu0 nnz0 =>
    exact ⟨List.Pairwise.nil, fun _ => rfl, fun _ => ⟨rfl, rfl, rfl, rfl⟩⟩
  | clear m _ _ =>
    exact ⟨List.Pairwise.nil, fun _ => rfl, fun _ => ⟨rfl, rfl, rfl, rfl⟩⟩
  | read m i j x _ _ ih => exact ih
  | write m m1 i j v _ hw ih =>
    obtain ⟨hs, hc, hu⟩ := ih
    simp only [sparse_matrix.operator_set, Option.bind_eq_bind] at hw
    obtain ⟨r, hr, hassign⟩ := Option.bind_eq_some.mp hw
    by_cases hnnu : m.nnu = 0
    · have hcomp : m.is_compressed = false := by simp [sparse_matrix.is_compressed, hnnu]
      simp only [sparse_matrix.operator_ref, hcomp, Bool.false_eq_true, if_false,
        Option.some.injEq] at hr
      rw [← hr] at hassign
      simp only [sparse_matrix.assign, Option.some.injEq] at hassign
      rw [← hassign]
      exact ⟨set_assign_sorted hlt _ _ _ (set_insert_sorted _ hlt.trans _ _ hs),
        fun h => absurd hnnu h, fun _ => hu hnnu⟩
    · have hcomp : m.is_compressed = true := by simp [sparse_matrix.is_compressed, hnnu]
      simp only [sparse_matrix.operator_ref, hcomp, if_true, Option.bind_eq_bind] at hr
      obtain ⟨k, _, hk⟩ := Option.bind_eq_some.mp hr
      by_cases hneg : k < 0
      · rw [if_pos hneg] at hk
        simp only [Option.some.injEq] at hk
        rw [← hk] at hassign
        simp only [sparse_matrix.assign, Option.some.injEq] at hassign
        rw [← hassign]
        exact ⟨hs, hc, fun h => absurd h hnnu⟩
      · rw [if_neg hneg] at hk
        obtain ⟨_, _, hk2⟩ := Option.map_eq_some'.mp hk
        rw [← hk2] at hassign
        simp only [sparse_matrix.assign, hneg, if_false] at hassign
        obtain ⟨a1, _, ha1⟩ := Option.map_eq_some'.mp hassign
        rw [← ha1]
        exact ⟨hs, hc, fun h => absurd h hnnu⟩
  | assign m v _ ih =>
    obtain ⟨hs, hc, hu⟩ := ih
    refine ⟨hs, hc, fun h => ?_⟩
    obtain ⟨h1, h2, h3, h4⟩ := hu h
    refine ⟨h1, h2, ?_, h4⟩
    simp only [sparse_matrix.operator_assign, h3, List.length_nil, List.replicate_zero]
  | compress m m1 _ hne hcm ih =>
    obtain ⟨hs, hc, hu⟩ := ih
    by_cases hnnu : m.nnu = 0
    · have hcomp : m.is_compressed = false := by simp [sparse_matrix.is_compressed, hnnu]
      simp only [sparse_matrix.compress, hcomp, Bool.not_false, if_true,
        Option.bind_eq_bind] at hcm
      obtain ⟨c, hc1, hc2⟩ := Option.bind_eq_some.mp hcm
      have hpos := SORT.compress_nnu_ne_zero S hS m.entries hs c hc1
      simp only [pure, Option.some.injEq] at hc2
      rw [← hc2]
      exact ⟨List.Pairwise.nil, fun _ => rfl, fun h => absurd h hpos⟩
    · exact absurd (hc hnnu) hne
  | uncompress m m1 _ hun ih =>
    obtain ⟨hs, hc, hu⟩ := ih
    by_cases hnnu : m.nnu = 0
    · have hcomp : m.is_compressed = false := by simp [sparse_matrix.is_compressed, hnnu]
      simp only [sparse_matrix.uncompress, hcomp, Bool.false_eq_true, if_false, pure,
        Option.some.injEq] at hun
      rw [← hun]
      exact ⟨hs, hc, hu⟩
    · have hcomp : m.is_compressed = true := by simp [sparse_matrix.is_compressed, hnnu]
      simp only [sparse_matrix.uncompress, hcomp, if_true, Option.bind_eq_bind] at hun
      obtain ⟨es, hes, hes2⟩ := Option.bind_eq_some.mp hun
      simp only [pure, Option.some.injEq] at hes2
      rw [← hes2]
      exact ⟨SORT.uncompress_sorted S hS _ _ _ es hes, fun h => absurd rfl h,
        fun _ => ⟨rfl, rfl, rfl, rfl⟩⟩
  | swap_this m o _ _ _ ih2 => exact ih2
  | swap_other m o _ _ ih1 _ => exact ih1

/-- C30 (mutually exclusive representations): in every state of a
`sparse_matrix`, with either comparator, reached from the constructor through
`clear`, cell reads and writes, `operator=(const double&)`, `compress` on a
non-empty entry set, `uncompress` and `swap`, a compressed matrix has an empty
entry set and an uncompressed one has empty `ia`, `ja`, `a` and
`nnu = nnz = 0`. -/
theorem sparse_matrix.reachable_exclusive {double T : Type} [Zero T] (conv : double → T)
    (BASE : Nat) (S : SORT T) (hS : S = sort_by_row_t.SORT T ∨ S = sort_by_column_t.SORT T)
    (m : sparse_matrix T) (h : sparse_matrix.reachable conv BASE S m) :
    (m.is_compressed = true → m.entries = []) ∧
    (m.is_compressed = false →
      m.ia = [] ∧ m.ja = [] ∧ m.a = [] ∧ m.nnu = 0 ∧ m.nnz = 0) := by
  obtain ⟨_, hc, hu⟩ := sparse_matrix.reachable_invariant conv BASE S hS m h
  constructor
  · intro hcomp
    apply hc
    simpa [sparse_matrix.is_compressed] using hcomp
  · intro hcomp
    have hnnu : m.nnu = 0 := by simpa [sparse_matrix.is_compressed] using hcomp
    obtain ⟨h1, h2, h3, h4⟩ := hu hnnu
    exact ⟨h1, h2, h3, hnnu, h4⟩

/-- Witness of C30: the state reached by constructing a matrix, writing 4 at
`(0,0)` and calling `compress`. -/
theorem sparse_matrix.reachable_exclusive_witness :
    sparse_matrix.reachable (fun x : Int => x) 0 (sort_by_row_t.SORT Int)
      ⟨0, ⟨0, 0⟩, .print_auto, [], [4], [0, 1], [0], 1, 1⟩ ∧
    ((⟨0, ⟨0, 0⟩, .print_auto, [], [4], [0, 1], [0], 1, 1⟩ : sparse_matrix Int).is_compressed
        = true →
      (⟨0, ⟨0, 0⟩, .print_auto, [], [4], [0, 1], [0], 1, 1⟩ : sparse_matrix Int).entries = []) :=
  have h0 : sparse_matrix.reachable (fun x : Int => x) 0 (sort_by_row_t.SORT Int)
      (sparse_matrix.construct 0 ⟨0, 0⟩ 0 0) := sparse_matrix.reachable.construct 0 ⟨0, 0⟩ 0 0
  have h1 : sparse_matrix.reachable (fun x : Int => x) 0 (sort_by_row_t.SORT Int)
      ⟨0, ⟨0, 0⟩, .print_auto, [⟨⟨0, 0⟩, 4⟩], [], [], [], 0, 0⟩ :=
    sparse_matrix.reachable.write _ _ 0 0 4 h0 (by decide)
  have h2 : sparse_matrix.reachable (fun x : Int => x) 0 (sort_by_row_t.SORT Int)
      ⟨0, ⟨0, 0⟩, .print_auto, [], [4], [0, 1], [0], 1, 1⟩ :=
    sparse_matrix.reachable.compress _ _ h1 (by decide) (by decide)
  ⟨h2, (sparse_matrix.reachable_exclusive (fun x : Int => x) 0 (sort_by_row_t.SORT Int)
    (Or.inl rfl) _ h2).1⟩

/-! ### File names -/

theorem string_find_last_of_none (c : Char) (e : List Char) (h : c ∉ e) :
    string_find_last_of c e = none := by
  induction e with
  | nil => rfl
  | cons x xs ih =>
    have hx : x ≠ c := fun hxc => h (hxc ▸ List.mem_cons_self _ _)
    have hxs : c ∉ xs := fun hm => h (List.mem_cons_of_mem _ hm)
    simp only [string_find_last_of, ih hxs, hx, if_false]

theorem string_find_last_of_append (c : Char) (s e : List Char) (h : c ∉ e) :
    string_find_last_of c (s ++ c :: e) = some s.length := by
  induction s with
  | nil => simp only [List.nil_append, string_find_last_of, string_find_last_of_none c e h,
      if_true, List.length_nil]
  | cons x xs ih =>
    show string_find_last_of c (x :: (xs ++ c :: e)) = some (xs.length + 1)
    simp only [string_find_last_of, ih]

theorem string_find_last_of_some (c : Char) :
    ∀ (s : List Char) (p : Nat), string_find_last_of c s = some p → p < s.length := by
  intro s
  induction s with
  | nil => intro p h; simp [string_find_last_of] at h
  | cons x xs ih =>
    intro p h
    simp only [string_find_last_of] at h
    cases hxs : string_find_last_of c xs with
    | some q =>
      simp only [hxs, Option.some.injEq] at h
      have := ih q hxs
      simp only [List.length_cons]
      omega
    | none =>
      simp only [hxs] at h
      by_cases hx : x = c
      · simp only [hx, if_true, Option.some.injEq] at h
        simp only [List.length_cons]
        omega
      · simp [hx] at h

/-- The extension test of `initialize(const std::string&)` holds exactly for the
names that end in the extension, for an extension that is a dot followed by
characters other than the dot. -/
theorem file_extension_is_iff (_fname e : List Char) (he : '.' ∉ e) :
    file_extension_is _fname ('.' :: e) = true ↔ ∃ stem, _fname = stem ++ '.' :: e := by
  constructor
  · intro h
    unfold file_extension_is at h
    cases hp : string_find_last_of '.' _fname with
    | none => simp [hp] at h
    | some p =>
      simp only [hp, Bool.and_eq_true, decide_eq_true_eq] at h
      refine ⟨_fname.take p, ?_⟩
      rw [← h.2, List.take_append_drop]
  · rintro ⟨stem, hstem⟩
    have hp := string_find_last_of_append '.' stem e he
    unfold file_extension_is
    rw [hstem]
    simp only [string_find_last_of, hp, Bool.and_eq_true, decide_eq_true_eq]
    refine ⟨by omega, ?_⟩
    simp

/-- The offsets that the loop of the CSR branch of `sparse_matrix` keeps increase
strictly. -/
theorem sparse_read_csr_offsets_increasing {T : Type} (ts : List (token T)) (j : Int)
    (ia : List Int) (ja0 : Int) (hia : ia.Pairwise (fun x y => x < y))
    (hj : ∀ x ∈ ia, x ≤ j) :
    (sparse_read_csr_offsets ts j ia ja0).1.Pairwise (fun x y => x < y) := by
  induction ts generalizing j ia ja0 with
  | nil => simpa [sparse_read_csr_offsets] using hia
  | cons t ts ih =>
    unfold sparse_read_csr_offsets
    cases ht : t.as_int with
    | none => simpa using hia
    | some i =>
      by_cases hji : j < i
      · simp only [if_pos hji]
        apply ih
        · rw [List.pairwise_append]
          refine ⟨hia, List.pairwise_singleton _ _, ?_⟩
          intro a ha b hb
          rw [List.mem_singleton] at hb
          have := hj a ha
          omega
        · intro x hx
          rw [List.mem_append, List.mem_singleton] at hx
          rcases hx with hx | hx
          · have := hj x hx
            omega
          · omega
      · simp only [if_neg hji]
        exact hia

/-- The count `ia.back()-ia.front()` that the CSR branch of `sparse_matrix` gives to
`ja.reserve` is never negative. -/
theorem sparse_read_csr_reserve_count {T : Type} (ts : List (token T)) (front back : Int)
    (hf : (sparse_read_csr_offsets ts (-1) [] 0).1.head? = some front)
    (hb : (sparse_read_csr_offsets ts (-1) [] 0).1.getLast? = some back) :
    ¬ (back - front < 0) := by
  have hp := sparse_read_csr_offsets_increasing ts (-1) [] 0 List.Pairwise.nil
    (by intro x hx; cases hx)
  cases hl : (sparse_read_csr_offsets ts (-1) [] 0).1 with
  | nil => rw [hl] at hf; cases hf
  | cons a tl =>
    rw [hl] at hf hb hp
    have ha : a = front := Option.some.inj hf
    subst ha
    have hmem := List.mem_of_getLast?_eq_some hb
    rcases List.mem_cons.mp hmem with h | h
    · omega
    · have := (List.pairwise_cons.mp hp).1 back h
      omega

/-- On a name with neither extension, or on a MatrixMarket file whose banner is
missing or states a type that is not real and general,
`initialize(const std::string&)` of a dense layout throws. -/
theorem dense_initialize_path_rejects {σ T : Type} (L : dense_layout σ T) (name : String)
    (MM : MatrixMarket.reader T) (invalid : idx_t)
    (files : List Char → Option (List (line_t T))) (m : σ) (_fname : List Char) :
    (file_extension_is _fname ['.', 'm', 't', 'x'] = false →
      file_extension_is _fname ['.', 'c', 's', 'r'] = false →
      dense_initialize_path L name MM invalid files m _fname
        = .throws (match files _fname with
            | none => name ++ ": cannot read file. sparse_matrix: cannot open file."
            | some _ => name ++ ": cannot read file. " ++ name ++ ": file format not detected.")
          (L.set_size (L.clear m) invalid)) ∧
    (file_extension_is _fname ['.', 'm', 't', 'x'] = true →
      (∀ ls, files _fname = some ls →
        (MM.read_banner ls).1 = false ∨ (MM.read_banner ls).2.1.is_real = false ∨
          (MM.read_banner ls).2.1.is_general = false) →
      ∃ what m1, dense_initialize_path L name MM invalid files m _fname = .throws what m1) := by
  constructor
  · intro h1 h2
    unfold dense_initialize_path
    cases hf : files _fname with
    | none => rfl
    | some ls => simp only [h1, h2, Bool.false_eq_true, if_false]
  · intro h1 h2
    unfold dense_initialize_path
    cases hf : files _fname with
    | none => exact ⟨_, _, rfl⟩
    | some ls =>
      simp only [h1, if_true]
      by_cases hb : (MM.read_banner ls).1 = true
      · rw [if_neg (by simp [hb])]
        by_cases hs : (MM.read_size (MM.read_banner ls).2.2 invalid.i invalid.j 0).1 = true
        · rw [if_neg (by simp [hs])]
          have ht : (!(MM.read_banner ls).2.1.is_real || !(MM.read_banner ls).2.1.is_general)
              = true := by
            rcases h2 ls hf with h | h | h
            · rw [hb] at h; exact absurd h (by simp)
            · simp [h]
            · simp [h]
          rw [if_pos ht]
          exact ⟨_, _, rfl⟩
        · rw [if_pos (by simp [hs])]
          exact ⟨_, _, rfl⟩
      · rw [if_pos (by simp [hb])]
        exact ⟨_, _, rfl⟩

/-- C23: `initialize(const std::string&)` of the dense layouts (flat `mv`, nested
`mvv`) throws for every file name that ends neither in `.mtx` nor in `.csr`
(whether or not the file can be opened), and for every name ending in `.mtx`
whose file has no valid banner or a banner stating a type that is not both real
and general, whatever `read_banner` and `read_size` do otherwise. -/
theorem dense_initialize_path_format_error {T : Type} [Zero T] (ORIENT : orientation_t)
    (MM : MatrixMarket.reader T) (invalid : idx_t)
    (files : List Char → Option (List (line_t T))) (mv : dense_matrix_v T)
    (mvv : dense_matrix_vv T) (_fname : List Char) :
    ((¬ ∃ stem, _fname = stem ++ ['.', 'm', 't', 'x']) →
      (¬ ∃ stem, _fname = stem ++ ['.', 'c', 's', 'r']) →
      (∃ what, mv.initialize_path ORIENT MM invalid files _fname
        = .throws what ⟨mv.m_zero, invalid, mv.m_print, []⟩) ∧
      (∃ what, mvv.initialize_path ORIENT MM invalid files _fname
        = .throws what ⟨mvv.m_zero, invalid, mvv.m_print, []⟩)) ∧
    ((∃ stem, _fname = stem ++ ['.', 'm', 't', 'x']) →
      (∀ ls, files _fname = some ls →
        (MM.read_banner ls).1 = false ∨ (MM.read_banner ls).2.1.is_real = false ∨
          (MM.read_banner ls).2.1.is_general = false) →
      (∃ what m1, mv.initialize_path ORIENT MM invalid files _fname = .throws what m1) ∧
      (∃ what m1, mvv.initialize_path ORIENT MM invalid files _fname = .throws what m1)) := by
  have hmtx := file_extension_is_iff _fname ['m', 't', 'x'] (by decide)
  have hcsr := file_extension_is_iff _fname ['c', 's', 'r'] (by decide)
  constructor
  · intro h1 h2
    have e1 : file_extension_is _fname ['.', 'm', 't', 'x'] = false := by
      cases h : file_extension_is _fname ['.', 'm', 't', 'x'] with
      | false => rfl
      | true => exact absurd (hmtx.mp h) h1
    have e2 : file_extension_is _fname ['.', 'c', 's', 'r'] = false := by
      cases h : file_extension_is _fname ['.', 'c', 's', 'r'] with
      | false => rfl
      | true => exact absurd (hcsr.mp h) h2
    exact ⟨⟨_, (dense_initialize_path_rejects (dense_matrix_v.layout ORIENT) "dense_matrix_v" MM
        invalid files mv _fname).1 e1 e2⟩,
      ⟨_, (dense_initialize_path_rejects (dense_matrix_vv.layout ORIENT) "dense_matrix_vv" MM
        invalid files mvv _fname).1 e1 e2⟩⟩
  · intro h1 h2
    exact ⟨(dense_initialize_path_rejects (dense_matrix_v.layout ORIENT) "dense_matrix_v" MM
        invalid files mv _fname).2 (hmtx.mpr h1) h2,
      (dense_initialize_path_rejects (dense_matrix_vv.layout ORIENT) "dense_matrix_vv" MM
        invalid files mvv _fname).2 (hmtx.mpr h1) h2⟩

/-- Witness of C23: the name `a.txt`, and the name `a.mtx` with a file whose banner
says `array complex general`. -/
theorem dense_initialize_path_format_error_witness :
    ((¬ ∃ stem, ['a', '.', 't', 'x', 't'] = stem ++ ['.', 'm', 't', 'x']) ∧
      (¬ ∃ stem, ['a', '.', 't', 'x', 't'] = stem ++ ['.', 'c', 's', 'r']) ∧
      example_dense_v.initialize_path .sort_by_row (MatrixMarket.standard Int) ⟨0, 0⟩
          (example_files []) ['a', '.', 't', 'x', 't']
        = .throws "dense_matrix_v: cannot read file. dense_matrix_v: file format not detected."
            ⟨0, ⟨0, 0⟩, .print_auto, []⟩ ∧
      ∃ what, example_dense_v.initialize_path .sort_by_row (MatrixMarket.standard Int) ⟨0, 0⟩
          (example_files []) ['a', '.', 't', 'x', 't']
        = .throws what ⟨example_dense_v.m_zero, ⟨0, 0⟩, example_dense_v.m_print, []⟩) ∧
    ((∃ stem, ['a', '.', 'm', 't', 'x'] = stem ++ ['.', 'm', 't', 'x']) ∧
      ∃ what m1, example_dense_v.initialize_path .sort_by_row (MatrixMarket.standard Int)
          ⟨0, 0⟩
          (example_files [.banner ⟨.array, .complex, .general⟩,
            .data [example_token 2, example_token 2], .data [example_token 1]])
          ['a', '.', 'm', 't', 'x'] = .throws what m1) :=
  have h1 : ¬ ∃ stem, ['a', '.', 't', 'x', 't'] = stem ++ ['.', 'm', 't', 'x'] :=
    fun h => absurd ((file_extension_is_iff _ ['m', 't', 'x'] (by decide)).mpr h) (by decide)
  have h2 : ¬ ∃ stem, ['a', '.', 't', 'x', 't'] = stem ++ ['.', 'c', 's', 'r'] :=
    fun h => absurd ((file_extension_is_iff _ ['c', 's', 'r'] (by decide)).mpr h) (by decide)
  have h3 : ∃ stem, ['a', '.', 'm', 't', 'x'] = stem ++ ['.', 'm', 't', 'x'] := ⟨['a'], rfl⟩
  ⟨⟨h1, h2, by decide,
    ((dense_initialize_path_format_error .sort_by_row (MatrixMarket.standard Int) ⟨0, 0⟩
      (example_files []) example_dense_v example_dense_vv ['a', '.', 't', 'x', 't']).1
        h1 h2).1⟩,
   ⟨h3, ((dense_initialize_path_format_error .sort_by_row (MatrixMarket.standard Int) ⟨0, 0⟩
      (example_files [.banner ⟨.array, .complex, .general⟩,
        .data [example_token 2, example_token 2], .data [example_token 1]])
      example_dense_v example_dense_vv ['a', '.', 'm', 't', 'x']).2 h3
        (fun ls hls => by
          have hls1 : ls = [.banner ⟨.array, .complex, .general⟩,
              .data [example_token 2, example_token 2], .data [example_token 1]] := by
            have := hls
            simp only [example_files] at this
            exact (Option.some.inj (by simpa using this)).symm
          subst hls1
          exact Or.inr (Or.inl (by decide)))).1⟩⟩

/-- The write `operator()(i,j) = x` on a flat dense matrix whose vector matches
its extent: it stays inside the vector, is read back, and leaves the other
cells of the extent as they are. -/
theorem dense_matrix_v.operator_set_spec_flat {T : Type} (ORIENT : orientation_t)
    (m : dense_matrix_v T) (i j : Nat) (x : T) (hm : m.well_formed)
    (hi : i < m.m_size.i) (hj : j < m.m_size.j) :
    ∃ m1, m.operator_set ORIENT i j x = some m1 ∧ m1.m_size = m.m_size ∧
      m1.m_zero = m.m_zero ∧ m1.m_print = m.m_print ∧ m1.well_formed ∧
      m1.operator_get ORIENT i j = some x ∧
      ∀ i1 j1, i1 < m.m_size.i → j1 < m.m_size.j → (i1 ≠ i ∨ j1 ≠ j) →
        m1.operator_get ORIENT i1 j1 = m.operator_get ORIENT i1 j1 := by
  have hwf : m.a.length = m.m_size.i * m.m_size.j := by
    simpa [dense_matrix_v.well_formed, dense_matrix_v.size] using hm
  have hidx : m.index ORIENT i j < m.a.length := by
    rw [hwf]
    cases ORIENT with
    | sort_by_row => exact index_lt_mul i j _ _ hi hj
    | sort_by_column =>
      simp only [dense_matrix_v.index]
      rw [Nat.mul_comm m.m_size.i]
      exact index_lt_mul j i _ _ hj hi
  refine ⟨⟨m.m_zero, m.m_size, m.m_print, m.a.set (m.index ORIENT i j) x⟩, ?_, rfl, rfl, rfl,
    ?_, ?_, ?_⟩
  · simp only [dense_matrix_v.operator_set, vec_put_some _ _ _ hidx, Option.bind_eq_bind,
      Option.some_bind]
    rfl
  · simp only [dense_matrix_v.well_formed, dense_matrix_v.size, List.length_set] at hm ⊢
    exact hm
  · have : (dense_matrix_v.mk m.m_zero m.m_size m.m_print
        (m.a.set (m.index ORIENT i j) x)).index ORIENT i j = m.index ORIENT i j := by
      cases ORIENT <;> rfl
    simp only [dense_matrix_v.operator_get, vec_get, this, List.getElem?_set_self hidx]
  · intro i1 j1 hi1 hj1 hne
    have hidx1 : (dense_matrix_v.mk m.m_zero m.m_size m.m_print
        (m.a.set (m.index ORIENT i j) x)).index ORIENT i1 j1 = m.index ORIENT i1 j1 := by
      cases ORIENT <;> rfl
    have hdiff : m.index ORIENT i j ≠ m.index ORIENT i1 j1 := by
      intro heq
      cases ORIENT with
      | sort_by_row =>
        simp only [dense_matrix_v.index] at heq
        have := index_inj j i j1 i1 m.m_size.j hj hj1 heq
        rcases hne with h | h
        · exact h this.2.symm
        · exact h this.1.symm
      | sort_by_column =>
        simp only [dense_matrix_v.index] at heq
        have := index_inj i j i1 j1 m.m_size.i hi hi1 heq
        rcases hne with h | h
        · exact h this.1.symm
        · exact h this.2.symm
    simp only [dense_matrix_v.operator_get, vec_get, hidx1, List.getElem?_set_ne hdiff]

theorem dense_matrix_v.operator_get_some {T : Type} (ORIENT : orientation_t)
    (m : dense_matrix_v T) (i j : Nat) (hm : m.well_formed)
    (hi : i < m.m_size.i) (hj : j < m.m_size.j) : ∃ x, m.operator_get ORIENT i j = some x := by
  have hwf : m.a.length = m.m_size.i * m.m_size.j := by
    simpa [dense_matrix_v.well_formed, dense_matrix_v.size] using hm
  have hidx : m.index ORIENT i j < m.a.length := by
    rw [hwf]
    cases ORIENT with
    | sort_by_row => exact index_lt_mul i j _ _ hi hj
    | sort_by_column =>
      simp only [dense_matrix_v.index]
      rw [Nat.mul_comm m.m_size.i]
      exact index_lt_mul j i _ _ hj hi
  exact ⟨m.a[m.index ORIENT i j], by
    simp only [dense_matrix_v.operator_get, vec_get, List.getElem?_eq_getElem hidx]⟩

/-- The cell access of the flat layout is sound on the matrices of extent
`(rows, cols)` whose vector has `rows*cols` cells. -/
theorem dense_matrix_v.cells_flat {T : Type} [Zero T] (ORIENT : orientation_t) (rows cols : Nat) :
    dense_cells (dense_matrix_v.layout (T := T) ORIENT)
      (fun m => m.m_size = ⟨rows, cols⟩ ∧ m.well_formed) rows cols where
  get_some := by
    intro s i j hs hi hj
    exact dense_matrix_v.operator_get_some ORIENT s i j hs.2 (by rw [hs.1]; exact hi)
      (by rw [hs.1]; exact hj)
  set_spec := by
    intro s i j x hs hi hj
    obtain ⟨m1, h1, h2, _, _, h5, h6, h7⟩ := dense_matrix_v.operator_set_spec_flat ORIENT s i j x
      hs.2 (by rw [hs.1]; exact hi) (by rw [hs.1]; exact hj)
    refine ⟨m1, h1, ⟨h2.trans hs.1, h5⟩, h6, ?_⟩
    intro i1 j1 hi1 hj1 hne
    exact h7 i1 j1 (by rw [hs.1]; exact hi1) (by rw [hs.1]; exact hj1) hne

/-- The cell access of the nested layout is sound on the matrices of extent
`(rows, cols)` whose nested vector has that shape. -/
theorem dense_matrix_vv.cells_nested {T : Type} [Zero T] (ORIENT : orientation_t) (rows cols : Nat) :
    dense_cells (dense_matrix_vv.layout (T := T) ORIENT)
      (fun m => m.m_size = ⟨rows, cols⟩ ∧ m.well_formed ORIENT) rows cols where
  get_some := by
    intro s i j hs hi hj
    have h0 : s.size 0 = rows := by simp [dense_matrix_vv.size, hs.1]
    have h1 : s.size 1 = cols := by simp [dense_matrix_vv.size, hs.1]
    show ∃ x, s.operator_get ORIENT i j = some x
    cases ORIENT with
    | sort_by_row =>
      exact vec2_get_some s.a (s.size 0) (s.size 1) i j hs.2 (by omega) (by omega)
    | sort_by_column =>
      exact vec2_get_some s.a (s.size 1) (s.size 0) j i hs.2 (by omega) (by omega)
  set_spec := by
    intro s i j x hs hi hj
    have h0 : s.size 0 = rows := by simp [dense_matrix_vv.size, hs.1]
    have h1 : s.size 1 = cols := by simp [dense_matrix_vv.size, hs.1]
    obtain ⟨m1, e1, e2, _, _, e5, e6, e7⟩ := dense_matrix_vv.operator_set_spec ORIENT s i j x
      hs.2 (by omega) (by omega)
    exact ⟨m1, e1, ⟨e2.trans hs.1, e5⟩, e6, fun i1 j1 _ _ hne => e7 i1 j1 hne⟩

/-- After `a.assign(...)` for the extent `(rows, cols)` the flat matrix matches its
extent and every cell of the extent is zero. -/
theorem dense_matrix_v.assign_zero_flat {T : Type} [Zero T] (ORIENT : orientation_t)
    (rows cols : Nat) (m : dense_matrix_v T) :
    ((dense_matrix_v.layout ORIENT).assign
        ((dense_matrix_v.layout ORIENT).set_size m ⟨rows, cols⟩)).m_size = ⟨rows, cols⟩ ∧
    ((dense_matrix_v.layout ORIENT).assign
        ((dense_matrix_v.layout ORIENT).set_size m ⟨rows, cols⟩)).well_formed ∧
    ∀ i j, i < rows → j < cols →
      (dense_matrix_v.layout ORIENT).get ((dense_matrix_v.layout ORIENT).assign
        ((dense_matrix_v.layout ORIENT).set_size m ⟨rows, cols⟩)) i j = some 0 := by
  refine ⟨rfl, ?_, ?_⟩
  · simp [dense_matrix_v.layout, dense_matrix_v.well_formed, dense_matrix_v.size]
  · intro i j hi hj
    have hidx : (dense_matrix_v.mk m.m_zero ⟨rows, cols⟩ m.m_print
        (List.replicate (rows * cols) (0 : T))).index ORIENT i j < rows * cols := by
      cases ORIENT with
      | sort_by_row => exact index_lt_mul i j _ _ hi hj
      | sort_by_column =>
        simp only [dense_matrix_v.index]
        rw [Nat.mul_comm rows]
        exact index_lt_mul j i _ _ hj hi
    simp only [dense_matrix_v.layout, dense_matrix_v.operator_get, vec_get]
    exact List.getElem?_replicate_of_lt hidx

/-- After `a.assign(...)` for the extent `(rows, cols)` the nested matrix has the
shape of its extent and every cell of the extent is zero. -/
theorem dense_matrix_vv.assign_zero_nested {T : Type} [Zero T] (ORIENT : orientation_t)
    (rows cols : Nat) (m : dense_matrix_vv T) :
    ((dense_matrix_vv.layout ORIENT).assign
        ((dense_matrix_vv.layout ORIENT).set_size m ⟨rows, cols⟩)).m_size = ⟨rows, cols⟩ ∧
    ((dense_matrix_vv.layout ORIENT).assign
        ((dense_matrix_vv.layout ORIENT).set_size m ⟨rows, cols⟩)).well_formed ORIENT ∧
    ∀ i j, i < rows → j < cols →
      (dense_matrix_vv.layout ORIENT).get ((dense_matrix_vv.layout ORIENT).assign
        ((dense_matrix_vv.layout ORIENT).set_size m ⟨rows, cols⟩)) i j = some 0 := by
  cases ORIENT with
  | sort_by_row =>
    refine ⟨rfl, ?_, ?_⟩
    · simp only [dense_matrix_vv.layout, dense_matrix_vv.well_formed, dense_matrix_vv.size,
        vec2_shaped]
      refine ⟨by simp, ?_⟩
      intro r hr
      rw [List.eq_of_mem_replicate hr]
      simp
    · intro i j hi hj
      exact vec2_get_replicate i j rows cols 0 hi hj
  | sort_by_column =>
    refine ⟨rfl, ?_, ?_⟩
    · simp only [dense_matrix_vv.layout, dense_matrix_vv.well_formed, dense_matrix_vv.size,
        vec2_shaped]
      refine ⟨by simp, ?_⟩
      intro r hr
      rw [List.eq_of_mem_replicate hr]
      simp
    · intro i j hi hj
      exact vec2_get_replicate j i cols rows 0 hj hi

/-! ### The array form of a MatrixMarket file -/

theorem succ_mod_div (rows k : Nat) (hrows : 0 < rows) :
    (if k % rows + 1 + 1 > rows then (⟨1, k / rows + 1 + 1⟩ : idx_t)
      else ⟨k % rows + 1 + 1, k / rows + 1⟩)
      = ⟨(k + 1) % rows + 1, (k + 1) / rows + 1⟩ := by
  have hk := Nat.div_add_mod k rows
  have hr := Nat.mod_lt k hrows
  by_cases h : k % rows + 1 + 1 > rows
  · rw [if_pos h]
    have hfull : k + 1 = rows * (k / rows + 1) + 0 := by
      have : rows * (k / rows + 1) = rows * (k / rows) + rows := by ring
      omega
    have h1 : (k + 1) % rows = 0 := by rw [hfull, Nat.mul_add_mod]; exact Nat.zero_mod _
    have h2 : (k + 1) / rows = k / rows + 1 := by
      rw [hfull, Nat.mul_add_div hrows]; simp
    rw [h1, h2]
  · rw [if_neg h]
    have hfull : k + 1 = rows * (k / rows) + (k % rows + 1) := by omega
    have h1 : (k + 1) % rows = k % rows + 1 := by
      rw [hfull, Nat.mul_add_mod]; exact Nat.mod_eq_of_lt (by omega)
    have h2 : (k + 1) / rows = k / rows := by
      rw [hfull, Nat.mul_add_div hrows,
        Nat.div_eq_of_lt (show k % rows + 1 < rows by omega)]; simp
    rw [h1, h2]

theorem mod_div_index (rows i j : Nat) (hi : i < rows) :
    (j * rows + i) % rows = i ∧ (j * rows + i) / rows = j := by
  have hrows : 0 < rows := by omega
  constructor
  · rw [Nat.mul_comm, Nat.mul_add_mod]; exact Nat.mod_eq_of_lt hi
  · rw [Nat.mul_comm, Nat.mul_add_div hrows, Nat.div_eq_of_lt hi]; simp

/-- The array read loop on value lines: starting at the `k0`-th cell in column
order, the `k`-th line is read into the cell `((k0+k) mod rows, (k0+k) div rows)`
and the other cells of the extent are left as they are. -/
theorem dense_read_mtx_lines_array {σ T : Type} (L : dense_layout σ T) (ok : σ → Prop)
    (rows cols : Nat) (hc : dense_cells L ok rows cols) (t : MatrixMarket.typecode_t)
    (ht : t.is_dense = true) (hrows : 0 < rows) (v0 : Option T) (ls : List (line_t T))
    (vs : List T)
    (hls : List.Forall₂ (fun l v => l.is_comment = false ∧
      l.toks.head?.bind token.as_value = some v) ls vs) :
    ∀ (k0 : Nat) (s : σ), ok s → k0 + vs.length ≤ rows * cols →
      ∃ s1 ij1, dense_read_mtx_lines L.get L.set t ⟨rows, cols⟩ ls
          (s, ⟨k0 % rows + 1, k0 / rows + 1⟩, v0) = some (s1, ij1, v0) ∧ ok s1 ∧
        (∀ k (hk : k < vs.length),
          L.get s1 ((k0 + k) % rows) ((k0 + k) / rows) = some (vs.get ⟨k, hk⟩)) ∧
        (∀ i j, i < rows → j < cols → (j * rows + i < k0 ∨ k0 + vs.length ≤ j * rows + i) →
          L.get s1 i j = L.get s i j) := by
  induction hls with
  | nil =>
    intro k0 s hs _
    exact ⟨s, _, rfl, hs, fun k hk => absurd hk (by simp), fun _ _ _ _ _ => rfl⟩
  | @cons l v ls vs hl _ ih =>
    intro k0 s hs hlen
    simp only [List.length_cons] at hlen
    have hk0 : k0 < rows * cols := by omega
    have hi0 : k0 % rows < rows := Nat.mod_lt _ hrows
    have hj0 : k0 / rows < cols := Nat.div_lt_of_lt_mul hk0
    obtain ⟨x0, hx0⟩ := hc.get_some s _ _ hs hi0 hj0
    obtain ⟨s', hset, hok', hget', hother'⟩ := hc.set_spec s _ _ v hs hi0 hj0
    obtain ⟨s1, ij1, hrun, hok1, hin1, hout1⟩ := ih (k0 + 1) s' hok' (by omega)
    refine ⟨s1, ij1, ?_, hok1, ?_, ?_⟩
    · simp only [dense_read_mtx_lines, hl.1, Bool.false_eq_true, if_false, ht, if_true,
        Nat.add_sub_cancel, hx0, hl.2, hset, Option.bind_eq_bind, Option.some_bind,
        succ_mod_div rows k0 hrows]
      exact hrun
    · intro k hk
      cases k with
      | zero =>
        have hidx : (k0 / rows) * rows + k0 % rows = k0 := by
          rw [Nat.mul_comm]; exact Nat.div_add_mod k0 rows
        rw [Nat.add_zero, hout1 _ _ hi0 hj0 (Or.inl (by omega)), hget']
        rfl
      | succ k =>
        have hk1 : k < vs.length := by simpa using hk
        have := hin1 k hk1
        have e : k0 + 1 + k = k0 + (k + 1) := by omega
        rw [e] at this
        rw [this]
        rfl
    · intro i j hi hj hrange
      simp only [List.length_cons] at hrange
      rw [hout1 i j hi hj (by omega)]
      apply hother' i j hi hj
      by_contra hcon
      push_neg at hcon
      have hidx : j * rows + i = k0 := by
        rw [hcon.1, hcon.2, Nat.mul_comm]; exact Nat.div_add_mod k0 rows
      omega

theorem option_all_map_some {α : Type} (l : List α) : option_all (l.map some) = some l := by
  induction l with
  | nil => rfl
  | cons x xs ih => simp [option_all, ih]

theorem range_flatMap_column_order {α : Type} (f : Nat → Nat → α) (rows cols : Nat) :
    (List.range cols).flatMap (fun j => (List.range rows).map (fun i => f i j))
      = (List.range (rows * cols)).map (fun k => f (k % rows) (k / rows)) := by
  induction cols with
  | zero => simp
  | succ c ih =>
    rw [List.range_succ, List.flatMap_append, ih, Nat.mul_succ, List.range_add, List.map_append]
    congr 1
    simp only [List.flatMap_singleton, List.map_map]
    apply List.map_congr_left
    intro i hi
    have hi1 : i < rows := List.mem_range.mp hi
    have hmd := mod_div_index rows i c hi1
    have e : rows * c + i = c * rows + i := by ring
    simp only [Function.comp, e, hmd.1, hmd.2]

/-- The MatrixMarket branch of `initialize(const std::string&)` of a dense layout
on an array file: when the banner states `array real general`, the size line
gives `(rows, cols)` and `vs.length <= rows*cols` value lines follow, the call
returns; the `k`-th value is in the cell `(k mod rows, k div rows)` and the
cells after the last value are zero. -/
theorem dense_initialize_path_array {σ T : Type} [Zero T] (L : dense_layout σ T)
    (ok : σ → Prop) (name : String) (MM : MatrixMarket.reader T) (invalid : idx_t)
    (files : List Char → Option (List (line_t T))) (m : σ) (_fname : List Char)
    (rows cols : Nat) (hcells : dense_cells L ok rows cols)
    (hassign : ok (L.assign (L.set_size (L.clear m) ⟨rows, cols⟩)) ∧
      ∀ i j, i < rows → j < cols →
        L.get (L.assign (L.set_size (L.clear m) ⟨rows, cols⟩)) i j = some 0)
    (hext : file_extension_is _fname ['.', 'm', 't', 'x'] = true)
    (ls ls1 body : List (line_t T)) (hfile : files _fname = some ls)
    (t : MatrixMarket.typecode_t) (nz : Int) (hb : MM.read_banner ls = (true, t, ls1))
    (hreal : t.is_real = true) (hgen : t.is_general = true) (hdense : t.is_dense = true)
    (hs : MM.read_size ls1 invalid.i invalid.j 0 = (true, rows, cols, nz, body))
    (hrows : 0 < rows) (vs : List T)
    (hbody : List.Forall₂ (fun l v => l.is_comment = false ∧
      l.toks.head?.bind token.as_value = some v) body vs)
    (hlen : vs.length ≤ rows * cols) :
    ∃ m1, dense_initialize_path L name MM invalid files m _fname = .returns m1 ∧ ok m1 ∧
      (∀ k (hk : k < vs.length), L.get m1 (k % rows) (k / rows) = some (vs.get ⟨k, hk⟩)) ∧
      (∀ i j, i < rows → j < cols → vs.length ≤ j * rows + i → L.get m1 i j = some 0) := by
  obtain ⟨s1, ij1, hrun, hok1, hin1, hout1⟩ := dense_read_mtx_lines_array L ok rows cols hcells
    t hdense hrows none body vs hbody 0 _ hassign.1 (by omega)
  refine ⟨s1, ?_, hok1, ?_, ?_⟩
  · unfold dense_initialize_path
    simp only [hfile, hext, if_true, hb, hs, Bool.not_true, Bool.false_eq_true, if_false,
      hreal, hgen, Bool.or_self]
    simp only [Nat.zero_mod, Nat.zero_div, Nat.zero_add] at hrun
    rw [hrun]
    rfl
  · intro k hk
    have := hin1 k hk
    simpa only [Nat.zero_add] using this
  · intro i j hi hj hge
    rw [hout1 i j hi hj (Or.inr (by omega))]
    exact hassign.2 i j hi hj

/-- C24 (as stated, refuted).  The file `a.mtx` with the banner `array real
general`, the size line `2 2` and one value line instead of four:
`initialize` returns, with the value in the first cell and zero in the others.
The file `a.csr` with the size line `2 2`, the offsets `0 1 2`, the columns
`0 1` and one value instead of two: `initialize` returns, with the value in
the cell `(0,0)` and zero in the others. -/
theorem dense_truncated_file_accepted_counterexample :
    example_dense_v.initialize_path .sort_by_row (MatrixMarket.standard Int) ⟨0, 0⟩
        (example_files [.banner ⟨.array, .real, .general⟩,
          .data [example_token 2, example_token 2], .data [example_token 1]])
        ['a', '.', 'm', 't', 'x']
      = .returns ⟨0, ⟨2, 2⟩, .print_auto, [1, 0, 0, 0]⟩ ∧
    example_dense_v.initialize_path .sort_by_row (MatrixMarket.standard Int) ⟨0, 0⟩
        (example_files [.data [example_token 2, example_token 2],
          .data [example_token 0, example_token 1, example_token 2],
          .data [example_token 0, example_token 1], .data [example_token 5]])
        ['a', '.', 'c', 's', 'r']
      = .returns ⟨0, ⟨2, 2⟩, .print_auto, [5, 0, 0, 0]⟩ := by
  constructor
  · decide
  · decide

/-- C24 (amended): `initialize(const std::string&)` of the dense layouts (flat `mv`,
nested `mvv`) does not detect a truncated MatrixMarket array file.  When the
banner states `array real general`, the size line gives `(rows, cols)` and only
`vs.length <= rows*cols` value lines follow, the call returns with the extent
`(rows, cols)`; the `k`-th value is in the cell `(k mod rows, k div rows)` and
every cell after the last value is zero. -/
theorem dense_initialize_path_truncated {T : Type} [Zero T] (ORIENT : orientation_t)
    (MM : MatrixMarket.reader T) (invalid : idx_t)
    (files : List Char → Option (List (line_t T))) (mv : dense_matrix_v T)
    (mvv : dense_matrix_vv T) (_fname : List Char) (rows cols : Nat)
    (hext : ∃ stem, _fname = stem ++ ['.', 'm', 't', 'x'])
    (ls ls1 body : List (line_t T)) (hfile : files _fname = some ls)
    (t : MatrixMarket.typecode_t) (nz : Int) (hb : MM.read_banner ls = (true, t, ls1))
    (hreal : t.is_real = true) (hgen : t.is_general = true) (hdense : t.is_dense = true)
    (hs : MM.read_size ls1 invalid.i invalid.j 0 = (true, rows, cols, nz, body))
    (hrows : 0 < rows) (vs : List T)
    (hbody : List.Forall₂ (fun l v => l.is_comment = false ∧
      l.toks.head?.bind token.as_value = some v) body vs)
    (hlen : vs.length ≤ rows * cols) :
    (∃ m1, mv.initialize_path ORIENT MM invalid files _fname = .returns m1 ∧
      m1.m_size = ⟨rows, cols⟩ ∧
      (∀ k (hk : k < vs.length),
        m1.operator_get ORIENT (k % rows) (k / rows) = some (vs.get ⟨k, hk⟩)) ∧
      (∀ i j, i < rows → j < cols → vs.length ≤ j * rows + i →
        m1.operator_get ORIENT i j = some 0)) ∧
    (∃ m1, mvv.initialize_path ORIENT MM invalid files _fname = .returns m1 ∧
      m1.m_size = ⟨rows, cols⟩ ∧
      (∀ k (hk : k < vs.length),
        m1.operator_get ORIENT (k % rows) (k / rows) = some (vs.get ⟨k, hk⟩)) ∧
      (∀ i j, i < rows → j < cols → vs.length ≤ j * rows + i →
        m1.operator_get ORIENT i j = some 0)) := by
  have he := (file_extension_is_iff _fname ['m', 't', 'x'] (by decide)).mpr hext
  constructor
  · obtain ⟨h1, h2, h3⟩ := dense_matrix_v.assign_zero_flat ORIENT rows cols mv.clear
    obtain ⟨m1, hm1, hok, hin, hout⟩ := dense_initialize_path_array
      (dense_matrix_v.layout ORIENT) _ "dense_matrix_v" MM invalid files mv _fname rows cols
      (dense_matrix_v.cells_flat ORIENT rows cols) ⟨⟨h1, h2⟩, h3⟩ he ls ls1 body hfile t nz hb hreal
      hgen hdense hs hrows vs hbody hlen
    exact ⟨m1, hm1, hok.1, hin, hout⟩
  · obtain ⟨h1, h2, h3⟩ := dense_matrix_vv.assign_zero_nested ORIENT rows cols mvv.clear
    obtain ⟨m1, hm1, hok, hin, hout⟩ := dense_initialize_path_array
      (dense_matrix_vv.layout ORIENT) _ "dense_matrix_vv" MM invalid files mvv _fname rows cols
      (dense_matrix_vv.cells_nested ORIENT rows cols) ⟨⟨h1, h2⟩, h3⟩ he ls ls1 body hfile t nz hb hreal
      hgen hdense hs hrows vs hbody hlen
    exact ⟨m1, hm1, hok.1, hin, hout⟩

/-- Witness of C24 amended: the file `a.mtx` with the size line `2 2` and the single
value line `1`, read into the flat 2x3 example. -/
theorem dense_initialize_path_truncated_witness :
    (∃ stem, ['a', '.', 'm', 't', 'x'] = stem ++ ['.', 'm', 't', 'x']) ∧
    ([1] : List Int).length ≤ 2 * 2 ∧
    (∃ m1, example_dense_v.initialize_path .sort_by_row (MatrixMarket.standard Int) ⟨0, 0⟩
        (example_files [.banner ⟨.array, .real, .general⟩,
          .data [example_token 2, example_token 2], .data [example_token 1]])
        ['a', '.', 'm', 't', 'x'] = .returns m1 ∧ m1.m_size = ⟨2, 2⟩ ∧
      (∀ i j, i < 2 → j < 2 → ([1] : List Int).length ≤ j * 2 + i →
        m1.operator_get .sort_by_row i j = some 0)) :=
  have hext : ∃ stem, ['a', '.', 'm', 't', 'x'] = stem ++ ['.', 'm', 't', 'x'] := ⟨['a'], rfl⟩
  ⟨hext, by decide,
    match (dense_initialize_path_truncated .sort_by_row (MatrixMarket.standard Int) ⟨0, 0⟩
      (example_files [.banner ⟨.array, .real, .general⟩,
        .data [example_token 2, example_token 2], .data [example_token 1]])
      example_dense_v example_dense_vv ['a', '.', 'm', 't', 'x'] 2 2 hext
      [.banner ⟨.array, .real, .general⟩, .data [example_token 2, example_token 2],
        .data [example_token 1]]
      [.data [example_token 2, example_token 2], .data [example_token 1]]
      [.data [example_token 1]] (by decide) ⟨.array, .real, .general⟩ 0 rfl rfl rfl rfl rfl
      (by decide) [1] (List.Forall₂.cons ⟨rfl, rfl⟩ List.Forall₂.nil) (by decide)).1 with
    | ⟨m1, h1, h2, _, h4⟩ => ⟨m1, h1, h2, h4⟩⟩

/-- The file form of a dense matrix: the banner `array real general`, the line
`rows cols`, and one line for each cell in column order, the `k`-th being the
cell `(k mod rows, k div rows)`. -/
theorem matrix.print_file_spec {T : Type} [Zero T] (fmt : ostream_format T) (rows cols : Nat)
    (get : Nat → Nat → Option T)
    (hget : ∀ i j, i < rows → j < cols → ∃ x, get i j = some x) :
    ∃ vs : List T, matrix.print_file fmt rows cols get
        = some (.banner ⟨.array, .real, .general⟩ :: .data [fmt.size rows, fmt.size cols] ::
            vs.map (fun v => .data [fmt.value v])) ∧
      vs.length = rows * cols ∧
      ∀ k (hk : k < vs.length), get (k % rows) (k / rows) = some (vs.get ⟨k, hk⟩) := by
  refine ⟨(List.range (rows * cols)).map (fun k => (get (k % rows) (k / rows)).getD 0),
    ?_, by simp, ?_⟩
  · have hlist : (List.range cols).flatMap (fun j => (List.range rows).map (fun i => get i j))
        = ((List.range (rows * cols)).map
            (fun k => (get (k % rows) (k / rows)).getD 0)).map some := by
      rw [range_flatMap_column_order get rows cols, List.map_map]
      apply List.map_congr_left
      intro k hk
      have hk1 : k < rows * cols := List.mem_range.mp hk
      have hrows : 0 < rows := by
        rcases Nat.eq_zero_or_pos rows with h | h
        · rw [h] at hk1; omega
        · exact h
      obtain ⟨x, hx⟩ := hget (k % rows) (k / rows) (Nat.mod_lt _ hrows)
        (Nat.div_lt_of_lt_mul hk1)
      simp only [Function.comp, hx, Option.getD_some]
    simp only [matrix.print_file, hlist, option_all_map_some, Option.bind_eq_bind,
      Option.some_bind]
    rfl
  · intro k hk
    have hk1 : k < rows * cols := by simpa using hk
    have hrows : 0 < rows := by
      rcases Nat.eq_zero_or_pos rows with h | h
      · rw [h] at hk1; omega
      · exact h
    obtain ⟨x, hx⟩ := hget (k % rows) (k / rows) (Nat.mod_lt _ hrows)
      (Nat.div_lt_of_lt_mul hk1)
    simp [hx]

/-- Reading back an array file that lists the cells of a source `src` in column
order gives the cells of `src`. -/
theorem dense_initialize_path_round_trip {σ T : Type} [Zero T] (L : dense_layout σ T)
    (ok : σ → Prop) (name : String) (MM : MatrixMarket.reader T) (invalid : idx_t)
    (files : List Char → Option (List (line_t T))) (m : σ) (_fname : List Char)
    (rows cols : Nat) (hcells : dense_cells L ok rows cols)
    (hassign : ok (L.assign (L.set_size (L.clear m) ⟨rows, cols⟩)) ∧
      ∀ i j, i < rows → j < cols →
        L.get (L.assign (L.set_size (L.clear m) ⟨rows, cols⟩)) i j = some 0)
    (hext : ∃ stem, _fname = stem ++ ['.', 'm', 't', 'x'])
    (fmt : ostream_format T) (hfmt : fmt.exact) (ls ls1 : List (line_t T))
    (hfile : files _fname = some ls) (nz : Int) (vs : List T)
    (hb : MM.read_banner ls = (true, ⟨.array, .real, .general⟩, ls1))
    (hs : MM.read_size ls1 invalid.i invalid.j 0
      = (true, rows, cols, nz, vs.map (fun v => .data [fmt.value v])))
    (hrows : 0 < rows) (hlen : vs.length = rows * cols) (src : Nat → Nat → Option T)
    (hsrc : ∀ k (hk : k < vs.length), src (k % rows) (k / rows) = some (vs.get ⟨k, hk⟩)) :
    ∃ m1, dense_initialize_path L name MM invalid files m _fname = .returns m1 ∧ ok m1 ∧
      (∀ k (hk : k < vs.length), L.get m1 (k % rows) (k / rows) = some (vs.get ⟨k, hk⟩)) ∧
      ∀ i j, i < rows → j < cols → L.get m1 i j = src i j := by
  have hbody : List.Forall₂ (fun (l : line_t T) v => l.is_comment = false ∧
      l.toks.head?.bind token.as_value = some v) (vs.map (fun v => .data [fmt.value v])) vs := by
    rw [List.forall₂_map_left_iff]
    apply List.forall₂_same.mpr
    intro v _
    exact ⟨rfl, by simp [line_t.toks, hfmt.1 v]⟩
  obtain ⟨m1, hm1, hok, hin, _⟩ := dense_initialize_path_array L ok name MM invalid files m
    _fname rows cols hcells hassign
    ((file_extension_is_iff _fname ['m', 't', 'x'] (by decide)).mpr hext)
    ls ls1 _ hfile _ nz hb rfl rfl rfl hs hrows vs hbody (by omega)
  refine ⟨m1, hm1, hok, hin, ?_⟩
  intro i j hi hj
  have hk : j * rows + i < vs.length := by
    rw [hlen, Nat.mul_comm rows]
    exact index_lt_mul j i cols rows hj hi
  have hmd := mod_div_index rows i j hi
  have h1 := hin _ hk
  have h2 := hsrc _ hk
  rw [hmd.1, hmd.2] at h1 h2
  rw [h1, h2]

/-- C21 (file round trip of a dense matrix): for a dense matrix, flat (`mv`) or
nested (`mvv`), whose storage matches its extent `(rows, cols)`, `rows > 0`, the
file form is the banner `array real general`, the size line `rows cols` and the
`rows*cols` cell values in column order, the `k`-th being the cell
`(k mod rows, k div rows)`.  When a file with a name ending in `.mtx` holds that
text, `read_banner` finds the banner and `read_size` finds the size line and
leaves the value lines, `initialize` of the same layout (in any orientation
`ORIENT1`, from any state `m0`) returns with the extent `(rows, cols)`, the
`k`-th value in the cell `(k mod rows, k div rows)`, and so the same value as the
source in every cell; the text of a value is taken to be read back exactly. -/
theorem dense_file_round_trip {T : Type} [Zero T] (fmt : ostream_format T) (hfmt : fmt.exact)
    (ORIENT ORIENT1 : orientation_t) (rows cols : Nat) (hrows : 0 < rows)
    (mv : dense_matrix_v T) (hmv : mv.m_size = ⟨rows, cols⟩ ∧ mv.well_formed)
    (mvv : dense_matrix_vv T) (hmvv : mvv.m_size = ⟨rows, cols⟩ ∧ mvv.well_formed ORIENT) :
    (∃ vs : List T,
      mv.print_file fmt ORIENT
        = some (.banner ⟨.array, .real, .general⟩ :: .data [fmt.size rows, fmt.size cols] ::
            vs.map (fun v => .data [fmt.value v])) ∧
      vs.length = rows * cols ∧
      (∀ k (hk : k < vs.length),
        mv.operator_get ORIENT (k % rows) (k / rows) = some (vs.get ⟨k, hk⟩)) ∧
      ∀ (MM : MatrixMarket.reader T) (invalid : idx_t)
        (files : List Char → Option (List (line_t T))) (m0 : dense_matrix_v T)
        (_fname : List Char) (ls1 : List (line_t T)) (nz : Int),
        (∃ stem, _fname = stem ++ ['.', 'm', 't', 'x']) →
        files _fname = mv.print_file fmt ORIENT →
        MM.read_banner (.banner ⟨.array, .real, .general⟩ ::
            .data [fmt.size rows, fmt.size cols] :: vs.map (fun v => .data [fmt.value v]))
          = (true, ⟨.array, .real, .general⟩, ls1) →
        MM.read_size ls1 invalid.i invalid.j 0
          = (true, rows, cols, nz, vs.map (fun v => .data [fmt.value v])) →
        ∃ m1, m0.initialize_path ORIENT1 MM invalid files _fname = .returns m1 ∧
          m1.m_size = ⟨rows, cols⟩ ∧
          (∀ k (hk : k < vs.length),
            m1.operator_get ORIENT1 (k % rows) (k / rows) = some (vs.get ⟨k, hk⟩)) ∧
          ∀ i j, i < rows → j < cols →
            m1.operator_get ORIENT1 i j = mv.operator_get ORIENT i j) ∧
    (∃ vs : List T,
      mvv.print_file fmt ORIENT
        = some (.banner ⟨.array, .real, .general⟩ :: .data [fmt.size rows, fmt.size cols] ::
            vs.map (fun v => .data [fmt.value v])) ∧
      vs.length = rows * cols ∧
      (∀ k (hk : k < vs.length),
        mvv.operator_get ORIENT (k % rows) (k / rows) = some (vs.get ⟨k, hk⟩)) ∧
      ∀ (MM : MatrixMarket.reader T) (invalid : idx_t)
        (files : List Char → Option (List (line_t T))) (m0 : dense_matrix_vv T)
        (_fname : List Char) (ls1 : List (line_t T)) (nz : Int),
        (∃ stem, _fname = stem ++ ['.', 'm', 't', 'x']) →
        files _fname = mvv.print_file fmt ORIENT →
        MM.read_banner (.banner ⟨.array, .real, .general⟩ ::
            .data [fmt.size rows, fmt.size cols] :: vs.map (fun v => .data [fmt.value v]))
          = (true, ⟨.array, .real, .general⟩, ls1) →
        MM.read_size ls1 invalid.i invalid.j 0
          = (true, rows, cols, nz, vs.map (fun v => .data [fmt.value v])) →
        ∃ m1, m0.initialize_path ORIENT1 MM invalid files _fname = .returns m1 ∧
          m1.m_size = ⟨rows, cols⟩ ∧
          (∀ k (hk : k < vs.length),
            m1.operator_get ORIENT1 (k % rows) (k / rows) = some (vs.get ⟨k, hk⟩)) ∧
          ∀ i j, i < rows → j < cols →
            m1.operator_get ORIENT1 i j = mvv.operator_get ORIENT i j) := by
  constructor
  · have h0 : mv.size 0 = rows := by simp [dense_matrix_v.size, hmv.1]
    have h1 : mv.size 1 = cols := by simp [dense_matrix_v.size, hmv.1]
    obtain ⟨vs, hprint, hlen, hvs⟩ := matrix.print_file_spec fmt rows cols
      (mv.operator_get ORIENT)
      (fun i j hi hj => (dense_matrix_v.cells_flat ORIENT rows cols).get_some mv i j hmv hi hj)
    have hp : mv.print_file fmt ORIENT = some (.banner ⟨.array, .real, .general⟩ ::
        .data [fmt.size rows, fmt.size cols] :: vs.map (fun v => .data [fmt.value v])) := by
      simp only [dense_matrix_v.print_file, h0, h1, hprint]
    refine ⟨vs, hp, hlen, hvs, ?_⟩
    intro MM invalid files m0 _fname ls1 nz hext hfile hb hs
    obtain ⟨a1, a2, a3⟩ := dense_matrix_v.assign_zero_flat ORIENT1 rows cols m0.clear
    obtain ⟨m1, hm1, hok, hin, hcell⟩ := dense_initialize_path_round_trip
      (dense_matrix_v.layout ORIENT1) _ "dense_matrix_v" MM invalid files m0 _fname rows cols
      (dense_matrix_v.cells_flat ORIENT1 rows cols) ⟨⟨a1, a2⟩, a3⟩ hext fmt hfmt _ ls1
      (hfile.trans hp) nz vs hb hs hrows hlen (mv.operator_get ORIENT) hvs
    exact ⟨m1, hm1, hok.1, hin, hcell⟩
  · have h0 : mvv.size 0 = rows := by simp [dense_matrix_vv.size, hmvv.1]
    have h1 : mvv.size 1 = cols := by simp [dense_matrix_vv.size, hmvv.1]
    obtain ⟨vs, hprint, hlen, hvs⟩ := matrix.print_file_spec fmt rows cols
      (mvv.operator_get ORIENT)
      (fun i j hi hj => (dense_matrix_vv.cells_nested ORIENT rows cols).get_some mvv i j hmvv hi hj)
    have hp : mvv.print_file fmt ORIENT = some (.banner ⟨.array, .real, .general⟩ ::
        .data [fmt.size rows, fmt.size cols] :: vs.map (fun v => .data [fmt.value v])) := by
      simp only [dense_matrix_vv.print_file, h0, h1, hprint]
    refine ⟨vs, hp, hlen, hvs, ?_⟩
    intro MM invalid files m0 _fname ls1 nz hext hfile hb hs
    obtain ⟨a1, a2, a3⟩ := dense_matrix_vv.assign_zero_nested ORIENT1 rows cols m0.clear
    obtain ⟨m1, hm1, hok, hin, hcell⟩ := dense_initialize_path_round_trip
      (dense_matrix_vv.layout ORIENT1) _ "dense_matrix_vv" MM invalid files m0 _fname rows cols
      (dense_matrix_vv.cells_nested ORIENT1 rows cols) ⟨⟨a1, a2⟩, a3⟩ hext fmt hfmt _ ls1
      (hfile.trans hp) nz vs hb hs hrows hlen (mvv.operator_get ORIENT) hvs
    exact ⟨m1, hm1, hok.1, hin, hcell⟩

/-- Witness of C21: the 3x3 matrix with the values 1 to 9, row oriented, written in
file form and read back into a column-oriented matrix. -/
theorem dense_file_round_trip_witness :
    example_format.exact ∧ 0 < 3 ∧
    (example_dense_3x3.m_size = ⟨3, 3⟩ ∧ example_dense_3x3.well_formed) ∧
    example_dense_3x3.print_file example_format .sort_by_row
      = some [.banner ⟨.array, .real, .general⟩, .data [example_token 3, example_token 3],
          .data [example_token 1], .data [example_token 4], .data [example_token 7],
          .data [example_token 2], .data [example_token 5], .data [example_token 8],
          .data [example_token 3], .data [example_token 6], .data [example_token 9]] ∧
    example_dense_v.initialize_path .sort_by_column (MatrixMarket.standard Int) ⟨0, 0⟩
        (example_files [.banner ⟨.array, .real, .general⟩,
          .data [example_token 3, example_token 3],
          .data [example_token 1], .data [example_token 4], .data [example_token 7],
          .data [example_token 2], .data [example_token 5], .data [example_token 8],
          .data [example_token 3], .data [example_token 6], .data [example_token 9]])
        ['a', '.', 'm', 't', 'x']
      = .returns ⟨0, ⟨3, 3⟩, .print_auto, [1, 4, 7, 2, 5, 8, 3, 6, 9]⟩ ∧
    (∃ vs : List Int,
      example_dense_3x3.print_file example_format .sort_by_row
        = some (.banner ⟨.array, .real, .general⟩ ::
            .data [example_format.size 3, example_format.size 3] ::
            vs.map (fun v => .data [example_format.value v])) ∧
      vs.length = 3 * 3) :=
  have hfmt : example_format.exact := ⟨fun _ => rfl, fun _ => rfl⟩
  have hmv : example_dense_3x3.m_size = ⟨3, 3⟩ ∧ example_dense_3x3.well_formed :=
    ⟨rfl, by unfold dense_matrix_v.well_formed; decide⟩
  have hmvv : (⟨0, ⟨3, 3⟩, .print_auto, [[1, 2, 3], [4, 5, 6], [7, 8, 9]]⟩ :
        dense_matrix_vv Int).m_size = ⟨3, 3⟩ ∧
      (⟨0, ⟨3, 3⟩, .print_auto, [[1, 2, 3], [4, 5, 6], [7, 8, 9]]⟩ :
        dense_matrix_vv Int).well_formed .sort_by_row :=
    ⟨rfl, by unfold dense_matrix_vv.well_formed vec2_shaped; decide⟩
  ⟨hfmt, by decide, hmv, by decide, by decide,
    match (dense_file_round_trip example_format hfmt .sort_by_row .sort_by_column 3 3
      (by decide) example_dense_3x3 hmv _ hmvv).1 with
    | ⟨vs, h1, h2, _⟩ => ⟨vs, h1, h2⟩⟩

/-! ### The CSR branch of the dense layouts -/

/-- The size loop of the CSR branches ends at the first line of tokens when it
starts with two sizes that make a valid extent, the lines before it being
comments. -/
theorem read_csr_size_spec {T : Type} (pre rest : List (line_t T)) (toks : List (token T))
    (ti tj : token T) (rows cols : Nat) (invalid : idx_t)
    (hinv : invalid.is_valid_size = false) (hpre : ∀ l ∈ pre, l.is_comment = true)
    (hi : ti.as_size = some rows) (hj : tj.as_size = some cols) (hr : 0 < rows)
    (hc : 0 < cols) :
    read_csr_size (pre ++ .data (ti :: tj :: toks) :: rest) invalid
      = some (⟨rows, cols⟩, rest) := by
  have hvalid : (⟨rows, cols⟩ : idx_t).is_valid_size = true := by
    simp [idx_t.is_valid_size, hr, hc]
  have hend : read_csr_size rest (⟨rows, cols⟩ : idx_t) = some (⟨rows, cols⟩, rest) := by
    cases rest with
    | nil => simp only [read_csr_size, hvalid, if_true]
    | cons l ls => simp only [read_csr_size, hvalid, if_true]
  induction pre with
  | nil =>
    simp only [List.nil_append, read_csr_size, hinv, Bool.false_eq_true, if_false,
      line_t.is_comment, line_t.toks, line_t.extract_sizes, hi, hj]
    exact hend
  | cons l ls ih =>
    have hl := hpre l (List.mem_cons_self _ _)
    simp only [List.cons_append, read_csr_size, hinv, Bool.false_eq_true, if_false, hl, if_true]
    exact ih (fun x hx => hpre x (List.mem_cons_of_mem _ hx))

/-- The counted loop of `f >> i` reads the next `n` integers when the stream
starts with `n` integer tokens. -/
theorem read_ints_spec {T : Type} :
    ∀ (n : Nat) (ts rest : List (token T)) (xs acc : List Int), ts.length = n →
      ts.map token.as_int = xs.map some →
      read_ints n ⟨ts ++ rest, false⟩ acc = (acc ++ xs, ⟨rest, false⟩) := by
  intro n
  induction n with
  | zero =>
    intro ts rest xs acc hlen hmap
    have hts : ts = [] := List.length_eq_zero.mp hlen
    subst hts
    have hxs : xs = [] := by
      simpa using hmap.symm
    subst hxs
    simp [read_ints]
  | succ n ih =>
    intro ts rest xs acc hlen hmap
    cases ts with
    | nil => simp at hlen
    | cons t ts =>
      cases xs with
      | nil => simp at hmap
      | cons x xs =>
        simp only [List.map_cons, List.cons.injEq] at hmap
        simp only [List.length_cons, Nat.add_right_cancel_iff] at hlen
        simp only [read_ints, ifstream.extract, Bool.false_eq_true, if_false, List.cons_append,
          hmap.1]
        rw [ih ts rest xs (acc ++ [x]) hlen hmap.2]
        simp

/-- The values loop of one row of the dense CSR branch, on zero-based column
indices `cs` inside the extent and distinct over the indices `lo .. hiN-1`: the
value `vs[k]` is read into the cell `(i, cs[k])` for each such `k`, the stream
advances to `hiN`, and the other cells of the extent are left as they are. -/
theorem dense_read_csr_row_spec {σ T : Type} (L : dense_layout σ T) (ok : σ → Prop)
    (rows cols : Nat) (hc : dense_cells L ok rows cols) (cs : List Nat) (vs : List T)
    (tv extra : List (token T)) (i : Nat) (hi : i < rows) (lo hiN : Nat)
    (hcs : ∀ k, k < hiN → ∃ c, cs[k]? = some c ∧ c < cols)
    (htv : ∀ k, k < hiN → ∃ t v, tv[k]? = some t ∧ vs[k]? = some v ∧ t.as_value = some v)
    (hdist : ∀ k k1, lo ≤ k → k < hiN → lo ≤ k1 → k1 < hiN → cs[k]? = cs[k1]? → k = k1) :
    ∀ (n k : Nat) (m : σ), k + n = hiN → lo ≤ k → ok m →
      ∃ m1, dense_read_csr_row L.get L.set (cs.map (fun c : Nat => (c : Int))) i n (k : Int)
          (m, ⟨tv.drop k ++ extra, false⟩) = some (m1, ⟨tv.drop hiN ++ extra, false⟩) ∧
        ok m1 ∧
        (∀ k1, k ≤ k1 → k1 < hiN →
          ∃ c v, cs[k1]? = some c ∧ vs[k1]? = some v ∧ L.get m1 i c = some v) ∧
        (∀ i1 j, i1 < rows → j < cols →
          (i1 ≠ i ∨ ∀ k1, k ≤ k1 → k1 < hiN → cs[k1]? ≠ some j) →
          L.get m1 i1 j = L.get m i1 j) := by
  intro n
  induction n with
  | zero =>
    intro k m hk _ hm
    have hk1 : k = hiN := by omega
    subst hk1
    exact ⟨m, rfl, hm, fun k1 h1 h2 => by omega, fun _ _ _ _ _ => rfl⟩
  | succ n ih =>
    intro k m hk hlo hm
    have hklt : k < hiN := by omega
    obtain ⟨c, hcget, hccols⟩ := hcs k hklt
    obtain ⟨t, v, htget, hvget, htv1⟩ := htv k hklt
    have hklen : k < tv.length := (List.getElem?_eq_some_iff.mp htget).1
    have hdrop : tv.drop k = t :: tv.drop (k + 1) := by
      rw [List.drop_eq_getElem_cons hklen]
      congr 1
      exact (List.getElem?_eq_some_iff.mp htget).2
    obtain ⟨x0, hx0⟩ := hc.get_some m i c hm hi hccols
    obtain ⟨m', hset, hok', hget', hother'⟩ := hc.set_spec m i c v hm hi hccols
    obtain ⟨m1, hrun, hok1, hin1, hout1⟩ := ih (k + 1) m' (by omega) (by omega) hok'
    have hja : vec_at (cs.map (fun c : Nat => (c : Int))) (k : Int) = some (c : Int) := by
      have hneg : ¬ ((k : Int) < 0) := by omega
      simp only [vec_at, hneg, if_false, Int.toNat_ofNat, List.getElem?_map, hcget,
        Option.map_some']
    have hcneg : ¬ ((c : Int) < 0) := by omega
    refine ⟨m1, ?_, hok1, ?_, ?_⟩
    · simp only [dense_read_csr_row, Bool.false_eq_true, if_false, hja, hcneg, Int.toNat_ofNat,
        hx0, ifstream.extract, hdrop, List.cons_append, htv1, hset, Option.bind_eq_bind,
        Option.some_bind]
      have e : ((k : Int) + 1) = ((k + 1 : Nat) : Int) := by push_cast; rfl
      rw [e]
      exact hrun
    · intro k1 h1 h2
      by_cases hk1 : k1 = k
      · subst hk1
        refine ⟨c, v, hcget, hvget, ?_⟩
        rw [hout1 i c hi hccols (Or.inr (fun k2 h3 h4 hcon => by
          have := hdist k2 k1 (by omega) h4 hlo hklt (hcon.trans hcget.symm)
          omega))]
        exact hget'
      · exact hin1 k1 (by omega) h2
    · intro i1 j hi1 hj hcond
      rw [hout1 i1 j hi1 hj (by
        rcases hcond with h | h
        · exact Or.inl h
        · exact Or.inr (fun k2 h3 h4 => h k2 (by omega) h4))]
      apply hother' i1 j hi1 hj
      rcases hcond with h | h
      · exact Or.inl h
      · right
        intro hjc
        exact h k (le_refl _) hklt (by rw [hcget, hjc])

theorem pairwise_le_get_opt (offs : List Nat) (h : offs.Pairwise (fun x y => x ≤ y))
    (p q x y : Nat) (hpq : p ≤ q) (hp : offs[p]? = some x) (hq : offs[q]? = some y) : x ≤ y := by
  obtain ⟨hp1, hpx⟩ := List.getElem?_eq_some_iff.mp hp
  obtain ⟨hq1, hqy⟩ := List.getElem?_eq_some_iff.mp hq
  rcases Nat.lt_or_eq_of_le hpq with hlt | heq
  · have := List.pairwise_iff_getElem.mp h p q hp1 hq1 hlt
    rw [hpx, hqy] at this
    exact this
  · subst heq
    rw [← hpx, ← hqy]

/-- The CSR branch of a dense layout on a well-formed stream: comment lines, the
size line `rows cols`, the `rows+1` offsets `offs[i]+b`, the column indices
`cs[k]+b` and the values `vs[k]`, with zero-based `offs` non-decreasing from 0 to
the number of column indices, every `cs[k]` below `cols` and the columns of a
row distinct.  The call gives a matrix with `vs[k]` in the cell `(i, cs[k])` for
each `k` of the slice of row `i`, and zero in the cells that no index names. -/
theorem dense_read_csr_spec {σ T : Type} (L : dense_layout σ T) (ok : σ → Prop)
    (rows cols : Nat) (hc : dense_cells L ok rows cols) (m : σ) (z : T)
    (hinv : (L.m_size m).is_valid_size = false)
    (hassign : ok (L.assign (L.set_size m ⟨rows, cols⟩)) ∧
      ∀ i j, i < rows → j < cols → L.get (L.assign (L.set_size m ⟨rows, cols⟩)) i j = some z)
    (pre rest : List (line_t T)) (toks : List (token T)) (ti tj : token T)
    (hpre : ∀ l ∈ pre, l.is_comment = true) (hti : ti.as_size = some rows)
    (htj : tj.as_size = some cols) (hr : 0 < rows) (hcpos : 0 < cols)
    (b : Int) (offs cs : List Nat) (vs : List T) (tos tc tv extra : List (token T))
    (hstream : rest.flatMap line_t.toks = tos ++ (tc ++ (tv ++ extra)))
    (htos : tos.map token.as_int = offs.map (fun n : Nat => some ((n : Int) + b)))
    (htc : tc.map token.as_int = cs.map (fun c : Nat => some ((c : Int) + b)))
    (htv : tv.map token.as_value = vs.map some)
    (hoffs_len : offs.length = rows + 1) (hoffs0 : offs[0]? = some 0)
    (hmono : offs.Pairwise (fun x y => x ≤ y)) (hlast : offs[rows]? = some cs.length)
    (hcs : ∀ c ∈ cs, c < cols) (hvs : vs.length = cs.length)
    (hdist : ∀ i lo hi k k1, i < rows → offs[i]? = some lo → offs[i + 1]? = some hi →
      lo ≤ k → k < hi → lo ≤ k1 → k1 < hi → cs[k]? = cs[k1]? → k = k1) :
    ∃ m1, dense_read_csr L (pre ++ .data (ti :: tj :: toks) :: rest) m = .returns m1 ∧ ok m1 ∧
      (∀ i lo hi, i < rows → offs[i]? = some lo → offs[i + 1]? = some hi →
        ∀ k, lo ≤ k → k < hi →
          ∃ c v, cs[k]? = some c ∧ vs[k]? = some v ∧ L.get m1 i c = some v) ∧
      (∀ i j lo hi, i < rows → j < cols → offs[i]? = some lo → offs[i + 1]? = some hi →
        (∀ k, lo ≤ k → k < hi → cs[k]? ≠ some j) → L.get m1 i j = some z) := by
  have hsize := read_csr_size_spec pre rest toks ti tj rows cols (L.m_size m) hinv hpre hti htj
    hr hcpos
  have htos_len : tos.length = rows + 1 := by
    have := congrArg List.length htos
    simpa [hoffs_len] using this
  have htc_len : tc.length = cs.length := by
    have := congrArg List.length htc
    simpa using this
  have htv_len : tv.length = vs.length := by
    have := congrArg List.length htv
    simpa using this
  have hia := read_ints_spec (rows + 1) tos (tc ++ (tv ++ extra))
    (offs.map (fun n : Nat => (n : Int) + b)) [] htos_len (by
      rw [htos, List.map_map]; rfl)
  have hja := read_ints_spec cs.length tc (tv ++ extra)
    (cs.map (fun c : Nat => (c : Int) + b)) [] htc_len (by
      rw [htc, List.map_map]; rfl)
  have hhead : (offs.map (fun n : Nat => (n : Int) + b)).head? = some ((0 : Nat) + b) := by
    cases offs with
    | nil => simp at hoffs0
    | cons x xs =>
      simp only [List.getElem?_cons_zero, Option.some.injEq] at hoffs0
      simp [hoffs0]
  have hback : (offs.map (fun n : Nat => (n : Int) + b)).getLast?
      = some ((cs.length : Nat) + b) := by
    rw [List.getLast?_eq_getElem?, List.length_map, hoffs_len, Nat.add_sub_cancel,
      List.getElem?_map, hlast]
    rfl
  have hdiff : ((cs.length : Nat) + b) - (((0 : Nat) : Int) + b) = (cs.length : Int) := by
    push_cast; ring
  have hja1 : (cs.map (fun c : Nat => (c : Int) + b)).map
      (base_conversion_t (-(((0 : Nat) : Int) + b))) = cs.map (fun c : Nat => (c : Int)) := by
    rw [List.map_map]
    apply List.map_congr_left
    intro c _
    simp only [Function.comp, base_conversion_t]
    push_cast
    ring
  have hia1 : (offs.map (fun n : Nat => (n : Int) + b)).map
      (base_conversion_t (-(((0 : Nat) : Int) + b))) = offs.map (fun n : Nat => (n : Int)) := by
    rw [List.map_map]
    apply List.map_congr_left
    intro c _
    simp only [Function.comp, base_conversion_t]
    push_cast
    ring
  have hcsget : ∀ k, k < cs.length → ∃ c, cs[k]? = some c ∧ c < cols := by
    intro k hk
    exact ⟨cs[k], List.getElem?_eq_getElem hk, hcs _ (List.getElem_mem hk)⟩
  have hvs_len : vs.length = tv.length := htv_len.symm
  obtain ⟨s1, hloop, hinvf⟩ := for_loop_spec
    (fun i (s : σ × ifstream T) => ok s.1 ∧
      (∃ lo, offs[i]? = some lo ∧ s.2 = ⟨tv.drop lo ++ extra, false⟩) ∧
      (∀ i1 lo1 hi1, i1 < i → offs[i1]? = some lo1 → offs[i1 + 1]? = some hi1 →
        ∀ k, lo1 ≤ k → k < hi1 →
          ∃ c v, cs[k]? = some c ∧ vs[k]? = some v ∧ L.get s.1 i1 c = some v) ∧
      (∀ i1 j lo1 hi1, i1 < rows → j < cols → offs[i1]? = some lo1 →
        offs[i1 + 1]? = some hi1 →
        (i ≤ i1 ∨ ∀ k, lo1 ≤ k → k < hi1 → cs[k]? ≠ some j) → L.get s.1 i1 j = some z))
    (fun i t => do
      let lo ← vec_get (offs.map (fun n : Nat => (n : Int))) i
      let hi ← vec_get (offs.map (fun n : Nat => (n : Int))) (i + 1)
      dense_read_csr_row L.get L.set (cs.map (fun c : Nat => (c : Int))) i (hi - lo).toNat lo t)
    rows 0 (L.assign (L.set_size m ⟨rows, cols⟩), ⟨tv ++ extra, false⟩)
    ⟨hassign.1, ⟨0, hoffs0, rfl⟩, fun i1 _ _ h => absurd h (Nat.not_lt_zero _),
      fun i1 j _ _ h1 h2 _ _ _ => hassign.2 i1 j h1 h2⟩
    (by
      intro i t _ hi ⟨hok, ⟨lo, hlo, hstr⟩, hdone, hzero⟩
      have hi1 : i < rows := by omega
      have hlen1 : i + 1 < offs.length := by omega
      obtain ⟨hiN, hhi⟩ : ∃ hiN, offs[i + 1]? = some hiN :=
        ⟨offs[i + 1], List.getElem?_eq_getElem hlen1⟩
      have hle : lo ≤ hiN := pairwise_le_get_opt offs hmono i (i + 1) lo hiN (by omega) hlo hhi
      have hle2 : hiN ≤ cs.length :=
        pairwise_le_get_opt offs hmono (i + 1) rows hiN cs.length (by omega) hhi hlast
      have htvlen2 : cs.length ≤ tv.length ∧ cs.length ≤ vs.length := by
        constructor
        · omega
        · omega
      obtain ⟨m1, hrun, hok1, hin1, hout1⟩ := dense_read_csr_row_spec L ok rows cols hc cs vs tv
        extra i hi1 lo hiN (fun k hk => hcsget k (by omega))
        (fun k hk => by
          have hk1 : k < tv.length := by omega
          have hk2 : k < vs.length := by omega
          refine ⟨tv[k], vs[k], List.getElem?_eq_getElem hk1, List.getElem?_eq_getElem hk2, ?_⟩
          have := congrArg (fun l => l[k]?) htv
          simp only [List.getElem?_map, List.getElem?_eq_getElem hk1,
            List.getElem?_eq_getElem hk2, Option.map_some'] at this
          exact Option.some.inj this)
        (fun k k1 h1 h2 h3 h4 h5 => hdist i lo hiN k k1 hi1 hlo hhi h1 h2 h3 h4 h5)
        (hiN - lo) lo t.1 (by omega) (le_refl _) hok
      refine ⟨(m1, ⟨tv.drop hiN ++ extra, false⟩), ?_, hok1, ⟨hiN, hhi, rfl⟩, ?_, ?_⟩
      · have ht : t = (t.1, ⟨tv.drop lo ++ extra, false⟩) := by
          rw [← hstr]
        simp only [vec_get, List.getElem?_map, hlo, hhi, Option.map_some', Option.bind_eq_bind,
          Option.some_bind]
        have e : (((hiN : Int) - (lo : Int)).toNat) = hiN - lo := by omega
        rw [e, ht]
        exact hrun
      · intro i1 lo1 hi1' hi1lt hlo1 hhi1 k hk1 hk2
        by_cases hii : i1 = i
        · subst hii
          rw [hlo] at hlo1
          rw [hhi] at hhi1
          have e1 := Option.some.inj hlo1
          have e2 := Option.some.inj hhi1
          subst e1 e2
          exact hin1 k hk1 hk2
        · obtain ⟨c, v, h1, h2, h3⟩ := hdone i1 lo1 hi1' (by omega) hlo1 hhi1 k hk1 hk2
          obtain ⟨c1, hc1, hc2⟩ := hcsget k (by
            have := pairwise_le_get_opt offs hmono (i1 + 1) rows hi1' cs.length (by omega)
              hhi1 hlast
            omega)
          rw [h1] at hc1
          have e := Option.some.inj hc1
          subst e
          exact ⟨c, v, h1, h2, by rw [hout1 i1 c (by omega) hc2 (Or.inl hii)]; exact h3⟩
      · intro i1 j lo1 hi1' hi1lt hj hlo1 hhi1 hcond
        by_cases hii : i1 = i
        · subst hii
          rw [hlo] at hlo1
          rw [hhi] at hhi1
          have e1 := Option.some.inj hlo1
          have e2 := Option.some.inj hhi1
          subst e1 e2
          have hnot : ∀ k, lo ≤ k → k < hiN → cs[k]? ≠ some j := by
            rcases hcond with h | h
            · omega
            · exact h
          rw [hout1 i1 j hi1lt hj (Or.inr hnot)]
          exact hzero i1 j lo hiN hi1lt hj hlo hhi (Or.inl (le_refl _))
        · rw [hout1 i1 j hi1lt hj (Or.inl hii)]
          apply hzero i1 j lo1 hi1' hi1lt hj hlo1 hhi1
          rcases hcond with h | h
          · exact Or.inl (by omega)
          · exact Or.inr h)
  obtain ⟨hok1, _, hdone, hzero⟩ := hinvf
  refine ⟨s1.1, ?_, hok1, ?_, ?_⟩
  · unfold dense_read_csr
    have hn : ¬ ((cs.length : Int) < 0) := by omega
    simp only [Option.bind_eq_bind] at hloop
    simp only [hsize, Option.bind_eq_bind, ifstream.of_lines, hstream, hia,
      List.nil_append, hhead, hback, hdiff, hn, if_false, Int.toNat_ofNat, hja, hja1, hia1,
      hloop, Option.map_some', outcome.of_option]
  · intro i lo hi hi1 hlo hhi k hk1 hk2
    exact hdone i lo hi (by omega) hlo hhi k hk1 hk2
  · intro i j lo hi hi1 hj hlo hhi hcond
    exact hzero i j lo hi hi1 hj hlo hhi (Or.inr hcond)

theorem file_extension_csr_not_mtx (_fname : List Char)
    (hext : ∃ stem, _fname = stem ++ ['.', 'c', 's', 'r']) :
    file_extension_is _fname ['.', 'm', 't', 'x'] = false ∧
    file_extension_is _fname ['.', 'c', 's', 'r'] = true := by
  refine ⟨?_, (file_extension_is_iff _fname ['c', 's', 'r'] (by decide)).mpr hext⟩
  cases h : file_extension_is _fname ['.', 'm', 't', 'x'] with
  | false => rfl
  | true =>
    obtain ⟨s1, h1⟩ := (file_extension_is_iff _fname ['m', 't', 'x'] (by decide)).mp h
    obtain ⟨s2, h2⟩ := hext
    rw [h2] at h1
    have := (List.append_inj' h1 rfl).2
    exact absurd this (by decide)

/-- The CSR branch of `initialize(const std::string&)` of a dense layout on a
well-formed file with a name ending in `.csr`. -/
theorem dense_layout_read_csr_file {σ T : Type} [Zero T] (L : dense_layout σ T)
    (ok : σ → Prop) (name : String) (MM : MatrixMarket.reader T) (invalid : idx_t)
    (files : List Char → Option (List (line_t T))) (m : σ) (_fname : List Char)
    (rows cols : Nat) (hc : dense_cells L ok rows cols)
    (hsz : (L.m_size (L.set_size (L.clear m) invalid)).is_valid_size = false)
    (hassign : ok (L.assign (L.set_size (L.set_size (L.clear m) invalid) ⟨rows, cols⟩)) ∧
      ∀ i j, i < rows → j < cols →
        L.get (L.assign (L.set_size (L.set_size (L.clear m) invalid) ⟨rows, cols⟩)) i j
          = some 0)
    (hext : ∃ stem, _fname = stem ++ ['.', 'c', 's', 'r'])
    (pre rest : List (line_t T)) (toks : List (token T)) (ti tj : token T)
    (hfile : files _fname = some (pre ++ .data (ti :: tj :: toks) :: rest))
    (hpre : ∀ l ∈ pre, l.is_comment = true) (hti : ti.as_size = some rows)
    (htj : tj.as_size = some cols) (hr : 0 < rows) (hcpos : 0 < cols)
    (b : Int) (offs cs : List Nat) (vs : List T) (tos tc tv extra : List (token T))
    (hstream : rest.flatMap line_t.toks = tos ++ (tc ++ (tv ++ extra)))
    (htos : tos.map token.as_int = offs.map (fun n : Nat => some ((n : Int) + b)))
    (htc : tc.map token.as_int = cs.map (fun c : Nat => some ((c : Int) + b)))
    (htv : tv.map token.as_value = vs.map some)
    (hoffs_len : offs.length = rows + 1) (hoffs0 : offs[0]? = some 0)
    (hmono : offs.Pairwise (fun x y => x ≤ y)) (hlast : offs[rows]? = some cs.length)
    (hcs : ∀ c ∈ cs, c < cols) (hvs : vs.length = cs.length)
    (hdist : ∀ i lo hi k k1, i < rows → offs[i]? = some lo → offs[i + 1]? = some hi →
      lo ≤ k → k < hi → lo ≤ k1 → k1 < hi → cs[k]? = cs[k1]? → k = k1) :
    ∃ m1, dense_initialize_path L name MM invalid files m _fname = .returns m1 ∧ ok m1 ∧
      (∀ i lo hi, i < rows → offs[i]? = some lo → offs[i + 1]? = some hi →
        ∀ k, lo ≤ k → k < hi →
          ∃ c v, cs[k]? = some c ∧ vs[k]? = some v ∧ L.get m1 i c = some v) ∧
      (∀ i j lo hi, i < rows → j < cols → offs[i]? = some lo → offs[i + 1]? = some hi →
        (∀ k, lo ≤ k → k < hi → cs[k]? ≠ some j) → L.get m1 i j = some 0) := by
  obtain ⟨m1, hrun, hok, hin, hout⟩ := dense_read_csr_spec L ok rows cols hc
    (L.set_size (L.clear m) invalid) 0 hsz hassign pre rest toks ti tj hpre hti htj hr hcpos b
    offs cs vs tos tc tv extra hstream htos htc htv hoffs_len hoffs0 hmono hlast hcs hvs hdist
  obtain ⟨he1, he2⟩ := file_extension_csr_not_mtx _fname hext
  refine ⟨m1, ?_, hok, hin, hout⟩
  unfold dense_initialize_path
  simp only [hfile, he1, he2, if_true, Bool.false_eq_true, if_false, hrun]

/-- C26 (dense CSR reader): a file with a name ending in `.csr` holds comment lines,
the size line `rows cols` (both positive), then the tokens of `rows+1`
non-decreasing offsets `offs[i]+b` with `offs[0] = 0`, of `offs[rows]` column
indices `cs[k]+b` and of as many values `vs[k]`, the column indices of a row
distinct and inside the extent.  `initialize` of either dense layout (flat or
nested, any orientation, from any state, for any base `b`, 0 and 1 included)
returns with the extent `(rows, cols)`, the value `vs[k]` in the cell
`(i, cs[k])` for every row `i` and every `k` in `[offs[i], offs[i+1])`, and zero in
every cell of a row that none of its column indices names.  The extent that
`idx_t::invalidate()` leaves is taken not to be a valid size. -/
theorem dense_initialize_path_csr {T : Type} [Zero T] (ORIENT : orientation_t)
    (MM : MatrixMarket.reader T) (invalid : idx_t) (hinvalid : invalid.is_valid_size = false)
    (files : List Char → Option (List (line_t T)))
    (mv : dense_matrix_v T) (mvv : dense_matrix_vv T) (_fname : List Char)
    (hext : ∃ stem, _fname = stem ++ ['.', 'c', 's', 'r'])
    (rows cols : Nat) (hr : 0 < rows) (hcpos : 0 < cols)
    (pre rest : List (line_t T)) (toks : List (token T)) (ti tj : token T)
    (hfile : files _fname = some (pre ++ .data (ti :: tj :: toks) :: rest))
    (hpre : ∀ l ∈ pre, l.is_comment = true) (hti : ti.as_size = some rows)
    (htj : tj.as_size = some cols)
    (b : Int) (offs cs : List Nat) (vs : List T) (tos tc tv extra : List (token T))
    (hstream : rest.flatMap line_t.toks = tos ++ (tc ++ (tv ++ extra)))
    (htos : tos.map token.as_int = offs.map (fun n : Nat => some ((n : Int) + b)))
    (htc : tc.map token.as_int = cs.map (fun c : Nat => some ((c : Int) + b)))
    (htv : tv.map token.as_value = vs.map some)
    (hoffs_len : offs.length = rows + 1) (hoffs0 : offs[0]? = some 0)
    (hmono : offs.Pairwise (fun x y => x ≤ y)) (hlast : offs[rows]? = some cs.length)
    (hcs : ∀ c ∈ cs, c < cols) (hvs : vs.length = cs.length)
    (hdist : ∀ i lo hi k k1, i < rows → offs[i]? = some lo → offs[i + 1]? = some hi →
      lo ≤ k → k < hi → lo ≤ k1 → k1 < hi → cs[k]? = cs[k1]? → k = k1) :
    (∃ m1, mv.initialize_path ORIENT MM invalid files _fname = .returns m1 ∧
      m1.m_size = ⟨rows, cols⟩ ∧
      (∀ i lo hi, i < rows → offs[i]? = some lo → offs[i + 1]? = some hi →
        ∀ k, lo ≤ k → k < hi →
          ∃ c v, cs[k]? = some c ∧ vs[k]? = some v ∧ m1.operator_get ORIENT i c = some v) ∧
      (∀ i j lo hi, i < rows → j < cols → offs[i]? = some lo → offs[i + 1]? = some hi →
        (∀ k, lo ≤ k → k < hi → cs[k]? ≠ some j) → m1.operator_get ORIENT i j = some 0)) ∧
    (∃ m1, mvv.initialize_path ORIENT MM invalid files _fname = .returns m1 ∧
      m1.m_size = ⟨rows, cols⟩ ∧
      (∀ i lo hi, i < rows → offs[i]? = some lo → offs[i + 1]? = some hi →
        ∀ k, lo ≤ k → k < hi →
          ∃ c v, cs[k]? = some c ∧ vs[k]? = some v ∧ m1.operator_get ORIENT i c = some v) ∧
      (∀ i j lo hi, i < rows → j < cols → offs[i]? = some lo → offs[i + 1]? = some hi →
        (∀ k, lo ≤ k → k < hi → cs[k]? ≠ some j) → m1.operator_get ORIENT i j = some 0)) := by
  constructor
  · obtain ⟨a1, a2, a3⟩ := dense_matrix_v.assign_zero_flat ORIENT rows cols
      ((dense_matrix_v.layout ORIENT).set_size mv.clear invalid)
    obtain ⟨m1, hm1, hok, hin, hout⟩ := dense_layout_read_csr_file
      (dense_matrix_v.layout ORIENT) _ "dense_matrix_v" MM invalid files mv _fname rows cols
      (dense_matrix_v.cells_flat ORIENT rows cols) hinvalid ⟨⟨a1, a2⟩, a3⟩ hext pre rest toks ti tj
      hfile hpre hti htj hr hcpos b offs cs vs tos tc tv extra hstream htos htc htv hoffs_len
      hoffs0 hmono hlast hcs hvs hdist
    exact ⟨m1, hm1, hok.1, hin, hout⟩
  · obtain ⟨a1, a2, a3⟩ := dense_matrix_vv.assign_zero_nested ORIENT rows cols
      ((dense_matrix_vv.layout ORIENT).set_size mvv.clear invalid)
    obtain ⟨m1, hm1, hok, hin, hout⟩ := dense_layout_read_csr_file
      (dense_matrix_vv.layout ORIENT) _ "dense_matrix_vv" MM invalid files mvv _fname rows cols
      (dense_matrix_vv.cells_nested ORIENT rows cols) hinvalid ⟨⟨a1, a2⟩, a3⟩ hext pre rest toks ti tj
      hfile hpre hti htj hr hcpos b offs cs vs tos tc tv extra hstream htos htc htv hoffs_len
      hoffs0 hmono hlast hcs hvs hdist
    exact ⟨m1, hm1, hok.1, hin, hout⟩

/-- Witness of C26: the file `a.csr` with a comment line, the size line `2 3`, the
offsets `1 2 4`, the column indices `2 3 1` and the values `5 6 7` (base 1),
read into a flat row-oriented matrix: the cells are `0 5 0 / 7 0 6`. -/
theorem dense_initialize_path_csr_witness :
    example_dense_v.initialize_path .sort_by_row (MatrixMarket.standard Int) ⟨0, 0⟩
        (example_files [.comment, .data [example_token 2, example_token 3],
          .data [example_token 1, example_token 2, example_token 4],
          .data [example_token 2, example_token 3, example_token 1],
          .data [example_token 5, example_token 6, example_token 7]])
        ['a', '.', 'c', 's', 'r']
      = .returns ⟨0, ⟨2, 3⟩, .print_auto, [0, 5, 0, 7, 0, 6]⟩ ∧
    (∃ m1, example_dense_v.initialize_path .sort_by_row (MatrixMarket.standard Int) ⟨0, 0⟩
        (example_files [.comment, .data [example_token 2, example_token 3],
          .data [example_token 1, example_token 2, example_token 4],
          .data [example_token 2, example_token 3, example_token 1],
          .data [example_token 5, example_token 6, example_token 7]])
        ['a', '.', 'c', 's', 'r'] = .returns m1 ∧
      m1.m_size = ⟨2, 3⟩ ∧
      (∀ i lo hi, i < 2 → [0, 1, 3][i]? = some lo → [0, 1, 3][i + 1]? = some hi →
        ∀ k, lo ≤ k → k < hi →
          ∃ c v, [1, 2, 0][k]? = some c ∧ [5, 6, 7][k]? = some v ∧
            m1.operator_get .sort_by_row i c = some v) ∧
      (∀ i j lo hi, i < 2 → j < 3 → [0, 1, 3][i]? = some lo → [0, 1, 3][i + 1]? = some hi →
        (∀ k, lo ≤ k → k < hi → [1, 2, 0][k]? ≠ some j) →
        m1.operator_get .sort_by_row i j = some 0)) :=
  ⟨by decide,
    (dense_initialize_path_csr .sort_by_row (MatrixMarket.standard Int) ⟨0, 0⟩ (by decide)
      (example_files [.comment, .data [example_token 2, example_token 3],
          .data [example_token 1, example_token 2, example_token 4],
          .data [example_token 2, example_token 3, example_token 1],
          .data [example_token 5, example_token 6, example_token 7]])
      example_dense_v example_dense_vv ['a', '.', 'c', 's', 'r'] ⟨['a'], rfl⟩ 2 3
      (by decide) (by decide) [.comment]
      [.data [example_token 1, example_token 2, example_token 4],
          .data [example_token 2, example_token 3, example_token 1],
          .data [example_token 5, example_token 6, example_token 7]]
      [] (example_token 2) (example_token 3) rfl (by decide) (by decide) (by decide) 1
      [0, 1, 3] [1, 2, 0] [5, 6, 7]
      [example_token 1, example_token 2, example_token 4]
      [example_token 2, example_token 3, example_token 1]
      [example_token 5, example_token 6, example_token 7] [] rfl (by decide) (by decide)
      (by decide) rfl rfl (by decide) rfl (by decide) rfl
      (by
        intro i lo hi k k1 hi2 h1 h2 h3 h4 h5 h6 h7
        interval_cases i
        · simp only [List.getElem?_cons_zero, List.getElem?_cons_succ, Option.some.injEq]
            at h1 h2
          omega
        · simp only [List.getElem?_cons_zero, List.getElem?_cons_succ, Option.some.injEq]
            at h1 h2
          subst h1 h2
          interval_cases k <;> interval_cases k1 <;> simp_all)).1⟩

/-- C25 (sparse CSR reader, offsets): evaluation at two well-formed files for
`BASE = 0`.  The file `2 2 / 0 1 1 / 0 / 5` (row 1 empty) describes the entry
`(0,0,5)`: the reader stops the offsets at the repeated `1`, keeps it as the
first column index, reads the column index `0` as the value and builds
`(0,1,0)`.  The file `2 4 / 0 1 2 / 3 0 / 5 6` (first column index above the last
offset) describes `(0,3,5)` and `(1,0,6)`: the reader takes the column index
`3` as a fourth offset and builds no entry.  The dense reader, which reads
`rows+1` offsets, gives the cell `(0,0)` the value `5` on the first file. -/
theorem sparse_read_csr_offsets_not_counted :
    sparse_read_csr (sort_by_row_t.lt (T := Int)) 0
        [.data [example_token 2, example_token 2],
          .data [example_token 0, example_token 1, example_token 1],
          .data [example_token 0], .data [example_token 5]] ⟨0, 0⟩
      = some (⟨2, 2⟩, [⟨⟨0, 1⟩, 0⟩]) ∧
    sparse_read_csr (sort_by_row_t.lt (T := Int)) 0
        [.data [example_token 2, example_token 4],
          .data [example_token 0, example_token 1, example_token 2],
          .data [example_token 3, example_token 0],
          .data [example_token 5, example_token 6]] ⟨0, 0⟩
      = some (⟨2, 4⟩, []) ∧
    dense_read_csr (dense_matrix_v.layout (T := Int) .sort_by_row)
        [.data [example_token 2, example_token 2],
          .data [example_token 0, example_token 1, example_token 1],
          .data [example_token 0], .data [example_token 5]]
        ⟨0, ⟨0, 0⟩, .print_auto, []⟩
      = .returns ⟨0, ⟨2, 2⟩, .print_auto, [5, 0, 0, 0]⟩ := by
  refine ⟨?_, ?_, ?_⟩ <;> decide

/-- C28 (file form of a sparse matrix, compressed or not): evaluation for the
column ordering and `BASE = 1` at the 1x1 matrix with the entry `(1,1,5)`.
Uncompressed, the file form holds the triple `1 1 5`; after `compress` the
file form holds the triple `2 1 5`, because the temporary set that
`sort_by_column_t::uncompress` rebuilds has the entry `(2,1,5)`. -/
theorem sparse_print_file_compressed_differs :
    sparse_matrix.print_file example_format 1 (sort_by_column_t.SORT Int)
        ⟨0, ⟨1, 1⟩, .print_auto, [⟨⟨1, 1⟩, 5⟩], [], [], [], 0, 0⟩
      = some [.banner ⟨.coordinate, .real, .general⟩,
          .data [example_token 1, example_token 1, example_token 1],
          .data [example_token 1, example_token 1, example_token 5]] ∧
    ((⟨0, ⟨1, 1⟩, .print_auto, [⟨⟨1, 1⟩, 5⟩], [], [], [], 0, 0⟩ :
        sparse_matrix Int).compress (sort_by_column_t.SORT Int)).bind
        (sparse_matrix.print_file example_format 1 (sort_by_column_t.SORT Int))
      = some [.banner ⟨.coordinate, .real, .general⟩,
          .data [example_token 1, example_token 1, example_token 1],
          .data [example_token 2, example_token 1, example_token 5]] := by
  refine ⟨?_, ?_⟩ <;> decide

/-! ### The flat dense storage: index, frame, invariant -/

/-- C32 (flat index in range): for a `dense_matrix_v` of extent `(rows, cols)`
whose vector has `rows*cols` cells and for `i < rows`, `j < cols`, the position
used by `operator()` is `i*cols+j` when row oriented and `j*rows+i` when column
oriented, it is below `rows*cols` (the length of `a`), and the cell read finds
a cell. -/
theorem dense_flat_index_in_range {T : Type} (ORIENT : orientation_t) (m : dense_matrix_v T)
    (rows cols : Nat) (hsize : m.m_size = ⟨rows, cols⟩) (hlen : m.a.length = rows * cols)
    (i j : Nat) (hi : i < rows) (hj : j < cols) :
    m.index ORIENT i j
      = (match ORIENT with
         | .sort_by_row => i * cols + j
         | .sort_by_column => j * rows + i) ∧
    m.index ORIENT i j < rows * cols ∧ m.index ORIENT i j < m.a.length ∧
    ∃ x, m.operator_get ORIENT i j = some x ∧ m.a[m.index ORIENT i j]? = some x := by
  have hidx : m.index ORIENT i j < rows * cols := by
    cases ORIENT with
    | sort_by_row =>
      simp only [dense_matrix_v.index, hsize]
      exact index_lt_mul i j rows cols hi hj
    | sort_by_column =>
      simp only [dense_matrix_v.index, hsize]
      rw [Nat.mul_comm rows cols]
      exact index_lt_mul j i cols rows hj hi
  refine ⟨?_, hidx, by omega, ?_⟩
  · cases ORIENT <;> simp [dense_matrix_v.index, hsize]
  · have hlt : m.index ORIENT i j < m.a.length := by omega
    refine ⟨m.a[m.index ORIENT i j], ?_, List.getElem?_eq_getElem hlt⟩
    simp only [dense_matrix_v.operator_get, vec_get]
    exact List.getElem?_eq_getElem hlt

/-- Witness of C32: the cell `(1,2)` of the flat 2x3 example, column oriented. -/
theorem dense_flat_index_in_range_witness :
    example_dense_v.m_size = ⟨2, 3⟩ ∧ example_dense_v.a.length = 2 * 3 ∧
    example_dense_v.index .sort_by_column 1 2 = 2 * 2 + 1 ∧
    example_dense_v.index .sort_by_column 1 2 < 2 * 3 :=
  have h := dense_flat_index_in_range .sort_by_column example_dense_v 2 3 rfl rfl 1 2
    (by decide) (by decide)
  ⟨rfl, rfl, h.1, h.2.1⟩

/-- C33 (frame of a cell write): for a `dense_matrix_v` of extent `(rows, cols)`
whose vector has `rows*cols` cells, in either orientation, two coordinates of
the extent with the same position in `a` are equal; the write of `v` at
`(i,j)` of the extent returns, the cell `(i,j)` then reads `v`, and every other
cell of the extent reads what it read before. -/
theorem dense_flat_write_frame {T : Type} (ORIENT : orientation_t) (m : dense_matrix_v T)
    (rows cols : Nat) (hsize : m.m_size = ⟨rows, cols⟩) (hlen : m.a.length = rows * cols)
    (i j : Nat) (hi : i < rows) (hj : j < cols) (v : T) :
    (∀ i1 j1, i1 < rows → j1 < cols → m.index ORIENT i1 j1 = m.index ORIENT i j →
      i1 = i ∧ j1 = j) ∧
    ∃ m1, m.operator_set ORIENT i j v = some m1 ∧ m1.m_size = ⟨rows, cols⟩ ∧
      m1.a.length = rows * cols ∧ m1.operator_get ORIENT i j = some v ∧
      ∀ i1 j1, i1 < rows → j1 < cols → (i1 ≠ i ∨ j1 ≠ j) →
        m1.operator_get ORIENT i1 j1 = m.operator_get ORIENT i1 j1 := by
  have hwf : m.well_formed := by
    simp [dense_matrix_v.well_formed, dense_matrix_v.size, hsize, hlen]
  constructor
  · intro i1 j1 hi1 hj1 h
    cases ORIENT with
    | sort_by_row =>
      simp only [dense_matrix_v.index, hsize] at h
      have := index_inj j1 i1 j i cols hj1 hj h
      exact ⟨this.2, this.1⟩
    | sort_by_column =>
      simp only [dense_matrix_v.index, hsize] at h
      exact index_inj i1 j1 i j rows hi1 hi h
  · obtain ⟨m1, h1, h2, _, _, h5, h6, h7⟩ := dense_matrix_v.operator_set_spec_flat ORIENT m i j v
      hwf (by rw [hsize]; exact hi) (by rw [hsize]; exact hj)
    refine ⟨m1, h1, h2.trans hsize, ?_, h6, ?_⟩
    · have := h5
      simp only [dense_matrix_v.well_formed, dense_matrix_v.size, h2, hsize] at this
      simpa using this
    · intro i1 j1 hi1 hj1 hne
      exact h7 i1 j1 (by rw [hsize]; exact hi1) (by rw [hsize]; exact hj1) hne

/-- Witness of C33: the write of 7 at `(1,2)` of the flat 2x3 example, row
oriented. -/
theorem dense_flat_write_frame_witness :
    example_dense_v.operator_set .sort_by_row 1 2 7
      = some ⟨0, ⟨2, 3⟩, .print_auto, [9, 9, 9, 9, 9, 7]⟩ ∧
    ∃ m1, example_dense_v.operator_set .sort_by_row 1 2 7 = some m1 ∧
      m1.m_size = ⟨2, 3⟩ ∧ m1.a.length = 2 * 3 ∧ m1.operator_get .sort_by_row 1 2 = some 7 ∧
      ∀ i1 j1, i1 < 2 → j1 < 3 → (i1 ≠ 1 ∨ j1 ≠ 2) →
        m1.operator_get .sort_by_row i1 j1 = example_dense_v.operator_get .sort_by_row i1 j1 :=
  ⟨by decide,
   (dense_flat_write_frame .sort_by_row example_dense_v 2 3 rfl rfl 1 2 (by decide) (by decide)
    7).2⟩

theorem dense_matrix_v.initialize_size_well_formed {double T : Type} (conv : double → T)
    (m : dense_matrix_v T) (hm : m.well_formed) (i j : Nat) (_value : double) :
    (m.initialize_size conv i j _value).well_formed := by
  unfold dense_matrix_v.initialize_size
  by_cases hv : (idx_t.mk i j).is_valid_size = true
  · simp only [hv, if_true]
    simp only [idx_t.is_valid_size, Bool.and_eq_true, decide_eq_true_eq] at hv
    have hne : i * j ≠ 0 := Nat.mul_ne_zero (by omega) (by omega)
    simp [dense_matrix_v.well_formed, dense_matrix_v.size, dense_matrix_v.clear, hne]
  · simp only [hv]
    exact hm

/-- C34 (storage invariant of the flat layout): the vector of a `dense_matrix_v`
has `size(0)*size(1)` cells after construction, when the default extent `size0`
of the missing `index.hpp` is not a valid size ("created empty/invalid"), and
every operation keeps it so: `initialize(i,j,_value)` for any `(i,j)`,
`initialize(_vector)` whether it returns or throws, `operator=(const double&)`,
`zerorow` whether it returns or throws, `clear`, the copy assignment from a
matrix that has the invariant, and `swap` with such a matrix (for both). -/
theorem dense_flat_invariant_preserved {double T : Type} [Zero T] (conv : double → T)
    (ORIENT : orientation_t) :
    (∀ (nan : T) (size0 : idx_t), size0.is_valid_size = false →
      (dense_matrix_v.construct nan size0).well_formed) ∧
    ∀ m : dense_matrix_v T, m.well_formed →
      (∀ i j _value, (m.initialize_size conv i j _value).well_formed) ∧
      (∀ _vector, ∃ m1, m1.well_formed ∧
        (dense_matrix_v.initialize_vector conv ORIENT m _vector = .returns m1 ∨
          ∃ what, dense_matrix_v.initialize_vector conv ORIENT m _vector = .throws what m1)) ∧
      (∀ _value, (m.operator_assign conv _value).well_formed) ∧
      (∀ i, ∃ m1, m1.well_formed ∧
        (m.zerorow ORIENT i = .returns m1 ∨ ∃ what, m.zerorow ORIENT i = .throws what m1)) ∧
      m.clear.well_formed ∧
      ∀ _other : dense_matrix_v T, _other.well_formed →
        (m.operator_assign_copy _other).well_formed ∧
        (m.swap _other).1.well_formed ∧ (m.swap _other).2.well_formed := by
  constructor
  · intro nan size0 h
    simp only [idx_t.is_valid_size, Bool.and_eq_false_iff, decide_eq_false_iff_not] at h
    simp only [dense_matrix_v.well_formed, dense_matrix_v.construct, dense_matrix_v.size]
    rcases h with h | h
    · have : size0.i = 0 := by omega
      simp [this]
    · have : size0.j = 0 := by omega
      simp [this]
  · intro m hm
    refine ⟨fun i j v => dense_matrix_v.initialize_size_well_formed conv m hm i j v, ?_,
      fun v => dense_matrix_v.initialize_size_well_formed conv m hm _ _ v, ?_, ?_, ?_⟩
    · intro v
      by_cases hv : v.length = m.size 0 * m.size 1
      · obtain ⟨m1, h1, _, _, _, h5, _⟩ :=
          dense_matrix_v.initialize_vector_spec_flat conv ORIENT m v hm hv
        exact ⟨m1, h5, Or.inl h1⟩
      · refine ⟨m, hm, Or.inr
          ⟨"dense_matrix_v: assignment not consistent with current size.", ?_⟩⟩
        unfold dense_matrix_v.initialize_vector
        rw [if_pos]
        rw [hm]
        exact fun h => hv h.symm
    · intro i
      by_cases hi : i < m.size 0
      · obtain ⟨m1, h1, _, _, _, h5, _⟩ := dense_matrix_v.zerorow_returns_flat ORIENT m hm i hi
        exact ⟨m1, h5, Or.inl h1⟩
      · refine ⟨m, hm, Or.inr ⟨"dense_matrix_v: row index outside bounds.", ?_⟩⟩
        unfold dense_matrix_v.zerorow
        rw [if_pos (by omega)]
    · simp [dense_matrix_v.well_formed, dense_matrix_v.clear, dense_matrix_v.size, idx_t.clear]
    · intro o ho
      refine ⟨?_, ?_, ?_⟩
      · simpa [dense_matrix_v.well_formed, dense_matrix_v.operator_assign_copy,
          dense_matrix_v.size] using ho
      · simpa [dense_matrix_v.well_formed, dense_matrix_v.swap, dense_matrix_v.size] using ho
      · simpa [dense_matrix_v.well_formed, dense_matrix_v.swap, dense_matrix_v.size] using hm

/-- Witness of C34: the flat 2x3 example keeps the invariant under
`initialize(3,2,5)`, `zerorow(1)` and `zerorow(2)` (which throws). -/
theorem dense_flat_invariant_preserved_witness :
    example_dense_v.well_formed ∧
    (example_dense_v.initialize_size (fun x : Int => x) 3 2 5).well_formed ∧
    example_dense_v.zerorow .sort_by_row 1
      = .returns ⟨0, ⟨2, 3⟩, .print_auto, [9, 9, 9, 0, 0, 0]⟩ ∧
    example_dense_v.zerorow .sort_by_row 2
      = .throws "dense_matrix_v: row index outside bounds." example_dense_v ∧
    (dense_matrix_v.construct (0 : Int) ⟨0, 0⟩).well_formed :=
  have hwf : example_dense_v.well_formed := by unfold dense_matrix_v.well_formed; decide
  have h := dense_flat_invariant_preserved (fun x : Int => x) .sort_by_row
  ⟨hwf, ((h.2 example_dense_v hwf).1 3 2 5), by decide, by decide, h.1 0 ⟨0, 0⟩ (by decide)⟩

/-! ### The linear system -/

theorem dense_matrix_v.initialize_size_valid_flat {double T : Type} (conv : double → T)
    (m : dense_matrix_v T) (i j : Nat) (hi : 0 < i) (hj : 0 < j) (_value : double) :
    m.initialize_size conv i j _value
      = ⟨m.m_zero, ⟨i, j⟩, m.m_print, List.replicate (i * j) (conv _value)⟩ := by
  have hne : i * j ≠ 0 := Nat.mul_ne_zero (by omega) (by omega)
  have hv : (idx_t.mk i j).is_valid_size = true := by
    simp [idx_t.is_valid_size, hi, hj]
  simp [dense_matrix_v.initialize_size, hv, dense_matrix_v.size, dense_matrix_v.clear, hne]

/-- C31 (dimensions of a linear system): for `i, j, k > 0` and any value,
`linearsystem::initialize(i,j,k,_value)` over the dense matrix of `LAPACK`
returns and leaves `A` with the extent `(i,j)`, `b` with `(i,k)` and `x` with
`(j,k)`, so that `consistent(A.size(0),A.size(1),b.size(0),b.size(1),x.size(0),
x.size(1))` returns `true`; and for any six sizes `consistent` throws exactly
when `Ai != bi` or `Aj != xi` or `bj != xj`, and returns `true` otherwise. -/
theorem linearsystem_initialize_size_consistent {double T : Type} [Zero T]
    (conv : double → T) (s : linearsystem (dense_matrix_v T) T) (i j k : Nat)
    (hi : 0 < i) (hj : 0 < j) (hk : 0 < k) (_value : double) :
    (∃ s1, s.initialize_size conv (LAPACK.A_functions conv) i j k _value = .returns s1 ∧
      s1.m_A.m_size = ⟨i, j⟩ ∧ s1.m_b.m_size = ⟨i, k⟩ ∧ s1.m_x.m_size = ⟨j, k⟩ ∧
      linearsystem.consistent ((LAPACK.A_functions conv).A___size s1.m_A 0)
        ((LAPACK.A_functions conv).A___size s1.m_A 1) (s1.m_b.size 0) (s1.m_b.size 1)
        (s1.m_x.size 0) (s1.m_x.size 1) = .ok true) ∧
    ∀ Ai Aj bi bj xi xj : Nat,
      ((∃ what, linearsystem.consistent Ai Aj bi bj xi xj = .error what) ↔
        (Ai ≠ bi ∨ Aj ≠ xi ∨ bj ≠ xj)) ∧
      (¬ (Ai ≠ bi ∨ Aj ≠ xi ∨ bj ≠ xj) →
        linearsystem.consistent Ai Aj bi bj xi xj = .ok true) := by
  constructor
  · refine ⟨⟨s.m_A.initialize_size conv i j _value, s.m_b.initialize_size conv i k _value,
      s.m_x.initialize_size conv j k _value⟩, rfl, ?_, ?_, ?_, ?_⟩
    · rw [dense_matrix_v.initialize_size_valid_flat conv _ i j hi hj]
    · rw [dense_matrix_v.initialize_size_valid_flat conv _ i k hi hk]
    · rw [dense_matrix_v.initialize_size_valid_flat conv _ j k hj hk]
    · simp only [LAPACK.A_functions, dense_matrix_v.initialize_size_valid_flat conv _ i j hi hj,
        dense_matrix_v.initialize_size_valid_flat conv _ i k hi hk,
        dense_matrix_v.initialize_size_valid_flat conv _ j k hj hk, dense_matrix_v.size]
      simp [linearsystem.consistent]
  · intro Ai Aj bi bj xi xj
    constructor
    · constructor
      · rintro ⟨what, h⟩
        by_contra hc
        simp only [linearsystem.consistent, if_neg hc] at h
        exact absurd h (by simp)
      · intro h
        simp only [linearsystem.consistent, if_pos h]
        exact ⟨_, rfl⟩
    · intro h
      simp only [linearsystem.consistent, if_neg h]

/-- Witness of C31: `initialize(2,3,1,9)` on the example system. -/
theorem linearsystem_initialize_size_consistent_witness :
    ∃ s1, example_linearsystem.initialize_size (fun x : Int => x)
        (LAPACK.A_functions (fun x : Int => x)) 2 3 1 9 = .returns s1 ∧
      s1.m_A.m_size = ⟨2, 3⟩ ∧ s1.m_b.m_size = ⟨2, 1⟩ ∧ s1.m_x.m_size = ⟨3, 1⟩ ∧
      linearsystem.consistent ((LAPACK.A_functions (fun x : Int => x)).A___size s1.m_A 0)
        ((LAPACK.A_functions (fun x : Int => x)).A___size s1.m_A 1) (s1.m_b.size 0)
        (s1.m_b.size 1) (s1.m_x.size 0) (s1.m_x.size 1) = .ok true :=
  (linearsystem_initialize_size_consistent (fun x : Int => x) example_linearsystem 2 3 1
    (by decide) (by decide) (by decide) 9).1

/-- C40 (as stated, refuted).  The example system has `A` of extent 2x1, `b` of
2 rows and `x` of 1 row, dimensions that `consistent` accepts.  `zerorow(1)`
throws "row index outside bounds" from `m_x.zerorow(1)` after `A___zerorow(1)`
and `m_b.zerorow(1)` have zeroed row 1 of `A` and of `b`. -/
theorem linearsystem_zerorow_partial_counterexample :
    linearsystem.consistent (example_linearsystem.m_A.size 0)
      (example_linearsystem.m_A.size 1) (example_linearsystem.m_b.size 0)
      (example_linearsystem.m_b.size 1) (example_linearsystem.m_x.size 0)
      (example_linearsystem.m_x.size 1) = .ok true ∧
    example_linearsystem.zerorow (LAPACK.A_functions (fun x : Int => x)) 1
      = .throws "dense_matrix_v: row index outside bounds."
          ⟨⟨0, ⟨2, 1⟩, .print_auto, [9, 0]⟩, ⟨0, ⟨2, 1⟩, .print_auto, [9, 0]⟩,
           ⟨0, ⟨1, 1⟩, .print_auto, [9]⟩⟩ ∧
    (⟨0, ⟨2, 1⟩, .print_auto, [9, 0]⟩ : dense_matrix_v Int) ≠ example_linearsystem.m_A := by
  refine ⟨?_, ?_, ?_⟩
  · rfl
  · rfl
  · decide

/-- C40 (amended): for a linear system of `LAPACK` whose components match their
extents, `A` of extent `(rows, cols)`, `b` of `(rows, k)` and `x` of `(cols, k)`.
When `i < rows` and `i < cols`, `zerorow(i)` returns with row `i` zero in `A`,
`b` and `x` and the other rows as before.  When `i >= rows` it throws and leaves
the three components as they were.  When `cols <= i < rows` it throws with `x`
as it was, after row `i` of `A` and of `b` has been zeroed. -/
theorem linearsystem_zerorow_cases {double T : Type} [Zero T] (conv : double → T)
    (s : linearsystem (dense_matrix_v T) T) (rows cols k : Nat)
    (hA : s.m_A.m_size = ⟨rows, cols⟩ ∧ s.m_A.well_formed)
    (hb : s.m_b.m_size = ⟨rows, k⟩ ∧ s.m_b.well_formed)
    (hx : s.m_x.m_size = ⟨cols, k⟩ ∧ s.m_x.well_formed) (i : Nat) :
    (i < rows → i < cols →
      ∃ A1 b1 x1, s.zerorow (LAPACK.A_functions conv) i = .returns ⟨A1, b1, x1⟩ ∧
        A1.m_size = ⟨rows, cols⟩ ∧ b1.m_size = ⟨rows, k⟩ ∧ x1.m_size = ⟨cols, k⟩ ∧
        (∀ j, j < cols → A1.operator_get .sort_by_column i j = some 0) ∧
        (∀ j, j < k → b1.operator_get .sort_by_column i j = some 0) ∧
        (∀ j, j < k → x1.operator_get .sort_by_column i j = some 0) ∧
        (∀ i1 j, i1 < rows → j < cols → i1 ≠ i →
          A1.operator_get .sort_by_column i1 j = s.m_A.operator_get .sort_by_column i1 j) ∧
        (∀ i1 j, i1 < rows → j < k → i1 ≠ i →
          b1.operator_get .sort_by_column i1 j = s.m_b.operator_get .sort_by_column i1 j) ∧
        (∀ i1 j, i1 < cols → j < k → i1 ≠ i →
          x1.operator_get .sort_by_column i1 j = s.m_x.operator_get .sort_by_column i1 j)) ∧
    (rows ≤ i →
      s.zerorow (LAPACK.A_functions conv) i
        = .throws "dense_matrix_v: row index outside bounds." s) ∧
    (cols ≤ i → i < rows →
      ∃ A1 b1, s.zerorow (LAPACK.A_functions conv) i
          = .throws "dense_matrix_v: row index outside bounds." ⟨A1, b1, s.m_x⟩ ∧
        (∀ j, j < cols → A1.operator_get .sort_by_column i j = some 0) ∧
        (∀ j, j < k → b1.operator_get .sort_by_column i j = some 0) ∧
        (∀ i1 j, i1 < rows → j < cols → i1 ≠ i →
          A1.operator_get .sort_by_column i1 j = s.m_A.operator_get .sort_by_column i1 j) ∧
        (∀ i1 j, i1 < rows → j < k → i1 ≠ i →
          b1.operator_get .sort_by_column i1 j = s.m_b.operator_get .sort_by_column i1 j)) := by
  have hA0 : s.m_A.size 0 = rows := by simp [dense_matrix_v.size, hA.1]
  have hA1 : s.m_A.size 1 = cols := by simp [dense_matrix_v.size, hA.1]
  have hb0 : s.m_b.size 0 = rows := by simp [dense_matrix_v.size, hb.1]
  have hb1 : s.m_b.size 1 = k := by simp [dense_matrix_v.size, hb.1]
  have hx0 : s.m_x.size 0 = cols := by simp [dense_matrix_v.size, hx.1]
  have hx1 : s.m_x.size 1 = k := by simp [dense_matrix_v.size, hx.1]
  refine ⟨?_, ?_, ?_⟩
  · intro hir hic
    obtain ⟨A1, a1, a2, _, _, _, a6, a7⟩ := dense_matrix_v.zerorow_returns_flat .sort_by_column
      s.m_A hA.2 i (by omega)
    obtain ⟨b1, c1, c2, _, _, _, c6, c7⟩ := dense_matrix_v.zerorow_returns_flat .sort_by_column
      s.m_b hb.2 i (by omega)
    obtain ⟨x1, d1, d2, _, _, _, d6, d7⟩ := dense_matrix_v.zerorow_returns_flat .sort_by_column
      s.m_x hx.2 i (by omega)
    refine ⟨A1, b1, x1, ?_, a2.trans hA.1, c2.trans hb.1, d2.trans hx.1, ?_, ?_, ?_, ?_, ?_, ?_⟩
    · simp only [linearsystem.zerorow, LAPACK.A_functions, a1, c1, d1]
    · intro j hj; exact a6 j (by omega)
    · intro j hj; exact c6 j (by omega)
    · intro j hj; exact d6 j (by omega)
    · intro i1 j h1 h2 h3; exact a7 i1 j (by omega) (by omega) h3
    · intro i1 j h1 h2 h3; exact c7 i1 j (by omega) (by omega) h3
    · intro i1 j h1 h2 h3; exact d7 i1 j (by omega) (by omega) h3
  · intro hir
    have hth : s.m_A.zerorow .sort_by_column i
        = .throws "dense_matrix_v: row index outside bounds." s.m_A := by
      unfold dense_matrix_v.zerorow
      rw [if_pos (by omega)]
    simp only [linearsystem.zerorow, LAPACK.A_functions, hth]
  · intro hic hir
    obtain ⟨A1, a1, a2, _, _, _, a6, a7⟩ := dense_matrix_v.zerorow_returns_flat .sort_by_column
      s.m_A hA.2 i (by omega)
    obtain ⟨b1, c1, c2, _, _, _, c6, c7⟩ := dense_matrix_v.zerorow_returns_flat .sort_by_column
      s.m_b hb.2 i (by omega)
    have hth : s.m_x.zerorow .sort_by_column i
        = .throws "dense_matrix_v: row index outside bounds." s.m_x := by
      unfold dense_matrix_v.zerorow
      rw [if_pos (by omega)]
    refine ⟨A1, b1, ?_, ?_, ?_, ?_, ?_⟩
    · simp only [linearsystem.zerorow, LAPACK.A_functions, a1, c1, hth]
    · intro j hj; exact a6 j (by omega)
    · intro j hj; exact c6 j (by omega)
    · intro i1 j h1 h2 h3; exact a7 i1 j (by omega) (by omega) h3
    · intro i1 j h1 h2 h3; exact c7 i1 j (by omega) (by omega) h3

/-- Witness of C40 amended: `zerorow(2)` on the example system, whose matrix has
two rows, throws and leaves the system as it was. -/
theorem linearsystem_zerorow_cases_witness :
    (example_linearsystem.m_A.m_size = ⟨2, 1⟩ ∧ example_linearsystem.m_A.well_formed) ∧
    example_linearsystem.zerorow (LAPACK.A_functions (fun x : Int => x)) 2
      = .throws "dense_matrix_v: row index outside bounds." example_linearsystem :=
  have hA : example_linearsystem.m_A.m_size = ⟨2, 1⟩ ∧ example_linearsystem.m_A.well_formed :=
    ⟨rfl, by unfold dense_matrix_v.well_formed; decide⟩
  have hb : example_linearsystem.m_b.m_size = ⟨2, 1⟩ ∧ example_linearsystem.m_b.well_formed :=
    ⟨rfl, by unfold dense_matrix_v.well_formed; decide⟩
  have hx : example_linearsystem.m_x.m_size = ⟨1, 1⟩ ∧ example_linearsystem.m_x.well_formed :=
    ⟨rfl, by unfold dense_matrix_v.well_formed; decide⟩
  ⟨hA, (linearsystem_zerorow_cases (fun x : Int => x) example_linearsystem 2 1 1 hA hb hx
    2).2.1 (by decide)⟩

/-! ### Cell reads of a column-ordered `sparse_matrix` after `compress` -/

/-- C37 (column ordering): evaluation at the 2x2 matrix numbered from 0 with the
entries `(0,0,1)`, `(1,0,4)`, `(0,1,2)`, `(1,1,3)` in the ordering of
`sort_by_column_t`.  Uncompressed, the cells `(0,1)`, `(1,0)`, `(1,1)` read 2,
4, 3.  `compress()` gives `ia = [0,1,0,1]` (row indices), `ja = [0,2,4]` (column
offsets); `getindex` takes `ia` for the offsets and `ja` for the column
indices, and the three cells then read the sentinel `-1`. -/
theorem sparse_column_compress_changes_reads :
    set_sorted sort_by_column_t.lt example_sparse_column.entries ∧
    example_sparse_column.operator_get 0 (sort_by_column_t.SORT Int) 0 1 = some 2 ∧
    example_sparse_column.operator_get 0 (sort_by_column_t.SORT Int) 1 0 = some 4 ∧
    example_sparse_column.operator_get 0 (sort_by_column_t.SORT Int) 1 1 = some 3 ∧
    example_sparse_column.compress (sort_by_column_t.SORT Int)
      = some ⟨-1, ⟨2, 2⟩, .print_auto, [], [1, 4, 2, 3], [0, 1, 0, 1], [0, 2, 4], 2, 4⟩ ∧
    (example_sparse_column.compress (sort_by_column_t.SORT Int)).bind
        (fun m1 => m1.operator_get 0 (sort_by_column_t.SORT Int) 0 1) = some (-1) ∧
    (example_sparse_column.compress (sort_by_column_t.SORT Int)).bind
        (fun m1 => m1.operator_get 0 (sort_by_column_t.SORT Int) 1 0) = some (-1) ∧
    (example_sparse_column.compress (sort_by_column_t.SORT Int)).bind
        (fun m1 => m1.operator_get 0 (sort_by_column_t.SORT Int) 1 1) = some (-1) := by
  refine ⟨?_, ?_, ?_, ?_, ?_, ?_, ?_, ?_⟩
  · unfold set_sorted; decide
  all_goals decide

/-! ### Termination of the symmetry loop -/

theorem sparse_matrix.mirror_scan_adds_one {T : Type} [Zero T]
    {lt : coord_t T → coord_t T → Bool} (hlt : coord_order lt) (es : List (coord_t T))
    (hs : set_sorted lt es) (h : (sparse_matrix.mirror_scan lt es es.reverse).2 = true) :
    (sparse_matrix.mirror_scan lt es es.reverse).1.length = es.length + 1 ∧
    set_sorted lt (sparse_matrix.mirror_scan lt es es.reverse).1 ∧
    sparse_matrix.missing_mirrors (sparse_matrix.mirror_scan lt es es.reverse).1
      < sparse_matrix.missing_mirrors es ∧
    ∀ x ∈ (sparse_matrix.mirror_scan lt es es.reverse).1,
      x ∈ es ∨ ∃ c ∈ es, x.first = ⟨c.first.j, c.first.i⟩ := by
  obtain ⟨c, hc, hflag, heq⟩ := sparse_matrix.mirror_scan_true lt es.reverse es h
  have hc1 : c ∈ es := List.mem_reverse.mp hc
  rw [heq]
  refine ⟨?_, set_insert_sorted lt hlt.trans _ es hs,
    sparse_matrix.missing_mirrors_insert hlt es hs c hc1 hflag, ?_⟩
  · have := (set_insert_perm lt _ es hflag).length_eq
    simpa using this
  · intro x hx
    rcases (set_insert_mem lt _ es x).mp hx with h1 | ⟨_, h1⟩
    · exact Or.inl h1
    · exact Or.inr ⟨c, hc1, by rw [h1]⟩

theorem sparse_matrix.mirror_loop_nmodif_spec {T : Type} [Zero T]
    {lt : coord_t T → coord_t T → Bool} (hlt : coord_order lt) :
    ∀ (fuel : Nat) (es : List (coord_t T)) (n0 : Nat), set_sorted lt es →
      sparse_matrix.missing_mirrors es < fuel →
      ∃ R n, sparse_matrix.mirror_loop_nmodif lt fuel es n0 = some (R, n0 + n) ∧
        sparse_matrix.mirror_loop lt fuel es = some R ∧
        n ≤ sparse_matrix.missing_mirrors es ∧ R.length = es.length + n ∧
        ∀ x ∈ R, ∃ c ∈ es, x.first = c.first ∨ x.first = ⟨c.first.j, c.first.i⟩ := by
  intro fuel
  induction fuel with
  | zero => intro es n0 _ h; omega
  | succ fuel ih =>
    intro es n0 hs hfuel
    cases hflag : (sparse_matrix.mirror_scan lt es es.reverse).2 with
    | true =>
      obtain ⟨h1, h2, h3, h4⟩ := sparse_matrix.mirror_scan_adds_one hlt es hs hflag
      obtain ⟨R, n, e1, e2, e3, e4, e5⟩ := ih _ (n0 + 1) h2 (by omega)
      refine ⟨R, n + 1, ?_, ?_, by omega, by omega, ?_⟩
      · simp only [sparse_matrix.mirror_loop_nmodif, hflag, if_true]
        rw [e1]
        congr 2
        omega
      · simp only [sparse_matrix.mirror_loop, hflag, if_true]
        exact e2
      · intro x hx
        obtain ⟨c, hc, hxc⟩ := e5 x hx
        rcases h4 c hc with hce | ⟨d, hd, hcd⟩
        · exact ⟨c, hce, hxc⟩
        · refine ⟨d, hd, ?_⟩
          rcases hxc with hxc | hxc
          · exact Or.inr (by rw [hxc, hcd])
          · exact Or.inl (by rw [hxc, hcd])
    | false =>
      obtain ⟨h1, _⟩ := sparse_matrix.mirror_scan_false lt es.reverse es hflag
      refine ⟨es, 0, ?_, ?_, by omega, by omega, ?_⟩
      · simp [sparse_matrix.mirror_loop_nmodif, hflag, h1]
      · simp [sparse_matrix.mirror_loop, hflag, h1]
      · intro x hx
        exact ⟨x, hx, Or.inl rfl⟩

/-- C38 (termination of the symmetry loop): `es` is the entry set when the loop
`for (bool modif=true; modif;)` starts (any set ordered by its comparator).  A
pass that restarts the loop adds exactly one entry and lowers the number of
entries whose mirrored coordinate is missing.  The loop ends with a set `R`
after `nmodif` restarts for every bound on the number of passes above the
number of missing mirrors at the start; `nmodif` is at most that number, `R`
has `nmodif` entries more than `es`, at most twice as many as `es`, and every
coordinate of `R` is a coordinate of `es` or the mirror of one.  In
particular the augmentation `preserve_symmetry` of a set read from a file
returns. -/
theorem sparse_mirror_loop_terminates {T : Type} [Zero T]
    {lt : coord_t T → coord_t T → Bool} (hlt : coord_order lt) (es : List (coord_t T))
    (hs : set_sorted lt es) :
    ((sparse_matrix.mirror_scan lt es es.reverse).2 = true →
      (sparse_matrix.mirror_scan lt es es.reverse).1.length = es.length + 1 ∧
      sparse_matrix.missing_mirrors (sparse_matrix.mirror_scan lt es es.reverse).1
        < sparse_matrix.missing_mirrors es) ∧
    (∃ R nmodif,
      (∀ fuel, sparse_matrix.missing_mirrors es < fuel →
        sparse_matrix.mirror_loop_nmodif lt fuel es 0 = some (R, nmodif) ∧
        sparse_matrix.mirror_loop lt fuel es = some R) ∧
      nmodif ≤ sparse_matrix.missing_mirrors es ∧ R.length = es.length + nmodif ∧
      R.length ≤ 2 * es.length ∧
      ∀ x ∈ R, ∃ c ∈ es, x.first = c.first ∨ x.first = ⟨c.first.j, c.first.i⟩) ∧
    ∀ BASE rows : Nat, ∃ R, sparse_matrix.preserve_symmetry lt BASE rows es = some R := by
  refine ⟨?_, ?_, ?_⟩
  · intro h
    obtain ⟨h1, _, h3, _⟩ := sparse_matrix.mirror_scan_adds_one hlt es hs h
    exact ⟨h1, h3⟩
  · obtain ⟨R, n, e1, e2, e3, e4, e5⟩ := sparse_matrix.mirror_loop_nmodif_spec hlt
      (sparse_matrix.missing_mirrors es + 1) es 0 hs (by omega)
    have hmiss : sparse_matrix.missing_mirrors es ≤ es.length := by
      unfold sparse_matrix.missing_mirrors
      exact List.countP_le_length _
    refine ⟨R, n, ?_, e3, e4, by omega, e5⟩
    intro fuel hfuel
    obtain ⟨R1, n1, f1, f2, _, _, _⟩ := sparse_matrix.mirror_loop_nmodif_spec hlt fuel es 0 hs
      hfuel
    have hmono : ∀ (k fuel0 : Nat) (es0 : List (coord_t T)) (n0 : Nat)
        (r : List (coord_t T) × Nat),
        sparse_matrix.mirror_loop_nmodif lt fuel0 es0 n0 = some r →
        sparse_matrix.mirror_loop_nmodif lt (fuel0 + k) es0 n0 = some r := by
      intro k fuel0
      induction fuel0 with
      | zero => intro es0 n0 r h; simp [sparse_matrix.mirror_loop_nmodif] at h
      | succ fuel0 ih =>
        intro es0 n0 r h
        have e : fuel0 + 1 + k = (fuel0 + k) + 1 := by omega
        rw [e]
        simp only [sparse_matrix.mirror_loop_nmodif] at h ⊢
        split
        · rename_i hc
          rw [if_pos hc] at h
          exact ih _ _ _ h
        · rename_i hc
          rw [if_neg hc] at h
          exact h
    have hk : fuel = (sparse_matrix.missing_mirrors es + 1)
        + (fuel - (sparse_matrix.missing_mirrors es + 1)) := by omega
    have h2 := hmono (fuel - (sparse_matrix.missing_mirrors es + 1)) _ es 0 _ e1
    rw [← hk, f1] at h2
    simp only [Nat.zero_add, Option.some.injEq, Prod.mk.injEq] at h2
    rw [f1, f2, h2.1, h2.2]
    simp
  · intro BASE rows
    have hd := sparse_matrix.insert_diagonal_sorted hlt BASE rows 0 es hs
    obtain ⟨R, n, _, e2, _⟩ := sparse_matrix.mirror_loop_nmodif_spec hlt
      (sparse_matrix.missing_mirrors (sparse_matrix.insert_diagonal lt BASE rows 0 es) + 1)
      (sparse_matrix.insert_diagonal lt BASE rows 0 es) 0 hd (by omega)
    exact ⟨R, e2⟩

/-- Witness of C38: from the set `{(0,1,5), (0,2,6)}` the loop restarts twice and
ends with four entries. -/
theorem sparse_mirror_loop_terminates_witness :
    set_sorted sort_by_row_t.lt ([⟨⟨0, 1⟩, 5⟩, ⟨⟨0, 2⟩, 6⟩] : List (coord_t Int)) ∧
    sparse_matrix.missing_mirrors ([⟨⟨0, 1⟩, 5⟩, ⟨⟨0, 2⟩, 6⟩] : List (coord_t Int)) = 2 ∧
    sparse_matrix.mirror_loop_nmodif sort_by_row_t.lt 3
        ([⟨⟨0, 1⟩, 5⟩, ⟨⟨0, 2⟩, 6⟩] : List (coord_t Int)) 0
      = some ([⟨⟨0, 1⟩, 5⟩, ⟨⟨0, 2⟩, 6⟩, ⟨⟨1, 0⟩, 0⟩, ⟨⟨2, 0⟩, 0⟩], 2) ∧
    ∃ R nmodif,
      (∀ fuel,
        sparse_matrix.missing_mirrors ([⟨⟨0, 1⟩, 5⟩, ⟨⟨0, 2⟩, 6⟩] : List (coord_t Int)) < fuel →
        sparse_matrix.mirror_loop_nmodif sort_by_row_t.lt fuel
            ([⟨⟨0, 1⟩, 5⟩, ⟨⟨0, 2⟩, 6⟩] : List (coord_t Int)) 0 = some (R, nmodif) ∧
        sparse_matrix.mirror_loop sort_by_row_t.lt fuel
            ([⟨⟨0, 1⟩, 5⟩, ⟨⟨0, 2⟩, 6⟩] : List (coord_t Int)) = some R) ∧
      nmodif ≤ sparse_matrix.missing_mirrors ([⟨⟨0, 1⟩, 5⟩, ⟨⟨0, 2⟩, 6⟩] : List (coord_t Int)) :=
  have hs : set_sorted sort_by_row_t.lt ([⟨⟨0, 1⟩, 5⟩, ⟨⟨0, 2⟩, 6⟩] : List (coord_t Int)) := by
    unfold set_sorted; decide
  ⟨hs, by decide, by decide,
    match (sparse_mirror_loop_terminates (sort_by_row_t.coord_order_row Int) _ hs).2.1 with
    | ⟨R, n, h1, h2, _⟩ => ⟨R, n, h1, h2⟩⟩

/-! ### The arrays produced by `sort_by_column_t::compress` -/

theorem sort_by_column_t.compress_inner_eq_column {T : Type} (c : Nat) (it : List (coord_t T))
    (ia : List Int) (a : List T) (count : Nat) :
    sort_by_column_t.compress_inner c it ia a count =
      (it.dropWhile (fun e => decide (c = e.first.j)),
       ia ++ (it.takeWhile (fun e => decide (c = e.first.j))).map (fun e => Int.ofNat e.first.i),
       a ++ (it.takeWhile (fun e => decide (c = e.first.j))).map (fun e => e.second),
       count + (it.takeWhile (fun e => decide (c = e.first.j))).length) := by
  induction it generalizing ia a count with
  | nil => simp [sort_by_column_t.compress_inner]
  | cons e it ih =>
    by_cases h : c = e.first.j
    · subst h
      simp [sort_by_column_t.compress_inner, ih, List.takeWhile_cons, List.dropWhile_cons]
      omega
    · simp [sort_by_column_t.compress_inner, h, List.takeWhile_cons, List.dropWhile_cons]

theorem sort_by_column_t.dropWhile_columns {T : Type} (c : Nat) (it : List (coord_t T))
    (hsorted : set_sorted sort_by_column_t.lt it)
    (hge : ∀ e ∈ it, c ≤ e.first.j) :
    ∀ e ∈ it.dropWhile (fun e => decide (c = e.first.j)), c + 1 ≤ e.first.j := by
  induction it with
  | nil => simp
  | cons e it ih =>
    have htail := ih (List.Pairwise.of_cons hsorted)
      (fun x hx => hge x (List.mem_cons_of_mem _ hx))
    by_cases h : c = e.first.j
    · simpa [List.dropWhile_cons, h] using htail
    · have he := hge e (List.mem_cons_self _ _)
      intro x hx
      simp only [List.dropWhile_cons, h, decide_False] at hx
      rcases List.mem_cons.mp hx with hxe | hxt
      · subst hxe; omega
      · have := sort_by_column_t.lt_col_le _ _ ((List.pairwise_cons.mp hsorted).1 x hxt)
        omega

theorem sort_by_column_t.takeWhile_columns {T : Type} (c : Nat) (it : List (coord_t T)) :
    ∀ e ∈ it.takeWhile (fun e => decide (c = e.first.j)), e.first.j = c := by
  intro e he
  have := List.mem_takeWhile_imp he
  simpa [eq_comm] using this

theorem sort_by_column_t.columns_between {T : Type} (e l : coord_t T) (es : List (coord_t T))
    (hsorted : set_sorted sort_by_column_t.lt (e :: es))
    (hl : (e :: es).getLast? = some l) :
    ∀ x ∈ e :: es, e.first.j ≤ x.first.j ∧ x.first.j ≤ l.first.j := by
  intro x hx
  constructor
  · rcases List.mem_cons.mp hx with h | h
    · rw [h]
    · exact sort_by_column_t.lt_col_le _ _ ((List.pairwise_cons.mp hsorted).1 x h)
  · obtain ⟨ys, hys⟩ := List.getLast?_eq_some_iff.mp hl
    rw [hys] at hx hsorted
    rcases List.mem_append.mp hx with h | h
    · exact sort_by_column_t.lt_col_le _ _
        ((List.pairwise_append.mp hsorted).2.2 x h l (List.mem_singleton_self _))
    · rw [List.mem_singleton.mp h]

/-- Closed form of the outer loop of `sort_by_column_t::compress` resumed at column
`c` on the entries `it` of columns `c .. c+n-1`: one offset is appended to `_ja`
for each column, the running count of the entries before the next column, and
the rows and values of `it` are appended to `_ia` and `_a` in order. -/
theorem sort_by_column_t.compress_outer_closed_column {T : Type} (n : Nat) :
    ∀ (c : Nat) (it : List (coord_t T)) (ia ja : List Int) (a : List T),
      set_sorted sort_by_column_t.lt it →
      (∀ e ∈ it, c ≤ e.first.j ∧ e.first.j < c + n) →
      sort_by_column_t.compress_outer n c it ia ja a =
        (ia ++ it.map (fun e => Int.ofNat e.first.i),
         ja ++ (List.range n).map (fun t => ja.getLastD 0 +
            ((it.countP (fun e => decide (e.first.j < c + t + 1)) : Nat) : Int)),
         a ++ it.map (fun e => e.second)) := by
  induction n with
  | zero =>
    intro c it ia ja a _ hrange
    have : it = [] := by
      cases it with
      | nil => rfl
      | cons e it => have := hrange e (List.mem_cons_self _ _); omega
    simp [this, sort_by_column_t.compress_outer]
  | succ n ih =>
    intro c it ia ja a hsorted hrange
    have hsplit : it.takeWhile (fun e => decide (c = e.first.j)) ++
        it.dropWhile (fun e => decide (c = e.first.j)) = it := List.takeWhile_append_dropWhile _ _
    generalize hB : it.takeWhile (fun e => decide (c = e.first.j)) = B at hsplit
    generalize hD : it.dropWhile (fun e => decide (c = e.first.j)) = D at hsplit
    have hBcol : ∀ e ∈ B, e.first.j = c := by
      rw [← hB]; exact sort_by_column_t.takeWhile_columns c it
    have hDcol : ∀ e ∈ D, c + 1 ≤ e.first.j := by
      rw [← hD]
      exact sort_by_column_t.dropWhile_columns c it hsorted (fun e he => (hrange e he).1)
    have hDsorted : set_sorted sort_by_column_t.lt D := by
      have h := hsorted
      rw [← hsplit] at h
      exact (List.pairwise_append.mp h).2.1
    have hrec := ih (c + 1) D (ia ++ B.map (fun e => Int.ofNat e.first.i))
      (ja ++ [ja.getLastD 0 + Int.ofNat (0 + B.length)]) (a ++ B.map (fun e => e.second))
      hDsorted
      (fun e he => by
        have h1 := hDcol e he
        have h2 := (hrange e (by rw [← hsplit]; exact List.mem_append_right _ he)).2
        omega)
    simp only [sort_by_column_t.compress_outer, sort_by_column_t.compress_inner_eq_column, hB,
      hD, hrec]
    have hcountB : ∀ t : Nat, B.countP (fun e => decide (e.first.j < c + t + 1)) = B.length := by
      intro t
      apply List.countP_eq_length.mpr
      intro e he
      have := hBcol e he
      simp only [decide_eq_true_eq]
      omega
    have hcountD0 : D.countP (fun e => decide (e.first.j < c + 0 + 1)) = 0 := by
      apply List.countP_eq_zero.mpr
      intro e he
      have := hDcol e he
      simp only [decide_eq_true_eq]
      omega
    have hlast : (ja ++ [ja.getLastD 0 + Int.ofNat (0 + B.length)]).getLastD 0
        = ja.getLastD 0 + Int.ofNat (0 + B.length) := by
      simp
    rw [hlast, List.range_succ_eq_map, ← hsplit]
    simp only [List.map_cons, List.map_map, List.map_append, List.append_assoc,
      List.singleton_append, List.countP_append, hcountB, hcountD0, Nat.zero_add,
      Nat.add_zero, Int.ofNat_eq_coe]
    refine Prod.ext rfl (Prod.ext ?_ rfl)
    simp only
    congr 2
    apply List.map_congr_left
    intro t _
    simp only [Function.comp, Nat.succ_eq_add_one]
    have hr : c + 1 + t + 1 = c + (t + 1) + 1 := by omega
    rw [hr]
    push_cast
    ring

theorem sort_by_column_t.compress_closed_column {T : Type} (e l : coord_t T)
    (es : List (coord_t T)) (hs : set_sorted sort_by_column_t.lt (e :: es))
    (hl : (e :: es).getLast? = some l) :
    sort_by_column_t.compress (e :: es) = some
      ⟨(e :: es).map (fun x => Int.ofNat x.first.i),
        (e.first.j : Int) :: (List.range (l.first.j + 1 - e.first.j)).map (fun t =>
          (e.first.j : Int) +
            (((e :: es).countP (fun x => decide (x.first.j < e.first.j + t + 1)) : Nat) : Int)),
        (e :: es).map (fun x => x.second),
        ((l.first.j + 1 - e.first.j : Nat) : Int), Int.ofNat (e :: es).length⟩ := by
  have hcols := sort_by_column_t.columns_between e l es hs hl
  have hclosed := sort_by_column_t.compress_outer_closed_column (l.first.j + 1 - e.first.j)
    e.first.j (e :: es) [] [Int.ofNat e.first.j] [] hs
    (fun x hx => by have := hcols x hx; omega)
  simp only [sort_by_column_t.compress, hl, hclosed]
  simp only [List.getLastD_eq_getLast?, List.getLast?_singleton, Option.getD_some,
    List.singleton_append, List.nil_append, List.length_cons, List.length_map,
    List.length_range, Int.ofNat_eq_coe]
  congr 2
  push_cast
  ring

theorem countP_column_succ {T : Type} (S : List (coord_t T)) (r : Nat) :
    S.countP (fun x => decide (x.first.j < r + 1)) =
      S.countP (fun x => decide (x.first.j < r)) + S.countP (fun x => decide (x.first.j = r)) := by
  induction S with
  | nil => simp
  | cons x xs ih =>
    simp only [List.countP_cons, ih, decide_eq_true_eq]
    split_ifs <;> omega

theorem diagonal_count_le {T : Type} (BASE rows : Nat) (R : List (coord_t T))
    (hdiag : ∀ k, k < rows → ∃ x ∈ R, x.first = ⟨k + BASE, k + BASE⟩) :
    rows ≤ R.length := by
  have hk : ∀ k, k ≤ rows → k ≤ R.countP (fun x => decide (x.first.j < BASE + k)) := by
    intro k
    induction k with
    | zero => intro _; omega
    | succ k ih =>
      intro hk
      have h1 := ih (by omega)
      obtain ⟨x, hx, hxeq⟩ := hdiag k (by omega)
      have hpos : 0 < R.countP (fun x => decide (x.first.j = BASE + k)) :=
        List.countP_pos_iff.mpr ⟨x, hx, by rw [hxeq]; simp; omega⟩
      have := countP_column_succ R (BASE + k)
      rw [Nat.add_assoc] at this
      omega
  exact le_trans (hk rows (le_refl _)) (List.countP_le_length _)

theorem sort_by_column_t.closed_offsets_last_column {T : Type} (S : List (coord_t T))
    (f n : Nat) (hl : ∀ x ∈ S, x.first.j < f + n) (hn : 0 < n) :
    ((f : Int) :: (List.range n).map (fun t =>
        (f : Int) + ((S.countP (fun x => decide (x.first.j < f + t + 1)) : Nat) : Int))).getLast?
      = some ((f : Int) + (S.length : Int)) := by
  rw [List.getLast?_eq_getElem?]
  simp only [List.length_cons, List.length_map, List.length_range, Nat.add_sub_cancel]
  rw [cons_range_map_get _ _ n n (le_refl _)]
  have hne : n ≠ 0 := by omega
  simp only [hne, if_false]
  have e : f + (n - 1) + 1 = f + n := by omega
  rw [e]
  have hall : S.countP (fun x => decide (x.first.j < f + n)) = S.length := by
    apply List.countP_eq_length.mpr
    intro x hx
    have := hl x hx
    simp only [decide_eq_true_eq]
    omega
  rw [hall]

/-- The end of `sparse_matrix::initialize(const std::string&)` in the column
ordering for an extent that is not square: with more rows than columns (and a
column), or with fewer rows than columns and an entry whose column, counted
from `BASE`, is not below the number of rows, the final check throws. -/
theorem sparse_matrix.initialize_finish_nonsquare_column {T : Type} [Zero T] (BASE : Nat)
    (m : sparse_matrix T) (hs : set_sorted sort_by_column_t.lt m.entries) (hnnu : m.nnu = 0)
    (h : (m.m_size.j < m.m_size.i ∧ 1 ≤ m.m_size.j) ∨
      (m.m_size.i < m.m_size.j ∧ ∃ e ∈ m.entries, m.m_size.i + BASE ≤ e.first.j)) :
    ∃ m1, m.initialize_finish BASE (sort_by_column_t.SORT T)
      = .throws "sparse_matrix: after reading file, indexing not correct." m1 := by
  obtain ⟨R, hR, hRs, hsub, hdiag, hsym⟩ := sparse_matrix.preserve_symmetry_closed
    (sort_by_column_t.coord_order_column T) BASE m.m_size.i m.entries hs
  cases R with
  | nil =>
    rcases h with ⟨h1, h2⟩ | ⟨_, e, he, _⟩
    · obtain ⟨x, hx, _⟩ := hdiag 0 (by omega)
      exact absurd hx (List.not_mem_nil _)
    · exact absurd (hsub e he) (List.not_mem_nil _)
  | cons e es =>
    obtain ⟨l, hl⟩ : ∃ l, (e :: es).getLast? = some l :=
      ⟨(e :: es).getLast (by simp), List.getLast?_eq_getLast _ _⟩
    have hcols := sort_by_column_t.columns_between e l es hRs hl
    have hel : e.first.j ≤ l.first.j := (hcols e (List.mem_cons_self _ _)).2
    have hc := sort_by_column_t.compress_closed_column e l es hRs hl
    obtain ⟨mx, hmx, _, hmxle⟩ := vec_max_element_spec
      ((e.first.j : Int) :: (List.range (l.first.j + 1 - e.first.j)).map (fun t =>
          (e.first.j : Int) +
            (((e :: es).countP (fun x => decide (x.first.j < e.first.j + t + 1)) : Nat) : Int)))
      (by simp)
    have hlast := sort_by_column_t.closed_offsets_last_column (e :: es) e.first.j
      (l.first.j + 1 - e.first.j) (fun x hx => by have := (hcols x hx).2; omega) (by omega)
    have hmxlast : (e.first.j : Int) + ((e :: es).length : Int) ≤ mx :=
      hmxle _ (List.mem_of_getLast?_eq_some hlast)
    have hfin : m.initialize_finish BASE (sort_by_column_t.SORT T) =
        if m.m_size.i ≠ size_t_of_int ((l.first.j + 1 - e.first.j : Nat) : Int) then
          .throws "sparse_matrix: after reading file, indexing not correct."
            ⟨m.m_zero, m.m_size, m.m_print, [], (e :: es).map (fun x => x.second),
              (e :: es).map (fun x => Int.ofNat x.first.i),
              (e.first.j : Int) :: (List.range (l.first.j + 1 - e.first.j)).map (fun t =>
                (e.first.j : Int) + (((e :: es).countP
                  (fun x => decide (x.first.j < e.first.j + t + 1)) : Nat) : Int)),
              ((l.first.j + 1 - e.first.j : Nat) : Int), Int.ofNat (e :: es).length⟩
        else if m.m_size.j ≤ size_t_of_int (mx - Int.ofNat BASE) then
          .throws "sparse_matrix: after reading file, indexing not correct."
            ⟨m.m_zero, m.m_size, m.m_print, [], (e :: es).map (fun x => x.second),
              (e :: es).map (fun x => Int.ofNat x.first.i),
              (e.first.j : Int) :: (List.range (l.first.j + 1 - e.first.j)).map (fun t =>
                (e.first.j : Int) + (((e :: es).countP
                  (fun x => decide (x.first.j < e.first.j + t + 1)) : Nat) : Int)),
              ((l.first.j + 1 - e.first.j : Nat) : Int), Int.ofNat (e :: es).length⟩
        else .returns
            ⟨m.m_zero, m.m_size, m.m_print, [], (e :: es).map (fun x => x.second),
              (e :: es).map (fun x => Int.ofNat x.first.i),
              (e.first.j : Int) :: (List.range (l.first.j + 1 - e.first.j)).map (fun t =>
                (e.first.j : Int) + (((e :: es).countP
                  (fun x => decide (x.first.j < e.first.j + t + 1)) : Nat) : Int)),
              ((l.first.j + 1 - e.first.j : Nat) : Int), Int.ofNat (e :: es).length⟩ := by
      simp only [sparse_matrix.initialize_finish, sort_by_column_t.SORT, hR,
        sparse_matrix.compress, sparse_matrix.is_compressed, hnnu, hc, hmx]
      simp [hmx]
    rw [hfin]
    rw [size_t_of_int_natCast]
    by_cases h1 : m.m_size.i ≠ l.first.j + 1 - e.first.j
    · rw [if_pos h1]
      exact ⟨_, rfl⟩
    · rw [if_neg h1]
      have h1e : m.m_size.i = l.first.j + 1 - e.first.j := not_not.mp h1
      have h2 : m.m_size.j ≤ size_t_of_int (mx - Int.ofNat BASE) := by
        rcases h with ⟨ha, hb⟩ | ⟨ha, e0, he0, hb⟩
        · obtain ⟨x0, hx0, hx0eq⟩ := hdiag 0 (by omega)
          obtain ⟨x1, hx1, hx1eq⟩ := hdiag (m.m_size.i - 1) (by omega)
          have g0 := (hcols x0 hx0).1
          have g1 := (hcols x1 hx1).2
          rw [hx0eq] at g0
          rw [hx1eq] at g1
          simp only at g0 g1
          have hlen := diagonal_count_le BASE m.m_size.i (e :: es) hdiag
          simp only [Int.ofNat_eq_coe]
          rw [size_t_of_int_nonneg _ (by omega)]
          omega
        · exfalso
          have g1 := (hcols e0 (hsub e0 he0)).2
          by_cases hr0 : m.m_size.i = 0
          · omega
          · obtain ⟨x0, hx0, hx0eq⟩ := hdiag 0 (by omega)
            have g0 := (hcols x0 hx0).1
            rw [hx0eq] at g0
            simp only at g0
            omega
      rw [if_pos h2]
      exact ⟨_, rfl⟩

/-! ### Files of a matrix that is not square -/

theorem for_loop_preserves {σ : Type} (P : σ → Prop) (body : Nat → σ → Option σ)
    (hbody : ∀ i s s1, P s → body i s = some s1 → P s1) :
    ∀ (n start : Nat) (s s1 : σ), P s → for_loop body n start s = some s1 → P s1 := by
  intro n
  induction n with
  | zero =>
    intro start s s1 hP h
    simp only [for_loop, Option.some.injEq] at h
    rw [← h]
    exact hP
  | succ n ih =>
    intro start s s1 hP h
    simp only [for_loop, Option.bind_eq_bind] at h
    obtain ⟨t, ht, h2⟩ := Option.bind_eq_some.mp h
    exact ih (start + 1) t s1 (hbody start s t hP ht) h2

theorem sparse_read_mtx_lines_sorted {T : Type} (lt : coord_t T → coord_t T → Bool)
    (htrans : ∀ a b c : coord_t T, lt a b = true → lt b c = true → lt a c = true)
    (BASE : Nat) (t : MatrixMarket.typecode_t) (size : idx_t) :
    ∀ (ls : List (line_t T)) (p : coord_t T) (es : List (coord_t T)), set_sorted lt es →
      set_sorted lt (sparse_read_mtx_lines lt BASE t size ls (p, es)).2 := by
  intro ls
  induction ls with
  | nil => intro p es h; exact h
  | cons l ls ih =>
    intro p es h
    simp only [sparse_read_mtx_lines]
    split
    · exact ih _ _ h
    · split
      · exact ih _ _ (set_insert_sorted lt htrans _ es h)
      · exact ih _ _ (set_insert_sorted lt htrans _ es h)

theorem sparse_read_csr_row_sorted {T : Type} (lt : coord_t T → coord_t T → Bool)
    (htrans : ∀ a b c : coord_t T, lt a b = true → lt b c = true → lt a c = true)
    (BASE : Nat) (ja : List Int) (i : Nat) :
    ∀ (n : Nat) (j : Int) (s s1 : ifstream T × List (coord_t T)), set_sorted lt s.2 →
      sparse_read_csr_row lt BASE ja i n j s = some s1 → set_sorted lt s1.2 := by
  intro n
  induction n with
  | zero =>
    intro j s s1 hs h
    simp only [sparse_read_csr_row, Option.some.injEq] at h
    rw [← h]
    exact hs
  | succ n ih =>
    intro j s s1 hs h
    obtain ⟨f, es⟩ := s
    simp only [sparse_read_csr_row] at h
    split at h
    · simp only [Option.some.injEq] at h
      rw [← h]
      exact hs
    · simp only [Option.bind_eq_bind] at h
      obtain ⟨c, _, h2⟩ := Option.bind_eq_some.mp h
      exact ih _ _ _ (set_insert_sorted lt htrans _ es hs) h2

theorem sparse_read_csr_sorted {T : Type} (lt : coord_t T → coord_t T → Bool)
    (htrans : ∀ a b c : coord_t T, lt a b = true → lt b c = true → lt a c = true)
    (BASE : Nat) (ls : List (line_t T)) (size : idx_t) (r : idx_t × List (coord_t T))
    (h : sparse_read_csr lt BASE ls size = some r) : set_sorted lt r.2 := by
  unfold sparse_read_csr at h
  simp only [Option.bind_eq_bind] at h
  obtain ⟨s, _, h⟩ := Option.bind_eq_some.mp h
  obtain ⟨front, _, h⟩ := Option.bind_eq_some.mp h
  obtain ⟨back, _, h⟩ := Option.bind_eq_some.mp h
  split at h
  · exact absurd h (by simp)
  · obtain ⟨r1, hloop, h⟩ := Option.bind_eq_some.mp h
    simp only [pure, Option.some.injEq] at h
    rw [← h]
    refine for_loop_preserves (fun (t : ifstream T × List (coord_t T)) => set_sorted lt t.2) _
      ?_ _ _ _ _ (by simp [set_sorted]) hloop
    intro i t t1 ht hb
    obtain ⟨lo, _, hb⟩ := Option.bind_eq_some.mp hb
    obtain ⟨hi, _, hb⟩ := Option.bind_eq_some.mp hb
    exact sparse_read_csr_row_sorted lt htrans BASE _ i _ _ t t1 ht hb

/-- The end of `sparse_matrix::initialize(const std::string&)` in the row ordering
for an extent that is not square: with more rows than columns (and a column),
or with fewer rows than columns and an entry whose column, counted from
`BASE`, is not below the number of rows, the final check throws. -/
theorem sparse_matrix.initialize_finish_nonsquare {T : Type} [Zero T] (BASE : Nat)
    (m : sparse_matrix T) (hs : set_sorted sort_by_row_t.lt m.entries) (hnnu : m.nnu = 0)
    (h : (m.m_size.j < m.m_size.i ∧ 1 ≤ m.m_size.j) ∨
      (m.m_size.i < m.m_size.j ∧ ∃ e ∈ m.entries, m.m_size.i + BASE ≤ e.first.j)) :
    ∃ m1, m.initialize_finish BASE (sort_by_row_t.SORT T)
      = .throws "sparse_matrix: after reading file, indexing not correct." m1 := by
  obtain ⟨R, hR, hRs, hsub, hdiag, hsym⟩ := sparse_matrix.preserve_symmetry_closed
    (sort_by_row_t.coord_order_row T) BASE m.m_size.i m.entries hs
  cases R with
  | nil =>
    rcases h with ⟨h1, h2⟩ | ⟨_, e, he, _⟩
    · obtain ⟨x, hx, _⟩ := hdiag 0 (by omega)
      exact absurd hx (List.not_mem_nil _)
    · exact absurd (hsub e he) (List.not_mem_nil _)
  | cons e es =>
    obtain ⟨l, hl⟩ : ∃ l, (e :: es).getLast? = some l :=
      ⟨(e :: es).getLast (by simp), List.getLast?_eq_getLast _ _⟩
    obtain ⟨c, mx, hc, hmx, hpos, hiff⟩ := sort_by_row_t.compress_checks BASE m.m_size.i
      m.m_size.j e l es hRs hl hdiag hsym
    have hfin : m.initialize_finish BASE (sort_by_row_t.SORT T) =
        if m.m_size.i ≠ size_t_of_int c.nnu then
          .throws "sparse_matrix: after reading file, indexing not correct."
            ⟨m.m_zero, m.m_size, m.m_print, [], c.a, c.ia, c.ja, c.nnu, c.nnz⟩
        else if m.m_size.j ≤ size_t_of_int (mx - Int.ofNat BASE) then
          .throws "sparse_matrix: after reading file, indexing not correct."
            ⟨m.m_zero, m.m_size, m.m_print, [], c.a, c.ia, c.ja, c.nnu, c.nnz⟩
        else .returns ⟨m.m_zero, m.m_size, m.m_print, [], c.a, c.ia, c.ja, c.nnu, c.nnz⟩ := by
      simp only [sparse_matrix.initialize_finish, sort_by_row_t.SORT, hR, sparse_matrix.compress,
        sparse_matrix.is_compressed, hnnu, hc, hmx]
      simp [hmx]
    have hrows := sort_by_row_t.rows_between e l es hRs hl
    have hclosed := sort_by_row_t.compress_closed e l es hRs hl
    rw [hc] at hclosed
    have hceq := Option.some.inj hclosed
    have hnot : ¬ compressed_well_formed BASE m.m_size.i m.m_size.j c.ia c.ja c.a := by
      rintro ⟨hlen, h0, _, _, _, hcols⟩
      rw [hceq] at hlen h0 hcols
      simp only at hlen h0 hcols
      rcases h with ⟨h1, h2⟩ | ⟨h1, e0, he0, h2⟩
      · obtain ⟨x, hx, hxeq⟩ := hdiag (m.m_size.i - 1) (by omega)
        have := hcols (Int.ofNat x.first.j) (List.mem_map.mpr ⟨x, hx, rfl⟩)
        rw [hxeq] at this
        simp only [Int.ofNat_eq_coe] at this
        omega
      · obtain ⟨y, hy, hyeq⟩ := hsym e0 (hsub e0 he0)
        have hyl := (hrows y hy).2
        rw [hyeq] at hyl
        simp only at hyl
        have hel := (hrows e (List.mem_cons_self _ _)).2
        simp only [List.length_cons, List.length_map, List.length_range] at hlen
        simp only [List.getElem?_cons_zero, Option.some.injEq, Int.ofNat_eq_coe] at h0
        omega
    have hne : ¬ (m.m_size.i = size_t_of_int c.nnu ∧
        ¬ m.m_size.j ≤ size_t_of_int (mx - Int.ofNat BASE)) := fun hh => hnot (hiff.mpr hh)
    rw [hfin]
    by_cases h1 : m.m_size.i ≠ size_t_of_int c.nnu
    · rw [if_pos h1]
      exact ⟨_, rfl⟩
    · rw [if_neg h1]
      by_cases h2 : m.m_size.j ≤ size_t_of_int (mx - Int.ofNat BASE)
      · rw [if_pos h2]
        exact ⟨_, rfl⟩
      · exact absurd ⟨not_not.mp h1, h2⟩ hne

/-- C39 (files of a matrix that is not square): `sparse_matrix::initialize` in the
row or in the column ordering, for any `BASE`, on a file whose size line
declares `rows` and `cols`.  For a MatrixMarket file (name ending in `.mtx`,
banner and size line found, type real and general) and for a CSR file (name
ending in `.csr`, the entries `es` read): when `rows > cols >= 1` the call throws
"indexing not correct" whatever lines or entries follow the size line, and when
`rows < cols` it throws as soon as an entry read has a column, counted from
`BASE`, that is not below `rows`. -/
theorem sparse_initialize_path_nonsquare {T : Type} [Zero T] (BASE : Nat) (S : SORT T)
    (hS : S = sort_by_row_t.SORT T ∨ S = sort_by_column_t.SORT T)
    (MM : MatrixMarket.reader T) (invalid : idx_t)
    (files : List Char → Option (List (line_t T))) (m : sparse_matrix T)
    (_fname : List Char) (ls : List (line_t T)) (hfile : files _fname = some ls)
    (rows cols : Nat) :
    ((∃ stem, _fname = stem ++ ['.', 'm', 't', 'x']) →
      ∀ (t : MatrixMarket.typecode_t) (ls1 body : List (line_t T)) (nz : Int),
        MM.read_banner ls = (true, t, ls1) → t.is_real = true → t.is_general = true →
        MM.read_size ls1 invalid.i invalid.j 0 = (true, rows, cols, nz, body) →
        ((cols < rows ∧ 1 ≤ cols) ∨
          (rows < cols ∧
            ∃ e ∈ (sparse_read_mtx_lines S.lt BASE t ⟨rows, cols⟩ body
                (⟨⟨BASE, BASE⟩, 0⟩, [])).2, rows + BASE ≤ e.first.j)) →
        ∃ m1, m.initialize_path BASE S MM invalid files _fname
          = .throws "sparse_matrix: after reading file, indexing not correct." m1) ∧
    ((∃ stem, _fname = stem ++ ['.', 'c', 's', 'r']) →
      ∀ es : List (coord_t T),
        sparse_read_csr S.lt BASE ls invalid = some (⟨rows, cols⟩, es) →
        ((cols < rows ∧ 1 ≤ cols) ∨ (rows < cols ∧ ∃ e ∈ es, rows + BASE ≤ e.first.j)) →
        ∃ m1, m.initialize_path BASE S MM invalid files _fname
          = .throws "sparse_matrix: after reading file, indexing not correct." m1) := by
  have hfinish : ∀ m0 : sparse_matrix T, set_sorted S.lt m0.entries → m0.nnu = 0 →
      ((m0.m_size.j < m0.m_size.i ∧ 1 ≤ m0.m_size.j) ∨
        (m0.m_size.i < m0.m_size.j ∧ ∃ e ∈ m0.entries, m0.m_size.i + BASE ≤ e.first.j)) →
      ∃ m1, m0.initialize_finish BASE S
        = .throws "sparse_matrix: after reading file, indexing not correct." m1 := by
    rcases hS with hS | hS
    · rw [hS]
      exact fun m0 h1 h2 h3 => sparse_matrix.initialize_finish_nonsquare BASE m0 h1 h2 h3
    · rw [hS]
      exact fun m0 h1 h2 h3 => sparse_matrix.initialize_finish_nonsquare_column BASE m0 h1 h2 h3
  have htrans := (SORT.coord_order_of S hS).trans
  constructor
  · intro hext t ls1 body nz hb hreal hgen hsz hcase
    have he := (file_extension_is_iff _fname ['m', 't', 'x'] (by decide)).mpr hext
    have hrun : m.initialize_path BASE S MM invalid files _fname
        = sparse_matrix.initialize_finish BASE S
            ⟨m.m_zero, ⟨rows, cols⟩, m.m_print,
              (sparse_read_mtx_lines S.lt BASE t ⟨rows, cols⟩ body
                (⟨⟨BASE, BASE⟩, 0⟩, [])).2, [], [], [], 0, nz⟩ := by
      unfold sparse_matrix.initialize_path
      simp only [hfile, he, if_true, hb, hsz, Bool.not_true, Bool.false_eq_true, if_false,
        hreal, hgen, Bool.or_self]
      rfl
    rw [hrun]
    exact hfinish _
      (sparse_read_mtx_lines_sorted S.lt htrans BASE t ⟨rows, cols⟩ body _ []
        (by simp [set_sorted])) rfl hcase
  · intro hext es hread hcase
    obtain ⟨he1, he2⟩ := file_extension_csr_not_mtx _fname hext
    have hrun : m.initialize_path BASE S MM invalid files _fname
        = sparse_matrix.initialize_finish BASE S
            ⟨m.m_zero, ⟨rows, cols⟩, m.m_print, es, [], [], [], 0, 0⟩ := by
      unfold sparse_matrix.initialize_path
      simp only [hfile, he1, he2, if_true, Bool.false_eq_true, if_false]
      rw [hread]
      rfl
    rw [hrun]
    exact hfinish _ (sparse_read_csr_sorted S.lt htrans BASE ls invalid _ hread) rfl hcase

/-- Witness of C39: the MatrixMarket coordinate file `a.mtx` with the size line
`3 2 1` and the entry `1 2 5`, read with `BASE = 0` in the row ordering. -/
theorem sparse_initialize_path_nonsquare_witness :
    (sparse_matrix.construct 0 ⟨0, 0⟩ 0 0 : sparse_matrix Int).initialize_path 0
        (sort_by_row_t.SORT Int) (MatrixMarket.standard Int) ⟨0, 0⟩
        (example_files [.banner ⟨.coordinate, .real, .general⟩,
          .data [example_token 3, example_token 2, example_token 1],
          .data [example_token 1, example_token 2, example_token 5]])
        ['a', '.', 'm', 't', 'x']
      = .throws "sparse_matrix: after reading file, indexing not correct."
          ⟨0, ⟨3, 2⟩, .print_auto, [], [0, 5, 0, 0, 0], [0, 2, 4, 5], [0, 1, 0, 1, 2], 3, 5⟩ ∧
    ∃ m1, (sparse_matrix.construct 0 ⟨0, 0⟩ 0 0 : sparse_matrix Int).initialize_path 0
        (sort_by_row_t.SORT Int) (MatrixMarket.standard Int) ⟨0, 0⟩
        (example_files [.banner ⟨.coordinate, .real, .general⟩,
          .data [example_token 3, example_token 2, example_token 1],
          .data [example_token 1, example_token 2, example_token 5]])
        ['a', '.', 'm', 't', 'x']
      = .throws "sparse_matrix: after reading file, indexing not correct." m1 :=
  ⟨by decide,
   (sparse_initialize_path_nonsquare 0 (sort_by_row_t.SORT Int) (Or.inl rfl)
    (MatrixMarket.standard Int) ⟨0, 0⟩
    (example_files [.banner ⟨.coordinate, .real, .general⟩,
      .data [example_token 3, example_token 2, example_token 1],
      .data [example_token 1, example_token 2, example_token 5]])
    (sparse_matrix.construct 0 ⟨0, 0⟩ 0 0) ['a', '.', 'm', 't', 'x'] _ rfl 3 2).1 ⟨['a'], rfl⟩
    ⟨.coordinate, .real, .general⟩
    [.data [example_token 3, example_token 2, example_token 1],
      .data [example_token 1, example_token 2, example_token 5]]
    [.data [example_token 1, example_token 2, example_token 5]] 1 rfl rfl rfl rfl
    (Or.inl ⟨by decide, by decide⟩)⟩

/-! ### Cell reads of a row-ordered `sparse_matrix` before and after `compress` -/

theorem sort_by_row_t.row_slice_get {T : Type} (S : List (coord_t T))
    (hs : set_sorted sort_by_row_t.lt S) (r s : Nat)
    (hsl : s < S.countP (fun x => decide (x.first.i = r))) :
    ∃ x, S[S.countP (fun x => decide (x.first.i < r)) + s]? = some x ∧
      (S.filter (fun x => decide (x.first.i = r)))[s]? = some x ∧ x.first.i = r := by
  have hslice := sort_by_row_t.row_slice S hs r
  have hlen : (S.filter (fun x => decide (x.first.i = r))).length
      = S.countP (fun x => decide (x.first.i = r)) := (List.countP_eq_length_filter _ _).symm
  have hlt : s < (S.filter (fun x => decide (x.first.i = r))).length := by omega
  refine ⟨(S.filter (fun x => decide (x.first.i = r)))[s], ?_, List.getElem?_eq_getElem hlt, ?_⟩
  · have h1 : ((S.drop (S.countP (fun x => decide (x.first.i < r)))).take
        (S.countP (fun x => decide (x.first.i = r))))[s]?
        = (S.filter (fun x => decide (x.first.i = r)))[s]? := by rw [hslice]
    rw [List.getElem?_take_of_lt hsl, List.getElem?_drop, List.getElem?_eq_getElem hlt] at h1
    exact h1
  · have hmem := List.getElem_mem hlt
    have := (List.mem_filter.mp hmem).2
    simpa using this

/-- The value read by `operator()` in the compressed state built by
`sort_by_row_t::compress` from a set whose rows are those of the extent, every
row having an entry at least on the diagonal: it is the value of the entry at
the coordinate, or the sentinel when the set has no such entry. -/
theorem sparse_matrix.operator_get_after_compress {T : Type} [Zero T] (BASE : Nat)
    (m : sparse_matrix T) (rows : Nat) (hnnu : m.nnu = 0)
    (hs : set_sorted sort_by_row_t.lt m.entries)
    (hrow : ∀ x ∈ m.entries, BASE ≤ x.first.i ∧ x.first.i < BASE + rows)
    (hrowhas : ∀ k, k < rows → ∃ x ∈ m.entries, x.first.i = k + BASE)
    (i j : Nat) (hi : i < rows) :
    ∃ m1, m.compress (sort_by_row_t.SORT T) = some m1 ∧ m1.is_compressed = true ∧
      m1.m_size = m.m_size ∧ m1.m_zero = m.m_zero ∧
      (∀ e0 ∈ m.entries, e0.first = ⟨i + BASE, j + BASE⟩ →
        m1.operator_get BASE (sort_by_row_t.SORT T) i j = some e0.second) ∧
      ((∀ e0 ∈ m.entries, e0.first ≠ ⟨i + BASE, j + BASE⟩) →
        m1.operator_get BASE (sort_by_row_t.SORT T) i j = some m.m_zero) := by
  cases hent : m.entries with
  | nil =>
    obtain ⟨x, hx, _⟩ := hrowhas 0 (by omega)
    rw [hent] at hx
    exact absurd hx (List.not_mem_nil _)
  | cons e es =>
    rw [hent] at hs hrow hrowhas
    obtain ⟨l, hl⟩ : ∃ l, (e :: es).getLast? = some l :=
      ⟨(e :: es).getLast (by simp), List.getLast?_eq_getLast _ _⟩
    have hrows := sort_by_row_t.rows_between e l es hs hl
    have hclosed := sort_by_row_t.compress_closed e l es hs hl
    -- the first row is `BASE`, the last one `BASE + rows - 1`
    obtain ⟨x0, hx0, hx0eq⟩ := hrowhas 0 (by omega)
    obtain ⟨x1, hx1, hx1eq⟩ := hrowhas (rows - 1) (by omega)
    have hfB : e.first.i = BASE := by
      have h1 := (hrows x0 hx0).1
      have h2 := (hrow e (List.mem_cons_self _ _)).1
      omega
    have hlB : l.first.i + 1 - e.first.i = rows := by
      have h1 := (hrows x1 hx1).2
      have hlmem : l ∈ e :: es := List.mem_of_getLast?_eq_some hl
      have h2 := (hrow l hlmem).2
      omega
    rw [hfB] at hlB
    rw [hfB, hlB] at hclosed
    have hge : ∀ x ∈ e :: es, BASE ≤ x.first.i := fun x hx => (hrow x hx).1
    have hlo := sort_by_row_t.closed_offsets_get (e :: es) BASE rows i hge (by omega)
    have hhi := sort_by_row_t.closed_offsets_get (e :: es) BASE rows (i + 1) hge (by omega)
    have hsucc := countP_row_succ (e :: es) (BASE + i)
    refine ⟨⟨m.m_zero, m.m_size, m.m_print, [],
      (e :: es).map (fun x => x.second),
      (BASE : Int) :: (List.range rows).map (fun t => (BASE : Int) +
        (((e :: es).countP (fun x => decide (x.first.i < BASE + t + 1)) : Nat) : Int)),
      (e :: es).map (fun x => Int.ofNat x.first.j), ((rows : Nat) : Int),
      Int.ofNat (e :: es).length⟩, ?_, ?_, rfl, rfl, ?_, ?_⟩
    · simp only [sparse_matrix.compress, sparse_matrix.is_compressed, hnnu, sort_by_row_t.SORT,
        hent, hclosed]
      simp
    · simp only [sparse_matrix.is_compressed, decide_eq_true_eq]
      omega
    · intro e0 he0 he0eq
      have he0row : e0.first.i = BASE + i := by rw [he0eq]; simp only; omega
      have hmemf : e0 ∈ (e :: es).filter (fun x => decide (x.first.i = BASE + i)) :=
        List.mem_filter.mpr ⟨he0, by simpa using he0row⟩
      obtain ⟨t, ht⟩ := List.mem_iff_getElem?.mp hmemf
      have htlt : t < ((e :: es).filter (fun x => decide (x.first.i = BASE + i))).length := by
        by_contra hc
        rw [List.getElem?_eq_none (by omega)] at ht
        exact absurd ht (by simp)
      have hq : ((e :: es).filter (fun x => decide (x.first.i = BASE + i))).length
          = (e :: es).countP (fun x => decide (x.first.i = BASE + i)) :=
        (List.countP_eq_length_filter _ _).symm
      have hcolinc := sort_by_row_t.row_columns_increasing (e :: es) hs (BASE + i)
      obtain ⟨xt, hxt1, hxt2, _⟩ := sort_by_row_t.row_slice_get (e :: es) hs (BASE + i) t
        (by omega)
      rw [ht] at hxt2
      have hxte : xt = e0 := (Option.some.inj hxt2).symm
      subst hxte
      have hloop : sparse_matrix.getindex_loop ((e :: es).map (fun x => Int.ofNat x.first.j))
          BASE j ((e :: es).countP (fun x => decide (x.first.i = BASE + i)))
          (((e :: es).countP (fun x => decide (x.first.i < BASE + i)) : Nat) : Int)
          = some ((((e :: es).countP (fun x => decide (x.first.i < BASE + i)) : Nat) : Int)
              + (t : Int)) := by
        apply sparse_matrix.getindex_loop_found _ BASE j _ _ t (by omega)
        · intro s hslt
          obtain ⟨xs, hxs1, hxs2, _⟩ := sort_by_row_t.row_slice_get (e :: es) hs (BASE + i) s
            (by omega)
          refine ⟨Int.ofNat xs.first.j, ?_, ?_⟩
          · have hnn : ¬ ((((e :: es).countP (fun x => decide (x.first.i < BASE + i)) : Nat)
                : Int) + (s : Int) < 0) := by omega
            simp only [vec_at, hnn, if_false]
            have : ((((e :: es).countP (fun x => decide (x.first.i < BASE + i)) : Nat) : Int)
                + (s : Int)).toNat
                = (e :: es).countP (fun x => decide (x.first.i < BASE + i)) + s := by omega
            rw [this, List.getElem?_map, hxs1]
            rfl
          · have hpw := List.pairwise_iff_getElem.mp hcolinc s t
              (by simp only [List.length_map]; omega) (by simp only [List.length_map]; omega)
              hslt
            simp only [List.getElem_map] at hpw
            have hsltf : s < ((e :: es).filter
                (fun x => decide (x.first.i = BASE + i))).length := by omega
            have e1 : ((e :: es).filter (fun x => decide (x.first.i = BASE + i)))[s]
                = xs := by
              have := List.getElem?_eq_getElem hsltf
              rw [hxs2] at this
              exact (Option.some.inj this).symm
            have e2 : ((e :: es).filter (fun x => decide (x.first.i = BASE + i)))[t]
                = xt := by
              have := List.getElem?_eq_getElem htlt
              rw [ht] at this
              exact (Option.some.inj this).symm
            rw [e1, e2, he0eq] at hpw
            simp only [Int.ofNat_eq_coe] at hpw ⊢
            omega
        · refine ⟨Int.ofNat xt.first.j, ?_, ?_⟩
          · have hnn : ¬ ((((e :: es).countP (fun x => decide (x.first.i < BASE + i)) : Nat)
                : Int) + (t : Int) < 0) := by omega
            simp only [vec_at, hnn, if_false]
            have : ((((e :: es).countP (fun x => decide (x.first.i < BASE + i)) : Nat) : Int)
                + (t : Int)).toNat
                = (e :: es).countP (fun x => decide (x.first.i < BASE + i)) + t := by omega
            rw [this, List.getElem?_map, hxt1]
            rfl
          · rw [he0eq]
            simp only [Int.ofNat_eq_coe]
            omega
      have hidx : sparse_matrix.getindex BASE
          (⟨m.m_zero, m.m_size, m.m_print, [],
            (e :: es).map (fun x => x.second),
            (BASE : Int) :: (List.range rows).map (fun t => (BASE : Int) +
              (((e :: es).countP (fun x => decide (x.first.i < BASE + t + 1)) : Nat) : Int)),
            (e :: es).map (fun x => Int.ofNat x.first.j), ((rows : Nat) : Int),
            Int.ofNat (e :: es).length⟩ : sparse_matrix T) i j
          = some ((((e :: es).countP (fun x => decide (x.first.i < BASE + i)) : Nat) : Int)
              + (t : Int)) := by
        simp only [sparse_matrix.getindex, vec_get, hlo, hhi, Option.bind_eq_bind,
          Option.some_bind, Int.ofNat_eq_coe]
        have e1 : (((BASE : Int) + (((e :: es).countP
              (fun x => decide (x.first.i < BASE + (i + 1))) : Nat) : Int) - (BASE : Int))
            - ((BASE : Int) + (((e :: es).countP
              (fun x => decide (x.first.i < BASE + i)) : Nat) : Int) - (BASE : Int))).toNat
            = (e :: es).countP (fun x => decide (x.first.i = BASE + i)) := by
          have := hsucc
          rw [Nat.add_assoc] at this
          omega
        have e2 : (BASE : Int) + (((e :: es).countP
              (fun x => decide (x.first.i < BASE + i)) : Nat) : Int) - (BASE : Int)
            = (((e :: es).countP (fun x => decide (x.first.i < BASE + i)) : Nat) : Int) := by
          omega
        rw [e1, e2]
        exact hloop
      simp only [sparse_matrix.operator_get]
      rw [if_pos (by simp only [sparse_matrix.is_compressed, decide_eq_true_eq]; omega)]
      simp only [hidx, Option.bind_eq_bind, Option.some_bind]
      rw [if_neg (by omega)]
      have hnn : ¬ ((((e :: es).countP (fun x => decide (x.first.i < BASE + i)) : Nat)
          : Int) + (t : Int) < 0) := by omega
      simp only [vec_at, hnn, if_false]
      have : ((((e :: es).countP (fun x => decide (x.first.i < BASE + i)) : Nat) : Int)
          + (t : Int)).toNat
          = (e :: es).countP (fun x => decide (x.first.i < BASE + i)) + t := by omega
      rw [this, List.getElem?_map, hxt1]
      rfl
    · intro habs
      have hloop : sparse_matrix.getindex_loop ((e :: es).map (fun x => Int.ofNat x.first.j))
          BASE j ((e :: es).countP (fun x => decide (x.first.i = BASE + i)))
          (((e :: es).countP (fun x => decide (x.first.i < BASE + i)) : Nat) : Int)
          = some (-1) := by
        apply sparse_matrix.getindex_loop_absent
        intro s hslt
        obtain ⟨xs, hxs1, hxs2, hxs3⟩ := sort_by_row_t.row_slice_get (e :: es) hs (BASE + i) s
          hslt
        refine ⟨Int.ofNat xs.first.j, ?_, ?_⟩
        · have hnn : ¬ ((((e :: es).countP (fun x => decide (x.first.i < BASE + i)) : Nat)
              : Int) + (s : Int) < 0) := by omega
          simp only [vec_at, hnn, if_false]
          have : ((((e :: es).countP (fun x => decide (x.first.i < BASE + i)) : Nat) : Int)
              + (s : Int)).toNat
              = (e :: es).countP (fun x => decide (x.first.i < BASE + i)) + s := by omega
          rw [this, List.getElem?_map, hxs1]
          rfl
        · have hxmem : xs ∈ e :: es := List.mem_iff_getElem?.mpr ⟨_, hxs1⟩
          have hne := habs xs hxmem
          intro hc
          apply hne
          have : xs.first.j = j + BASE := by
            simp only [Int.ofNat_eq_coe] at hc
            omega
          cases hxf : xs.first with
          | mk a b =>
            rw [hxf] at hxs3 this
            simp only at hxs3 this
            rw [hxs3, this]
            congr 1
            omega
      have hidx : sparse_matrix.getindex BASE
          (⟨m.m_zero, m.m_size, m.m_print, [],
            (e :: es).map (fun x => x.second),
            (BASE : Int) :: (List.range rows).map (fun t => (BASE : Int) +
              (((e :: es).countP (fun x => decide (x.first.i < BASE + t + 1)) : Nat) : Int)),
            (e :: es).map (fun x => Int.ofNat x.first.j), ((rows : Nat) : Int),
            Int.ofNat (e :: es).length⟩ : sparse_matrix T) i j = some (-1) := by
        simp only [sparse_matrix.getindex, vec_get, hlo, hhi, Option.bind_eq_bind,
          Option.some_bind, Int.ofNat_eq_coe]
        have e1 : (((BASE : Int) + (((e :: es).countP
              (fun x => decide (x.first.i < BASE + (i + 1))) : Nat) : Int) - (BASE : Int))
            - ((BASE : Int) + (((e :: es).countP
              (fun x => decide (x.first.i < BASE + i)) : Nat) : Int) - (BASE : Int))).toNat
            = (e :: es).countP (fun x => decide (x.first.i = BASE + i)) := by
          have := hsucc
          rw [Nat.add_assoc] at this
          omega
        have e2 : (BASE : Int) + (((e :: es).countP
              (fun x => decide (x.first.i < BASE + i)) : Nat) : Int) - (BASE : Int)
            = (((e :: es).countP (fun x => decide (x.first.i < BASE + i)) : Nat) : Int) := by
          omega
        rw [e1, e2]
        exact hloop
      simp only [sparse_matrix.operator_get]
      rw [if_pos (by simp only [sparse_matrix.is_compressed, decide_eq_true_eq]; omega)]
      simp only [hidx, Option.bind_eq_bind, Option.some_bind]
      simp

/-- C36 (reads before and after `compress`, row ordering): for an uncompressed
`sparse_matrix` of extent `(rows, cols)` in the row ordering, numbered from any
`BASE` (0 and 1 included), whose entries (an ordered set) lie within the extent
and include the diagonal `(k,k)` of every row `k < rows`: `compress()` returns,
and for every `i < rows` and every `j` (those below `cols` included) the value
read at `(i,j)` in the compressed state is the value read at `(i,j)` before. -/
theorem sparse_row_compress_preserves_reads {T : Type} [Zero T] (BASE : Nat)
    (m : sparse_matrix T) (rows cols : Nat) (hsize : m.m_size = ⟨rows, cols⟩)
    (hnc : m.is_compressed = false) (hs : set_sorted sort_by_row_t.lt m.entries)
    (hin : ∀ x ∈ m.entries, BASE ≤ x.first.i ∧ x.first.i < BASE + rows ∧
      BASE ≤ x.first.j ∧ x.first.j < BASE + cols)
    (hdiag : ∀ k, k < rows → ∃ x ∈ m.entries, x.first = ⟨k + BASE, k + BASE⟩)
    (i j : Nat) (hi : i < rows) :
    ∃ m1 x, m.compress (sort_by_row_t.SORT T) = some m1 ∧ m1.is_compressed = true ∧
      m1.m_size = ⟨rows, cols⟩ ∧
      m.operator_get BASE (sort_by_row_t.SORT T) i j = some x ∧
      m1.operator_get BASE (sort_by_row_t.SORT T) i j = some x := by
  have hnnu : m.nnu = 0 := by
    simpa [sparse_matrix.is_compressed] using hnc
  obtain ⟨m1, h1, h2, h3, h4, h5, h6⟩ := sparse_matrix.operator_get_after_compress BASE m rows
    hnnu hs (fun x hx => ⟨(hin x hx).1, (hin x hx).2.1⟩)
    (fun k hk => by
      obtain ⟨x, hx, hxeq⟩ := hdiag k hk
      exact ⟨x, hx, by rw [hxeq]⟩) i j hi
  have hlt := sort_by_row_t.coord_order_row T
  have hS : (sort_by_row_t.SORT T).lt = sort_by_row_t.lt := rfl
  by_cases hex : ∃ e0 ∈ m.entries, e0.first = ⟨i + BASE, j + BASE⟩
  · obtain ⟨e0, he0, he0eq⟩ := hex
    refine ⟨m1, e0.second, h1, h2, h3.trans hsize, ?_, h5 e0 he0 he0eq⟩
    simp only [sparse_matrix.operator_get, hnc, Bool.false_eq_true, if_false, hS]
    rw [set_find_some hlt m.entries hs ⟨⟨i + BASE, j + BASE⟩, 0⟩ e0 he0 he0eq]
  · have habs : ∀ e0 ∈ m.entries, e0.first ≠ ⟨i + BASE, j + BASE⟩ :=
      fun e0 he0 heq => hex ⟨e0, he0, heq⟩
    refine ⟨m1, m.m_zero, h1, h2, h3.trans hsize, ?_, h6 habs⟩
    simp only [sparse_matrix.operator_get, hnc, Bool.false_eq_true, if_false, hS]
    rw [set_find_none hlt m.entries ⟨⟨i + BASE, j + BASE⟩, 0⟩ habs]

/-- Witness of C36: the 2x2 matrix numbered from 1 with the entries `(1,1,5)`,
`(1,2,6)`, `(2,2,7)`; the cell `(0,1)` reads 6 before and after `compress()`. -/
theorem sparse_row_compress_preserves_reads_witness :
    (⟨-1, ⟨2, 2⟩, .print_auto, [⟨⟨1, 1⟩, 5⟩, ⟨⟨1, 2⟩, 6⟩, ⟨⟨2, 2⟩, 7⟩], [], [], [], 0, 0⟩ :
        sparse_matrix Int).operator_get 1 (sort_by_row_t.SORT Int) 0 1 = some 6 ∧
    ((⟨-1, ⟨2, 2⟩, .print_auto, [⟨⟨1, 1⟩, 5⟩, ⟨⟨1, 2⟩, 6⟩, ⟨⟨2, 2⟩, 7⟩], [], [], [], 0, 0⟩ :
        sparse_matrix Int).compress (sort_by_row_t.SORT Int)).bind
        (fun m1 => m1.operator_get 1 (sort_by_row_t.SORT Int) 0 1) = some 6 ∧
    ∃ m1 x,
      (⟨-1, ⟨2, 2⟩, .print_auto, [⟨⟨1, 1⟩, 5⟩, ⟨⟨1, 2⟩, 6⟩, ⟨⟨2, 2⟩, 7⟩], [], [], [], 0, 0⟩ :
        sparse_matrix Int).compress (sort_by_row_t.SORT Int) = some m1 ∧
      m1.is_compressed = true ∧ m1.m_size = ⟨2, 2⟩ ∧
      (⟨-1, ⟨2, 2⟩, .print_auto, [⟨⟨1, 1⟩, 5⟩, ⟨⟨1, 2⟩, 6⟩, ⟨⟨2, 2⟩, 7⟩], [], [], [], 0, 0⟩ :
        sparse_matrix Int).operator_get 1 (sort_by_row_t.SORT Int) 0 1 = some x ∧
      m1.operator_get 1 (sort_by_row_t.SORT Int) 0 1 = some x :=
  ⟨by decide, by decide,
    sparse_row_compress_preserves_reads 1
      ⟨-1, ⟨2, 2⟩, .print_auto, [⟨⟨1, 1⟩, 5⟩, ⟨⟨1, 2⟩, 6⟩, ⟨⟨2, 2⟩, 7⟩], [], [], [], 0, 0⟩ 2 2
      rfl (by decide) (by unfold set_sorted; decide) (by decide)
      (by
        intro k hk
        interval_cases k
        · exact ⟨⟨⟨1, 1⟩, 5⟩, by simp, rfl⟩
        · exact ⟨⟨⟨2, 2⟩, 7⟩, by simp, rfl⟩) 0 1 (by decide)⟩

/-! ### The two dense layouts under the same operations -/

theorem dense_matrix_vv.initialize_size_valid_nested {double T : Type} (conv : double → T)
    (ORIENT : orientation_t) (m : dense_matrix_vv T) (i j : Nat) (hi : 0 < i) (hj : 0 < j)
    (_value : double) :
    m.initialize_size conv ORIENT i j _value
      = ⟨m.m_zero, ⟨i, j⟩, m.m_print,
          match ORIENT with
          | .sort_by_row => List.replicate i (List.replicate j (conv _value))
          | .sort_by_column => List.replicate j (List.replicate i (conv _value))⟩ := by
  have hne : i * j ≠ 0 := Nat.mul_ne_zero (by omega) (by omega)
  have hv : (idx_t.mk i j).is_valid_size = true := by
    simp [idx_t.is_valid_size, hi, hj]
  cases ORIENT <;>
    simp [dense_matrix_vv.initialize_size, hv, dense_matrix_vv.size, dense_matrix_vv.clear, hne]

theorem dense_initialize_size_ignored {double T : Type} (conv : double → T)
    (ORIENT : orientation_t) (mv : dense_matrix_v T) (mvv : dense_matrix_vv T) (i j : Nat)
    (h : (idx_t.mk i j).is_valid_size = false) (_value : double) :
    mv.initialize_size conv i j _value = mv ∧
    mvv.initialize_size conv ORIENT i j _value = mvv := by
  simp [dense_matrix_v.initialize_size, dense_matrix_vv.initialize_size, h]

theorem dense_layouts_agree_clear {T : Type} (ORIENT : orientation_t) (mv : dense_matrix_v T)
    (mvv : dense_matrix_vv T) : dense_layouts_agree ORIENT mv.clear mvv.clear := by
  refine ⟨rfl, ?_, ?_, ?_⟩
  · simp [dense_matrix_v.well_formed, dense_matrix_v.clear, dense_matrix_v.size, idx_t.clear]
  · cases ORIENT <;>
      simp [dense_matrix_vv.well_formed, dense_matrix_vv.clear, dense_matrix_vv.size,
        idx_t.clear, vec2_shaped]
  · intro i j hi _
    simp [dense_matrix_v.clear, idx_t.clear] at hi

theorem dense_layouts_agree_initialize_size {double T : Type} (conv : double → T)
    (ORIENT : orientation_t) (mv : dense_matrix_v T) (mvv : dense_matrix_vv T) (i j : Nat)
    (hi : 0 < i) (hj : 0 < j) (_value : double) :
    dense_layouts_agree ORIENT (mv.initialize_size conv i j _value)
      (mvv.initialize_size conv ORIENT i j _value) := by
  rw [dense_matrix_v.initialize_size_valid_flat conv mv i j hi hj,
    dense_matrix_vv.initialize_size_valid_nested conv ORIENT mvv i j hi hj]
  refine ⟨rfl, ?_, ?_, ?_⟩
  · simp [dense_matrix_v.well_formed, dense_matrix_v.size]
  · cases ORIENT <;>
      simp only [dense_matrix_vv.well_formed, dense_matrix_vv.size, vec2_shaped] <;>
      refine ⟨by simp, ?_⟩ <;>
      intro r hr <;>
      rw [List.eq_of_mem_replicate hr] <;>
      simp
  · intro i1 j1 hi1 hj1
    simp only at hi1 hj1
    refine ⟨conv _value, ?_, ?_⟩
    · have hidx : (dense_matrix_v.mk mv.m_zero ⟨i, j⟩ mv.m_print
          (List.replicate (i * j) (conv _value))).index ORIENT i1 j1 < i * j := by
        cases ORIENT with
        | sort_by_row => exact index_lt_mul i1 j1 _ _ hi1 hj1
        | sort_by_column =>
          simp only [dense_matrix_v.index]
          rw [Nat.mul_comm i]
          exact index_lt_mul j1 i1 _ _ hj1 hi1
      simp only [dense_matrix_v.operator_get, vec_get]
      exact List.getElem?_replicate_of_lt hidx
    · cases ORIENT with
      | sort_by_row => exact vec2_get_replicate i1 j1 i j _ hi1 hj1
      | sort_by_column => exact vec2_get_replicate j1 i1 j i _ hj1 hi1

/-- One operation applied to a flat and a nested matrix that agree: both return
or both throw, the extent moves as `next_size` says, and the two states after
the operation agree. -/
theorem dense_layouts_agree_step {double T : Type} [Zero T] (conv : double → T)
    (ORIENT : orientation_t) (mv : dense_matrix_v T) (mvv : dense_matrix_vv T)
    (h : dense_layouts_agree ORIENT mv mvv) (op : dense_op double T)
    (hop : match op with
      | .write i j _ => i < mv.m_size.i ∧ j < mv.m_size.j
      | _ => True) :
    ∃ mv1 mvv1, dense_layouts_agree ORIENT mv1 mvv1 ∧ mv1.m_size = op.next_size mv.m_size ∧
      ((mv.apply conv ORIENT op = .returns mv1 ∧ mvv.apply conv ORIENT op = .returns mvv1) ∨
       (∃ w1 w2, mv.apply conv ORIENT op = .throws w1 mv1 ∧
          mvv.apply conv ORIENT op = .throws w2 mvv1)) := by
  obtain ⟨hsz, hwv, hwvv, hcells⟩ := h
  have hv0 : mv.size 0 = mv.m_size.i := by simp [dense_matrix_v.size]
  have hv1 : mv.size 1 = mv.m_size.j := by simp [dense_matrix_v.size]
  have hvv0 : mvv.size 0 = mv.m_size.i := by simp [dense_matrix_vv.size, hsz]
  have hvv1 : mvv.size 1 = mv.m_size.j := by simp [dense_matrix_vv.size, hsz]
  cases op with
  | initialize_size i j _value =>
    by_cases hval : (idx_t.mk i j).is_valid_size = true
    · have hpos := hval
      simp only [idx_t.is_valid_size, Bool.and_eq_true, decide_eq_true_eq] at hpos
      refine ⟨_, _, dense_layouts_agree_initialize_size conv ORIENT mv mvv i j hpos.1 hpos.2
        _value, ?_, Or.inl ⟨rfl, rfl⟩⟩
      rw [dense_matrix_v.initialize_size_valid_flat conv mv i j hpos.1 hpos.2]
      simp [dense_op.next_size, hval]
    · have hval1 : (idx_t.mk i j).is_valid_size = false := by simpa using hval
      obtain ⟨e1, e2⟩ := dense_initialize_size_ignored conv ORIENT mv mvv i j hval1 _value
      refine ⟨mv, mvv, ⟨hsz, hwv, hwvv, hcells⟩, ?_, Or.inl ⟨?_, ?_⟩⟩
      · simp [dense_op.next_size, hval1]
      · simp only [dense_matrix_v.apply, e1]
      · simp only [dense_matrix_vv.apply, e2]
  | initialize_vector v =>
    by_cases hlen : v.length = mv.size 0 * mv.size 1
    · obtain ⟨m1, a1, a2, _, _, a5, a6⟩ :=
        dense_matrix_v.initialize_vector_spec_flat conv ORIENT mv v hwv hlen
      obtain ⟨m2, b1, b2, _, _, b5, b6⟩ :=
        dense_matrix_vv.initialize_vector_spec_nested conv ORIENT mvv v hwvv
          (by rw [hvv0, hvv1, ← hv0, ← hv1]; exact hlen)
      refine ⟨m1, m2, ⟨a2.trans (hsz.trans b2.symm), a5, b5, ?_⟩, a2, Or.inl ⟨a1, b1⟩⟩
      intro i j hi hj
      rw [a2] at hi hj
      have hidx : i * mv.size 1 + j < v.length := by
        rw [hlen]
        exact index_lt_mul i j _ _ (by omega) (by omega)
      refine ⟨conv v[i * mv.size 1 + j], ?_, ?_⟩
      · rw [a6 i j (by omega) (by omega), List.getElem?_eq_getElem hidx]
        rfl
      · rw [b6 i j (by omega) (by omega), hvv1, ← hv1, List.getElem?_eq_getElem hidx]
        rfl
    · refine ⟨mv, mvv, ⟨hsz, hwv, hwvv, hcells⟩, rfl, Or.inr
        ⟨"dense_matrix_v: assignment not consistent with current size.",
          "dense_matrix_vv: assignment not consistent with current size.", ?_, ?_⟩⟩
      · simp only [dense_matrix_v.apply, dense_matrix_v.initialize_vector]
        rw [if_pos]
        rw [hwv]
        exact fun hh => hlen hh.symm
      · simp only [dense_matrix_vv.apply, dense_matrix_vv.initialize_vector]
        rw [if_pos]
        rw [hvv0, hvv1, ← hv0, ← hv1]
        exact fun hh => hlen hh.symm
  | write i j x =>
    simp only at hop
    obtain ⟨m1, a1, a2, _, _, a5, a6, a7⟩ :=
      dense_matrix_v.operator_set_spec_flat ORIENT mv i j x hwv hop.1 hop.2
    obtain ⟨m2, b1, b2, _, _, b5, b6, b7⟩ :=
      dense_matrix_vv.operator_set_spec ORIENT mvv i j x hwvv (by omega) (by omega)
    refine ⟨m1, m2, ⟨a2.trans (hsz.trans b2.symm), a5, b5, ?_⟩, a2, Or.inl ⟨?_, ?_⟩⟩
    · intro i1 j1 hi1 hj1
      rw [a2] at hi1 hj1
      by_cases hij : i1 = i ∧ j1 = j
      · obtain ⟨e1, e2⟩ := hij
        subst e1 e2
        exact ⟨x, a6, b6⟩
      · have hne : i1 ≠ i ∨ j1 ≠ j := by
          by_contra hc
          push_neg at hc
          exact hij hc
        rw [a7 i1 j1 hi1 hj1 hne, b7 i1 j1 hne]
        exact hcells i1 j1 hi1 hj1
    · simp only [dense_matrix_v.apply, a1, outcome.of_option]
    · simp only [dense_matrix_vv.apply, b1, outcome.of_option]
  | zerorow i =>
    by_cases hi : i < mv.size 0
    · obtain ⟨m1, a1, a2, _, _, a5, a6, a7⟩ :=
        dense_matrix_v.zerorow_returns_flat ORIENT mv hwv i hi
      obtain ⟨m2, b1, b2, _, _, b5, b6, b7⟩ :=
        dense_matrix_vv.zerorow_returns_nested ORIENT mvv hwvv i (by omega)
      refine ⟨m1, m2, ⟨a2.trans (hsz.trans b2.symm), a5, b5, ?_⟩, a2, Or.inl ⟨a1, b1⟩⟩
      intro i1 j1 hi1 hj1
      rw [a2] at hi1 hj1
      by_cases hii : i1 = i
      · subst hii
        exact ⟨0, a6 j1 (by omega), b6 j1 (by omega)⟩
      · rw [a7 i1 j1 (by omega) (by omega) hii, b7 i1 j1 (by omega) (by omega) hii]
        exact hcells i1 j1 hi1 hj1
    · refine ⟨mv, mvv, ⟨hsz, hwv, hwvv, hcells⟩, rfl, Or.inr
        ⟨"dense_matrix_v: row index outside bounds.",
          "dense_matrix_vv: row index outside bounds.", ?_, ?_⟩⟩
      · simp only [dense_matrix_v.apply, dense_matrix_v.zerorow]
        rw [if_pos (by omega)]
      · simp only [dense_matrix_vv.apply, dense_matrix_vv.zerorow]
        rw [if_pos (by omega)]
  | clear =>
    exact ⟨mv.clear, mvv.clear, dense_layouts_agree_clear ORIENT mv mvv, rfl,
      Or.inl ⟨rfl, rfl⟩⟩

/-- C35 (the two dense layouts are observationally equivalent): in either
orientation, a flat and a nested matrix agree after `clear()` and after
`initialize(i,j,_value)` with a valid `(i,j)`, whatever they held before.  From
two matrices that agree, every sequence of `initialize(i,j,_value)`,
`initialize(_vector)`, cell writes inside the extent of the moment, `zerorow`
and `clear` runs on both without leaving a vector; each operation throws on
the flat layout exactly when it throws on the nested one (the same list
`thrown`); and at the end both have the same extent and every cell of the
extent reads the same value in both. -/
theorem dense_layouts_equivalent {double T : Type} [Zero T] (conv : double → T)
    (ORIENT : orientation_t) :
    (∀ (mv : dense_matrix_v T) (mvv : dense_matrix_vv T),
      dense_layouts_agree ORIENT mv.clear mvv.clear ∧
      ∀ i j _value, 0 < i → 0 < j →
        dense_layouts_agree ORIENT (mv.initialize_size conv i j _value)
          (mvv.initialize_size conv ORIENT i j _value)) ∧
    ∀ (ops : List (dense_op double T)) (mv : dense_matrix_v T) (mvv : dense_matrix_vv T),
      dense_layouts_agree ORIENT mv mvv → dense_ops_in_range ops mv.m_size →
      ∃ mv1 mvv1 thrown,
        dense_matrix_v.run conv ORIENT ops mv = some (mv1, thrown) ∧
        dense_matrix_vv.run conv ORIENT ops mvv = some (mvv1, thrown) ∧
        thrown.length = ops.length ∧ dense_layouts_agree ORIENT mv1 mvv1 ∧
        mv1.m_size = mvv1.m_size ∧
        ∀ i j, i < mv1.m_size.i → j < mv1.m_size.j →
          ∃ x, mv1.operator_get ORIENT i j = some x ∧
            mvv1.operator_get ORIENT i j = some x := by
  constructor
  · intro mv mvv
    exact ⟨dense_layouts_agree_clear ORIENT mv mvv,
      fun i j v hi hj => dense_layouts_agree_initialize_size conv ORIENT mv mvv i j hi hj v⟩
  · intro ops
    induction ops with
    | nil =>
      intro mv mvv h _
      exact ⟨mv, mvv, [], rfl, rfl, rfl, h, h.1, h.2.2.2⟩
    | cons op ops ih =>
      intro mv mvv h hr
      obtain ⟨hr1, hr2⟩ := hr
      obtain ⟨m1, m2, hagree, hsize, hres⟩ := dense_layouts_agree_step conv ORIENT mv mvv h op
        (by
          cases op with
          | write i j x => exact hr1
          | _ => trivial)
      rw [← hsize] at hr2
      obtain ⟨mv1, mvv1, thrown, e1, e2, e3, e4, e5, e6⟩ := ih m1 m2 hagree hr2
      rcases hres with ⟨a1, a2⟩ | ⟨w1, w2, a1, a2⟩
      · refine ⟨mv1, mvv1, false :: thrown, ?_, ?_, by simp [e3], e4, e5, e6⟩
        · simp only [dense_matrix_v.run, a1, e1, Option.map_some']
        · simp only [dense_matrix_vv.run, a2, e2, Option.map_some']
      · refine ⟨mv1, mvv1, true :: thrown, ?_, ?_, by simp [e3], e4, e5, e6⟩
        · simp only [dense_matrix_v.run, a1, e1, Option.map_some']
        · simp only [dense_matrix_vv.run, a2, e2, Option.map_some']

/-- Witness of C35: on the flat and the nested 2x3 examples, column oriented, the
sequence write of 7 at `(1,2)`, `zerorow(0)`, `zerorow(5)`, `initialize` from the
values 1 to 6, `initialize(0,4,1)`: only `zerorow(5)` throws, on both, and both
end with the cells `1 2 3 / 4 5 6`. -/
theorem dense_layouts_equivalent_witness :
    dense_matrix_v.run (fun x : Int => x) .sort_by_column
        [.write 1 2 7, .zerorow 0, .zerorow 5, .initialize_vector [1, 2, 3, 4, 5, 6],
          .initialize_size 0 4 1] example_dense_v
      = some (⟨0, ⟨2, 3⟩, .print_auto, [1, 4, 2, 5, 3, 6]⟩, [false, false, true, false, false]) ∧
    dense_matrix_vv.run (fun x : Int => x) .sort_by_column
        [.write 1 2 7, .zerorow 0, .zerorow 5, .initialize_vector [1, 2, 3, 4, 5, 6],
          .initialize_size 0 4 1] example_dense_vv
      = some (⟨0, ⟨2, 3⟩, .print_auto, [[1, 4], [2, 5], [3, 6]]⟩,
          [false, false, true, false, false]) ∧
    ∃ mv1 mvv1 thrown,
      dense_matrix_v.run (fun x : Int => x) .sort_by_column
        [.write 1 2 7, .zerorow 0, .zerorow 5, .initialize_vector [1, 2, 3, 4, 5, 6],
          .initialize_size 0 4 1] example_dense_v = some (mv1, thrown) ∧
      dense_matrix_vv.run (fun x : Int => x) .sort_by_column
        [.write 1 2 7, .zerorow 0, .zerorow 5, .initialize_vector [1, 2, 3, 4, 5, 6],
          .initialize_size 0 4 1] example_dense_vv = some (mvv1, thrown) ∧
      thrown.length = 5 ∧ mv1.m_size = mvv1.m_size :=
  have hagree : dense_layouts_agree .sort_by_column example_dense_v example_dense_vv := by
    refine ⟨rfl, by unfold dense_matrix_v.well_formed; decide,
      by unfold dense_matrix_vv.well_formed vec2_shaped; decide, ?_⟩
    intro i j hi hj
    change i < 2 at hi
    change j < 3 at hj
    interval_cases i <;> interval_cases j <;> exact ⟨9, by decide, by decide⟩
  have hrange : dense_ops_in_range
      ([.write 1 2 7, .zerorow 0, .zerorow 5, .initialize_vector [1, 2, 3, 4, 5, 6],
        .initialize_size 0 4 1] : List (dense_op Int Int)) example_dense_v.m_size := by
    simp [dense_ops_in_range, dense_op.next_size, example_dense_v]
  ⟨by decide, by decide,
    match (dense_layouts_equivalent (fun x : Int => x) .sort_by_column).2 _ example_dense_v
      example_dense_vv hagree hrange with
    | ⟨mv1, mvv1, thrown, h1, h2, h3, _, h5, _⟩ => ⟨mv1, mvv1, thrown, h1, h2, h3, h5⟩⟩

end lss
